import Mathlib

/-!
Verification of the reactive-graph core of `bubble-reactivity`.

The embedding models `src/core.ts` (the variant whose `Computation` carries
`_stateFlags`, `_promise`, `LoadingState`, `ErrorState`; lines 1-514) together
with the `Owner` class of `src/owner.ts` (lines 1-149).  Mutable JS objects
become records indexed by `Nat` cell ids inside a global state `St`; the
module-level mutables (`currentObserver`, `newSources`, `newSourcesIndex`,
`newLoadingState`, `currentOwner`) are fields of `St`.  Promises are modelled
as identified pending tokens; their `then`/`catch` continuations become the
`settleOk`/`settleErr` operations, which perform the same
`this._promise === value` identity check as the source.  All recursive
procedures of the source are gathered into one fuel-indexed interpreter
`engine`, structurally recursive on the fuel so that concrete runs reduce by
`rfl`/`decide`.

Two ghost trace fields are added to the state for specification purposes only:
`fired` records the disposal callbacks actually invoked by `emptyDisposal`,
and `dnTrace` records the cells on which `disposeNode` ran.  Neither is ever
read by the engine.

User computations are modelled as a static read sequence (`List Nat` of cell
ids read via `.read()`, in order) followed by a pure function of the values
read; the function may return a value, return a pending future, or throw.
-/

namespace BubbleReactivity

/-- `STATE_CLEAN` from `constants.ts`. -/
def STATE_CLEAN : Nat := 0

/-- `STATE_CHECK` from `constants.ts`. -/
def STATE_CHECK : Nat := 1

/-- `STATE_DIRTY` from `constants.ts`. -/
def STATE_DIRTY : Nat := 2

/-- `STATE_DISPOSED` from `constants.ts`. -/
def STATE_DISPOSED : Nat := 3

/-- The universe of JS values stored in `_value` and thrown as exceptions.
`intV` are ordinary data values, `undef` is `undefined`, `errObj k` is a user
exception object (distinct `k` model distinct object identities),
`notReadyErr` is an instance of `NotReadyError` (`error.ts`), `disposedErr`
is the `Error("Tried to read a disposed computation")` thrown by
`updateIfNecessary`, and `crashErr` stands for the TypeError the JS runtime
raises on a null dereference (`this._sources!` / `this._compute!` when null),
which is unreachable in well-formed runs. -/
inductive V where
  | intV (n : Int)
  | undef
  | errObj (k : Int)
  | notReadyErr
  | disposedErr
  | crashErr
deriving DecidableEq

/-- A value passed to `write` / returned by a compute: either a plain value or
a pending future (`isPromise` in the source is the distinction between the two
constructors). -/
inductive WVal where
  | plain (v : V)
  | fut (p : Nat)
deriving DecidableEq

/-- Result of running a user compute function: return a (possibly future)
value, or throw. -/
inductive CompRes where
  | ret (w : WVal)
  | raise (e : V)

/-- The `equals` option of a cell: `false` (always notify) or a predicate.
The default is `isEqual` (identity `===`, structural on `V`). -/
inductive EqOpt where
  | eqFalse
  | eqFun (f : V → V → Bool)

/-- The default equality `isEqual` (`core.ts` line 464): `a === b`. -/
def isEqual (a b : V) : Bool := a == b

/-- A reference stored in a `_sources` array: a `Computation`, a cell's
`LoadingState` node, or a cell's `ErrorState` node (all implement
`SourceType`). -/
inductive SrcRef where
  | comp (i : Nat)
  | loadNode (i : Nat)
  | errNode (i : Nat)
deriving DecidableEq

/-- `updateIfNecessary` of a `SrcRef`: `LoadingState.updateIfNecessary` and
`ErrorState.updateIfNecessary` both delegate to their origin computation. -/
def srcOrigin : SrcRef → Nat
  | .comp i => i
  | .loadNode i => i
  | .errNode i => i

/-- One `Computation` node (also used for plain `Owner` scopes, whose
graph-related fields stay empty).  `loadingNode`/`errorNode` are `some obs`
when the side node is allocated, carrying that node's own `_observers` list.
`disposal` is the list of registered disposal callbacks (as opaque ids) in
registration order. -/
structure Cell where
  value : V := .undef
  compute : Option (List Nat × (List V → CompRes)) := none
  equals : EqOpt := .eqFun isEqual
  state : Nat := STATE_CLEAN
  flagError : Bool := false
  flagWaiting : Bool := false
  flagAsync : Bool := false
  promise : Option Nat := none
  sources : Option (List SrcRef) := none
  observers : Option (List Nat) := none
  loadingNode : Option (List Nat) := none
  errorNode : Option (List Nat) := none
  parent : Option Nat := none
  prevSib : Option Nat := none
  nextSib : Option Nat := none
  disposal : List Nat := []

/-- `IS_LOADING = ASYNC_BIT | WAITING_BIT` (`core.ts` line 71). -/
def isLoadingOf (c : Cell) : Bool := c.flagAsync || c.flagWaiting

/-- Global state: the heap of cells plus the module-level mutables of
`core.ts` and `owner.ts`, and the two ghost traces. -/
structure St where
  cells : List Cell
  currentObserver : Option Nat := none
  newSources : Option (List SrcRef) := none
  newSourcesIndex : Nat := 0
  newLoadingState : Bool := false
  currentOwner : Option Nat := none
  fired : List Nat := []
  dnTrace : List Nat := []

/-- Read a cell from the heap (ids are always in range in actual runs). -/
def getCell (st : St) (i : Nat) : Cell := (st.cells.get? i).getD {}

/-- Update one cell of the heap. -/
def modCell (st : St) (i : Nat) (f : Cell → Cell) : St :=
  { st with cells := st.cells.set i (f (getCell st i)) }

/-- The `_observers` array of a `SrcRef` (`null` becomes `none`). -/
def refObs (st : St) (r : SrcRef) : Option (List Nat) :=
  match r with
  | .comp i => (getCell st i).observers
  | .loadNode i => (getCell st i).loadingNode
  | .errNode i => (getCell st i).errorNode

/-- Overwrite the `_observers` array of a `SrcRef`. -/
def setRefObs (st : St) (r : SrcRef) (l : List Nat) : St :=
  match r with
  | .comp i => modCell st i (fun c => { c with observers := some l })
  | .loadNode i => modCell st i (fun c => { c with loadingNode := some l })
  | .errNode i => modCell st i (fun c => { c with errorNode := some l })

/-- `track` (`core.ts` lines 371-382): prefix-reuse dependency recording.
While no `newSources` buffer exists and the observer's existing
`_sources[newSourcesIndex]` equals the read cell, bump the index; otherwise
allocate/extend the buffer. -/
def track (st : St) (r : SrcRef) : St :=
  match st.currentObserver with
  | none => st
  | some ob =>
    match st.newSources with
    | some ns => { st with newSources := some (ns ++ [r]) }
    | none =>
      match (getCell st ob).sources with
      | some srcs =>
        if srcs.get? st.newSourcesIndex = some r then
          { st with newSourcesIndex := st.newSourcesIndex + 1 }
        else { st with newSources := some [r] }
      | none => { st with newSources := some [r] }

/-- Swap-pop removal (`removeSourceObservers` body, `core.ts` lines 450-452):
`observers[indexOf(node)] = observers[len-1]; observers.pop()`.  When the
element is absent, `indexOf` yields `-1`; the JS assignment `arr[-1] = x` does
not change the array elements and `pop()` still removes the last element, so
the absent case drops the last element. -/
def removeOnce (l : List Nat) (x : Nat) : List Nat :=
  let i := l.findIdx (fun y => y = x)
  if i < l.length then (l.set i (l.getLast?.getD 0)).dropLast else l.dropLast

/-- `removeSourceObservers` (`core.ts` lines 444-455): for each retained
source from `index` on, remove `node` from that source's observers.  Both
call sites guard on `node._sources` being non-null; a null `_sources` here
would be a JS crash, modelled as leaving the state unchanged (unreachable). -/
def removeSourceObservers (st : St) (node : Nat) (index : Nat) : St :=
  match (getCell st node).sources with
  | none => st
  | some srcs =>
    (srcs.drop index).foldl
      (fun s r =>
        match refObs s r with
        | none => s
        | some l => setRefObs s r (removeOnce l node)) st

/-- The observer-registration fold of `mergeSources` (`core.ts` lines 420-427):
each newly added source gains `node` at the end of its observer array (a null
array becomes a singleton). -/
def obsAppendAll (st : St) (ns : List SrcRef) (node : Nat) : St :=
  ns.foldl
    (fun s r =>
      match refObs s r with
      | none => setRefObs s r [node]
      | some l => setRefObs s r (l ++ [node]))
    st

/-- The state after `notifyList` over observer-free targets: each listed
state is raised to `s` when below it. -/
def bumpAll (st : St) (os : List Nat) (s : Nat) : St :=
  os.foldl
    (fun acc x =>
      if s ≤ (getCell acc x).state then acc
      else modCell acc x (fun c => { c with state := s })) st

/-- The source-array editing step of `update` (`core.ts` lines 407-428):
either splice the accumulated `newSources` after the reused prefix and
register the node as observer of every newly added source, or truncate a
shrunken source list. -/
def mergeSources (st : St) (node : Nat) : St :=
  match st.newSources with
  | some ns =>
    let st1 :=
      match (getCell st node).sources with
      | some _ => removeSourceObservers st node st.newSourcesIndex
      | none => st
    let merged : List SrcRef :=
      match (getCell st1 node).sources with
      | some l => if 0 < st.newSourcesIndex then l.take st.newSourcesIndex ++ ns else ns
      | none => ns
    let st2 := modCell st1 node (fun c => { c with sources := some merged })
    obsAppendAll st2 (merged.drop st.newSourcesIndex) node
  | none =>
    match (getCell st node).sources with
    | some l =>
      if st.newSourcesIndex < l.length then
        let st1 := removeSourceObservers st node st.newSourcesIndex
        modCell st1 node (fun c => { c with sources := some (l.take st.newSourcesIndex) })
      else st
    | none => st

/-- `Computation.disposeNode` (`core.ts` lines 278-283): unlink from the
sources' observer arrays, null out `_sources` and `_observers`, then
`super.disposeNode()` - which is `Owner.disposeNode` (`owner.ts` line 91),
whose body is empty.  The cell id is also appended to the ghost `dnTrace`. -/
def disposeNode (st : St) (i : Nat) : St :=
  let st1 :=
    match (getCell st i).sources with
    | some _ => removeSourceObservers st i 0
    | none => st
  let st2 := modCell st1 i (fun c => { c with sources := none, observers := none })
  { st2 with dnTrace := st2.dnTrace ++ [i] }

/-- `Owner.emptyDisposal` (`owner.ts` lines 93-104): invoke every registered
disposal callback in array order (a single callback is the one-element case),
then null the list.  Invocations are recorded in the ghost `fired` trace. -/
def emptyDisposal (st : St) (i : Nat) : St :=
  let c := getCell st i
  let st1 := { st with fired := st.fired ++ c.disposal }
  modCell st1 i (fun x => { x with disposal := [] })

/-- `Owner.append` (`owner.ts` lines 66-72): insert `c` as the first child of
`p` in the sibling chain. -/
def appendChild (st : St) (p c : Nat) : St :=
  let st1 := modCell st c (fun x => { x with parent := some p, prevSib := some p })
  let pn := (getCell st1 p).nextSib
  let st2 :=
    match pn with
    | some nx => modCell st1 nx (fun x => { x with prevSib := some c })
    | none => st1
  let st3 := modCell st2 c (fun x => { x with nextSib := pn })
  modCell st3 p (fun x => { x with nextSib := some c })

/-- `onCleanup` (`owner.ts` lines 110-122): push a disposal callback onto the
current owner; silently does nothing without a current owner. -/
def onCleanup (st : St) (cb : Nat) : St :=
  match st.currentOwner with
  | none => st
  | some ow => modCell st ow (fun c => { c with disposal := c.disposal ++ [cb] })

/-- Outputs of the interpreter's requests. -/
inductive Out where
  | unit
  | b (x : Bool)
  | v (x : V)
  | wv (x : WVal)
  | vl (xs : List V)
  | onat (x : Option Nat)

def Out.getB : Out → Bool
  | .b x => x
  | _ => false

def Out.getV : Out → V
  | .v x => x
  | _ => .undef

def Out.getWV : Out → WVal
  | .wv x => x
  | _ => .plain .undef

def Out.getVL : Out → List V
  | .vl xs => xs
  | _ => []

def Out.getON : Out → Option Nat
  | .onat x => x
  | _ => none

/-- The procedures of `core.ts`/`owner.ts` that can call each other,
reified as requests of a single fuel-indexed interpreter. -/
inductive Req where
  | notify (i : Nat) (s : Nat)
  | notifyList (os : List Nat) (s : Nat)
  | setLoadingLoop (os : List Nat) (b : Bool)
  | loadingSet (i : Nat) (b : Bool)
  | errorSet (i : Nat)
  | setLoading (i : Nat) (b : Bool)
  | setError (i : Nat) (e : V)
  | write (i : Nat) (w : WVal)
  | read (i : Nat)
  | updateIfNecessary (i : Nat)
  | checkSources (i : Nat) (rem : List SrcRef) (anyLoading : Bool)
  | update (i : Nat)
  | computeRun (i : Nat)
  | evalReads (rem : List Nat) (acc : List V)
  | settleOk (i : Nat) (p : Nat) (v : V)
  | settleErr (i : Nat) (p : Nat) (e : V)
  | dispose (i : Nat) (self : Bool)
  | disposeChildren (i : Nat) (cur : Option Nat)
  | cleanup (i : Nat)

/-- Result of a step: out of fuel, a JS exception carrying the state at throw
time (JS exceptions do not roll back heap mutations), or normal completion. -/
inductive Res where
  | fuelOut
  | threw (e : V) (st : St)
  | done (o : Out) (st : St)

/-- Sequencing that discards the output. -/
def Res.andThen (r : Res) (k : St → Res) : Res :=
  match r with
  | .done _ s => k s
  | x => x

/-- Sequencing that passes a boolean output on. -/
def Res.andThenB (r : Res) (k : Bool → St → Res) : Res :=
  match r with
  | .done o s => k o.getB s
  | x => x

/-- Sequencing that passes a value output on. -/
def Res.andThenV (r : Res) (k : V → St → Res) : Res :=
  match r with
  | .done o s => k o.getV s
  | x => x

/-- The interpreter.  Each branch is a direct transcription of the
corresponding source procedure; line references are given per branch. -/
def engine : Nat → Req → St → Res
  | 0, _, _ => .fuelOut
  | fuel + 1, q, st =>
    match q with
    -- `Computation.notify` (core.ts 215-226)
    | .notify i s =>
      let c := getCell st i
      if s ≤ c.state then .done .unit st
      else
        let st1 := modCell st i (fun x => { x with state := s })
        Res.andThen (engine fuel (.notifyList ((getCell st1 i).observers.getD []) STATE_CHECK) st1)
          (fun st2 =>
            Res.andThen
              (engine fuel (.notifyList ((getCell st2 i).loadingNode.getD []) STATE_CHECK) st2)
              (fun st3 =>
                engine fuel (.notifyList ((getCell st3 i).errorNode.getD []) STATE_CHECK) st3))
    -- the observer-iteration loops of notify/write and of the side nodes
    | .notifyList os s =>
      match os with
      | [] => .done .unit st
      | o :: rest =>
        Res.andThen (engine fuel (.notify o s) st)
          (fun st1 => engine fuel (.notifyList rest s) st1)
    -- the loop over the origin's observers in `LoadingState.set` (core.ts 305-313)
    | .setLoadingLoop os b =>
      match os with
      | [] => .done .unit st
      | o :: rest =>
        Res.andThen
          (if b then engine fuel (.setLoading o true) st
           else engine fuel (.notify o STATE_CHECK) st)
          (fun st1 => engine fuel (.setLoadingLoop rest b) st1)
    -- `LoadingState.set` (core.ts 304-315); callers guard on allocation
    | .loadingSet i b =>
      Res.andThen (engine fuel (.setLoadingLoop ((getCell st i).observers.getD []) b) st)
        (fun st1 =>
          engine fuel (.notifyList ((getCell st1 i).loadingNode.getD []) STATE_DIRTY) st1)
    -- `ErrorState.set` (core.ts 338-340): notify the error node's observers DIRTY
    | .errorSet i =>
      engine fuel (.notifyList ((getCell st i).errorNode.getD []) STATE_DIRTY) st
    -- `Computation.setLoading` (core.ts 228-234)
    | .setLoading i b =>
      let c := getCell st i
      Res.andThen
        (if b != c.flagAsync then
           match c.loadingNode with
           | some _ => engine fuel (.loadingSet i b) st
           | none => .done .unit st
         else .done .unit st)
        (fun st1 => .done .unit (modCell st1 i (fun x => { x with flagWaiting := b })))
    -- `Computation.setError` (core.ts 236-240)
    | .setError i e =>
      let c := getCell st i
      Res.andThen
        (if c.flagError = false then
           match c.errorNode with
           | some _ => engine fuel (.errorSet i) st
           | none => .done .unit st
         else .done .unit st)
        (fun st1 =>
          .done .unit (modCell st1 i (fun x => { x with value := e, flagError := true })))
    -- `Computation.write` (core.ts 186-213)
    | .write i w =>
      let st0 := modCell st i (fun x => { x with promise := none })
      match w with
      | .fut p =>
        let c := getCell st0 i
        Res.andThen
          (if isLoadingOf c = false then
             match c.loadingNode with
             | some _ => engine fuel (.loadingSet i true) st0
             | none => .done .unit st0
           else .done .unit st0)
          (fun st1 =>
            let st2 := modCell st1 i (fun x => { x with flagAsync := true, promise := some p })
            .done (.v (getCell st2 i).value) st2)
      | .plain v =>
        let c := getCell st0 i
        let commit :=
          match c.equals with
          | .eqFalse => true
          | .eqFun f => !(f c.value v)
        if commit then
          let st1 := modCell st0 i (fun x => { x with value := v })
          Res.andThen
            (if (getCell st1 i).flagWaiting = false then
               match (getCell st1 i).loadingNode with
               | some _ => engine fuel (.loadingSet i false) st1
               | none => .done .unit st1
             else .done .unit st1)
            (fun st2 =>
              let st3 := modCell st2 i (fun x => { x with flagAsync := false })
              Res.andThen
                (if (getCell st3 i).flagError then
                   match (getCell st3 i).errorNode with
                   | some _ => engine fuel (.errorSet i) st3
                   | none => .done .unit st3
                 else .done .unit st3)
                (fun st4 =>
                  let st5 := modCell st4 i (fun x => { x with flagError := false })
                  Res.andThen
                    (engine fuel
                      (.notifyList ((getCell st5 i).observers.getD []) STATE_DIRTY) st5)
                    (fun st6 => .done (.v (getCell st6 i).value) st6)))
        else .done (.v (getCell st0 i).value) st0
    -- `Computation.read` (core.ts 143-152)
    | .read i =>
      Res.andThen
        (match (getCell st i).compute with
         | some _ => engine fuel (.updateIfNecessary i) st
         | none => .done .unit st)
        (fun st1 =>
          let st2 := track st1 (.comp i)
          let c := getCell st2 i
          let st3 := if isLoadingOf c then { st2 with newLoadingState := true } else st2
          if c.flagError then .threw c.value st3 else .done (.v c.value) st3)
    -- `Computation.updateIfNecessary` (core.ts 245-276)
    | .updateIfNecessary i =>
      let c := getCell st i
      if c.state = STATE_DISPOSED then .threw .disposedErr st
      else if c.state = STATE_CLEAN then .done (.b (isLoadingOf c)) st
      else
        Res.andThenB
          (if c.state = STATE_CHECK then
             match c.sources with
             | some srcs => engine fuel (.checkSources i srcs false) st
             | none => .threw .crashErr st
           else .done (.b false) st)
          (fun anyLoading st1 =>
            if (getCell st1 i).state = STATE_DIRTY then
              Res.andThen (engine fuel (.update i) st1)
                (fun st2 => .done (.b (isLoadingOf (getCell st2 i))) st2)
            else
              Res.andThen (engine fuel (.setLoading i anyLoading) st1)
                (fun st2 =>
                  let st3 := modCell st2 i (fun x => { x with state := STATE_CLEAN })
                  .done (.b (isLoadingOf (getCell st3 i))) st3))
    -- the source loop of `updateIfNecessary` (core.ts 255-266), with early break
    | .checkSources i rem anyLoading =>
      match rem with
      | [] => .done (.b anyLoading) st
      | r :: rest =>
        Res.andThenB (engine fuel (.updateIfNecessary (srcOrigin r)) st)
          (fun isL st1 =>
            let any2 := anyLoading || isL
            if (getCell st1 i).state = STATE_DIRTY then .done (.b any2) st1
            else engine fuel (.checkSources i rest any2) st1)
    -- `update` (core.ts 391-442)
    | .update i =>
      let prevS := st.newSources
      let prevI := st.newSourcesIndex
      let prevL := st.newLoadingState
      let st0 : St := { st with newSources := none, newSourcesIndex := 0, newLoadingState := false }
      let tryBody : Res :=
        Res.andThen (engine fuel (.cleanup i) st0)
          (fun stc =>
            match engine fuel (.computeRun i) stc with
            | .done o st1 =>
              Res.andThen (engine fuel (.write i o.getWV) st1)
                (fun st2 =>
                  let st3 := mergeSources st2 i
                  engine fuel (.setLoading i st3.newLoadingState) st3)
            | x => x)
      match tryBody with
      | .threw e st1 =>
        -- catch: setError(error); return  (no scratch restore, no state change)
        Res.andThen (engine fuel (.setError i e) st1) (fun st2 => .done .unit st2)
      | .done _ st4 =>
        let st5 : St :=
          { st4 with newSources := prevS, newSourcesIndex := prevI, newLoadingState := prevL }
        .done .unit (modCell st5 i (fun x => { x with state := STATE_CLEAN }))
      | .fuelOut => .fuelOut
    -- `compute(node, node._compute!, node)` (core.ts 492-514) with the modelled fn
    | .computeRun i =>
      let prevOwner := st.currentOwner
      let prevObs := st.currentObserver
      let st0 : St := { st with currentOwner := some i, currentObserver := some i }
      let body : Res :=
        match (getCell st0 i).compute with
        | none => .threw .crashErr st0
        | some (srcs, f) =>
          match engine fuel (.evalReads srcs []) st0 with
          | .done o st1 =>
            match f o.getVL with
            | .ret w => .done (.wv w) st1
            | .raise e => .threw e st1
          | x => x
      match body with
      | .done o st1 =>
        .done o { st1 with currentOwner := prevOwner, currentObserver := prevObs }
      | .threw e st1 =>
        if e = .notReadyErr then
          .done (.wv (.plain (getCell st1 i).value))
            { st1 with currentOwner := prevOwner, currentObserver := prevObs }
        else .threw e { st1 with currentOwner := prevOwner, currentObserver := prevObs }
      | .fuelOut => .fuelOut
    -- the modelled user fn: read each source in order, then combine
    | .evalReads rem acc =>
      match rem with
      | [] => .done (.vl acc) st
      | s :: rest =>
        Res.andThenV (engine fuel (.read s) st)
          (fun v st1 => engine fuel (.evalReads rest (acc ++ [v])) st1)
    -- the promise `then` continuation registered by `write` (core.ts 192-195)
    | .settleOk i p v =>
      if (getCell st i).promise = some p then engine fuel (.write i (.plain v)) st
      else .done .unit st
    -- the promise `catch` continuation registered by `write` (core.ts 196-198)
    | .settleErr i p e =>
      if (getCell st i).promise = some p then
        Res.andThen (engine fuel (.setError i e) st) (fun s1 => .done .unit s1)
      else .done .unit st
    -- `Owner.dispose` (owner.ts 74-89)
    | .dispose i self =>
      let c := getCell st i
      if c.state = STATE_DISPOSED then .done .unit st
      else
        let hd : Option Nat := if self then c.prevSib else some i
        match engine fuel (.disposeChildren i c.nextSib) st with
        | .done o st1 =>
          let cur := o.getON
          let st2 := if self then disposeNode st1 i else st1
          let st3 :=
            match cur with
            | some cu =>
              modCell st2 cu
                (fun x =>
                  { x with prevSib := if !self then some i else (getCell st2 i).prevSib })
            | none => st2
          let st4 :=
            match hd with
            | some h => modCell st3 h (fun x => { x with nextSib := cur })
            | none => st3
          .done .unit st4
        | x => x
    -- the child-disposal while loop of `Owner.dispose` (owner.ts 80-84)
    | .disposeChildren i cur =>
      match cur with
      | none => .done (.onat none) st
      | some cu =>
        if (getCell st cu).parent = some i then
          Res.andThen (engine fuel (.dispose cu true) st)
            (fun st1 =>
              let st2 := disposeNode st1 cu
              engine fuel (.disposeChildren i (getCell st2 cu).nextSib) st2)
        else .done (.onat (some cu)) st
    -- `cleanup` (core.ts 351-356); `node._context = null` is not modelled
    | .cleanup i =>
      let c := getCell st i
      Res.andThen
        (match c.nextSib with
         | some nx =>
           if (getCell st nx).parent = some i then engine fuel (.dispose i false) st
           else .done .unit st
         | none => .done .unit st)
        (fun st1 =>
          let st2 := if (getCell st1 i).disposal ≠ [] then emptyDisposal st1 i else st1
          .done .unit st2)

/-- Dispatch on a result: the `try/catch` shape of `update` and `compute`. -/
def resCase (t : Res) (A : V → St → Res) (B : Out → St → Res) : Res :=
  match t with
  | .threw e s => A e s
  | .done o s => B o s
  | .fuelOut => .fuelOut

/-- Dispatch on a result, passing anything but normal completion through. -/
def resBind (t : Res) (C : Out → St → Res) : Res :=
  match t with
  | .done o s => C o s
  | x => x

/-- Branch on an optional value. -/
def optBranch {A : Type} (o : Option A) (f : A → Res) (dflt : Res) : Res :=
  match o with
  | some x => f x
  | none => dflt

/-- One unfolding of the interpreter with the recursive occurrences
abstracted; `engine (fuel + 1) q st` is definitionally
`engineF (engine fuel) q st` (`engine_succ`). -/
def engineF (rec : Req → St → Res) (q : Req) (st : St) : Res :=
  match q with
  | .notify i s =>
    let c := getCell st i
    if s ≤ c.state then .done .unit st
    else
      let st1 := modCell st i (fun x => { x with state := s })
      Res.andThen (rec (.notifyList ((getCell st1 i).observers.getD []) STATE_CHECK) st1)
        (fun st2 =>
          Res.andThen
            (rec (.notifyList ((getCell st2 i).loadingNode.getD []) STATE_CHECK) st2)
            (fun st3 =>
              rec (.notifyList ((getCell st3 i).errorNode.getD []) STATE_CHECK) st3))
  | .notifyList os s =>
    match os with
    | [] => .done .unit st
    | o :: rest =>
      Res.andThen (rec (.notify o s) st)
        (fun st1 => rec (.notifyList rest s) st1)
  | .setLoadingLoop os b =>
    match os with
    | [] => .done .unit st
    | o :: rest =>
      Res.andThen
        (if b then rec (.setLoading o true) st
         else rec (.notify o STATE_CHECK) st)
        (fun st1 => rec (.setLoadingLoop rest b) st1)
  | .loadingSet i b =>
    Res.andThen (rec (.setLoadingLoop ((getCell st i).observers.getD []) b) st)
      (fun st1 =>
        rec (.notifyList ((getCell st1 i).loadingNode.getD []) STATE_DIRTY) st1)
  | .errorSet i =>
    rec (.notifyList ((getCell st i).errorNode.getD []) STATE_DIRTY) st
  | .setLoading i b =>
    let c := getCell st i
    Res.andThen
      (if b != c.flagAsync then
         optBranch c.loadingNode (fun x => rec (.loadingSet i b) st) (.done .unit st)
       else .done .unit st)
      (fun st1 => .done .unit (modCell st1 i (fun x => { x with flagWaiting := b })))
  | .setError i e =>
    let c := getCell st i
    Res.andThen
      (if c.flagError = false then
         optBranch c.errorNode (fun x => rec (.errorSet i) st) (.done .unit st)
       else .done .unit st)
      (fun st1 =>
        .done .unit (modCell st1 i (fun x => { x with value := e, flagError := true })))
  | .write i w =>
    let st0 := modCell st i (fun x => { x with promise := none })
    match w with
    | .fut p =>
      let c := getCell st0 i
      Res.andThen
        (if isLoadingOf c = false then
           optBranch c.loadingNode (fun x => rec (.loadingSet i true) st0) (.done .unit st0)
         else .done .unit st0)
        (fun st1 =>
          let st2 := modCell st1 i (fun x => { x with flagAsync := true, promise := some p })
          .done (.v (getCell st2 i).value) st2)
    | .plain v =>
      let c := getCell st0 i
      let commit :=
        match c.equals with
        | .eqFalse => true
        | .eqFun f => !(f c.value v)
      if commit then
        let st1 := modCell st0 i (fun x => { x with value := v })
        Res.andThen
          (if (getCell st1 i).flagWaiting = false then
             optBranch (getCell st1 i).loadingNode (fun x => rec (.loadingSet i false) st1)
               (.done .unit st1)
           else .done .unit st1)
          (fun st2 =>
            let st3 := modCell st2 i (fun x => { x with flagAsync := false })
            Res.andThen
              (if (getCell st3 i).flagError then
                 optBranch (getCell st3 i).errorNode (fun x => rec (.errorSet i) st3)
                   (.done .unit st3)
               else .done .unit st3)
              (fun st4 =>
                let st5 := modCell st4 i (fun x => { x with flagError := false })
                Res.andThen
                  (rec (.notifyList ((getCell st5 i).observers.getD []) STATE_DIRTY) st5)
                  (fun st6 => .done (.v (getCell st6 i).value) st6)))
      else .done (.v (getCell st0 i).value) st0
  | .read i =>
    Res.andThen
      (optBranch (getCell st i).compute (fun x => rec (.updateIfNecessary i) st)
        (.done .unit st))
      (fun st1 =>
        let st2 := track st1 (.comp i)
        let c := getCell st2 i
        let st3 := if isLoadingOf c then { st2 with newLoadingState := true } else st2
        if c.flagError then .threw c.value st3 else .done (.v c.value) st3)
  | .updateIfNecessary i =>
    let c := getCell st i
    if c.state = STATE_DISPOSED then .threw .disposedErr st
    else if c.state = STATE_CLEAN then .done (.b (isLoadingOf c)) st
    else
      Res.andThenB
        (if c.state = STATE_CHECK then
           optBranch c.sources (fun srcs => rec (.checkSources i srcs false) st)
             (.threw .crashErr st)
         else .done (.b false) st)
        (fun anyLoading st1 =>
          if (getCell st1 i).state = STATE_DIRTY then
            Res.andThen (rec (.update i) st1)
              (fun st2 => .done (.b (isLoadingOf (getCell st2 i))) st2)
          else
            Res.andThen (rec (.setLoading i anyLoading) st1)
              (fun st2 =>
                let st3 := modCell st2 i (fun x => { x with state := STATE_CLEAN })
                .done (.b (isLoadingOf (getCell st3 i))) st3))
  | .checkSources i rem anyLoading =>
    match rem with
    | [] => .done (.b anyLoading) st
    | r :: rest =>
      Res.andThenB (rec (.updateIfNecessary (srcOrigin r)) st)
        (fun isL st1 =>
          let any2 := anyLoading || isL
          if (getCell st1 i).state = STATE_DIRTY then .done (.b any2) st1
          else rec (.checkSources i rest any2) st1)
  | .update i =>
    let prevS := st.newSources
    let prevI := st.newSourcesIndex
    let prevL := st.newLoadingState
    let st0 : St := { st with newSources := none, newSourcesIndex := 0, newLoadingState := false }
    resCase
      (Res.andThen (rec (.cleanup i) st0)
        (fun stc =>
          resBind (rec (.computeRun i) stc)
            (fun o st1 =>
              Res.andThen (rec (.write i o.getWV) st1)
                (fun st2 =>
                  let st3 := mergeSources st2 i
                  rec (.setLoading i st3.newLoadingState) st3))))
      (fun e st1 => Res.andThen (rec (.setError i e) st1) (fun st2 => .done .unit st2))
      (fun o st4 =>
        let st5 : St :=
          { st4 with newSources := prevS, newSourcesIndex := prevI, newLoadingState := prevL }
        .done .unit (modCell st5 i (fun x => { x with state := STATE_CLEAN })))
  | .computeRun i =>
    let prevOwner := st.currentOwner
    let prevObs := st.currentObserver
    let st0 : St := { st with currentOwner := some i, currentObserver := some i }
    resCase
      (optBranch (getCell st0 i).compute
        (fun sf =>
          resBind (rec (.evalReads sf.1 []) st0)
            (fun o st1 =>
              match sf.2 o.getVL with
              | .ret w => .done (.wv w) st1
              | .raise e => .threw e st1))
        (.threw .crashErr st0))
      (fun e st1 =>
        if e = .notReadyErr then
          .done (.wv (.plain (getCell st1 i).value))
            { st1 with currentOwner := prevOwner, currentObserver := prevObs }
        else .threw e { st1 with currentOwner := prevOwner, currentObserver := prevObs })
      (fun o st1 =>
        .done o { st1 with currentOwner := prevOwner, currentObserver := prevObs })
  | .evalReads rem acc =>
    match rem with
    | [] => .done (.vl acc) st
    | s :: rest =>
      Res.andThenV (rec (.read s) st)
        (fun v st1 => rec (.evalReads rest (acc ++ [v])) st1)
  | .settleOk i p v =>
    if (getCell st i).promise = some p then rec (.write i (.plain v)) st
    else .done .unit st
  | .settleErr i p e =>
    if (getCell st i).promise = some p then
      Res.andThen (rec (.setError i e) st) (fun s1 => .done .unit s1)
    else .done .unit st
  | .dispose i self =>
    let c := getCell st i
    if c.state = STATE_DISPOSED then .done .unit st
    else
      let hd : Option Nat := if self then c.prevSib else some i
      resBind (rec (.disposeChildren i c.nextSib) st)
        (fun o st1 =>
          let cur := o.getON
          let st2 := if self then disposeNode st1 i else st1
          let st3 :=
            match cur with
            | some cu =>
              modCell st2 cu
                (fun x =>
                  { x with prevSib := if !self then some i else (getCell st2 i).prevSib })
            | none => st2
          let st4 :=
            match hd with
            | some h => modCell st3 h (fun x => { x with nextSib := cur })
            | none => st3
          .done .unit st4)
  | .disposeChildren i cur =>
    match cur with
    | none => .done (.onat none) st
    | some cu =>
      if (getCell st cu).parent = some i then
        Res.andThen (rec (.dispose cu true) st)
          (fun st1 =>
            let st2 := disposeNode st1 cu
            rec (.disposeChildren i (getCell st2 cu).nextSib) st2)
      else .done (.onat (some cu)) st
  | .cleanup i =>
    let c := getCell st i
    Res.andThen
      (optBranch c.nextSib
        (fun nx =>
          if (getCell st nx).parent = some i then rec (.dispose i false) st
          else .done .unit st)
        (.done .unit st))
      (fun st1 =>
        let st2 := if (getCell st1 i).disposal ≠ [] then emptyDisposal st1 i else st1
        .done .unit st2)

/-- Top-level operations for whole runs: external writes and reads. -/
inductive Op where
  | writeOp (i : Nat) (v : V)
  | readOp (i : Nat)

/-- Run a sequence of operations.  Each read is recorded in the returned trace
together with the value it returned and the state in which it started.  `none`
means the run did not complete (out of fuel or an operation threw). -/
def runOps : Nat → List Op → St → Option (St × List (Nat × V × St))
  | _, [], st => some (st, [])
  | fuel, op :: rest, st =>
    match op with
    | .writeOp i v =>
      match engine fuel (.write i (.plain v)) st with
      | .done _ st1 => runOps fuel rest st1
      | _ => none
    | .readOp i =>
      match engine fuel (.read i) st with
      | .done o st1 =>
        match runOps fuel rest st1 with
        | some (st2, tr) => some (st2, (i, o.getV, st) :: tr)
        | none => none
      | _ => none

/-- Modelled from the spec: "the value that a from-scratch evaluation of the
whole graph from the current leaf values would yield" (spec §8,
*Glitch-freedom*).  A leaf cell denotes its stored value; a computed cell
denotes its compute function applied to the denotations of its read sequence.
The fuel argument stabilises once it exceeds the cell id (sources of a cell
have smaller ids). -/
def fromScratch (st : St) : Nat → Nat → V
  | 0, _ => .undef
  | k + 1, i =>
    match (getCell st i).compute with
    | none => (getCell st i).value
    | some (srcs, f) =>
      match f (srcs.map (fromScratch st k)) with
      | .ret (.plain v) => v
      | _ => (V.undef)

/-! ### Specification-side definitions used by the proofs -/

/-- The state carried by a non-fuelOut result. -/
def Res.okSt : Res → Option St
  | .fuelOut => none
  | .threw _ s => some s
  | .done _ s => some s

def FrA (st st' : St) : Prop :=
  st'.cells.length = st.cells.length ∧
  st'.currentOwner = st.currentOwner ∧
  st'.currentObserver = st.currentObserver ∧
  ∀ j, (getCell st' j).compute = (getCell st j).compute ∧
       (getCell st' j).equals = (getCell st j).equals

/-- `FrA` holds from `st` to every state a result can carry. -/
def FrAv (st : St) (r : Res) : Prop := ∀ st', r.okSt = some st' → FrA st st'

/-- A cell with the two notify-mutable fields erased. -/
def Cell.anchor (c : Cell) : Cell := { c with state := 0, flagWaiting := false }

def isAux : Req → Bool
  | .notify _ _ => true
  | .notifyList _ _ => true
  | .setLoadingLoop _ _ => true
  | .loadingSet _ _ => true
  | .errorSet _ => true
  | .setLoading _ _ => true
  | _ => false

def FrB (st st' : St) : Prop :=
  st'.cells.length = st.cells.length ∧
  st'.currentObserver = st.currentObserver ∧
  st'.newSources = st.newSources ∧
  st'.newSourcesIndex = st.newSourcesIndex ∧
  st'.newLoadingState = st.newLoadingState ∧
  st'.currentOwner = st.currentOwner ∧
  st'.fired = st.fired ∧
  st'.dnTrace = st.dnTrace ∧
  ∀ j, (getCell st' j).anchor = (getCell st j).anchor

def FrBv (st : St) (r : Res) : Prop := ∀ st', r.okSt = some st' → FrB st st'

/-- A cell with the six fields the dispose family may edit erased. -/
def Cell.dErase (c : Cell) : Cell :=
  { c with sources := none, observers := none, loadingNode := none, errorNode := none,
           prevSib := none, nextSib := none }

/-- Frame of the dispose family: cell count and every per-cell field other
than the linkage/observer arrays are preserved. -/
def FrD (st st' : St) : Prop :=
  st'.cells.length = st.cells.length ∧
  ∀ j, (getCell st' j).dErase = (getCell st j).dErase

def FrDv (st : St) (r : Res) : Prop := ∀ st', r.okSt = some st' → FrD st st'


/-! ### Concrete states used by witnesses and counterexamples -/

/-- Project the state out of a result (the default is returned on fuelOut). -/
def resSt (r : Res) (dflt : St) : St :=
  match r with
  | .done _ s => s
  | .threw _ s => s
  | .fuelOut => dflt

/-- Project the output out of a result. -/
def resOut (r : Res) : Out :=
  match r with
  | .done o _ => o
  | _ => .unit

/-- A single leaf cell holding `10`, default equality. -/
def c3St : St := { cells := [{ value := .intV 10 }] }

/-- A single leaf cell holding `0`. -/
def c2St : St := { cells := [{ value := .intV 0 }] }

/-- `c2St` after `write(P1)` where `P1` is future token 1. -/
def c2St1 : St := resSt (engine 3 (.write 0 (.fut 1)) c2St) c2St

/-- `c2St1` after `write(P2)` where `P2` is future token 2 (supersedes `P1`). -/
def c2St2 : St := resSt (engine 3 (.write 0 (.fut 2)) c2St1) c2St1

/-- A dirty computed cell whose compute always raises `errObj 7`. -/
def c4A : St :=
  { cells := [{ state := STATE_DIRTY, compute := some ([], fun _ => .raise (.errObj 7)) }] }

/-- `c4A` after `update(0)` latched the exception. -/
def c4As2 : St := resSt (engine 3 (.update 0) c4A) c4A

/-- A clean computed cell already holding a latched error payload. -/
def c4B : St :=
  { cells := [{ value := .errObj 7, flagError := true,
                compute := some ([], fun _ => .ret (.plain (.intV 1))) }] }

/-- A leaf holding a latched error, whose error node has observer 1. -/
def c4C : St :=
  { cells := [{ value := .errObj 7, flagError := true, errorNode := some [1] }, {}] }

/-- `c4C` after a committed plain write of `5`. -/
def c4Cs3 : St := resSt (engine 6 (.write 0 (.plain (.intV 5))) c4C) c4C

/-- A nullary compute returning `3`, with a nontrivial current owner. -/
def c10St : St :=
  { cells := [{ compute := some ([], fun _ => .ret (.plain (.intV 3))) }],
    currentOwner := some 5 }

/-- A cell holding `9` whose compute raises NotReady. -/
def c10NR : St :=
  { cells := [{ value := .intV 9, compute := some ([], fun _ => .raise .notReadyErr) }] }

/-- A leaf and a dirty computed cell that reads it and then throws. -/
def c10Thr : St :=
  { cells := [{ value := .intV 5 },
              { state := STATE_DIRTY, compute := some ([0], fun _ => .raise (.errObj 3)) }] }

/-- The state carried by the exception `computeRun 1` throws on `c10Thr`. -/
def c10ThrSt : St := resSt (engine 4 (.computeRun 1) c10Thr) c10Thr

/-- A dirty raising compute with nonzero saved scratch index. -/
def c8St : St :=
  { cells := [{ state := STATE_DIRTY, compute := some ([], fun _ => .raise (.errObj 7)) }],
    newSourcesIndex := 5 }

/-- `c8St` after the failing `update(0)`. -/
def c8s2 : St := resSt (engine 3 (.update 0) c8St) c8St

/-- A dirty compute returning `1`, with nonzero saved scratch index. -/
def c8Ok : St :=
  { cells := [{ state := STATE_DIRTY, compute := some ([], fun _ => .ret (.plain (.intV 1))) }],
    newSourcesIndex := 5 }

/-- `c8Ok` after the successful `update(0)`. -/
def c8OkS2 : St := resSt (engine 4 (.update 0) c8Ok) c8Ok

/-- A leaf with a source link and an observer link to cell 1. -/
def c5St : St :=
  { cells := [{ value := .intV 9, sources := some [.comp 1], observers := some [] },
              { value := .intV 1, observers := some [0] }] }

/-- `c5St` after `dispose(0, true)`. -/
def c5s1 : St := resSt (engine 3 (.dispose 0 true) c5St) c5St

/-- How many times cell `d` occurs in the observer array of `r`. -/
def obsCount (st : St) (d : Nat) (r : SrcRef) : Nat := ((refObs st r).getD []).count d

/-- The static source list of a cell's compute. -/
def cSrcs (c : Cell) : List Nat := (c.compute.map Prod.fst).getD []

/-- The quiescent per-cell field discipline of a plain synchronous graph: no
futures, no latched errors, no loading/error side nodes, no owner links. -/
def BaseOk (c : Cell) : Prop :=
  c.equals = .eqFun isEqual ∧ c.promise = none ∧ c.flagError = false ∧
  c.flagWaiting = false ∧ c.flagAsync = false ∧ c.loadingNode = none ∧
  c.errorNode = none ∧ c.parent = none ∧ c.prevSib = none ∧ c.nextSib = none ∧
  c.disposal = []

/-- A computed cell of a depth-one graph: it reads a fixed non-empty
duplicate-free list of leaf cells, its compute is total and plain, it has no
observers of its own, and its cache is either unmaterialized (DIRTY, no
sources) or materialized with state DIRTY, or CLEAN with the cached value
equal to the compute of the sources' current values. -/
def MemoOk (st : St) (i : Nat) (srcs : List Nat) (f : List V → CompRes) : Prop :=
  srcs ≠ [] ∧ srcs.Nodup ∧
  (∀ s ∈ srcs, s < st.cells.length ∧ (getCell st s).compute = none) ∧
  (∀ vs, ∃ v, f vs = .ret (.plain v)) ∧
  (getCell st i).observers = none ∧
  (((getCell st i).state = STATE_DIRTY ∧ (getCell st i).sources = none) ∨
   ((getCell st i).sources = some (srcs.map SrcRef.comp) ∧
    ((getCell st i).state = STATE_DIRTY ∨
     ((getCell st i).state = STATE_CLEAN ∧
      f (srcs.map (fun s => (getCell st s).value))
        = .ret (.plain (getCell st i).value)))))

/-- The steady-state invariant for depth-one graphs: quiescent globals, every
cell within bounds is either a leaf (no sources, CLEAN) or a well-formed
memo, and the observer arrays record exactly the materialized edges. -/
def INV (st : St) : Prop :=
  st.currentObserver = none ∧ st.currentOwner = none ∧ st.newSources = none ∧
  st.newSourcesIndex = 0 ∧ st.newLoadingState = false ∧
  (∀ i, i < st.cells.length →
    BaseOk (getCell st i) ∧
    (match (getCell st i).compute with
     | none => (getCell st i).sources = none ∧ (getCell st i).state = STATE_CLEAN
     | some (srcs, f) => MemoOk st i srcs f)) ∧
  (∀ x j, x < st.cells.length → j < st.cells.length →
    obsCount st x (.comp j) =
      (match (getCell st x).compute with
       | some _ =>
         if (getCell st x).sources ≠ none ∧ j ∈ cSrcs (getCell st x) then 1 else 0
       | none => 0)) ∧
  (∀ j, j < st.cells.length → ∀ x ∈ (getCell st j).observers.getD [],
    x < st.cells.length ∧ (getCell st x).compute ≠ none)

/-- Operations a steady-state run may perform: reads of any cell, writes only
to leaves, all within bounds. -/
def OpsOk (st : St) (ops : List Op) : Prop :=
  ∀ op ∈ ops,
    match op with
    | .writeOp i _ => i < st.cells.length ∧ (getCell st i).compute = none
    | .readOp i => i < st.cells.length

/-- A leaf and a memo whose custom equals accepts any increment-by-one
successor as "equal": the S5-style counterexample graph. -/
def c1Cex : St :=
  { cells := [{ value := .intV 10 },
      { state := STATE_DIRTY,
        equals := .eqFun (fun p n => match p, n with
          | .intV a, .intV b => a + 1 == b
          | _, _ => false),
        compute := some ([0], fun vs => .ret (.plain (vs.headD .undef))) }] }

/-- `c1Cex` after `read(1)`. -/
def c1s1 : St := resSt (engine 12 (.read 1) c1Cex) c1Cex

/-- ... then `write(0, 21)`. -/
def c1s2 : St := resSt (engine 12 (.write 0 (.plain (.intV 21))) c1s1) c1s1

/-- ... then `read(1)` (returns 21). -/
def c1s3 : St := resSt (engine 12 (.read 1) c1s2) c1s2

/-- ... then `write(0, 22)`. -/
def c1s4 : St := resSt (engine 12 (.write 0 (.plain (.intV 22))) c1s3) c1s3

/-- ... and the final `read(1)`. -/
def c1s5 : St := resSt (engine 12 (.read 1) c1s4) c1s4

/-- A source cell 0 recorded once as a source of its single observer 1. -/
def c7w : St := { cells := [{ sources := some [.comp 1] }, { observers := some [0] }] }

/-- An owner 0 with child memo 1 reading leaf 2; memo 3 (outside the owner)
reads memo 1. -/
def c7Base : St :=
  appendChild
    { cells := [{},
        { state := STATE_DIRTY,
          compute := some ([2], fun vs => .ret (.plain (vs.headD .undef))) },
        { value := .intV 5 },
        { state := STATE_DIRTY,
          compute := some ([1], fun vs => .ret (.plain (vs.headD .undef))) }] }
    0 1

/-- `c7Base` after `read(3)` built the dependency edges. -/
def c7Run : St := resSt (engine 20 (.read 3) c7Base) c7Base

/-- `c7Run` after `dispose(0, true)`. -/
def c7s1 : St := resSt (engine 20 (.dispose 0 true) c7Run) c7Run

/-- An owner cell 0 with child cell 1 carrying three disposal callbacks. -/
def c6St : St := appendChild { cells := [{}, { disposal := [101, 102, 103] }] } 0 1

/-- `c6St` after `dispose(0, true)`. -/
def c6s1 : St := resSt (engine 6 (.dispose 0 true) c6St) c6St

/-- A computed cell whose state field is already DISPOSED. -/
def c5Disp : St :=
  { cells := [{ state := STATE_DISPOSED, compute := some ([], fun _ => .ret (.plain (.intV 1))) }] }

/-- A leaf observed by computed cell 1, mid-rerun of cell 1 (observer set,
scratch cleared), with the previous sources recorded. -/
def c9St : St :=
  { cells := [{ value := .intV 4, observers := some [1] },
              { compute := some ([0], fun vs => .ret (.plain (vs.headD .undef))),
                sources := some [.comp 0] }],
    currentObserver := some 1 }

/-- The one-step functional of `fromScratch`, with the recursive call
abstracted. -/
def fromScratchF (rec : Nat → V) (st : St) (i : Nat) : V :=
  match (getCell st i).compute with
  | none => (getCell st i).value
  | some (srcs, f) =>
    match f (srcs.map rec) with
    | .ret (.plain v) => v
    | _ => (V.undef)

/-- A leaf holding 10 observed by a single identity memo: the witness graph
for steady-state glitch-freedom. -/
def c1wF : List V → CompRes := fun vs => .ret (.plain (vs.headD .undef))

def c1w : St := { cells := [{ value := .intV 10 }, { state := STATE_DIRTY, compute := some ([0], c1wF) }] }

def c1wOps : List Op := [.readOp 1, .writeOp 0 (.intV 20), .readOp 1]

def c1wRes : St × List (Nat × V × St) := (runOps 20 c1wOps c1w).getD (c1w, [])

def c1wStF : St := c1wRes.1

def c1wTr : List (Nat × V × St) := c1wRes.2

def c1wE : Nat × V × St := c1wTr.headD (0, .undef, c1w)


/-- States-only transition: every cell changes at most its `state` field and
all global fields are untouched. -/
def StOnly (st st' : St) : Prop :=
  st'.cells.length = st.cells.length ∧
  st'.currentObserver = st.currentObserver ∧ st'.currentOwner = st.currentOwner ∧
  st'.newSources = st.newSources ∧ st'.newSourcesIndex = st.newSourcesIndex ∧
  st'.newLoadingState = st.newLoadingState ∧ st'.fired = st.fired ∧ st'.dnTrace = st.dnTrace ∧
  ∀ j, getCell st' j = { getCell st j with state := (getCell st' j).state }

/-- Value-level frame: lengths, computes and equals agree, and values of
compute-free cells agree — so from-scratch denotations agree. -/
def FrV (st st' : St) : Prop :=
  st'.cells.length = st.cells.length ∧
  ∀ j, (getCell st' j).compute = (getCell st j).compute ∧
       (getCell st' j).equals = (getCell st j).equals ∧
       ((getCell st j).compute = none → (getCell st' j).value = (getCell st j).value)

/-- A computed cell of a general topologically indexed plain graph: sources
have strictly smaller ids, the compute is total and plain, and the cache is
unmaterialized-DIRTY or materialized with a valid value whenever the state is
at most CHECK, with all sources CLEAN whenever the state is CLEAN. -/
def GMemoOk (st : St) (i : Nat) (srcs : List Nat) (f : List V → CompRes) : Prop :=
  srcs ≠ [] ∧ srcs.Nodup ∧ (∀ s ∈ srcs, s < i) ∧
  (∀ vs, ∃ v, f vs = .ret (.plain v)) ∧
  (((getCell st i).sources = none ∧ (getCell st i).state = STATE_DIRTY) ∨
   ((getCell st i).sources = some (srcs.map SrcRef.comp) ∧
    ((getCell st i).state ≤ STATE_CHECK →
      f (srcs.map (fun s => (getCell st s).value)) = .ret (.plain (getCell st i).value)) ∧
    ((getCell st i).state = STATE_CLEAN →
      ∀ s ∈ srcs, (getCell st s).state = STATE_CLEAN)))

/-- The cells part of the steady-state invariant for general plain graphs. -/
def CellsOk (st : St) : Prop :=
  (∀ i, i < st.cells.length →
    BaseOk (getCell st i) ∧ (getCell st i).state ≤ STATE_DIRTY ∧
    (match (getCell st i).compute with
     | none => (getCell st i).sources = none ∧ (getCell st i).state = STATE_CLEAN
     | some (srcs, f) => GMemoOk st i srcs f)) ∧
  (∀ x j, x < st.cells.length → j < st.cells.length →
    obsCount st x (.comp j) =
      (match (getCell st x).compute with
       | some _ =>
         if (getCell st x).sources ≠ none ∧ j ∈ cSrcs (getCell st x) then 1 else 0
       | none => 0)) ∧
  (∀ j, j < st.cells.length → ∀ x ∈ (getCell st j).observers.getD [],
    x < st.cells.length ∧ (getCell st x).compute ≠ none)

/-- The full steady-state invariant for general plain graphs: quiescent
globals plus `CellsOk`. -/
def GInv (st : St) : Prop :=
  st.currentObserver = none ∧ st.currentOwner = none ∧ st.newSources = none ∧
  st.newSourcesIndex = 0 ∧ st.newLoadingState = false ∧ CellsOk st

/-- Sources decrease: the hypothesis `fromScratch` stabilization needs. -/
def SrcsDec (st : St) : Prop :=
  ∀ j p, (getCell st j).compute = some p → ∀ s ∈ p.1, s < j

/-- The abstract effect of a notify call rooted at the target list `X` with
level `s`: states only, bumps only, every target ends at least at `s`,
collateral raises are CLEAN-to-CHECK marks, raised cells have all their
observers at least CHECK afterwards, every raise is capped by `s`, sits above
some target, and is accounted for by a target or an observer edge from a
raised cell. -/
def NPost (st st' : St) (X : List Nat) (s : Nat) : Prop :=
  StOnly st st' ∧
  (∀ j, (getCell st j).state ≤ (getCell st' j).state) ∧
  (∀ o ∈ X, s ≤ (getCell st' o).state) ∧
  (∀ j, j ∉ X → (getCell st' j).state ≠ (getCell st j).state →
    (getCell st j).state = STATE_CLEAN ∧ (getCell st' j).state = STATE_CHECK) ∧
  (∀ j, (getCell st' j).state ≠ (getCell st j).state →
    ∀ o ∈ (getCell st j).observers.getD [], STATE_CHECK ≤ (getCell st' o).state) ∧
  (∀ j, (getCell st' j).state ≤ max (getCell st j).state s) ∧
  (∀ j, (getCell st' j).state ≠ (getCell st j).state → ∃ o ∈ X, o ≤ j) ∧
  (∀ j, (getCell st' j).state ≠ (getCell st j).state →
    j ∈ X ∨ ∃ j0, j0 < st.cells.length ∧ j ∈ (getCell st j0).observers.getD [] ∧
      (getCell st' j0).state ≠ (getCell st j0).state)

/-- Static side conditions the notify recursion needs. -/
def NotifyWF (st : St) : Prop :=
  ∀ j, j < st.cells.length →
    (getCell st j).loadingNode = none ∧ (getCell st j).errorNode = none ∧
    ∀ o ∈ (getCell st j).observers.getD [], j < o ∧ o < st.cells.length

/-- Cells-level postcondition of a validation step rooted at `i`: invariant
restored, denotations unchanged, CLEAN cells keep value and state, and cells
strictly above `i` change at most their state, upward. -/
def CPost (st st' : St) (i : Nat) : Prop :=
  st'.cells.length = st.cells.length ∧
  CellsOk st' ∧ FrV st st' ∧
  (∀ j, (getCell st j).state = STATE_CLEAN →
    (getCell st' j).value = (getCell st j).value ∧ (getCell st' j).state = STATE_CLEAN) ∧
  (∀ j, i < j → ∃ n, (getCell st j).state ≤ n ∧
    getCell st' j = { getCell st j with state := n }) ∧
  (∀ j x, x ∈ (getCell st j).observers.getD [] → x ∈ (getCell st' j).observers.getD []) ∧
  (∀ j, (getCell st' j).value ≠ (getCell st j).value →
    ∀ x ∈ (getCell st j).observers.getD [], i < x → STATE_DIRTY ≤ (getCell st' x).state)

/-- `updateIfNecessary` on a computed cell completes, returns the not-loading
flag, restores the invariant, leaves the cell CLEAN holding its from-scratch
value, and treats the globals as a frame. -/
def UINspec (i : Nat) : Prop :=
  ∀ st, CellsOk st → i < st.cells.length → (getCell st i).compute ≠ none →
    ∃ NF st', engine NF (.updateIfNecessary i) st = .done (.b false) st' ∧
      CPost st st' i ∧
      st'.currentObserver = st.currentObserver ∧ st'.currentOwner = st.currentOwner ∧
      st'.newSources = st.newSources ∧ st'.newSourcesIndex = st.newSourcesIndex ∧
      st'.newLoadingState = st.newLoadingState ∧
      (getCell st' i).state = STATE_CLEAN ∧
      (getCell st' i).value = fromScratch st (i + 1) i ∧
      ((getCell st' i).value = (getCell st i).value ∨
        ∀ x ∈ (getCell st i).observers.getD [], (getCell st' x).state = STATE_DIRTY)

/-- `read` on any cell completes with the from-scratch value, the final state
being a single dependency-recording step over an invariant state. -/
def READspec (s : Nat) : Prop :=
  ∀ st, CellsOk st → s < st.cells.length →
    ∃ NF stU, engine NF (.read s) st
        = .done (.v (fromScratch st (s + 1) s)) (track stU (.comp s)) ∧
      CPost st stU s ∧
      stU.currentObserver = st.currentObserver ∧ stU.currentOwner = st.currentOwner ∧
      stU.newSources = st.newSources ∧ stU.newSourcesIndex = st.newSourcesIndex ∧
      stU.newLoadingState = st.newLoadingState ∧
      (getCell stU s).state = STATE_CLEAN

/-- A depth-two chain: a leaf observed by a memo observed by a second memo —
the witness graph for arbitrary-depth steady-state glitch-freedom. -/
def c1g : St :=
  { cells := [{ value := .intV 10 },
      { state := STATE_DIRTY, compute := some ([0], c1wF) },
      { state := STATE_DIRTY, compute := some ([1], c1wF) }] }

def c1gOps : List Op := [.readOp 2, .writeOp 0 (.intV 21), .readOp 2]

def c1gRes : St × List (Nat × V × St) := (runOps 30 c1gOps c1g).getD (c1g, [])

def c1gStF : St := c1gRes.1

def c1gTr : List (Nat × V × St) := c1gRes.2

def c1gE : Nat × V × St := c1gTr.headD (0, .undef, c1g)

end BubbleReactivity

namespace BubbleReactivity

/-! ### Basic state lemmas -/

theorem getCell_modCell_self (st : St) (i : Nat) (f : Cell → Cell) (h : i < st.cells.length) :
    getCell (modCell st i f) i = f (getCell st i) := by
  simp only [getCell, modCell]
  rw [List.get?_set_eq_of_lt _ h]
  simp

theorem getCell_modCell_ne (st : St) (i j : Nat) (f : Cell → Cell) (h : i ≠ j) :
    getCell (modCell st i f) j = getCell st j := by
  simp only [getCell, modCell]
  rw [List.get?_set_ne _ _ h]

theorem getCell_modCell_cases (st : St) (i j : Nat) (f : Cell → Cell) :
    getCell (modCell st i f) j = getCell st j ∨
      (j = i ∧ getCell (modCell st i f) j = f (getCell st j)) := by
  by_cases hij : j = i
  · subst hij
    by_cases hr : j < st.cells.length
    · exact Or.inr ⟨rfl, getCell_modCell_self st j f hr⟩
    · left
      simp [modCell, List.set_eq_of_length_le (Nat.le_of_not_lt hr)]
  · exact Or.inl (getCell_modCell_ne st i j f (fun h => hij h.symm))

@[simp] theorem length_modCell (st : St) (i : Nat) (f : Cell → Cell) :
    (modCell st i f).cells.length = st.cells.length := by
  simp [modCell]

@[simp] theorem modCell_currentOwner (st : St) (i : Nat) (f : Cell → Cell) :
    (modCell st i f).currentOwner = st.currentOwner := rfl

@[simp] theorem modCell_currentObserver (st : St) (i : Nat) (f : Cell → Cell) :
    (modCell st i f).currentObserver = st.currentObserver := rfl

@[simp] theorem modCell_newSources (st : St) (i : Nat) (f : Cell → Cell) :
    (modCell st i f).newSources = st.newSources := rfl

@[simp] theorem modCell_newSourcesIndex (st : St) (i : Nat) (f : Cell → Cell) :
    (modCell st i f).newSourcesIndex = st.newSourcesIndex := rfl

@[simp] theorem modCell_newLoadingState (st : St) (i : Nat) (f : Cell → Cell) :
    (modCell st i f).newLoadingState = st.newLoadingState := rfl

@[simp] theorem modCell_fired (st : St) (i : Nat) (f : Cell → Cell) :
    (modCell st i f).fired = st.fired := rfl

@[simp] theorem modCell_dnTrace (st : St) (i : Nat) (f : Cell → Cell) :
    (modCell st i f).dnTrace = st.dnTrace := rfl

/-! ### Frame A : facts preserved by every engine request.

The length of the heap, the `currentOwner`/`currentObserver` globals (saved
and restored by `compute`) and the `compute`/`equals` fields of every cell
are unchanged by every request, on every exit path. -/



theorem FrA_rfl {st : St} : FrA st st := ⟨Eq.refl _, Eq.refl _, Eq.refl _, fun _ => ⟨Eq.refl _, Eq.refl _⟩⟩

theorem FrA_tr {a b c : St} (h1 : FrA a b) (h2 : FrA b c) : FrA a c := by
  obtain ⟨l1, o1, b1, c1⟩ := h1
  obtain ⟨l2, o2, b2, c2⟩ := h2
  exact ⟨l2.trans l1, o2.trans o1, b2.trans b1,
    fun j => ⟨(c2 j).1.trans (c1 j).1, (c2 j).2.trans (c1 j).2⟩⟩


theorem FrAv_fuelOut {st : St} : FrAv st .fuelOut := by intro st' h; simp [Res.okSt] at h

theorem FrAv_done {st st' : St} {o : Out} (h : FrA st st') : FrAv st (.done o st') := by
  intro s hs; simp [Res.okSt] at hs; exact hs ▸ h

theorem FrAv_threw {st st' : St} {e : V} (h : FrA st st') : FrAv st (.threw e st') := by
  intro s hs; simp [Res.okSt] at hs; exact hs ▸ h

theorem FrAv_self {st : St} {r : Res} (h : ∀ st', r.okSt = some st' → st' = st) :
    FrAv st r := fun st' hst' => (h st' hst') ▸ FrA_rfl

theorem FrAv_andThen {st : St} {r : Res} {k : St → Res} (h1 : FrAv st r)
    (h2 : ∀ s, FrAv s (k s)) : FrAv st (r.andThen k) := by
  cases r with
  | fuelOut => exact FrAv_fuelOut
  | threw e s => exact h1
  | done o s =>
    intro st' hst'
    exact FrA_tr (h1 s rfl) (h2 s st' hst')

theorem FrAv_andThenB {st : St} {r : Res} {k : Bool → St → Res} (h1 : FrAv st r)
    (h2 : ∀ b s, FrAv s (k b s)) : FrAv st (r.andThenB k) := by
  cases r with
  | fuelOut => exact FrAv_fuelOut
  | threw e s => exact h1
  | done o s =>
    intro st' hst'
    exact FrA_tr (h1 s rfl) (h2 o.getB s st' hst')

theorem FrAv_andThenV {st : St} {r : Res} {k : V → St → Res} (h1 : FrAv st r)
    (h2 : ∀ v s, FrAv s (k v s)) : FrAv st (r.andThenV k) := by
  cases r with
  | fuelOut => exact FrAv_fuelOut
  | threw e s => exact h1
  | done o s =>
    intro st' hst'
    exact FrA_tr (h1 s rfl) (h2 o.getV s st' hst')

theorem FrA_modCell (st : St) (i : Nat) (f : Cell → Cell)
    (hf : ∀ c, (f c).compute = c.compute ∧ (f c).equals = c.equals) :
    FrA st (modCell st i f) := by
  refine ⟨by simp, rfl, rfl, fun j => ?_⟩
  rcases getCell_modCell_cases st i j f with h | ⟨_, h⟩
  · rw [h]; exact ⟨rfl, rfl⟩
  · rw [h]; exact hf (getCell st j)

theorem FrA_mod_state (st : St) (i s : Nat) :
    FrA st (modCell st i (fun x => { x with state := s })) :=
  FrA_modCell _ _ _ (fun c => ⟨rfl, rfl⟩)

theorem FrA_mod_flagWaiting (st : St) (i : Nat) (b : Bool) :
    FrA st (modCell st i (fun x => { x with flagWaiting := b })) :=
  FrA_modCell _ _ _ (fun c => ⟨rfl, rfl⟩)

theorem FrA_mod_errFields (st : St) (i : Nat) (e : V) :
    FrA st (modCell st i (fun x => { x with value := e, flagError := true })) :=
  FrA_modCell _ _ _ (fun c => ⟨rfl, rfl⟩)

theorem FrA_mod_promiseNone (st : St) (i : Nat) :
    FrA st (modCell st i (fun x => { x with promise := none })) :=
  FrA_modCell _ _ _ (fun c => ⟨rfl, rfl⟩)

theorem FrA_mod_futFields (st : St) (i p : Nat) :
    FrA st (modCell st i (fun x => { x with flagAsync := true, promise := some p })) :=
  FrA_modCell _ _ _ (fun c => ⟨rfl, rfl⟩)

theorem FrA_mod_value (st : St) (i : Nat) (v : V) :
    FrA st (modCell st i (fun x => { x with value := v })) :=
  FrA_modCell _ _ _ (fun c => ⟨rfl, rfl⟩)

theorem FrA_mod_asyncFalse (st : St) (i : Nat) :
    FrA st (modCell st i (fun x => { x with flagAsync := false })) :=
  FrA_modCell _ _ _ (fun c => ⟨rfl, rfl⟩)

theorem FrA_mod_errorFalse (st : St) (i : Nat) :
    FrA st (modCell st i (fun x => { x with flagError := false })) :=
  FrA_modCell _ _ _ (fun c => ⟨rfl, rfl⟩)

theorem FrA_mod_prevSib (st : St) (i : Nat) (v : Option Nat) :
    FrA st (modCell st i (fun x => { x with prevSib := v })) :=
  FrA_modCell _ _ _ (fun c => ⟨rfl, rfl⟩)

theorem FrA_mod_nextSib (st : St) (i : Nat) (v : Option Nat) :
    FrA st (modCell st i (fun x => { x with nextSib := v })) :=
  FrA_modCell _ _ _ (fun c => ⟨rfl, rfl⟩)

end BubbleReactivity

namespace BubbleReactivity

theorem FrAv_pre {st st1 : St} {r : Res} (h : FrA st st1) (hv : FrAv st1 r) : FrAv st r :=
  fun st' h' => FrA_tr h (hv st' h')

theorem FrA_of_cells_eq {st st' : St} (hc : st'.cells = st.cells)
    (ho : st'.currentOwner = st.currentOwner)
    (hb : st'.currentObserver = st.currentObserver) : FrA st st' := by
  refine ⟨by rw [hc], ho, hb, fun j => ?_⟩
  have hg : getCell st' j = getCell st j := by unfold getCell; rw [hc]
  rw [hg]; exact ⟨rfl, rfl⟩

theorem FrA_track (st : St) (r : SrcRef) : FrA st (track st r) := by
  refine FrA_of_cells_eq ?_ ?_ ?_
  · unfold track; repeat first | rfl | split
  · unfold track; repeat first | rfl | split
  · unfold track; repeat first | rfl | split

theorem FrA_setRefObs (st : St) (r : SrcRef) (l : List Nat) : FrA st (setRefObs st r l) := by
  cases r with
  | comp i => exact FrA_modCell st i _ (fun c => ⟨rfl, rfl⟩)
  | loadNode i => exact FrA_modCell st i _ (fun c => ⟨rfl, rfl⟩)
  | errNode i => exact FrA_modCell st i _ (fun c => ⟨rfl, rfl⟩)

theorem FrA_foldl {α : Type} (g : St → α → St) (h : ∀ s x, FrA s (g s x)) :
    ∀ (l : List α) (st : St), FrA st (l.foldl g st) := by
  intro l
  induction l with
  | nil => intro st; exact FrA_rfl
  | cons x xs ih => intro st; exact FrA_tr (h st x) (ih (g st x))

theorem FrA_removeSourceObservers (st : St) (node index : Nat) :
    FrA st (removeSourceObservers st node index) := by
  unfold removeSourceObservers
  rcases (getCell st node).sources with _ | srcs
  · exact FrA_rfl
  · refine FrA_foldl _ (fun s r => ?_) _ st
    rcases refObs s r with _ | l
    · exact FrA_rfl
    · exact FrA_setRefObs s r _

theorem FrA_foldObs (l : List SrcRef) (node : Nat) : ∀ st : St,
    FrA st (l.foldl (fun s r =>
      match refObs s r with
      | none => setRefObs s r [node]
      | some ol => setRefObs s r (ol ++ [node])) st) := by
  intro st
  refine FrA_foldl _ (fun s r => ?_) l st
  rcases refObs s r with _ | ol
  · exact FrA_setRefObs s r _
  · exact FrA_setRefObs s r _

theorem FrA_obsAppendAll (ns : List SrcRef) (node : Nat) : ∀ st : St,
    FrA st (obsAppendAll st ns node) := by
  intro st
  unfold obsAppendAll
  refine FrA_foldl _ (fun s r => ?_) ns st
  rcases refObs s r with _ | ol
  · exact FrA_setRefObs s r _
  · exact FrA_setRefObs s r _

theorem FrA_mergeSources (st : St) (node : Nat) : FrA st (mergeSources st node) := by
  unfold mergeSources
  rcases st.newSources with _ | ns <;> dsimp only
  · rcases (getCell st node).sources with _ | l <;> dsimp only
    · exact FrA_rfl
    · split
      · exact FrA_tr (FrA_removeSourceObservers st node _)
          (FrA_modCell _ node _ (fun c => ⟨rfl, rfl⟩))
      · exact FrA_rfl
  · have h1 : FrA st (match (getCell st node).sources with
        | some _ => removeSourceObservers st node st.newSourcesIndex
        | none => st) := by
      rcases (getCell st node).sources with _ | l
      · exact FrA_rfl
      · exact FrA_removeSourceObservers st node _
    exact FrA_tr h1 (FrA_tr (FrA_modCell _ node
      (fun c => { c with sources := some (match (getCell (match (getCell st node).sources with
        | some _ => removeSourceObservers st node st.newSourcesIndex
        | none => st) node).sources with
        | some l => if 0 < st.newSourcesIndex then l.take st.newSourcesIndex ++ ns else ns
        | none => ns) }) (fun c => ⟨rfl, rfl⟩))
      (FrA_obsAppendAll _ node _))

theorem FrA_disposeNode (st : St) (i : Nat) : FrA st (disposeNode st i) := by
  unfold disposeNode
  dsimp only
  have h1 : FrA st (match (getCell st i).sources with
      | some _ => removeSourceObservers st i 0
      | none => st) := by
    rcases (getCell st i).sources with _ | l
    · exact FrA_rfl
    · exact FrA_removeSourceObservers st i 0
  refine FrA_tr h1 (FrA_tr (FrA_modCell _ i
    (fun c => { c with sources := none, observers := none }) (fun c => ⟨rfl, rfl⟩)) ?_)
  exact FrA_of_cells_eq rfl rfl rfl

theorem FrA_emptyDisposal (st : St) (i : Nat) : FrA st (emptyDisposal st i) := by
  unfold emptyDisposal
  refine FrA_tr (b := { st with fired := st.fired ++ (getCell st i).disposal })
    (FrA_of_cells_eq rfl rfl rfl)
    (FrA_modCell _ i (fun x => { x with disposal := [] }) (fun c => ⟨rfl, rfl⟩))

theorem FrAv_zeroScratch {st : St} {r : Res}
    (hv : FrAv { st with newSources := none, newSourcesIndex := 0, newLoadingState := false } r) :
    FrAv st r := FrAv_pre (FrA_of_cells_eq rfl rfl rfl) hv

theorem FrAv_threw_of_eq {st : St} {r : Res} {e : V} {s1 : St} (hr : FrAv st r)
    (heq : r = .threw e s1) : FrA st s1 := hr s1 (by rw [heq]; rfl)

theorem FrAv_done_of_eq {st : St} {r : Res} {o : Out} {s1 : St} (hr : FrAv st r)
    (heq : r = .done o s1) : FrA st s1 := hr s1 (by rw [heq]; rfl)

/-- Every engine request preserves the heap size, the owner/observer globals
and the `compute`/`equals` field of every cell, on every exit path. -/
theorem engine_FrA : ∀ (fuel : Nat) (q : Req) (st : St), FrAv st (engine fuel q st) := by
  intro fuel
  induction fuel with
  | zero => intro q st; exact FrAv_fuelOut
  | succ fuel IH =>
    intro q st
    cases q with
    | notify i s =>
      simp only [engine]
      split
      · exact FrAv_done FrA_rfl
      · refine FrAv_pre (FrA_mod_state st i s) ?_
        refine FrAv_andThen (IH _ _) (fun s2 => ?_)
        exact FrAv_andThen (IH _ _) (fun s3 => IH _ _)
    | notifyList os s =>
      simp only [engine]
      cases os with
      | nil => exact FrAv_done FrA_rfl
      | cons o rest => exact FrAv_andThen (IH _ _) (fun s1 => IH _ _)
    | setLoadingLoop os b =>
      simp only [engine]
      cases os with
      | nil => exact FrAv_done FrA_rfl
      | cons o rest =>
        refine FrAv_andThen ?_ (fun s1 => IH _ _)
        split
        · exact IH _ _
        · exact IH _ _
    | loadingSet i b =>
      simp only [engine]
      exact FrAv_andThen (IH _ _) (fun s1 => IH _ _)
    | errorSet i =>
      simp only [engine]
      exact IH _ _
    | setLoading i b =>
      simp only [engine]
      refine FrAv_andThen ?_ (fun s1 => FrAv_done (FrA_mod_flagWaiting s1 i b))
      split
      · split
        · exact IH _ _
        · exact FrAv_done FrA_rfl
      · exact FrAv_done FrA_rfl
    | setError i e =>
      simp only [engine]
      refine FrAv_andThen ?_ (fun s1 => FrAv_done (FrA_mod_errFields s1 i e))
      split
      · split
        · exact IH _ _
        · exact FrAv_done FrA_rfl
      · exact FrAv_done FrA_rfl
    | write i w =>
      cases w with
      | fut p =>
        simp only [engine]
        refine FrAv_pre (FrA_mod_promiseNone st i) ?_
        refine FrAv_andThen ?_ (fun s1 =>
          FrAv_done (FrA_mod_futFields s1 i p))
        split
        · split
          · exact IH _ _
          · exact FrAv_done FrA_rfl
        · exact FrAv_done FrA_rfl
      | plain v =>
        simp only [engine]
        refine FrAv_pre (FrA_mod_promiseNone st i) ?_
        split
        · refine FrAv_pre (FrA_mod_value _ i v) ?_
          refine FrAv_andThen ?_ (fun s2 => ?_)
          · split
            · split
              · exact IH _ _
              · exact FrAv_done FrA_rfl
            · exact FrAv_done FrA_rfl
          · refine FrAv_pre (FrA_mod_asyncFalse s2 i) ?_
            refine FrAv_andThen ?_ (fun s4 => ?_)
            · split
              · split
                · exact IH _ _
                · exact FrAv_done FrA_rfl
              · exact FrAv_done FrA_rfl
            · refine FrAv_pre (FrA_mod_errorFalse s4 i) ?_
              exact FrAv_andThen (IH _ _) (fun s6 => FrAv_done FrA_rfl)
        · exact FrAv_done FrA_rfl
    | read i =>
      simp only [engine]
      refine FrAv_andThen ?_ (fun s1 => ?_)
      · split
        · exact IH _ _
        · exact FrAv_done FrA_rfl
      · refine FrAv_pre (FrA_track s1 (.comp i)) ?_
        split <;> split <;>
          first
            | exact FrAv_threw FrA_rfl
            | exact FrAv_done FrA_rfl
            | exact FrAv_threw (FrA_of_cells_eq rfl rfl rfl)
            | exact FrAv_done (FrA_of_cells_eq rfl rfl rfl)
    | updateIfNecessary i =>
      simp only [engine]
      split
      · exact FrAv_threw FrA_rfl
      · split
        · exact FrAv_done FrA_rfl
        · refine FrAv_andThenB ?_ (fun any s1 => ?_)
          · split
            · split
              · exact IH _ _
              · exact FrAv_threw FrA_rfl
            · exact FrAv_done FrA_rfl
          · split
            · exact FrAv_andThen (IH _ _) (fun s2 => FrAv_done FrA_rfl)
            · refine FrAv_andThen (IH _ _) (fun s2 => ?_)
              exact FrAv_done (FrA_mod_state s2 i STATE_CLEAN)
    | checkSources i rem anyLoading =>
      simp only [engine]
      cases rem with
      | nil => exact FrAv_done FrA_rfl
      | cons r rest =>
        refine FrAv_andThenB (IH _ _) (fun isL s1 => ?_)
        split
        · exact FrAv_done FrA_rfl
        · exact IH _ _
    | update i =>
      simp only [engine]
      split
      · -- try body threw: catch path
        rename_i e s1 heq
        have h1 : FrA st s1 := by
          refine FrAv_threw_of_eq (FrAv_zeroScratch ?_) heq
          refine FrAv_andThen (IH _ _) (fun stc => ?_)
          split
          · rename_i o s2 heq2
            refine FrAv_pre (FrAv_done_of_eq (IH _ _) heq2) ?_
            refine FrAv_andThen (IH _ _) (fun s3 => FrAv_pre (FrA_mergeSources s3 i) (IH _ _))
          · exact IH _ _
        exact FrAv_pre h1 (FrAv_andThen (IH _ _) (fun s2 => FrAv_done FrA_rfl))
      · -- try body done: restore scratch and set CLEAN
        rename_i o s4 heq
        have h1 : FrA st s4 := by
          refine FrAv_done_of_eq (FrAv_zeroScratch ?_) heq
          refine FrAv_andThen (IH _ _) (fun stc => ?_)
          split
          · rename_i o2 s2 heq2
            refine FrAv_pre (FrAv_done_of_eq (IH _ _) heq2) ?_
            refine FrAv_andThen (IH _ _) (fun s3 => FrAv_pre (FrA_mergeSources s3 i) (IH _ _))
          · exact IH _ _
        refine FrAv_done (FrA_tr h1 ?_)
        exact FrA_tr
          (b := { s4 with
                  newSources := st.newSources,
                  newSourcesIndex := st.newSourcesIndex,
                  newLoadingState := st.newLoadingState })
          (FrA_of_cells_eq rfl rfl rfl) (FrA_mod_state _ i STATE_CLEAN)
      · exact FrAv_fuelOut
    | computeRun i =>
      simp only [engine]
      have hres : ∀ (s1 : St),
          FrA { st with currentOwner := some i, currentObserver := some i } s1 →
          FrA st { s1 with currentOwner := st.currentOwner,
                           currentObserver := st.currentObserver } := by
        intro s1 h
        obtain ⟨l1, _, _, c1⟩ := h
        exact ⟨l1, rfl, rfl, fun j => c1 j⟩
      have hbody : ∀ (r : Res) (stm : St),
          stm = { st with currentOwner := some i, currentObserver := some i } →
          r = (match (getCell stm i).compute with
               | none => Res.threw .crashErr stm
               | some (srcs, f) =>
                 match engine fuel (.evalReads srcs []) stm with
                 | .done o st1 =>
                   match f o.getVL with
                   | .ret w => .done (.wv w) st1
                   | .raise e => .threw e st1
                 | x => x) →
          FrAv stm r := by
        intro r stm hstm hr
        subst hr
        split
        · exact FrAv_threw FrA_rfl
        · split
          · rename_i heq2
            split
            · exact FrAv_done (FrAv_done_of_eq (IH _ _) heq2)
            · exact FrAv_threw (FrAv_done_of_eq (IH _ _) heq2)
          · exact IH _ _
      split
      · rename_i o s1 heq
        exact FrAv_done (hres s1 (FrAv_done_of_eq (hbody _ _ rfl rfl) heq))
      · rename_i e s1 heq
        split
        · exact FrAv_done (hres s1 (FrAv_threw_of_eq (hbody _ _ rfl rfl) heq))
        · exact FrAv_threw (hres s1 (FrAv_threw_of_eq (hbody _ _ rfl rfl) heq))
      · exact FrAv_fuelOut
    | evalReads rem acc =>
      simp only [engine]
      cases rem with
      | nil => exact FrAv_done FrA_rfl
      | cons s rest => exact FrAv_andThenV (IH _ _) (fun v s1 => IH _ _)
    | settleOk i p v =>
      simp only [engine]
      split
      · exact IH _ _
      · exact FrAv_done FrA_rfl
    | settleErr i p e =>
      simp only [engine]
      split
      · exact FrAv_andThen (IH _ _) (fun s1 => FrAv_done FrA_rfl)
      · exact FrAv_done FrA_rfl
    | dispose i self =>
      simp only [engine]
      split
      · exact FrAv_done FrA_rfl
      · split
        · rename_i o s1 heq
          have h1 : FrA st s1 := FrAv_done_of_eq (IH _ _) heq
          have h2 : FrA s1 (if self then disposeNode s1 i else s1) := by
            split
            · exact FrA_disposeNode s1 i
            · exact FrA_rfl
          refine FrAv_done (FrA_tr h1 (FrA_tr h2 ?_))
          have h3 : ∀ (s : St), FrA s (match o.getON with
              | some cu => modCell s cu (fun x =>
                  { x with prevSib := if !self then some i else (getCell s i).prevSib })
              | none => s) := by
            intro s
            rcases o.getON with _ | cu
            · exact FrA_rfl
            · exact FrA_mod_prevSib s cu _
          refine FrA_tr (h3 _) ?_
          rcases (if self then (getCell st i).prevSib else some i) with _ | h
          · exact FrA_rfl
          · exact FrA_mod_nextSib _ h _
        · exact IH _ _
    | disposeChildren i cur =>
      cases cur with
      | none =>
        simp only [engine]
        exact FrAv_done FrA_rfl
      | some cu =>
        simp only [engine]
        split
        · refine FrAv_andThen (IH _ _) (fun s1 => ?_)
          exact FrAv_pre (FrA_disposeNode s1 cu) (IH _ _)
        · exact FrAv_done FrA_rfl
    | cleanup i =>
      simp only [engine]
      refine FrAv_andThen ?_ (fun s1 => ?_)
      · rcases (getCell st i).nextSib with _ | nx
        · exact FrAv_done FrA_rfl
        · dsimp only
          split
          · exact IH _ _
          · exact FrAv_done FrA_rfl
      · split
        · exact FrAv_done (FrA_emptyDisposal s1 i)
        · exact FrAv_done FrA_rfl

end BubbleReactivity

namespace BubbleReactivity

/-! ### Frame B : the notify/loading-propagation family.

`notify`, `notifyList`, `setLoadingLoop`, `loadingSet`, `errorSet` and
`setLoading` only ever modify the `state` field and the `WAITING` bit of
cells; they touch no value, flag, edge array, owner link or global. -/



theorem FrB_rfl {st : St} : FrB st st :=
  ⟨Eq.refl _, Eq.refl _, Eq.refl _, Eq.refl _, Eq.refl _, Eq.refl _, Eq.refl _, Eq.refl _,
    fun _ => Eq.refl _⟩

theorem FrB_tr {a b c : St} (h1 : FrB a b) (h2 : FrB b c) : FrB a c := by
  obtain ⟨x1, x2, x3, x4, x5, x6, x7, x8, x9⟩ := h1
  obtain ⟨y1, y2, y3, y4, y5, y6, y7, y8, y9⟩ := h2
  exact ⟨y1.trans x1, y2.trans x2, y3.trans x3, y4.trans x4, y5.trans x5, y6.trans x6,
    y7.trans x7, y8.trans x8, fun j => (y9 j).trans (x9 j)⟩

theorem FrBv_fuelOut {st : St} : FrBv st .fuelOut := by intro st' h; simp [Res.okSt] at h

theorem FrBv_done {st st' : St} {o : Out} (h : FrB st st') : FrBv st (.done o st') := by
  intro s hs; simp [Res.okSt] at hs; exact hs ▸ h

theorem FrBv_pre {st st1 : St} {r : Res} (h : FrB st st1) (hv : FrBv st1 r) : FrBv st r :=
  fun st' h' => FrB_tr h (hv st' h')

theorem FrBv_andThen {st : St} {r : Res} {k : St → Res} (h1 : FrBv st r)
    (h2 : ∀ s, FrBv s (k s)) : FrBv st (r.andThen k) := by
  cases r with
  | fuelOut => exact FrBv_fuelOut
  | threw e s => exact h1
  | done o s =>
    intro st' hst'
    exact FrB_tr (h1 s rfl) (h2 s st' hst')

theorem FrB_modCell (st : St) (i : Nat) (f : Cell → Cell)
    (hf : ∀ c, (f c).anchor = c.anchor) : FrB st (modCell st i f) := by
  refine ⟨by simp, rfl, rfl, rfl, rfl, rfl, rfl, rfl, fun j => ?_⟩
  rcases getCell_modCell_cases st i j f with h | ⟨_, h⟩
  · rw [h]
  · rw [h]; exact hf (getCell st j)

theorem FrB_mod_state (st : St) (i s : Nat) :
    FrB st (modCell st i (fun x => { x with state := s })) :=
  FrB_modCell _ _ _ (fun c => rfl)

theorem FrB_mod_flagWaiting (st : St) (i : Nat) (b : Bool) :
    FrB st (modCell st i (fun x => { x with flagWaiting := b })) :=
  FrB_modCell _ _ _ (fun c => rfl)

/-- The notify/loading family only changes cell `state`s and `WAITING` bits. -/
theorem engine_FrB : ∀ (fuel : Nat) (q : Req) (st : St), isAux q = true →
    FrBv st (engine fuel q st) := by
  intro fuel
  induction fuel with
  | zero => intro q st _; exact FrBv_fuelOut
  | succ fuel IH =>
    intro q st hq
    cases q with
    | notify i s =>
      simp only [engine]
      split
      · exact FrBv_done FrB_rfl
      · refine FrBv_pre (FrB_mod_state st i s) ?_
        refine FrBv_andThen (IH _ _ rfl) (fun s2 => ?_)
        exact FrBv_andThen (IH _ _ rfl) (fun s3 => IH _ _ rfl)
    | notifyList os s =>
      simp only [engine]
      cases os with
      | nil => exact FrBv_done FrB_rfl
      | cons o rest => exact FrBv_andThen (IH _ _ rfl) (fun s1 => IH _ _ rfl)
    | setLoadingLoop os b =>
      simp only [engine]
      cases os with
      | nil => exact FrBv_done FrB_rfl
      | cons o rest =>
        refine FrBv_andThen ?_ (fun s1 => IH _ _ rfl)
        split
        · exact IH _ _ rfl
        · exact IH _ _ rfl
    | loadingSet i b =>
      simp only [engine]
      exact FrBv_andThen (IH _ _ rfl) (fun s1 => IH _ _ rfl)
    | errorSet i =>
      simp only [engine]
      exact IH _ _ rfl
    | setLoading i b =>
      simp only [engine]
      refine FrBv_andThen ?_ (fun s1 => FrBv_done (FrB_mod_flagWaiting s1 i b))
      split
      · split
        · exact IH _ _ rfl
        · exact FrBv_done FrB_rfl
      · exact FrBv_done FrB_rfl
    | setError i e => exact absurd hq (by simp [isAux])
    | write i w => exact absurd hq (by simp [isAux])
    | read i => exact absurd hq (by simp [isAux])
    | updateIfNecessary i => exact absurd hq (by simp [isAux])
    | checkSources i rem anyLoading => exact absurd hq (by simp [isAux])
    | update i => exact absurd hq (by simp [isAux])
    | computeRun i => exact absurd hq (by simp [isAux])
    | evalReads rem acc => exact absurd hq (by simp [isAux])
    | settleOk i p v => exact absurd hq (by simp [isAux])
    | settleErr i p e => exact absurd hq (by simp [isAux])
    | dispose i self => exact absurd hq (by simp [isAux])
    | disposeChildren i cur => exact absurd hq (by simp [isAux])
    | cleanup i => exact absurd hq (by simp [isAux])

theorem anchor_promise {c d : Cell} (h : c.anchor = d.anchor) : c.promise = d.promise := by
  have h2 := congrArg Cell.promise h
  simpa [Cell.anchor] using h2

theorem anchor_value {c d : Cell} (h : c.anchor = d.anchor) : c.value = d.value := by
  have h2 := congrArg Cell.value h
  simpa [Cell.anchor] using h2

theorem anchor_flagError {c d : Cell} (h : c.anchor = d.anchor) : c.flagError = d.flagError := by
  have h2 := congrArg Cell.flagError h
  simpa [Cell.anchor] using h2

theorem anchor_flagAsync {c d : Cell} (h : c.anchor = d.anchor) : c.flagAsync = d.flagAsync := by
  have h2 := congrArg Cell.flagAsync h
  simpa [Cell.anchor] using h2

theorem anchor_sources {c d : Cell} (h : c.anchor = d.anchor) : c.sources = d.sources := by
  have h2 := congrArg Cell.sources h
  simpa [Cell.anchor] using h2

theorem anchor_observers {c d : Cell} (h : c.anchor = d.anchor) : c.observers = d.observers := by
  have h2 := congrArg Cell.observers h
  simpa [Cell.anchor] using h2

theorem anchor_loadingNode {c d : Cell} (h : c.anchor = d.anchor) :
    c.loadingNode = d.loadingNode := by
  have h2 := congrArg Cell.loadingNode h
  simpa [Cell.anchor] using h2

theorem anchor_errorNode {c d : Cell} (h : c.anchor = d.anchor) :
    c.errorNode = d.errorNode := by
  have h2 := congrArg Cell.errorNode h
  simpa [Cell.anchor] using h2

end BubbleReactivity

namespace BubbleReactivity

/-! ### Result inversion lemmas -/

theorem andThen_done {r : Res} {k : St → Res} {o : Out} {st' : St}
    (h : Res.andThen r k = .done o st') :
    ∃ o1 s1, r = .done o1 s1 ∧ k s1 = .done o st' := by
  cases r with
  | fuelOut => simp [Res.andThen] at h
  | threw e s => simp [Res.andThen] at h
  | done o1 s1 => exact ⟨o1, s1, rfl, h⟩

theorem andThenB_done {r : Res} {k : Bool → St → Res} {o : Out} {st' : St}
    (h : Res.andThenB r k = .done o st') :
    ∃ o1 s1, r = .done o1 s1 ∧ k o1.getB s1 = .done o st' := by
  cases r with
  | fuelOut => simp [Res.andThenB] at h
  | threw e s => simp [Res.andThenB] at h
  | done o1 s1 => exact ⟨o1, s1, rfl, h⟩

theorem andThenV_done {r : Res} {k : V → St → Res} {o : Out} {st' : St}
    (h : Res.andThenV r k = .done o st') :
    ∃ o1 s1, r = .done o1 s1 ∧ k o1.getV s1 = .done o st' := by
  cases r with
  | fuelOut => simp [Res.andThenV] at h
  | threw e s => simp [Res.andThenV] at h
  | done o1 s1 => exact ⟨o1, s1, rfl, h⟩

theorem FrB_len {st st' : St} (h : FrB st st') : st'.cells.length = st.cells.length := h.1

theorem FrB.anchors {st st' : St} (h : FrB st st') :
    ∀ j, (getCell st' j).anchor = (getCell st j).anchor := h.2.2.2.2.2.2.2.2

theorem FrA_len {st st' : St} (h : FrA st st') : st'.cells.length = st.cells.length := h.1

/-- Extract the frame of a notify-family call that completed. -/
theorem aux_done_FrB {fuel : Nat} {q : Req} {st st' : St} {o : Out} (hq : isAux q = true)
    (h : engine fuel q st = .done o st') : FrB st st' :=
  engine_FrB fuel q st hq st' (by rw [h]; rfl)

/-! ### The write operation: promise field after completion -/

theorem write_promise {fuel : Nat} {i : Nat} {w : WVal} {st : St} {o : Out} {st' : St}
    (hi : i < st.cells.length)
    (h : engine (fuel + 1) (.write i w) st = .done o st') :
    (getCell st' i).promise = (match w with | .plain _ => none | .fut p => some p) := by
  cases w with
  | fut p =>
    simp only [engine] at h
    rcases andThen_done h with ⟨o1, s1, h1, h2⟩
    injection h2 with h2o h2s
    subst h2s
    have hlen : s1.cells.length = st.cells.length := by
      revert h1
      split
      · split
        · intro h1
          exact (FrB_len (aux_done_FrB (by rfl) h1)).trans (by simp)
        · intro h1; injection h1 with _ h1s; subst h1s; simp
      · intro h1; injection h1 with _ h1s; subst h1s; simp
    rw [getCell_modCell_self _ _ _ (by rw [hlen]; exact hi)]
  | plain v =>
    simp only [engine] at h
    split at h
    · rcases andThen_done h with ⟨o1, s1, h1, h2⟩
      rcases andThen_done h2 with ⟨o2, s2, h3, h4⟩
      rcases andThen_done h4 with ⟨o3, s3, h5, h6⟩
      injection h6 with h6o h6s
      subst h6s
      -- chase the promise through the chain
      have hp0 : (getCell (modCell st i (fun x => { x with promise := none })) i).promise
          = none := by
        rw [getCell_modCell_self _ _ _ hi]
      have hlen0 : (modCell st i (fun x => { x with promise := none })).cells.length
          = st.cells.length := by simp
      have hp1 : (getCell (modCell (modCell st i (fun x => { x with promise := none })) i
          (fun x => { x with value := v })) i).promise = none := by
        rw [getCell_modCell_self _ _ _ (by rw [hlen0]; exact hi)]
        exact hp0
      have hfrb1 : (getCell s1 i).promise = none := by
        revert h1
        split
        · split
          · intro h1
            rw [anchor_promise ((aux_done_FrB (by rfl) h1).anchors i)]
            exact hp1
          · intro h1; injection h1 with _ h1s; subst h1s; exact hp1
        · intro h1; injection h1 with _ h1s; subst h1s; exact hp1
      have hlen1 : s1.cells.length = st.cells.length := by
        revert h1
        split
        · split
          · intro h1
            exact (FrB_len (aux_done_FrB (by rfl) h1)).trans (by simp)
          · intro h1; injection h1 with _ h1s; subst h1s; simp
        · intro h1; injection h1 with _ h1s; subst h1s; simp
      have hp2 : (getCell (modCell s1 i (fun x => { x with flagAsync := false })) i).promise
          = none := by
        rw [getCell_modCell_self _ _ _ (by rw [hlen1]; exact hi)]
        exact hfrb1
      have hlen2 : (modCell s1 i (fun x => { x with flagAsync := false })).cells.length
          = st.cells.length := by simpa using hlen1
      have hfrb2 : (getCell s2 i).promise = none := by
        revert h3
        split
        · split
          · intro h3
            rw [anchor_promise ((aux_done_FrB (by rfl) h3).anchors i)]
            exact hp2
          · intro h3; injection h3 with _ h3s; subst h3s; exact hp2
        · intro h3; injection h3 with _ h3s; subst h3s; exact hp2
      have hlen3 : s2.cells.length = st.cells.length := by
        revert h3
        split
        · split
          · intro h3
            exact (FrB_len (aux_done_FrB (by rfl) h3)).trans hlen2
          · intro h3; injection h3 with _ h3s; subst h3s; exact hlen2
        · intro h3; injection h3 with _ h3s; subst h3s; exact hlen2
      have hp3 : (getCell (modCell s2 i (fun x => { x with flagError := false })) i).promise
          = none := by
        rw [getCell_modCell_self _ _ _ (by rw [hlen3]; exact hi)]
        exact hfrb2
      rw [anchor_promise ((aux_done_FrB (by rfl) h5).anchors i)]
      exact hp3
    · injection h with ho hs
      subst hs
      rw [getCell_modCell_self _ _ _ hi]

end BubbleReactivity

namespace BubbleReactivity

/-- **C3** For every cell whose current value `prev` is not a future and every
non-future value `v` such that the cell's equals predicate holds on
`(prev, v)`, `write(v)` leaves the cell's value, its ERROR/WAITING/ASYNC
flags, and its state unchanged, and notifies no observer: every observer's
state field is unchanged afterwards.  (`Computation.write`, core.ts 186-213:
the guarded branch is skipped entirely; only `this._promise = null` runs.) -/
theorem write_equal_skip_frame (fuel : Nat) (st : St) (i : Nat) (eq : V → V → Bool) (v : V)
    (hi : i < st.cells.length)
    (heq : (getCell st i).equals = .eqFun eq)
    (hskip : eq (getCell st i).value v = true) :
    engine (fuel + 1) (.write i (.plain v)) st =
      .done (.v (getCell st i).value) (modCell st i (fun x => { x with promise := none })) ∧
    ∀ j, (getCell (modCell st i (fun x => { x with promise := none })) j).value
            = (getCell st j).value ∧
         (getCell (modCell st i (fun x => { x with promise := none })) j).flagError
            = (getCell st j).flagError ∧
         (getCell (modCell st i (fun x => { x with promise := none })) j).flagWaiting
            = (getCell st j).flagWaiting ∧
         (getCell (modCell st i (fun x => { x with promise := none })) j).flagAsync
            = (getCell st j).flagAsync ∧
         (getCell (modCell st i (fun x => { x with promise := none })) j).state
            = (getCell st j).state ∧
         (getCell (modCell st i (fun x => { x with promise := none })) j).observers
            = (getCell st j).observers := by
  constructor
  · have hget := getCell_modCell_self st i (fun x => { x with promise := none }) hi
    simp only [engine, hget, heq]
    have hv : ({ getCell st i with promise := none } : Cell).value = (getCell st i).value := rfl
    rw [hv, hskip]
    simp
  · intro j
    rcases getCell_modCell_cases st i j (fun x => { x with promise := none }) with h | ⟨_, h⟩
    · rw [h]; exact ⟨rfl, rfl, rfl, rfl, rfl, rfl⟩
    · rw [h]; exact ⟨rfl, rfl, rfl, rfl, rfl, rfl⟩

/-- Witness for C3 at a concrete input: one cell holding `10` with the default
equality; writing `10` again is a no-op apart from clearing `_promise`. -/
theorem write_equal_skip_frame_witness :
    engine 1 (.write 0 (.plain (.intV 10))) c3St =
      .done (.v (getCell c3St 0).value)
        (modCell c3St 0 (fun x => { x with promise := none })) :=
  (write_equal_skip_frame 0 c3St 0 isEqual (.intV 10) (by decide) rfl rfl).1

/-- **C2** For every cell, if `write` is called with a pending future `P1` and
then with a different value or future before `P1` settles, the later
resolution or rejection of `P1` changes nothing (the settle continuations are
guarded by `this._promise === value`, core.ts 192-198, and the stored
`_promise` has been superseded); only the currently selected future's
settlement is applied (it performs the `write`). -/
theorem stale_future_ignored (fuel : Nat) (st st1 st2 : St) (i p1 : Nat) (x : WVal)
    (o1 o2 : Out) (v e : V)
    (hi : i < st.cells.length)
    (h1 : engine (fuel + 1) (.write i (.fut p1)) st = .done o1 st1)
    (h2 : engine (fuel + 1) (.write i x) st1 = .done o2 st2)
    (hx : x ≠ .fut p1) :
    (engine (fuel + 2) (.settleOk i p1 v) st2 = .done .unit st2 ∧
     engine (fuel + 2) (.settleErr i p1 e) st2 = .done .unit st2) ∧
    (∀ p, (getCell st2 i).promise = some p →
       engine (fuel + 2) (.settleOk i p v) st2 = engine (fuel + 1) (.write i (.plain v)) st2) := by
  have hlen1 : st1.cells.length = st.cells.length :=
    FrA_len (engine_FrA (fuel + 1) (.write i (.fut p1)) st st1 (by rw [h1]; rfl))
  have hne : (getCell st2 i).promise ≠ some p1 := by
    cases x with
    | plain v0 =>
      have hp2 := write_promise (by rw [hlen1]; exact hi) h2
      rw [hp2]
      simp
    | fut p2 =>
      have hp2 := write_promise (by rw [hlen1]; exact hi) h2
      rw [hp2]
      intro hc
      injection hc with hc
      exact hx (by rw [hc])
  constructor
  · constructor
    · show engine (fuel + 1 + 1) (.settleOk i p1 v) st2 = .done .unit st2
      simp only [engine]
      rw [if_neg hne]
    · show engine (fuel + 1 + 1) (.settleErr i p1 e) st2 = .done .unit st2
      simp only [engine]
      rw [if_neg hne]
  · intro p hp
    show engine (fuel + 1 + 1) (.settleOk i p v) st2 = engine (fuel + 1) (.write i (.plain v)) st2
    simp only [engine]
    rw [if_pos hp]

/-- Witness for C2 at a concrete input: future token 1 written, then future
token 2; settling token 1 is a no-op, settling token 2 applies. -/
theorem stale_future_ignored_witness :
    (engine 4 (.settleOk 0 1 (.intV 99)) c2St2 = .done .unit c2St2 ∧
     engine 4 (.settleErr 0 1 (.errObj 5)) c2St2 = .done .unit c2St2) ∧
    engine 4 (.settleOk 0 2 (.intV 42)) c2St2 = engine 3 (.write 0 (.plain (.intV 42))) c2St2 :=
  ⟨(stale_future_ignored 2 c2St c2St1 c2St2 0 1 (.fut 2)
      (resOut (engine 3 (.write 0 (.fut 1)) c2St))
      (resOut (engine 3 (.write 0 (.fut 2)) c2St1)) (.intV 99) (.errObj 5)
      (by decide) rfl rfl (by decide)).1,
   (stale_future_ignored 2 c2St c2St1 c2St2 0 1 (.fut 2)
      (resOut (engine 3 (.write 0 (.fut 1)) c2St))
      (resOut (engine 3 (.write 0 (.fut 2)) c2St1)) (.intV 42) (.errObj 5)
      (by decide) rfl rfl (by decide)).2 2 rfl⟩

end BubbleReactivity

namespace BubbleReactivity

/-! ### State monotonicity of the notify family -/

theorem aux_state_facts : ∀ fuel : Nat,
    (∀ q st st' o, isAux q = true → engine fuel q st = .done o st' →
       ∀ j, (getCell st j).state ≤ (getCell st' j).state) ∧
    (∀ i s st st' o, engine fuel (.notify i s) st = .done o st' →
       i < st.cells.length → s ≤ (getCell st' i).state) ∧
    (∀ os s st st' o, engine fuel (.notifyList os s) st = .done o st' →
       ∀ x ∈ os, x < st.cells.length → s ≤ (getCell st' x).state) := by
  intro fuel
  induction fuel with
  | zero =>
    refine ⟨?_, ?_, ?_⟩
    · intro q st st' o _ h; simp [engine] at h
    · intro i s st st' o h; simp [engine] at h
    · intro os s st st' o h; simp [engine] at h
  | succ fuel IH =>
    obtain ⟨IHm, IHn, IHl⟩ := IH
    have state_mod_self : ∀ (st : St) (i s : Nat), i < st.cells.length →
        (getCell (modCell st i (fun x => { x with state := s })) i).state = s := by
      intro st i s hi
      rw [getCell_modCell_self _ _ _ hi]
    have state_mod_other : ∀ (st : St) (i s j : Nat),
        (getCell (modCell st i (fun x => { x with state := s })) j).state = s ∨
        (getCell (modCell st i (fun x => { x with state := s })) j).state
          = (getCell st j).state := by
      intro st i s j
      rcases getCell_modCell_cases st i j (fun x => { x with state := s }) with h | ⟨_, h⟩
      · right; rw [h]
      · left; rw [h]
    have hmono : ∀ q st st' o, isAux q = true → engine (fuel + 1) q st = .done o st' →
        ∀ j, (getCell st j).state ≤ (getCell st' j).state := by
      intro q st st' o hq h j
      cases q with
      | notify i s =>
        simp only [engine] at h
        split at h
        · injection h with _ hs; subst hs; exact Nat.le_refl _
        · rename_i hlt
          rcases andThen_done h with ⟨o1, s1, h1, h2⟩
          rcases andThen_done h2 with ⟨o2, s2, h3, h4⟩
          have m1 := IHm _ _ _ _ (by rfl) h1
          have m2 := IHm _ _ _ _ (by rfl) h3
          have m3 := IHm _ _ _ _ (by rfl) h4
          have hstep : (getCell st j).state
              ≤ (getCell (modCell st i (fun x => { x with state := s })) j).state := by
            rcases getCell_modCell_cases st i j (fun x => { x with state := s }) with
              hy | ⟨hji, hy⟩
            · rw [hy]
            · subst hji
              rw [hy]
              exact Nat.le_of_lt (Nat.lt_of_not_le hlt)
          exact Nat.le_trans hstep (Nat.le_trans (m1 j) (Nat.le_trans (m2 j) (m3 j)))
      | notifyList os s =>
        cases os with
        | nil =>
          simp only [engine] at h
          injection h with _ hs; subst hs; exact Nat.le_refl _
        | cons o2 rest =>
          simp only [engine] at h
          rcases andThen_done h with ⟨o1, s1, h1, h2⟩
          exact Nat.le_trans (IHm _ _ _ _ (by rfl) h1 j) (IHm _ _ _ _ (by rfl) h2 j)
      | setLoadingLoop os b =>
        cases os with
        | nil =>
          simp only [engine] at h
          injection h with _ hs; subst hs; exact Nat.le_refl _
        | cons o2 rest =>
          simp only [engine] at h
          rcases andThen_done h with ⟨o1, s1, h1, h2⟩
          refine Nat.le_trans ?_ (IHm _ _ _ _ (by rfl) h2 j)
          revert h1
          split
          · intro h1; exact IHm _ _ _ _ (by rfl) h1 j
          · intro h1; exact IHm _ _ _ _ (by rfl) h1 j
      | loadingSet i b =>
        simp only [engine] at h
        rcases andThen_done h with ⟨o1, s1, h1, h2⟩
        exact Nat.le_trans (IHm _ _ _ _ (by rfl) h1 j) (IHm _ _ _ _ (by rfl) h2 j)
      | errorSet i =>
        simp only [engine] at h
        exact IHm _ _ _ _ (by rfl) h j
      | setLoading i b =>
        simp only [engine] at h
        rcases andThen_done h with ⟨o1, s1, h1, h2⟩
        injection h2 with _ hs
        subst hs
        have hfin : (getCell (modCell s1 i (fun x => { x with flagWaiting := b })) j).state
            = (getCell s1 j).state := by
          rcases getCell_modCell_cases s1 i j (fun x => { x with flagWaiting := b }) with
            hx | ⟨_, hx⟩
          · rw [hx]
          · rw [hx]
        rw [hfin]
        revert h1
        split
        · split
          · intro h1; exact IHm _ _ _ _ (by rfl) h1 j
          · intro h1; injection h1 with _ hs1; subst hs1; exact Nat.le_refl _
        · intro h1; injection h1 with _ hs1; subst hs1; exact Nat.le_refl _
      | setError i e => exact absurd hq (by simp [isAux])
      | write i w => exact absurd hq (by simp [isAux])
      | read i => exact absurd hq (by simp [isAux])
      | updateIfNecessary i => exact absurd hq (by simp [isAux])
      | checkSources i rem anyLoading => exact absurd hq (by simp [isAux])
      | update i => exact absurd hq (by simp [isAux])
      | computeRun i => exact absurd hq (by simp [isAux])
      | evalReads rem acc => exact absurd hq (by simp [isAux])
      | settleOk i p v => exact absurd hq (by simp [isAux])
      | settleErr i p e => exact absurd hq (by simp [isAux])
      | dispose i self => exact absurd hq (by simp [isAux])
      | disposeChildren i cur => exact absurd hq (by simp [isAux])
      | cleanup i => exact absurd hq (by simp [isAux])
    refine ⟨hmono, ?_, ?_⟩
    · -- notify sets the target state to at least `s`
      intro i s st st' o h hi
      simp only [engine] at h
      split at h
      · rename_i hle
        injection h with _ hs; subst hs; exact hle
      · rcases andThen_done h with ⟨o1, s1, h1, h2⟩
        rcases andThen_done h2 with ⟨o2, s2, h3, h4⟩
        have m1 := IHm _ _ _ _ (by rfl) h1 i
        have m2 := IHm _ _ _ _ (by rfl) h3 i
        have m3 := IHm _ _ _ _ (by rfl) h4 i
        rw [state_mod_self st i s hi] at m1
        exact Nat.le_trans m1 (Nat.le_trans m2 m3)
    · -- every element of a notified list ends at state at least `s`
      intro os s st st' o h x hx hxlen
      cases os with
      | nil => cases hx
      | cons o2 rest =>
        simp only [engine] at h
        rcases andThen_done h with ⟨o1, s1, h1, h2⟩
        rcases List.mem_cons.mp hx with hx2 | hx2
        · subst hx2
          exact Nat.le_trans (IHn _ _ _ _ _ h1 hxlen) (IHm _ _ _ _ (by rfl) h2 x)
        · have hlen1 : s1.cells.length = st.cells.length :=
            FrB_len (aux_done_FrB (by rfl) h1)
          exact IHl _ _ _ _ _ h2 x hx2 (by rw [hlen1]; exact hxlen)

end BubbleReactivity

namespace BubbleReactivity

/-! ### Small-step execution lemmas -/

theorem track_cells (st : St) (r : SrcRef) : (track st r).cells = st.cells := by
  unfold track
  repeat first | rfl | split

theorem track_getCell (st : St) (r : SrcRef) (j : Nat) :
    getCell (track st r) j = getCell st j := by
  unfold getCell
  rw [track_cells]

theorem cleanup_noop (k : Nat) (s : St) (i : Nat)
    (h1 : (getCell s i).nextSib = none) (h2 : (getCell s i).disposal = []) :
    engine (k + 1) (.cleanup i) s = .done .unit s := by
  simp only [engine, h1, h2]
  simp [Res.andThen, h2]

theorem computeRun_nullary_raise (k : Nat) (s : St) (i : Nat) (f : List V → CompRes) (e : V)
    (hc : (getCell s i).compute = some ([], f)) (hf : f [] = .raise e)
    (hnr : e ≠ .notReadyErr) :
    engine (k + 2) (.computeRun i) s = .threw e s := by
  have hc2 : (getCell { s with currentOwner := some i, currentObserver := some i } i).compute
      = some ([], f) := hc
  simp only [engine, hc2, Out.getVL, hf]
  rw [if_neg hnr]

theorem setError_nodeless (k : Nat) (s : St) (i : Nat) (e : V)
    (he : (getCell s i).errorNode = none) :
    engine (k + 1) (.setError i e) s
      = .done .unit (modCell s i (fun x => { x with value := e, flagError := true })) := by
  simp only [engine, he]
  split <;> simp [Res.andThen]

theorem update_raise_sets_error (k : Nat) (s s0 : St) (i : Nat) (e : V)
    (hz : s0 = { s with newSources := none, newSourcesIndex := 0, newLoadingState := false })
    (hcl : engine k (.cleanup i) s0 = .done .unit s0)
    (hcr : engine k (.computeRun i) s0 = .threw e s0)
    (hse : engine k (.setError i e) s0
      = .done .unit (modCell s0 i (fun x => { x with value := e, flagError := true }))) :
    engine (k + 1) (.update i) s
      = .done .unit (modCell s0 i (fun x => { x with value := e, flagError := true })) := by
  subst hz
  simp only [engine, hcl, Res.andThen, hcr, hse]

theorem uiN_dirty (k : Nat) (s sU : St) (i : Nat)
    (hst : (getCell s i).state = STATE_DIRTY)
    (hup : engine k (.update i) s = .done .unit sU) :
    engine (k + 1) (.updateIfNecessary i) s
      = .done (.b (isLoadingOf (getCell sU i))) sU := by
  simp only [engine, hst, STATE_DISPOSED, STATE_CLEAN, STATE_CHECK, STATE_DIRTY]
  norm_num
  simp only [Res.andThenB, Out.getB]
  rw [if_pos (show (getCell s i).state = 2 from hst)]
  simp only [hup, Res.andThen]

theorem read_error_throw (k : Nat) (s sU : St) (i : Nat) (oB : Out)
    (hcp : (getCell s i).compute ≠ none)
    (huiN : engine k (.updateIfNecessary i) s = .done oB sU)
    (hfe : (getCell sU i).flagError = true) :
    ∃ st', engine (k + 1) (.read i) s = .threw (getCell sU i).value st' := by
  rcases hcc : (getCell s i).compute with _ | cf
  · exact absurd hcc hcp
  simp only [engine, hcc, huiN, Res.andThen]
  have hfe2 : (getCell (track sU (.comp i)) i).flagError = true := by
    rw [track_getCell]; exact hfe
  have hv2 : (getCell (track sU (.comp i)) i).value = (getCell sU i).value := by
    rw [track_getCell]
  rw [hfe2, hv2]
  exact ⟨_, if_pos rfl⟩

/-- Inversion for `setError`: a completed call always ends by storing the
payload as the value and raising the error flag (core.ts 236-240). -/
theorem setError_done_inv (k : Nat) (s s2 : St) (i : Nat) (e : V) (o : Out)
    (h : engine (k + 1) (.setError i e) s = .done o s2) :
    ∃ s', s'.cells.length = s.cells.length ∧
      s2 = modCell s' i (fun x => { x with value := e, flagError := true }) := by
  simp only [engine] at h
  rcases andThen_done h with ⟨o1, s1, h1, h2⟩
  injection h2 with h2o h2s
  refine ⟨s1, ?_, h2s.symm⟩
  split at h1
  · split at h1
    · exact ((engine_FrA k (.errorSet i) s) s1 (by rw [h1]; rfl)).1
    · injection h1 with h1o h1s; rw [← h1s]
  · injection h1 with h1o h1s; rw [← h1s]

/-- If the compute body of `update` throws (and the exception is not absorbed
as NotReady), a completed `update` stores the payload with the error flag. -/
theorem update_threw_latch (k : Nat) (s sc s1 s2 : St) (i : Nat) (e : V) (o : Out)
    (hi : i < s1.cells.length)
    (hcl : engine k (.cleanup i)
      { s with newSources := none, newSourcesIndex := 0, newLoadingState := false }
      = .done .unit sc)
    (hcr : engine k (.computeRun i) sc = .threw e s1)
    (hup : engine (k + 1) (.update i) s = .done o s2) :
    (getCell s2 i).value = e ∧ (getCell s2 i).flagError = true := by
  simp only [engine, hcl, Res.andThen, hcr] at hup
  cases k with
  | zero => simp [engine, Res.andThen] at hup
  | succ k =>
    rcases andThen_done hup with ⟨o1, sE, hE, h2⟩
    injection h2 with h2o h2s
    rcases setError_done_inv k s1 sE i e o1 hE with ⟨s0, hlen, hmod⟩
    rw [← h2s, hmod, getCell_modCell_self _ _ _ (by rw [hlen]; exact hi)]
    exact ⟨rfl, rfl⟩

/-- The committed branch of a plain `write` (core.ts 199-210): the error flag
is cleared, and if the error flag was set and an error node allocated, its
observers are notified at least DIRTY. -/
theorem write_commit_chain (k : Nat) (s s3 : St) (i : Nat) (v : V) (o : Out)
    (hi : i < s.cells.length)
    (hw : (let st1 := modCell (modCell s i (fun x => { x with promise := none })) i
              (fun x => { x with value := v })
           Res.andThen
             (if (getCell st1 i).flagWaiting = false then
                match (getCell st1 i).loadingNode with
                | some _ => engine k (.loadingSet i false) st1
                | none => .done .unit st1
              else .done .unit st1)
             (fun st2 =>
               let st3 := modCell st2 i (fun x => { x with flagAsync := false })
               Res.andThen
                 (if (getCell st3 i).flagError then
                    match (getCell st3 i).errorNode with
                    | some _ => engine k (.errorSet i) st3
                    | none => .done .unit st3
                  else .done .unit st3)
                 (fun st4 =>
                   let st5 := modCell st4 i (fun x => { x with flagError := false })
                   Res.andThen
                     (engine k
                        (.notifyList ((getCell st5 i).observers.getD []) STATE_DIRTY) st5)
                     (fun st6 => .done (.v (getCell st6 i).value) st6)))) = .done o s3) :
    (getCell s3 i).flagError = false ∧
      ∀ x ∈ (getCell s i).errorNode.getD [], x < s.cells.length →
        (getCell s i).flagError = true → STATE_DIRTY ≤ (getCell s3 x).state := by
  rcases andThen_done hw with ⟨oA, s2, hA, hw2⟩
  rcases andThen_done hw2 with ⟨oB, s4, hB, hw3⟩
  rcases andThen_done hw3 with ⟨oN, s6, hN, hfin⟩
  injection hfin with hfo hfs
  have hFrB1 : FrB (modCell (modCell s i (fun x => { x with promise := none })) i
      (fun x => { x with value := v })) s2 := by
    split at hA
    · split at hA
      · exact aux_done_FrB (by rfl) hA
      · injection hA with hA1 hA2; rw [← hA2]; exact FrB_rfl
    · injection hA with hA1 hA2; rw [← hA2]; exact FrB_rfl
  have hlen2 : s2.cells.length = s.cells.length := by rw [FrB_len hFrB1]; simp
  have hfe3 : (getCell (modCell s2 i (fun x => { x with flagAsync := false })) i).flagError
      = (getCell s i).flagError := by
    rw [getCell_modCell_self _ _ _ (by rw [hlen2]; exact hi)]
    show (getCell s2 i).flagError = _
    rw [anchor_flagError (hFrB1.anchors i)]
    rw [getCell_modCell_self _ _ _ (by simpa using hi), getCell_modCell_self _ _ _ hi]
  have hen3 : (getCell (modCell s2 i (fun x => { x with flagAsync := false })) i).errorNode
      = (getCell s i).errorNode := by
    rw [getCell_modCell_self _ _ _ (by rw [hlen2]; exact hi)]
    show (getCell s2 i).errorNode = _
    rw [anchor_errorNode (hFrB1.anchors i)]
    rw [getCell_modCell_self _ _ _ (by simpa using hi), getCell_modCell_self _ _ _ hi]
  have hB' := hB
  have hFrB2 : FrB (modCell s2 i (fun x => { x with flagAsync := false })) s4 := by
    split at hB
    · split at hB
      · exact aux_done_FrB (by rfl) hB
      · injection hB with hB1 hB2; rw [← hB2]; exact FrB_rfl
    · injection hB with hB1 hB2; rw [← hB2]; exact FrB_rfl
  have hlen4 : s4.cells.length = s.cells.length := by
    rw [FrB_len hFrB2]; simp [hlen2]
  have hDirty : ∀ x ∈ (getCell s i).errorNode.getD [], x < s.cells.length →
      (getCell s i).flagError = true → STATE_DIRTY ≤ (getCell s4 x).state := by
    intro x hx hxlen hfeS
    rw [if_pos (show (getCell (modCell s2 i (fun x => { x with flagAsync := false }))
      i).flagError = true from hfe3.trans hfeS)] at hB'
    rcases hen : (getCell s i).errorNode with _ | l
    · rw [hen] at hx; simp at hx
    · simp only [hen3, hen] at hB'
      cases k with
      | zero => simp [engine] at hB'
      | succ k =>
        simp only [engine, hen3, hen, Option.getD] at hB'
        have hx2 : x ∈ l := by rw [hen] at hx; simpa using hx
        have := (aux_state_facts k).2.2 l STATE_DIRTY _ s4 oB hB' x hx2
          (by simp [hlen2]; exact hxlen)
        exact this
  have hFrB3 : FrB (modCell s4 i (fun x => { x with flagError := false })) s6 :=
    aux_done_FrB (by rfl) hN
  have hfa : (getCell s3 i).flagError = false := by
    rw [← hfs]
    rw [anchor_flagError (hFrB3.anchors i)]
    rw [getCell_modCell_self _ _ _ (by rw [hlen4]; exact hi)]
  refine ⟨hfa, ?_⟩
  intro x hx hxlen hfeS
  have hd4 := hDirty x hx hxlen hfeS
  have hst5 : (getCell (modCell s4 i (fun y => { y with flagError := false })) x).state
      = (getCell s4 x).state := by
    rcases eq_or_ne i x with rfl | hne
    · rw [getCell_modCell_self _ _ _ (by rw [hlen4]; exact hi)]
    · rw [getCell_modCell_ne _ _ _ _ hne]
  have hmono := (aux_state_facts k).1 _ _ _ _ (by rfl) hN x
  rw [← hfs]
  calc STATE_DIRTY ≤ (getCell s4 x).state := hd4
    _ = (getCell (modCell s4 i (fun y => { y with flagError := false })) x).state := hst5.symm
    _ ≤ (getCell s6 x).state := hmono

/-- A committed plain `write` on a cell clears the error flag and, when the
error flag was set, notifies the error node's observers at least DIRTY. -/
theorem write_plain_clears_error (k : Nat) (s s3 : St) (i : Nat) (v : V) (o : Out)
    (hi : i < s.cells.length)
    (hcom : (match (getCell s i).equals with
             | .eqFalse => true
             | .eqFun f => !(f (getCell s i).value v)) = true)
    (hw : engine (k + 1) (.write i (.plain v)) s = .done o s3) :
    (getCell s3 i).flagError = false ∧
      ∀ x ∈ (getCell s i).errorNode.getD [], x < s.cells.length →
        (getCell s i).flagError = true → STATE_DIRTY ≤ (getCell s3 x).state := by
  simp only [engine] at hw
  have he0 : (getCell (modCell s i (fun x => { x with promise := none })) i).equals
      = (getCell s i).equals := by rw [getCell_modCell_self _ _ _ hi]
  have hv0 : (getCell (modCell s i (fun x => { x with promise := none })) i).value
      = (getCell s i).value := by rw [getCell_modCell_self _ _ _ hi]
  rcases heq : (getCell s i).equals with _ | f
  · rw [heq] at hcom
    simp only [he0, hv0, heq, eq_self_iff_true, if_true] at hw
    exact write_commit_chain k s s3 i v o hi hw
  · rw [heq] at hcom
    simp only [he0, hv0, heq] at hw
    rw [if_pos hcom] at hw
    exact write_commit_chain k s s3 i v o hi hw

/-- **C4.** Any exception raised by a compute (other than NotReady, which is
absorbed inside `computeRun`) is captured: a completed `update` whose compute
body threw stores the payload as the cell's value with the ERROR flag set;
while the flag is set after validation, `read` re-throws the stored payload;
and a committed plain `write` clears the flag, notifying the error node's
observers at least DIRTY when the flag was set. -/
theorem compute_error_latched :
    (∀ k s sc s1 s2 i e o, i < s1.cells.length →
       engine k (.cleanup i)
         { s with newSources := none, newSourcesIndex := 0, newLoadingState := false }
         = .done .unit sc →
       engine k (.computeRun i) sc = .threw e s1 →
       engine (k + 1) (.update i) s = .done o s2 →
       (getCell s2 i).value = e ∧ (getCell s2 i).flagError = true) ∧
    (∀ k s sU i oB, (getCell s i).compute ≠ none →
       engine k (.updateIfNecessary i) s = .done oB sU →
       (getCell sU i).flagError = true →
       ∃ st', engine (k + 1) (.read i) s = .threw (getCell sU i).value st') ∧
    (∀ k s s3 i v o, i < s.cells.length →
       (match (getCell s i).equals with
        | .eqFalse => true
        | .eqFun f => !(f (getCell s i).value v)) = true →
       engine (k + 1) (.write i (.plain v)) s = .done o s3 →
       (getCell s3 i).flagError = false ∧
         ∀ x ∈ (getCell s i).errorNode.getD [], x < s.cells.length →
           (getCell s i).flagError = true → STATE_DIRTY ≤ (getCell s3 x).state) := by
  refine ⟨?_, ?_, ?_⟩
  · intro k s sc s1 s2 i e o hi hcl hcr hup
    exact update_threw_latch k s sc s1 s2 i e o hi hcl hcr hup
  · intro k s sU i oB hcp huiN hfe
    exact read_error_throw k s sU i oB hcp huiN hfe
  · intro k s s3 i v o hi hcom hw
    exact write_plain_clears_error k s s3 i v o hi hcom hw

/-- Concrete check of C4: a raising compute latches `errObj 7` on `update`,
`read` re-throws it, and a committed write clears the flag and dirties the
error node's observer. -/
theorem compute_error_latched_witness :
    ((getCell c4As2 0).value = .errObj 7 ∧ (getCell c4As2 0).flagError = true) ∧
    (∃ st', engine 2 (.read 0) c4B = .threw (getCell c4B 0).value st') ∧
    ((getCell c4Cs3 0).flagError = false ∧
      ∀ x ∈ (getCell c4C 0).errorNode.getD [], x < c4C.cells.length →
        (getCell c4C 0).flagError = true → STATE_DIRTY ≤ (getCell c4Cs3 x).state) :=
  ⟨compute_error_latched.1 2 c4A
      { c4A with newSources := none, newSourcesIndex := 0, newLoadingState := false }
      { c4A with newSources := none, newSourcesIndex := 0, newLoadingState := false }
      c4As2 0 (.errObj 7) .unit (by decide) rfl rfl rfl,
   compute_error_latched.2.1 1 c4B c4B 0 (.b false)
      (fun h => Option.noConfusion h) rfl rfl,
   compute_error_latched.2.2 5 c4C c4Cs3 0 (.intV 5)
      (resOut (engine 6 (.write 0 (.plain (.intV 5))) c4C)) (by decide) rfl rfl⟩

/-- `computeRun` absorbs NotReady for a nullary compute, returning the
previous value and the unchanged state (core.ts 505-509). -/
theorem computeRun_notReady_absorb (k : Nat) (st : St) (i : Nat) (f : List V → CompRes)
    (hc : (getCell st i).compute = some ([], f)) (hf : f [] = .raise .notReadyErr) :
    engine (k + 2) (.computeRun i) st = .done (.wv (.plain (getCell st i).value)) st := by
  have hc2 : (getCell { st with currentOwner := some i, currentObserver := some i } i).compute
      = some ([], f) := hc
  simp only [engine, hc2, Out.getVL, hf, if_true]
  rfl

/-- **C10.** `compute(owner, fn, observer)` restores the previous
`currentOwner` and `currentObserver` on every exit path: normal return, a
re-thrown exception, and a swallowed NotReady (where the previous value of
the observer is returned). -/
theorem compute_restores_globals :
    (∀ k i st o st', engine k (.computeRun i) st = .done o st' →
       st'.currentOwner = st.currentOwner ∧ st'.currentObserver = st.currentObserver) ∧
    (∀ k i st e st', engine k (.computeRun i) st = .threw e st' →
       st'.currentOwner = st.currentOwner ∧ st'.currentObserver = st.currentObserver) ∧
    (∀ k i st f, (getCell st i).compute = some ([], f) → f [] = .raise .notReadyErr →
       engine (k + 2) (.computeRun i) st = .done (.wv (.plain (getCell st i).value)) st) := by
  refine ⟨?_, ?_, ?_⟩
  · intro k i st o st' h
    have hfr := engine_FrA k (.computeRun i) st st' (by rw [h]; rfl)
    exact ⟨hfr.2.1, hfr.2.2.1⟩
  · intro k i st e st' h
    have hfr := engine_FrA k (.computeRun i) st st' (by rw [h]; rfl)
    exact ⟨hfr.2.1, hfr.2.2.1⟩
  · intro k i st f hc hf
    exact computeRun_notReady_absorb k st i f hc hf

/-- Concrete check of C10 on a returning, a throwing, and a NotReady compute. -/
theorem compute_restores_globals_witness :
    ((resSt (engine 2 (.computeRun 0) c10St) c10St).currentOwner = c10St.currentOwner ∧
     (resSt (engine 2 (.computeRun 0) c10St) c10St).currentObserver
       = c10St.currentObserver) ∧
    (c10ThrSt.currentOwner = c10Thr.currentOwner ∧
     c10ThrSt.currentObserver = c10Thr.currentObserver) ∧
    (engine 2 (.computeRun 0) c10NR = .done (.wv (.plain (getCell c10NR 0).value)) c10NR) :=
  ⟨compute_restores_globals.1 2 0 c10St
      (resOut (engine 2 (.computeRun 0) c10St)) (resSt (engine 2 (.computeRun 0) c10St) c10St)
      rfl,
   compute_restores_globals.2.1 4 1 c10Thr (.errObj 3) c10ThrSt rfl,
   compute_restores_globals.2.2 0 0 c10NR (fun _ => .raise .notReadyErr) rfl rfl⟩

/-- **C8 (amended).** A completed `update` either restores the saved scratch
and leaves the cell CLEAN (the success path, core.ts 436-441), or latched an
error: on the catch path (core.ts 431-435) the function returns right after
`setError` without restoring the scratch or changing the state. -/
theorem update_restores_scratch_or_error (k : Nat) (s s2 : St) (i : Nat) (o : Out)
    (hi : i < s.cells.length)
    (hup : engine (k + 1) (.update i) s = .done o s2) :
    (s2.newSources = s.newSources ∧ s2.newSourcesIndex = s.newSourcesIndex ∧
     s2.newLoadingState = s.newLoadingState ∧ (getCell s2 i).state = STATE_CLEAN)
    ∨ (getCell s2 i).flagError = true := by
  have hlen2 : s2.cells.length = s.cells.length :=
    FrA_len ((engine_FrA (k + 1) (.update i) s) s2 (by rw [hup]; rfl))
  simp only [engine] at hup
  split at hup
  · -- catch path: setError then return
    rcases andThen_done hup with ⟨oE, sE, hse, hfin⟩
    injection hfin with hfo hfs
    cases k with
    | zero => simp [engine] at hse
    | succ k =>
      rcases setError_done_inv k _ sE i _ oE hse with ⟨s0, hl0, hmod⟩
      have hl : i < s0.cells.length := by
        have h2 : sE.cells.length = s.cells.length := by rw [hfs]; exact hlen2
        rw [hmod] at h2
        simp at h2
        rw [h2]
        exact hi
      right
      rw [← hfs, hmod, getCell_modCell_self _ _ _ hl]
  · -- success path: restore scratch, set CLEAN
    rename_i o4 st4 heq
    injection hup with hfo hfs
    have hl : i < st4.cells.length := by
      have h2 := hlen2
      rw [← hfs] at h2
      simp at h2
      rw [h2]
      exact hi
    left
    rw [← hfs]
    refine ⟨rfl, rfl, rfl, ?_⟩
    rw [getCell_modCell_self]
    exact hl
  · exact Res.noConfusion hup

/-- Concrete check of the amended C8 on a successful update with saved
scratch index 5. -/
theorem update_restores_scratch_witness :
    (c8OkS2.newSources = c8Ok.newSources ∧ c8OkS2.newSourcesIndex = c8Ok.newSourcesIndex ∧
     c8OkS2.newLoadingState = c8Ok.newLoadingState ∧ (getCell c8OkS2 0).state = STATE_CLEAN)
    ∨ (getCell c8OkS2 0).flagError = true :=
  update_restores_scratch_or_error 3 c8Ok c8OkS2 0 .unit (by decide) rfl

/-- **C8 counterexample.** After the compute of cell 0 throws, `update`
completes but leaves the scratch index zeroed (5 before, 0 after) and the
cell's state DIRTY, not CLEAN; the claim's unconditional restore/CLEAN does
not hold on the catch path. -/
theorem update_scratch_not_restored_cex :
    engine 3 (.update 0) c8St = .done .unit c8s2 ∧
    c8St.newSourcesIndex = 5 ∧ c8s2.newSourcesIndex = 0 ∧
    (getCell c8s2 0).state = STATE_DIRTY ∧ STATE_DIRTY ≠ STATE_CLEAN :=
  ⟨rfl, rfl, rfl, rfl, by decide⟩

/-- Folding `track` over exactly the still-pending suffix of the observer's
previous sources only advances `newSourcesIndex` (the prefix-reuse path of
core.ts 371-382); no scratch list is allocated. -/
theorem track_prefix_fold : ∀ (rs : List SrcRef) (st : St) (ob : Nat) (l : List SrcRef),
    st.currentObserver = some ob → st.newSources = none →
    (getCell st ob).sources = some l → l.drop st.newSourcesIndex = rs →
    rs.foldl track st = { st with newSourcesIndex := st.newSourcesIndex + rs.length } := by
  intro rs
  induction rs with
  | nil =>
    intro st ob l hob hns hsrc hdrop
    simp [List.foldl]
  | cons r rs IH =>
    intro st ob l hob hns hsrc hdrop
    have hget : l.get? st.newSourcesIndex = some r := by
      have h0 := List.get?_drop l st.newSourcesIndex 0
      rw [hdrop] at h0
      simpa using h0.symm
    have htr : track st r = { st with newSourcesIndex := st.newSourcesIndex + 1 } := by
      simp only [track, hob, hns, hsrc]
      rw [if_pos hget]
    have hdrop2 : l.drop (st.newSourcesIndex + 1) = rs := by
      rw [← List.drop_drop, hdrop]
      rfl
    rw [List.foldl_cons, htr]
    rw [IH { st with newSourcesIndex := st.newSourcesIndex + 1 } ob l hob hns hsrc hdrop2]
    simp
    omega

/-- **C9.** A rerun that reads exactly the previous source sequence keeps the
prefix-reuse fast path throughout: the fold over `track` only bumps
`newSourcesIndex`, the subsequent `mergeSources` is the identity, the cell's
`sources` array is the very same list, and no cell's observers change. -/
theorem track_merge_stable (st : St) (ob : Nat) (l : List SrcRef)
    (hob : st.currentObserver = some ob) (hns : st.newSources = none)
    (hidx : st.newSourcesIndex = 0) (hsrc : (getCell st ob).sources = some l) :
    l.foldl track st = { st with newSourcesIndex := l.length } ∧
    mergeSources (l.foldl track st) ob = l.foldl track st ∧
    (getCell (mergeSources (l.foldl track st) ob) ob).sources = some l ∧
    ∀ j, (getCell (mergeSources (l.foldl track st) ob) j).observers
      = (getCell st j).observers := by
  have h1 : l.foldl track st = { st with newSourcesIndex := l.length } := by
    have := track_prefix_fold l st ob l hob hns hsrc (by rw [hidx]; simp)
    rw [this, hidx]
    simp
  have hsrc2 : (getCell { st with newSourcesIndex := l.length } ob).sources = some l := hsrc
  have hsrc3 : (getCell { st with newSources := none, newSourcesIndex := l.length } ob).sources
      = some l := hsrc
  have h2 : mergeSources { st with newSourcesIndex := l.length } ob
      = { st with newSourcesIndex := l.length } := by
    simp only [mergeSources, hns, hsrc3]
    rw [if_neg (lt_irrefl _)]
  refine ⟨h1, ?_, ?_, ?_⟩
  · rw [h1, h2]
  · rw [h1, h2]
    exact hsrc2
  · intro j
    rw [h1, h2]
    rfl

/-- Concrete check of C9: cell 1 re-reads its single previous source. -/
theorem track_merge_stable_witness :
    [SrcRef.comp 0].foldl track c9St
      = { c9St with newSourcesIndex := [SrcRef.comp 0].length } ∧
    mergeSources ([SrcRef.comp 0].foldl track c9St) 1 = [SrcRef.comp 0].foldl track c9St ∧
    (getCell (mergeSources ([SrcRef.comp 0].foldl track c9St) 1) 1).sources
      = some [SrcRef.comp 0] ∧
    ∀ j, (getCell (mergeSources ([SrcRef.comp 0].foldl track c9St) 1) j).observers
      = (getCell c9St j).observers :=
  track_merge_stable c9St 1 [SrcRef.comp 0] rfl rfl rfl rfl

/-! ### Frame of the dispose family -/

theorem FrD_rfl {st : St} : FrD st st := ⟨Eq.refl _, fun _ => Eq.refl _⟩

theorem FrD_tr {a b c : St} (h1 : FrD a b) (h2 : FrD b c) : FrD a c :=
  ⟨h2.1.trans h1.1, fun j => (h2.2 j).trans (h1.2 j)⟩

theorem FrD_modCell (st : St) (i : Nat) (f : Cell → Cell)
    (hf : ∀ c, (f c).dErase = c.dErase) : FrD st (modCell st i f) := by
  refine ⟨by simp, fun j => ?_⟩
  rcases eq_or_ne i j with rfl | hne
  · rcases Nat.lt_or_ge i st.cells.length with hlt | hge
    · rw [getCell_modCell_self _ _ _ hlt, hf]
    · have hc : (modCell st i f).cells = st.cells := by
        simp [modCell, List.set_eq_of_length_le hge]
      simp [getCell, hc]
  · rw [getCell_modCell_ne _ _ _ _ hne]

theorem FrD_mod_prevSib (st : St) (i : Nat) (p : Option Nat) :
    FrD st (modCell st i (fun x => { x with prevSib := p })) :=
  FrD_modCell st i (fun x => { x with prevSib := p }) (fun _ => rfl)

theorem FrD_mod_nextSib (st : St) (i : Nat) (q : Option Nat) :
    FrD st (modCell st i (fun x => { x with nextSib := q })) :=
  FrD_modCell st i (fun x => { x with nextSib := q }) (fun _ => rfl)

theorem FrD_mod_srcObs (st : St) (i : Nat) :
    FrD st (modCell st i (fun c => { c with sources := none, observers := none })) :=
  FrD_modCell st i (fun c => { c with sources := none, observers := none }) (fun _ => rfl)

theorem FrD_mod_observers (st : St) (i : Nat) (l : List Nat) :
    FrD st (modCell st i (fun c => { c with observers := some l })) :=
  FrD_modCell st i (fun c => { c with observers := some l }) (fun _ => rfl)

theorem FrD_mod_loadingNode (st : St) (i : Nat) (l : List Nat) :
    FrD st (modCell st i (fun c => { c with loadingNode := some l })) :=
  FrD_modCell st i (fun c => { c with loadingNode := some l }) (fun _ => rfl)

theorem FrD_mod_errorNode (st : St) (i : Nat) (l : List Nat) :
    FrD st (modCell st i (fun c => { c with errorNode := some l })) :=
  FrD_modCell st i (fun c => { c with errorNode := some l }) (fun _ => rfl)

theorem FrD_setRefObs (st : St) (r : SrcRef) (l : List Nat) : FrD st (setRefObs st r l) := by
  cases r with
  | comp i => exact FrD_mod_observers st i l
  | loadNode i => exact FrD_mod_loadingNode st i l
  | errNode i => exact FrD_mod_errorNode st i l

theorem FrD_removeFold (node : Nat) : ∀ (l : List SrcRef) (st : St),
    FrD st (l.foldl
      (fun s r =>
        match refObs s r with
        | none => s
        | some ol => setRefObs s r (removeOnce ol node)) st) := by
  intro l
  induction l with
  | nil => intro st; exact FrD_rfl
  | cons r rest IH =>
    intro st
    rw [List.foldl_cons]
    refine FrD_tr ?_ (IH _)
    split
    · exact FrD_rfl
    · exact FrD_setRefObs _ _ _

theorem FrD_removeSourceObservers (st : St) (node index : Nat) :
    FrD st (removeSourceObservers st node index) := by
  unfold removeSourceObservers
  split
  · exact FrD_rfl
  · exact FrD_removeFold node _ st

theorem FrD_disposeNode (st : St) (i : Nat) : FrD st (disposeNode st i) := by
  have h1 : FrD st (match (getCell st i).sources with
      | some _ => removeSourceObservers st i 0
      | none => st) := by
    split
    · exact FrD_removeSourceObservers _ _ _
    · exact FrD_rfl
  have h2 := FrD_tr h1 (FrD_mod_srcObs _ i)
  exact FrD_tr h2 ⟨rfl, fun j => rfl⟩

/-- The `dispose`/`disposeChildren` pair preserves every non-linkage field of
every cell (owner.ts 74-89 only unlinks and nulls observer arrays). -/
theorem engine_FrD : ∀ fuel : Nat,
    (∀ i self st, FrDv st (engine fuel (.dispose i self) st)) ∧
    (∀ i cur st, FrDv st (engine fuel (.disposeChildren i cur) st)) := by
  intro fuel
  induction fuel with
  | zero =>
    refine ⟨?_, ?_⟩
    · intro i self st st' h; simp [engine, Res.okSt] at h
    · intro i cur st st' h; simp [engine, Res.okSt] at h
  | succ fuel IH =>
    refine ⟨?_, ?_⟩
    · intro i self st
      simp only [engine]
      split
      · intro st' h
        injection h with h2
        rw [← h2]; exact FrD_rfl
      · split
        · rename_i o st1 heq
          intro st' h
          injection h with h2
          rw [← h2]
          have hd1 : FrD st st1 := IH.2 i _ st st1 (by rw [heq]; rfl)
          have hd2 : FrD st1 (if self then disposeNode st1 i else st1) := by
            split
            · exact FrD_disposeNode _ _
            · exact FrD_rfl
          have hd12 := FrD_tr hd1 hd2
          split <;> split <;>
            first
              | exact FrD_tr (FrD_tr hd12 (FrD_mod_prevSib _ _ _))
                  (FrD_mod_nextSib _ _ _)
              | exact FrD_tr hd12 (FrD_mod_prevSib _ _ _)
              | exact FrD_tr hd12 (FrD_mod_nextSib _ _ _)
              | exact hd12
        · exact IH.2 i _ st
    · intro i cur st
      cases cur with
      | none =>
        simp only [engine]
        intro st' h
        injection h with h2
        rw [← h2]; exact FrD_rfl
      | some cu =>
        simp only [engine]
        split
        · intro st' h
          rcases hr : engine fuel (.dispose cu true) st with _ | ⟨e, s1⟩ | ⟨o1, s1⟩
          · rw [hr] at h; simp [Res.andThen, Res.okSt] at h
          · rw [hr] at h
            simp only [Res.andThen, Res.okSt] at h
            injection h with h2
            rw [← h2]
            exact IH.1 cu true st s1 (by rw [hr]; rfl)
          · rw [hr] at h
            simp only [Res.andThen] at h
            exact FrD_tr (FrD_tr (IH.1 cu true st s1 (by rw [hr]; rfl))
              (FrD_disposeNode s1 cu)) (IH.2 i _ _ st' h)
        · intro st' h
          injection h with h2
          rw [← h2]; exact FrD_rfl

theorem dErase_state {c d : Cell} (h : c.dErase = d.dErase) : c.state = d.state := by
  have h2 := congrArg Cell.state h
  simpa [Cell.dErase] using h2

theorem dErase_value {c d : Cell} (h : c.dErase = d.dErase) : c.value = d.value := by
  have h2 := congrArg Cell.value h
  simpa [Cell.dErase] using h2

theorem dErase_flagError {c d : Cell} (h : c.dErase = d.dErase) :
    c.flagError = d.flagError := by
  have h2 := congrArg Cell.flagError h
  simpa [Cell.dErase] using h2

theorem dErase_disposal {c d : Cell} (h : c.dErase = d.dErase) :
    c.disposal = d.disposal := by
  have h2 := congrArg Cell.disposal h
  simpa [Cell.dErase] using h2

/-- `disposeNode` nulls the cell's `sources` and `observers` (core.ts 278-283). -/
theorem disposeNode_nulls (st : St) (i : Nat) (hi : i < st.cells.length) :
    (getCell (disposeNode st i) i).sources = none ∧
    (getCell (disposeNode st i) i).observers = none := by
  have hX : FrD st (match (getCell st i).sources with
      | some _ => removeSourceObservers st i 0
      | none => st) := by
    split
    · exact FrD_removeSourceObservers _ _ _
    · exact FrD_rfl
  have hiX : i < (match (getCell st i).sources with
      | some _ => removeSourceObservers st i 0
      | none => st).cells.length := by rw [hX.1]; exact hi
  show (getCell (modCell (match (getCell st i).sources with
        | some _ => removeSourceObservers st i 0
        | none => st) i (fun c => { c with sources := none, observers := none })) i).sources
        = none ∧
      (getCell (modCell (match (getCell st i).sources with
        | some _ => removeSourceObservers st i 0
        | none => st) i (fun c => { c with sources := none, observers := none })) i).observers
        = none
  rw [getCell_modCell_self _ _ _ hiX]
  exact ⟨rfl, rfl⟩

/-- `updateIfNecessary` raises "read of disposed" when the state field is
DISPOSED (core.ts 245-247). -/
theorem uiN_disposed (k : Nat) (st : St) (i : Nat)
    (hst : (getCell st i).state = STATE_DISPOSED) :
    engine (k + 1) (.updateIfNecessary i) st = .threw .disposedErr st := by
  simp only [engine, hst, STATE_DISPOSED, if_true]

/-- A `read` of a computed cell propagates the exception `updateIfNecessary`
throws. -/
theorem read_rethrow_of_uiN (k : Nat) (st sU : St) (i : Nat) (e : V)
    (hcp : (getCell st i).compute ≠ none)
    (huin : engine k (.updateIfNecessary i) st = .threw e sU) :
    engine (k + 1) (.read i) st = .threw e sU := by
  rcases hcc : (getCell st i).compute with _ | cf
  · exact absurd hcc hcp
  simp only [engine, hcc, huin, Res.andThen]

/-- A `read` of a leaf cell skips the disposed check entirely and returns the
stored value whenever no error is latched (core.ts 143-152). -/
theorem read_leaf_value (k : Nat) (st : St) (i : Nat)
    (hcp : (getCell st i).compute = none)
    (hfe : (getCell st i).flagError = false) :
    ∃ st', engine (k + 1) (.read i) st = .done (.v (getCell st i).value) st' := by
  simp only [engine, hcp, Res.andThen]
  have h1 : (getCell (track st (.comp i)) i).flagError = false := by
    rw [track_getCell]; exact hfe
  have h2 : (getCell (track st (.comp i)) i).value = (getCell st i).value := by
    rw [track_getCell]
  rw [h2, if_neg (by simp [h1])]
  exact ⟨_, rfl⟩

/-- **C5 (amended).** Dispose in this variant nulls a disposed cell's
`sources` and `observers` but never changes any cell's state, value, error
flag or disposal list — in particular it never marks the state DISPOSED, so a
subsequent `read` does not raise.  The "read of disposed" error arises only
for a computed cell whose state field is DISPOSED, and a leaf `read` never
consults the state at all. -/
theorem disposed_cells_frame :
    (∀ st i, i < st.cells.length →
       (getCell (disposeNode st i) i).sources = none ∧
       (getCell (disposeNode st i) i).observers = none) ∧
    (∀ k i self st o st', engine k (.dispose i self) st = .done o st' →
       ∀ j, (getCell st' j).state = (getCell st j).state ∧
            (getCell st' j).value = (getCell st j).value ∧
            (getCell st' j).flagError = (getCell st j).flagError ∧
            (getCell st' j).disposal = (getCell st j).disposal) ∧
    (∀ k st i, (getCell st i).compute ≠ none → (getCell st i).state = STATE_DISPOSED →
       engine (k + 2) (.read i) st = .threw .disposedErr st) ∧
    (∀ k st i, (getCell st i).compute = none → (getCell st i).flagError = false →
       ∃ st', engine (k + 1) (.read i) st = .done (.v (getCell st i).value) st') := by
  refine ⟨disposeNode_nulls, ?_, ?_, read_leaf_value⟩
  · intro k i self st o st' h j
    have hd := (engine_FrD k).1 i self st st' (by rw [h]; rfl)
    exact ⟨dErase_state (hd.2 j), dErase_value (hd.2 j), dErase_flagError (hd.2 j),
      dErase_disposal (hd.2 j)⟩
  · intro k st i hcp hst
    exact read_rethrow_of_uiN (k + 1) st st i .disposedErr hcp (uiN_disposed k st i hst)

/-- Concrete check of the amended C5 on a two-cell graph and on a cell whose
state field is DISPOSED. -/
theorem disposed_cells_frame_witness :
    ((getCell (disposeNode c5St 0) 0).sources = none ∧
     (getCell (disposeNode c5St 0) 0).observers = none) ∧
    (∀ j, (getCell c5s1 j).state = (getCell c5St j).state ∧
          (getCell c5s1 j).value = (getCell c5St j).value ∧
          (getCell c5s1 j).flagError = (getCell c5St j).flagError ∧
          (getCell c5s1 j).disposal = (getCell c5St j).disposal) ∧
    (engine 2 (.read 0) c5Disp = .threw .disposedErr c5Disp) ∧
    (∃ st', engine 2 (.read 0) c5s1 = .done (.v (getCell c5s1 0).value) st') :=
  ⟨disposed_cells_frame.1 c5St 0 (by decide),
   disposed_cells_frame.2.1 3 0 true c5St .unit c5s1 rfl,
   disposed_cells_frame.2.2.1 0 c5Disp 0 (fun h => Option.noConfusion h) rfl,
   disposed_cells_frame.2.2.2 1 c5s1 0 rfl rfl⟩

/-- **C5 counterexample.** `dispose(0, true)` runs `disposeNode` on cell 0
(ghost trace `[0]`), yet the cell's state stays CLEAN and a subsequent
`read(0)` returns the stored value `9` normally instead of raising a
"read of disposed" error. -/
theorem disposed_read_returns_cex :
    engine 3 (.dispose 0 true) c5St = .done .unit c5s1 ∧
    c5s1.dnTrace = [0] ∧
    (getCell c5s1 0).state = STATE_CLEAN ∧
    (getCell c5s1 0).sources = none ∧ (getCell c5s1 0).observers = none ∧
    engine 2 (.read 0) c5s1 = .done (.v (.intV 9)) c5s1 :=
  ⟨rfl, rfl, rfl, rfl, rfl, rfl⟩

/-- **C6.** Code-bug demonstration: disposing owner 0 (whose child 1 holds
the disposal callbacks 101, 102, 103 in registration order) dispose-traces
both cells but fires no disposal callback at all, and the callback list is
left intact; `Owner.disposeNode` (owner.ts 91) has an empty body, so
`dispose` never reaches `emptyDisposal`.  Moreover `emptyDisposal` itself
fires in forward registration order, not the reverse order the spec states. -/
theorem dispose_skips_disposal_bug :
    engine 6 (.dispose 0 true) c6St = .done .unit c6s1 ∧
    c6s1.dnTrace = [1, 1, 0] ∧
    c6s1.fired = [] ∧
    (getCell c6s1 1).disposal = [101, 102, 103] ∧
    (emptyDisposal c6s1 1).fired = [101, 102, 103] :=
  ⟨rfl, rfl, rfl, rfl, rfl⟩

/-! ### Counting argument for observer-edge removal (C7) -/

theorem modCell_oob (st : St) (i : Nat) (f : Cell → Cell)
    (h : st.cells.length ≤ i) : modCell st i f = st := by
  simp [modCell, List.set_eq_of_length_le h]

/-- Removing one occurrence by swap-pop: the removed element's count drops by
one, all other counts are unchanged. -/
theorem count_removeOnce (l : List Nat) (x : Nat) (hx : x ∈ l) :
    (removeOnce l x).count x = l.count x - 1 ∧
    ∀ y, y ≠ x → (removeOnce l x).count y = l.count y := by
  have hfi : l.findIdx (fun y => y = x) < l.length :=
    List.findIdx_lt_length_of_exists ⟨x, hx, by simp⟩
  have hget : l.get ⟨l.findIdx (fun y => y = x), hfi⟩ = x := by
    have h2 := @List.findIdx_get _ (fun y => y = x) l hfi
    simpa using h2
  have hdec : l = l.take (l.findIdx (fun y => y = x)) ++
      x :: l.drop (l.findIdx (fun y => y = x) + 1) := by
    conv_lhs => rw [← List.take_append_drop (l.findIdx (fun y => y = x)) l]
    rw [List.drop_eq_get_cons hfi, hget]
  have hset : l.set (l.findIdx (fun y => y = x)) (l.getLast?.getD 0)
      = l.take (l.findIdx (fun y => y = x)) ++
        (l.getLast?.getD 0) :: l.drop (l.findIdx (fun y => y = x) + 1) := by
    rw [List.set_eq_take_append_cons_drop, if_pos hfi]
  have hro : removeOnce l x = (l.take (l.findIdx (fun y => y = x)) ++
      (l.getLast?.getD 0) :: l.drop (l.findIdx (fun y => y = x) + 1)).dropLast := by
    rw [removeOnce, if_pos hfi, hset]
  rcases (l.drop (l.findIdx (fun y => y = x) + 1)).eq_nil_or_concat with hD | ⟨D', b, hD⟩
  · have hlast : l.getLast?.getD 0 = x := by
      conv_lhs => rw [hdec, hD]
      simp [List.getLast?_concat]
    rw [hro, hD, hlast, List.dropLast_concat]
    constructor
    · conv_rhs => rw [hdec, hD]
      simp [List.count_append]
    · intro y hy
      conv_rhs => rw [hdec, hD]
      simp [List.count_append, List.count_cons, Ne.symm hy]
  · have hbig : l.take (l.findIdx (fun y => y = x)) ++ x :: (D'.concat b)
        = (l.take (l.findIdx (fun y => y = x)) ++ x :: D') ++ [b] := by
      simp
    have h3 : l = (l.take (l.findIdx (fun y => y = x)) ++ x :: D') ++ [b] := by
      conv_lhs => rw [hdec, hD]
      simp
    have hlast : l.getLast?.getD 0 = b := by
      conv_lhs => rw [h3]
      rw [List.getLast?_concat]
      rfl
    have hbig2 : l.take (l.findIdx (fun y => y = x)) ++ b :: (D'.concat b)
        = (l.take (l.findIdx (fun y => y = x)) ++ b :: D') ++ [b] := by
      simp
    have hdl : (l.take (l.findIdx (fun y => y = x)) ++
        b :: l.drop (l.findIdx (fun y => y = x) + 1)).dropLast
        = l.take (l.findIdx (fun y => y = x)) ++ b :: D' := by
      rw [hD, hbig2, List.dropLast_concat]
    rw [hro, hlast, hdl]
    constructor
    · conv_rhs => rw [hdec, hD]
      by_cases hbx : b = x
      · simp [List.count_append, List.count_cons, hbx]
      · simp [List.count_append, List.count_cons, hbx]
    · intro y hy
      conv_rhs => rw [hdec, hD]
      by_cases hby : b = y
      · simp [List.count_append, List.count_cons, hby, Ne.symm hy]
      · simp [List.count_append, List.count_cons, hby, Ne.symm hy]

theorem refObs_some_lt (st : St) (r : SrcRef) (l : List Nat)
    (h : refObs st r = some l) : srcOrigin r < st.cells.length := by
  by_contra hge
  rw [not_lt] at hge
  have hnone : st.cells.get? (srcOrigin r) = none := List.get?_eq_none.mpr hge
  have hcell : getCell st (srcOrigin r) = {} := by
    rw [getCell, hnone]
    rfl
  cases r with
  | comp i => rw [refObs, show getCell st i = {} from hcell] at h; simp at h
  | loadNode i => rw [refObs, show getCell st i = {} from hcell] at h; simp at h
  | errNode i => rw [refObs, show getCell st i = {} from hcell] at h; simp at h

theorem modCell_field_eq {α : Type} (st : St) (i j : Nat) (f : Cell → Cell) (g : Cell → α)
    (hg : ∀ c, g (f c) = g c) : g (getCell (modCell st i f) j) = g (getCell st j) := by
  rcases eq_or_ne i j with rfl | hne
  · rcases Nat.lt_or_ge i st.cells.length with hlt | hge
    · rw [getCell_modCell_self _ _ _ hlt, hg]
    · rw [modCell_oob _ _ _ hge]
  · rw [getCell_modCell_ne _ _ _ _ hne]

theorem refObs_setRefObs_self (st : St) (r : SrcRef) (L : List Nat)
    (h : srcOrigin r < st.cells.length) : refObs (setRefObs st r L) r = some L := by
  cases r with
  | comp i =>
    simp only [refObs, setRefObs]
    rw [getCell_modCell_self _ _ _ (show i < st.cells.length from h)]
  | loadNode i =>
    simp only [refObs, setRefObs]
    rw [getCell_modCell_self _ _ _ (show i < st.cells.length from h)]
  | errNode i =>
    simp only [refObs, setRefObs]
    rw [getCell_modCell_self _ _ _ (show i < st.cells.length from h)]

theorem refObs_setRefObs_ne (st : St) (r r' : SrcRef) (L : List Nat)
    (hne : r' ≠ r) : refObs (setRefObs st r L) r' = refObs st r' := by
  cases r with
  | comp i =>
    cases r' with
    | comp j =>
      simp only [refObs, setRefObs]
      rw [getCell_modCell_ne _ _ _ _ (fun hij => hne (by rw [hij]))]
    | loadNode j =>
      simp only [refObs, setRefObs]
      exact modCell_field_eq st i j (fun c => { c with observers := some L })
        Cell.loadingNode (fun c => rfl)
    | errNode j =>
      simp only [refObs, setRefObs]
      exact modCell_field_eq st i j (fun c => { c with observers := some L })
        Cell.errorNode (fun c => rfl)
  | loadNode i =>
    cases r' with
    | comp j =>
      simp only [refObs, setRefObs]
      exact modCell_field_eq st i j (fun c => { c with loadingNode := some L })
        Cell.observers (fun c => rfl)
    | loadNode j =>
      simp only [refObs, setRefObs]
      rw [getCell_modCell_ne _ _ _ _ (fun hij => hne (by rw [hij]))]
    | errNode j =>
      simp only [refObs, setRefObs]
      exact modCell_field_eq st i j (fun c => { c with loadingNode := some L })
        Cell.errorNode (fun c => rfl)
  | errNode i =>
    cases r' with
    | comp j =>
      simp only [refObs, setRefObs]
      exact modCell_field_eq st i j (fun c => { c with errorNode := some L })
        Cell.observers (fun c => rfl)
    | loadNode j =>
      simp only [refObs, setRefObs]
      exact modCell_field_eq st i j (fun c => { c with errorNode := some L })
        Cell.loadingNode (fun c => rfl)
    | errNode j =>
      simp only [refObs, setRefObs]
      rw [getCell_modCell_ne _ _ _ _ (fun hij => hne (by rw [hij]))]

/-- Folding swap-pop removal over a duplicate-free source list removes every
occurrence of the node from the observer arrays, given the count-symmetric
edge invariant. -/
theorem removeFold_clears (d : Nat) : ∀ (srcs : List SrcRef) (st : St),
    srcs.Nodup →
    (∀ r, obsCount st d r = if r ∈ srcs then 1 else 0) →
    ∀ r, obsCount (srcs.foldl
      (fun s r =>
        match refObs s r with
        | none => s
        | some ol => setRefObs s r (removeOnce ol d)) st) d r = 0 := by
  intro srcs
  induction srcs with
  | nil => intro st hnd hinv r; simpa using hinv r
  | cons r0 rest IH =>
    intro st hnd hinv r
    have h1 : obsCount st d r0 = 1 := by
      have h2 := hinv r0; simpa using h2
    rcases ho : refObs st r0 with _ | l
    · rw [obsCount, ho] at h1; simp at h1
    · have hcl : l.count d = 1 := by
        rw [obsCount, ho] at h1; simpa using h1
      have hd_mem : d ∈ l := List.count_pos_iff_mem.mp (by omega)
      have hlt : srcOrigin r0 < st.cells.length := refObs_some_lt st r0 l ho
      rw [List.foldl_cons]
      simp only [ho]
      apply IH
      · exact hnd.of_cons
      · intro r2
        rcases eq_or_ne r2 r0 with rfl | hne
        · have hnotin : r2 ∉ rest := (List.nodup_cons.mp hnd).1
          rw [if_neg hnotin, obsCount, refObs_setRefObs_self st r2 _ hlt]
          simp [(count_removeOnce l d hd_mem).1, hcl]
        · rw [obsCount, refObs_setRefObs_ne st r0 r2 _ hne]
          have h2 := hinv r2
          rw [obsCount] at h2
          rw [h2]
          simp [List.mem_cons, hne]

theorem obsCount_modCell_srcObsNone (S : St) (d : Nat)
    (h0 : ∀ r, obsCount S d r = 0) :
    ∀ r, obsCount (modCell S d
      (fun c => { c with sources := none, observers := none })) d r = 0 := by
  intro r
  cases r with
  | comp i =>
    rcases eq_or_ne d i with rfl | hne
    · rcases Nat.lt_or_ge d S.cells.length with hlt | hge
      · simp [obsCount, refObs, getCell_modCell_self _ _ _ hlt]
      · rw [modCell_oob _ _ _ hge]; exact h0 _
    · have h2 := h0 (.comp i)
      rw [obsCount, refObs] at h2 ⊢
      rw [getCell_modCell_ne _ _ _ _ hne]
      exact h2
  | loadNode i =>
    have h2 := h0 (.loadNode i)
    rw [obsCount, refObs] at h2 ⊢
    rw [modCell_field_eq S d i (fun c => { c with sources := none, observers := none })
      Cell.loadingNode (fun c => rfl)]
    exact h2
  | errNode i =>
    have h2 := h0 (.errNode i)
    rw [obsCount, refObs] at h2 ⊢
    rw [modCell_field_eq S d i (fun c => { c with sources := none, observers := none })
      Cell.errorNode (fun c => rfl)]
    exact h2

/-- Under the count-symmetric edge invariant, `disposeNode` removes the node
from every observer array. -/
theorem disposeNode_clears_observers (st : St) (d : Nat) (srcs : List SrcRef)
    (hs : (getCell st d).sources = some srcs) (hnd : srcs.Nodup)
    (hinv : ∀ r, obsCount st d r = if r ∈ srcs then 1 else 0) :
    ∀ r, d ∉ (refObs (disposeNode st d) r).getD [] := by
  intro r
  have hF : ∀ r2, obsCount (removeSourceObservers st d 0) d r2 = 0 := by
    intro r2
    simp only [removeSourceObservers, hs]
    exact removeFold_clears d srcs st hnd hinv r2
  have key : refObs (disposeNode st d) r
      = refObs (modCell (removeSourceObservers st d 0) d
          (fun c => { c with sources := none, observers := none })) r := by
    simp only [disposeNode, hs]
    rfl
  have hz := obsCount_modCell_srcObsNone _ d hF r
  rw [obsCount] at hz
  intro hmem
  rw [key] at hmem
  have := List.count_pos_iff_mem.mpr hmem
  omega

/-- **C7 (amended).** Under the count-symmetric edge invariant (the node is
recorded once in each of its sources' observer arrays), `disposeNode` removes
the disposed node from every observer array and nulls its own `sources` and
`observers`; disposal does not, however, edit surviving observers' `sources`
arrays (see the counterexample). -/
theorem dispose_edge_removal (st : St) (d : Nat) (srcs : List SrcRef)
    (hs : (getCell st d).sources = some srcs) (hnd : srcs.Nodup)
    (hinv : ∀ r, obsCount st d r = if r ∈ srcs then 1 else 0) :
    (∀ r, d ∉ (refObs (disposeNode st d) r).getD []) ∧
    (d < st.cells.length →
      (getCell (disposeNode st d) d).sources = none ∧
      (getCell (disposeNode st d) d).observers = none) :=
  ⟨disposeNode_clears_observers st d srcs hs hnd hinv,
    fun hd => disposeNode_nulls st d hd⟩

/-- Concrete check of the amended C7: disposing cell 0 removes it from cell
1's observer array and nulls its own edge arrays. -/
theorem dispose_edge_removal_witness :
    (∀ r, 0 ∉ (refObs (disposeNode c7w 0) r).getD []) ∧
    (0 < c7w.cells.length →
      (getCell (disposeNode c7w 0) 0).sources = none ∧
      (getCell (disposeNode c7w 0) 0).observers = none) :=
  dispose_edge_removal c7w 0 [.comp 1] rfl (by simp)
    (by
      intro r
      rcases r with i | i | i <;>
        rcases i with _ | _ | i <;>
          simp [obsCount, refObs, getCell, c7w, List.get?])

/-- **C7 counterexample.** Disposing owner 0 disposes its child memo 1, yet
the surviving memo 3 still lists the disposed cell 1 in its `sources`:
disposal does not remove the sources-side edges of surviving observers. -/
theorem disposed_source_retained_cex :
    engine 20 (.dispose 0 true) c7Run = .done .unit c7s1 ∧
    c7s1.dnTrace = [1, 1, 0] ∧
    (3 : Nat) ∉ ([1, 1, 0] : List Nat) ∧
    (getCell c7s1 3).sources = some [.comp 1] :=
  ⟨rfl, rfl, by decide, rfl⟩

/-- **C1 counterexample.** With a custom equals predicate that deems the old
value "equal" to its successor, the sequence read, write 21, read, write 22,
read leaves the memo returning 21 while a from-scratch evaluation of the
graph from the current leaf value yields 22: the final write is swallowed by
the equality test even though the values differ. -/
theorem glitch_free_cex :
    engine 12 (.read 1) c1s4 = .done (.v (.intV 21)) c1s5 ∧
    fromScratch c1s4 2 1 = .intV 22 ∧ (.intV 21 : V) ≠ .intV 22 :=
  ⟨rfl, rfl, by decide⟩

/-! ### State-manipulation lemmas for the depth-one development -/

theorem set_self {α : Type} (l : List α) (n : Nat) (a : α) (h : l.get? n = some a) :
    l.set n a = l := by
  apply List.ext
  intro m
  rcases eq_or_ne n m with rfl | hne
  · rw [List.get?_set_eq_of_lt _ (List.get?_eq_some.mp h).1]
    exact h.symm
  · rw [List.get?_set_ne _ _ hne]

theorem modCell_id (st : St) (i : Nat) (f : Cell → Cell)
    (h : f (getCell st i) = getCell st i) : modCell st i f = st := by
  rcases Nat.lt_or_ge i st.cells.length with hlt | hge
  · have hg : st.cells.get? i = some (getCell st i) := by
      rcases hgo : st.cells.get? i with _ | c
      · rw [List.get?_eq_none] at hgo; omega
      · rw [getCell, hgo]; rfl
    show { st with cells := st.cells.set i (f (getCell st i)) } = st
    rw [h, set_self _ _ _ hg]
  · exact modCell_oob st i f hge

theorem cell_fw_id (c : Cell) (h : c.flagWaiting = false) :
    { c with flagWaiting := false } = c := by
  conv_lhs => rw [← h]

theorem modCell_modCell (st : St) (i : Nat) (f g : Cell → Cell) :
    modCell (modCell st i f) i g = modCell st i (fun c => g (f c)) := by
  rcases Nat.lt_or_ge i st.cells.length with hlt | hge
  · show ({ st with cells := (st.cells.set i (f (getCell st i))).set i (g (getCell (modCell st i f) i)) } : St) = _
    rw [getCell_modCell_self st i f hlt, List.set_set]
    rfl
  · rw [modCell_oob _ _ _ hge]
    rw [modCell_oob _ _ _ hge]
    rw [modCell_oob _ _ _ hge]

theorem setLoading_noop (k : Nat) (st : St) (i : Nat)
    (hfa : (getCell st i).flagAsync = false) (hfw : (getCell st i).flagWaiting = false) :
    engine (k + 1) (.setLoading i false) st = .done .unit st := by
  simp only [engine, hfa]
  rw [if_neg (show ¬((false != false) = true) from by simp)]
  simp only [Res.andThen]
  rw [modCell_id st i (fun x => { x with flagWaiting := false }) (cell_fw_id _ hfw)]

theorem track_scratch_append (st : St) (r : SrcRef) (ns : List SrcRef) (ob : Nat)
    (hob : st.currentObserver = some ob) (hns : st.newSources = some ns) :
    track st r = { st with newSources := some (ns ++ [r]) } := by
  simp [track, hob, hns]

theorem track_fresh1 (st : St) (r : SrcRef) (ob : Nat)
    (hob : st.currentObserver = some ob) (hns : st.newSources = none)
    (hsrc : (getCell st ob).sources = none) :
    track st r = { st with newSources := some [r] } := by
  simp [track, hob, hns, hsrc]

theorem track_fold_append : ∀ (rem : List Nat) (st : St) (ns : List SrcRef) (ob : Nat),
    st.currentObserver = some ob → st.newSources = some ns →
    rem.foldl (fun s r => track s (.comp r)) st
      = { st with newSources := some (ns ++ rem.map SrcRef.comp) } := by
  intro rem
  induction rem with
  | nil =>
    intro st ns ob hob hns
    show st = { st with newSources := some (ns ++ []) }
    rw [List.append_nil]
    conv_lhs => rw [show st = { st with newSources := st.newSources } from rfl]
    rw [hns]
  | cons r rest IH =>
    intro st ns ob hob hns
    rw [List.foldl_cons, track_scratch_append st _ ns ob hob hns]
    rw [IH { st with newSources := some (ns ++ [SrcRef.comp r]) } (ns ++ [SrcRef.comp r]) ob
      hob rfl]
    simp

theorem track_fold_fresh (rem : List Nat) (r : Nat) (st : St) (ob : Nat)
    (hob : st.currentObserver = some ob) (hns : st.newSources = none)
    (hsrc : (getCell st ob).sources = none) :
    (r :: rem).foldl (fun s r => track s (.comp r)) st
      = { st with newSources := some ((r :: rem).map SrcRef.comp) } := by
  rw [List.foldl_cons, track_fresh1 st _ ob hob hns hsrc]
  have h2 := track_fold_append rem { st with newSources := some [SrcRef.comp r] }
    [SrcRef.comp r] ob hob rfl
  rw [h2]
  simp

theorem mergeSources_stable2 (st : St) (node : Nat) (l : List SrcRef)
    (hns : st.newSources = none) (hsrc : (getCell st node).sources = some l)
    (hidx : ¬ st.newSourcesIndex < l.length) :
    mergeSources st node = st := by
  simp only [mergeSources, hns, hsrc]
  rw [if_neg hidx]

theorem mergeSources_fresh (st : St) (node : Nat) (ns : List SrcRef)
    (hns : st.newSources = some ns) (hsrc : (getCell st node).sources = none)
    (hidx : st.newSourcesIndex = 0) :
    mergeSources st node
      = obsAppendAll (modCell st node (fun c => { c with sources := some ns })) ns node := by
  simp only [mergeSources, hns, hsrc, hidx]
  rfl

theorem cell_promise_id (c : Cell) (h : c.promise = none) :
    { c with promise := none } = c := by
  conv_lhs => rw [← h]

theorem cell_fa_id (c : Cell) (h : c.flagAsync = false) :
    { c with flagAsync := false } = c := by
  conv_lhs => rw [← h]

theorem cell_fe_id (c : Cell) (h : c.flagError = false) :
    { c with flagError := false } = c := by
  conv_lhs => rw [← h]

/-- A committed or skipped plain write on a quiet cell with no observers:
only the value can change and the result echoes the written value. -/
theorem write_plain_quiet (k : Nat) (st : St) (i : Nat) (v : V)
    (hi : i < st.cells.length)
    (heq : (getCell st i).equals = .eqFun isEqual)
    (hpr : (getCell st i).promise = none)
    (hfe : (getCell st i).flagError = false) (hfw : (getCell st i).flagWaiting = false)
    (hfa : (getCell st i).flagAsync = false)
    (hln : (getCell st i).loadingNode = none) (hen : (getCell st i).errorNode = none)
    (hobs : (getCell st i).observers = none) :
    engine (k + 2) (.write i (.plain v)) st
      = .done (.v v)
          (if (getCell st i).value == v then st
           else modCell st i (fun c => { c with value := v })) := by
  have h0 : modCell st i (fun x => { x with promise := none }) = st :=
    modCell_id st i (fun x => { x with promise := none }) (cell_promise_id _ hpr)
  simp only [engine, h0, heq, isEqual]
  by_cases hov : ((getCell st i).value == v) = true
  · rw [hov]
    have hveq : (getCell st i).value = v := eq_of_beq hov
    simp [hveq]
  · have hov2 : ((getCell st i).value == v) = false := by
      rw [Bool.not_eq_true] at hov; exact hov
    rw [hov2]
    rw [if_pos (show ((!false) = true) from rfl)]
    have hfw1 : (getCell (modCell st i (fun x => { x with value := v })) i).flagWaiting
        = false := by rw [getCell_modCell_self _ _ _ hi]; exact hfw
    rw [if_pos hfw1]
    have hln1 : (getCell (modCell st i (fun x => { x with value := v })) i).loadingNode
        = none := by rw [getCell_modCell_self _ _ _ hi]; exact hln
    have hfe1 : (getCell (modCell st i (fun x => { x with value := v })) i).flagError
        = false := by rw [getCell_modCell_self _ _ _ hi]; exact hfe
    have hfa1 : (getCell (modCell st i (fun x => { x with value := v })) i).flagAsync
        = false := by rw [getCell_modCell_self _ _ _ hi]; exact hfa
    have hobs1 : (getCell (modCell st i (fun x => { x with value := v })) i).observers
        = none := by rw [getCell_modCell_self _ _ _ hi]; exact hobs
    have hval1 : (getCell (modCell st i (fun x => { x with value := v })) i).value
        = v := by rw [getCell_modCell_self _ _ _ hi]
    simp only [hln1, Res.andThen]
    have h3 : modCell (modCell st i (fun x => { x with value := v })) i
        (fun x => { x with flagAsync := false })
        = modCell st i (fun x => { x with value := v }) :=
      modCell_id _ i (fun x => { x with flagAsync := false }) (cell_fa_id _ hfa1)
    rw [h3]
    rw [if_neg (show ¬((getCell (modCell st i (fun x => { x with value := v })) i).flagError = true) from by rw [hfe1]; simp)]
    simp only [Res.andThen]
    have h5 : modCell (modCell st i (fun x => { x with value := v })) i
        (fun x => { x with flagError := false })
        = modCell st i (fun x => { x with value := v }) :=
      modCell_id _ i (fun x => { x with flagError := false }) (cell_fe_id _ hfe1)
    rw [h5]
    simp only [hobs1, Option.getD, engine, Res.andThen, hval1]
    simp

/-- A notify on a cell with no observer arrays only bumps its state. -/
theorem notify_quiet (k : Nat) (st : St) (i s : Nat)
    (hobs : (getCell st i).observers = none)
    (hln : (getCell st i).loadingNode = none) (hen : (getCell st i).errorNode = none) :
    engine (k + 2) (.notify i s) st =
      if s ≤ (getCell st i).state then .done .unit st
      else .done .unit (modCell st i (fun x => { x with state := s })) := by
  have hobs1 := modCell_field_eq st i i (fun x => { x with state := s })
    Cell.observers (fun c => rfl)
  have hln1 := modCell_field_eq st i i (fun x => { x with state := s })
    Cell.loadingNode (fun c => rfl)
  have hen1 := modCell_field_eq st i i (fun x => { x with state := s })
    Cell.errorNode (fun c => rfl)
  by_cases hc : s ≤ (getCell st i).state
  · rw [if_pos hc]
    simp only [engine]
    rw [if_pos hc]
  · rw [if_neg hc]
    simp only [engine]
    rw [if_neg hc]
    simp only [hobs1, hobs, hln1, hln, hen1, hen, Option.getD, engine, Res.andThen]

/-- Inversion form of `notify_quiet` at any fuel. -/
theorem notify_quiet_inv (fuel : Nat) (st st' : St) (i s : Nat) (o : Out)
    (hobs : (getCell st i).observers = none)
    (hln : (getCell st i).loadingNode = none) (hen : (getCell st i).errorNode = none)
    (h : engine fuel (.notify i s) st = .done o st') :
    st' = if s ≤ (getCell st i).state then st
          else modCell st i (fun x => { x with state := s }) := by
  rcases fuel with _ | _ | f
  · simp [engine] at h
  · simp only [engine] at h
    split at h
    · injection h with h1 h2
      rw [if_pos ‹s ≤ (getCell st i).state›, h2]
    · exfalso
      rcases andThen_done h with ⟨o1, s1, h1, h2⟩
      simp [engine] at h1
  · rw [notify_quiet f st i s hobs hln hen] at h
    split at h
    · injection h with h1 h2
      rw [if_pos ‹s ≤ (getCell st i).state›, h2]
    · injection h with h1 h2
      rw [if_neg ‹¬ s ≤ (getCell st i).state›, h2]

/-- A completed notifyList over quiet targets only bumps the listed states. -/
theorem notifyList_quiet_inv : ∀ (fuel : Nat) (os : List Nat) (st st' : St) (s : Nat) (o : Out),
    (∀ x ∈ os, (getCell st x).observers = none ∧ (getCell st x).loadingNode = none ∧
      (getCell st x).errorNode = none) →
    engine fuel (.notifyList os s) st = .done o st' →
    ∀ j, getCell st' j = getCell st j ∨
      (j ∈ os ∧ getCell st' j = { getCell st j with state := s }) := by
  intro fuel
  induction fuel with
  | zero => intro os st st' s o hq h; simp [engine] at h
  | succ f IH =>
    intro os st st' s o hq h
    cases os with
    | nil =>
      simp only [engine] at h
      injection h with h1 h2
      intro j
      left
      rw [h2]
    | cons x rest =>
      simp only [engine] at h
      rcases andThen_done h with ⟨o1, s1, h1, h2⟩
      have hqx := hq x (by simp)
      have hs1 := notify_quiet_inv f st s1 x s o1 hqx.1 hqx.2.1 hqx.2.2 h1
      have hcell : ∀ j, getCell s1 j = getCell st j ∨
          (j = x ∧ getCell s1 j = { getCell st j with state := s }) := by
        intro j
        rw [hs1]
        split
        · left; rfl
        · rcases eq_or_ne x j with rfl | hne
          · rcases Nat.lt_or_ge x st.cells.length with hlt | hge
            · right
              exact ⟨rfl, by rw [getCell_modCell_self _ _ _ hlt]⟩
            · left
              rw [modCell_oob _ _ _ hge]
          · left
            rw [getCell_modCell_ne _ _ _ _ hne]
      have hq2 : ∀ y ∈ rest, (getCell s1 y).observers = none ∧
          (getCell s1 y).loadingNode = none ∧ (getCell s1 y).errorNode = none := by
        intro y hy
        have hqy := hq y (by simp [hy])
        rcases hcell y with he | ⟨hyx, he⟩ <;> rw [he]
        · exact hqy
        · exact hqy
      have hrest := IH rest s1 st' s o hq2 h2
      intro j
      rcases hrest j with he | ⟨hj, he⟩
      · rcases hcell j with he2 | ⟨hjx, he2⟩
        · left; rw [he, he2]
        · right
          exact ⟨by simp [hjx], by rw [he, he2]⟩
      · rcases hcell j with he2 | ⟨hjx, he2⟩
        · right
          exact ⟨by simp [hj], by rw [he, he2]⟩
        · right
          refine ⟨by simp [hjx], ?_⟩
          rw [he, he2]

/-- Inversion of a completed plain write on a quiet cell that may have
observers: either the equality test swallowed it, or the value was stored and
the observers were notified DIRTY. -/
theorem write_leaf_inv (k : Nat) (st st' : St) (i : Nat) (v : V) (o : Out)
    (hi : i < st.cells.length)
    (heq : (getCell st i).equals = .eqFun isEqual)
    (hpr : (getCell st i).promise = none)
    (hfe : (getCell st i).flagError = false) (hfw : (getCell st i).flagWaiting = false)
    (hfa : (getCell st i).flagAsync = false)
    (hln : (getCell st i).loadingNode = none) (hen : (getCell st i).errorNode = none)
    (h : engine (k + 1) (.write i (.plain v)) st = .done o st') :
    (((getCell st i).value == v) = true ∧ st' = st ∧ o = .v (getCell st i).value) ∨
    (((getCell st i).value == v) = false ∧
     ∃ oN, engine k (.notifyList ((getCell st i).observers.getD []) STATE_DIRTY)
        (modCell st i (fun c => { c with value := v })) = .done oN st' ∧
       o = .v (getCell st' i).value) := by
  have h0 : modCell st i (fun x => { x with promise := none }) = st :=
    modCell_id st i (fun x => { x with promise := none }) (cell_promise_id _ hpr)
  simp only [engine, h0, heq, isEqual] at h
  by_cases hov : ((getCell st i).value == v) = true
  · left
    rw [hov] at h
    simp only [Bool.not_true] at h
    rw [if_neg (by simp)] at h
    injection h with h1 h2
    exact ⟨hov, h2.symm, h1.symm⟩
  · right
    have hov2 : ((getCell st i).value == v) = false := by
      rw [Bool.not_eq_true] at hov; exact hov
    refine ⟨hov2, ?_⟩
    rw [hov2] at h
    rw [if_pos (show ((!false) = true) from rfl)] at h
    have hfw1 : (getCell (modCell st i (fun x => { x with value := v })) i).flagWaiting
        = false := by rw [getCell_modCell_self _ _ _ hi]; exact hfw
    have hln1 : (getCell (modCell st i (fun x => { x with value := v })) i).loadingNode
        = none := by rw [getCell_modCell_self _ _ _ hi]; exact hln
    have hfe1 : (getCell (modCell st i (fun x => { x with value := v })) i).flagError
        = false := by rw [getCell_modCell_self _ _ _ hi]; exact hfe
    have hfa1 : (getCell (modCell st i (fun x => { x with value := v })) i).flagAsync
        = false := by rw [getCell_modCell_self _ _ _ hi]; exact hfa
    have hobs1 : (getCell (modCell st i (fun x => { x with value := v })) i).observers
        = (getCell st i).observers := by
      rw [getCell_modCell_self _ _ _ hi]
    rw [if_pos hfw1] at h
    simp only [hln1, Res.andThen] at h
    have h3 : modCell (modCell st i (fun x => { x with value := v })) i
        (fun x => { x with flagAsync := false })
        = modCell st i (fun x => { x with value := v }) :=
      modCell_id _ i (fun x => { x with flagAsync := false }) (cell_fa_id _ hfa1)
    rw [h3] at h
    rw [if_neg (show ¬((getCell (modCell st i (fun x => { x with value := v })) i).flagError
      = true) from by rw [hfe1]; simp)] at h
    simp only [Res.andThen] at h
    have h5 : modCell (modCell st i (fun x => { x with value := v })) i
        (fun x => { x with flagError := false })
        = modCell st i (fun x => { x with value := v }) :=
      modCell_id _ i (fun x => { x with flagError := false }) (cell_fe_id _ hfe1)
    rw [h5, hobs1] at h
    rcases andThen_done h with ⟨oN, s6, hN, hfin⟩
    injection hfin with hf1 hf2
    refine ⟨oN, ?_, ?_⟩
    · rw [hf2] at hN
      exact hN
    · rw [← hf1, hf2]
/-! ### Fuel monotonicity of the interpreter -/

theorem Res.andThen_ne (r : Res) (k : St → Res) (h : Res.andThen r k ≠ .fuelOut) :
    r ≠ .fuelOut := by
  intro he
  rw [he] at h
  exact h rfl

theorem Res.andThenB_ne (r : Res) (k : Bool → St → Res) (h : Res.andThenB r k ≠ .fuelOut) :
    r ≠ .fuelOut := by
  intro he
  rw [he] at h
  exact h rfl

theorem Res.andThenV_ne (r : Res) (k : V → St → Res) (h : Res.andThenV r k ≠ .fuelOut) :
    r ≠ .fuelOut := by
  intro he
  rw [he] at h
  exact h rfl

theorem andThen_mono (r1 : Res) (k1 : St → Res) {r2 : Res} {k2 : St → Res}
    (hne : Res.andThen r2 k2 ≠ .fuelOut)
    (hr : r2 ≠ .fuelOut → r1 = r2)
    (hk : ∀ s, k2 s ≠ .fuelOut → k1 s = k2 s) :
    Res.andThen r1 k1 = Res.andThen r2 k2 := by
  have h2 : r2 ≠ .fuelOut := Res.andThen_ne r2 k2 hne
  rw [hr h2]
  rcases hr2 : r2 with _ | ⟨e, s⟩ | ⟨o, s⟩
  · exact absurd hr2 h2
  · rfl
  · show k1 s = k2 s
    apply hk s
    rw [hr2] at hne
    exact hne

theorem andThenB_mono (r1 : Res) (k1 : Bool → St → Res) {r2 : Res} {k2 : Bool → St → Res}
    (hne : Res.andThenB r2 k2 ≠ .fuelOut)
    (hr : r2 ≠ .fuelOut → r1 = r2)
    (hk : ∀ b s, k2 b s ≠ .fuelOut → k1 b s = k2 b s) :
    Res.andThenB r1 k1 = Res.andThenB r2 k2 := by
  have h2 : r2 ≠ .fuelOut := Res.andThenB_ne r2 k2 hne
  rw [hr h2]
  rcases hr2 : r2 with _ | ⟨e, s⟩ | ⟨o, s⟩
  · exact absurd hr2 h2
  · rfl
  · show k1 o.getB s = k2 o.getB s
    apply hk o.getB s
    rw [hr2] at hne
    exact hne

theorem andThenV_mono (r1 : Res) (k1 : V → St → Res) {r2 : Res} {k2 : V → St → Res}
    (hne : Res.andThenV r2 k2 ≠ .fuelOut)
    (hr : r2 ≠ .fuelOut → r1 = r2)
    (hk : ∀ v s, k2 v s ≠ .fuelOut → k1 v s = k2 v s) :
    Res.andThenV r1 k1 = Res.andThenV r2 k2 := by
  have h2 : r2 ≠ .fuelOut := Res.andThenV_ne r2 k2 hne
  rw [hr h2]
  rcases hr2 : r2 with _ | ⟨e, s⟩ | ⟨o, s⟩
  · exact absurd hr2 h2
  · rfl
  · show k1 o.getV s = k2 o.getV s
    apply hk o.getV s
    rw [hr2] at hne
    exact hne

theorem ite_mono (c : Prop) [Decidable c] (a1 b : Res) {a2 : Res}
    (h2 : (if c then a2 else b) ≠ .fuelOut) (ha : a2 ≠ .fuelOut → a1 = a2) :
    (if c then a1 else b) = (if c then a2 else b) := by
  by_cases hc : c
  · rw [if_pos hc] at h2
    rw [if_pos hc, if_pos hc]
    exact ha h2
  · rw [if_neg hc, if_neg hc]

theorem optBranch_mono {A : Type} (f1 : A → Res) {o : Option A} {f2 : A → Res} {dflt : Res}
    (h2 : optBranch o f2 dflt ≠ .fuelOut)
    (hf : ∀ x, f2 x ≠ .fuelOut → f1 x = f2 x) :
    optBranch o f1 dflt = optBranch o f2 dflt := by
  cases o with
  | none => rfl
  | some x =>
    show f1 x = f2 x
    exact hf x h2

theorem resCase_mono {t2 : Res} (t1 : Res) (A1 : V → St → Res) {A2 : V → St → Res}
    (B : Out → St → Res)
    (hne : resCase t2 A2 B ≠ .fuelOut)
    (ht : t2 ≠ .fuelOut → t1 = t2)
    (hA : ∀ e s, A2 e s ≠ .fuelOut → A1 e s = A2 e s) :
    resCase t1 A1 B = resCase t2 A2 B := by
  cases t2 with
  | fuelOut => exact absurd rfl hne
  | threw e s =>
    rw [ht (by intro h; cases h)]
    show A1 e s = A2 e s
    exact hA e s hne
  | done o s =>
    rw [ht (by intro h; cases h)]
    rfl

theorem resBind_mono {t2 : Res} (t1 : Res) (C1 : Out → St → Res) {C2 : Out → St → Res}
    (hne : resBind t2 C2 ≠ .fuelOut)
    (ht : t2 ≠ .fuelOut → t1 = t2)
    (hC : ∀ o s, C2 o s ≠ .fuelOut → C1 o s = C2 o s) :
    resBind t1 C1 = resBind t2 C2 := by
  cases t2 with
  | fuelOut => exact absurd rfl hne
  | threw e s =>
    rw [ht (by intro h; cases h)]
    rfl
  | done o s =>
    rw [ht (by intro h; cases h)]
    show C1 o s = C2 o s
    exact hC o s hne

theorem engine_succ (f : Nat) (q : Req) (st : St) :
    engine (f + 1) q st = engineF (engine f) q st := by
  cases q with
  | setLoading i b =>
    simp only [engine, engineF]
    rcases hl : (getCell st i).loadingNode with _ | l <;> simp only [optBranch]
  | setError i e =>
    simp only [engine, engineF]
    rcases hl : (getCell st i).errorNode with _ | l <;> simp only [optBranch]
  | write i w =>
    cases w with
    | fut p =>
      simp only [engine, engineF]
      rcases hl : (getCell (modCell st i (fun x => { x with promise := none })) i).loadingNode
        with _ | l <;> simp only [optBranch]
    | plain v =>
      simp only [engine, engineF]
      split
      next hcm =>
        congr 1
        · rcases hl : (getCell (modCell (modCell st i (fun x => { x with promise := none })) i
              (fun x => { x with value := v })) i).loadingNode with _ | l <;>
            simp only [optBranch]
        · funext st2
          congr 1
          rcases he : (getCell (modCell st2 i (fun x => { x with flagAsync := false })) i).errorNode
            with _ | l <;> simp only [optBranch]
      next hcm => rfl
  | read i =>
    simp only [engine, engineF]
    rcases hc : (getCell st i).compute with _ | cp <;> simp only [optBranch]
  | updateIfNecessary i =>
    simp only [engine, engineF]
    rcases hs : (getCell st i).sources with _ | srcs <;> simp only [optBranch]
  | update i =>
    simp only [engine, engineF]
    rcases h1 : engine f (.cleanup i)
        { st with newSources := none, newSourcesIndex := 0, newLoadingState := false }
      with _ | ⟨e1, s1⟩ | ⟨o1, s1⟩ <;>
      simp only [Res.andThen, resCase]
    rcases h2 : engine f (.computeRun i) s1 with _ | ⟨e2, s2⟩ | ⟨o2, s2⟩ <;>
      simp only [resBind, resCase, Res.andThen]
  | computeRun i =>
    simp only [engine, engineF]
    rcases hc : (getCell { st with currentOwner := some i, currentObserver := some i } i).compute
      with _ | ⟨srcs, fn⟩ <;> simp only [optBranch, resCase, resBind]
    rcases h2 : engine f (.evalReads srcs [])
        { st with currentOwner := some i, currentObserver := some i }
      with _ | ⟨e2, s2⟩ | ⟨o2, s2⟩ <;> simp only [resBind, resCase]
    rcases h3 : fn (Out.getVL o2) with w | e3 <;> simp only [resCase]
  | dispose i self =>
    simp only [engine, engineF]
    by_cases hd : (getCell st i).state = STATE_DISPOSED
    · rw [if_pos hd, if_pos hd]
    · rw [if_neg hd, if_neg hd]
      rcases h1 : engine f (.disposeChildren i (getCell st i).nextSib) st
        with _ | ⟨e1, s1⟩ | ⟨o1, s1⟩ <;> simp only [resBind]
  | cleanup i =>
    simp only [engine, engineF]
    rcases hn : (getCell st i).nextSib with _ | nx <;> simp only [optBranch]
  | notify i s => rfl
  | notifyList os s => rfl
  | setLoadingLoop os b => rfl
  | loadingSet i b => rfl
  | errorSet i => rfl
  | checkSources i rem anyLoading => rfl
  | evalReads rem acc => rfl
  | settleOk i p v => rfl
  | settleErr i p e => rfl
  | disposeChildren i cur => rfl

theorem engineF_congr (r1 r2 : Req → St → Res) (q : Req) (st : St)
    (hne : engineF r2 q st ≠ .fuelOut)
    (hrec : ∀ q' st', r2 q' st' ≠ .fuelOut → r1 q' st' = r2 q' st') :
    engineF r1 q st = engineF r2 q st := by
  cases q with
  | notify i s =>
    simp only [engineF] at hne ⊢
    by_cases hc : s ≤ (getCell st i).state
    · rw [if_pos hc, if_pos hc]
    · rw [if_neg hc] at hne
      rw [if_neg hc, if_neg hc]
      refine andThen_mono _ _ hne (hrec _ _) (fun s2 hn2 => ?_)
      refine andThen_mono _ _ hn2 (hrec _ _) (fun s3 hn3 => hrec _ _ hn3)
  | notifyList os s =>
    cases os with
    | nil => rfl
    | cons o rest =>
      simp only [engineF] at hne ⊢
      exact andThen_mono _ _ hne (hrec _ _) (fun s1 hn1 => hrec _ _ hn1)
  | setLoadingLoop os b =>
    cases os with
    | nil => rfl
    | cons o rest =>
      simp only [engineF] at hne ⊢
      refine andThen_mono _ _ hne (fun h2 => ?_) (fun s1 hn1 => hrec _ _ hn1)
      cases b
      · exact hrec _ _ h2
      · exact hrec _ _ h2
  | loadingSet i b =>
    simp only [engineF] at hne ⊢
    exact andThen_mono _ _ hne (hrec _ _) (fun s1 hn1 => hrec _ _ hn1)
  | errorSet i =>
    simp only [engineF] at hne ⊢
    exact hrec _ _ hne
  | setLoading i b =>
    simp only [engineF] at hne ⊢
    refine andThen_mono _ _ hne
      (fun h2 => ite_mono _ _ _ h2 (fun h3 => optBranch_mono _ h3 (fun x h4 => hrec _ _ h4)))
      (fun s1 _ => rfl)
  | setError i e =>
    simp only [engineF] at hne ⊢
    refine andThen_mono _ _ hne
      (fun h2 => ite_mono _ _ _ h2 (fun h3 => optBranch_mono _ h3 (fun x h4 => hrec _ _ h4)))
      (fun s1 _ => rfl)
  | write i w =>
    cases w with
    | fut p =>
      simp only [engineF] at hne ⊢
      refine andThen_mono _ _ hne
        (fun h2 => ite_mono _ _ _ h2 (fun h3 => optBranch_mono _ h3 (fun x h4 => hrec _ _ h4)))
        (fun s1 _ => rfl)
    | plain v =>
      simp only [engineF] at hne ⊢
      split
      next hcm =>
        rw [if_pos hcm] at hne
        refine andThen_mono _ _ hne
          (fun h2 => ite_mono _ _ _ h2 (fun h3 => optBranch_mono _ h3 (fun x h4 => hrec _ _ h4)))
          (fun s2 hn2 => ?_)
        refine andThen_mono _ _ hn2
          (fun h3 => ite_mono _ _ _ h3 (fun h4 => optBranch_mono _ h4 (fun x h5 => hrec _ _ h5)))
          (fun s4 hn4 => ?_)
        refine andThen_mono _ _ hn4 (hrec _ _) (fun s6 _ => rfl)
      next hcm => rfl
  | read i =>
    simp only [engineF] at hne ⊢
    refine andThen_mono _ _ hne
      (fun h2 => optBranch_mono _ h2 (fun x h3 => hrec _ _ h3))
      (fun s1 _ => rfl)
  | updateIfNecessary i =>
    simp only [engineF] at hne ⊢
    by_cases hd : (getCell st i).state = STATE_DISPOSED
    · rw [if_pos hd, if_pos hd]
    · rw [if_neg hd] at hne
      rw [if_neg hd, if_neg hd]
      by_cases hcl : (getCell st i).state = STATE_CLEAN
      · rw [if_pos hcl, if_pos hcl]
      · rw [if_neg hcl] at hne
        rw [if_neg hcl, if_neg hcl]
        refine andThenB_mono _ _ hne (fun h2 => ?_) (fun b s1 hb1 => ?_)
        · exact ite_mono _ _ _ h2 (fun h3 => optBranch_mono _ h3 (fun srcs h4 => hrec _ _ h4))
        · by_cases hdd : (getCell s1 i).state = STATE_DIRTY
          · rw [if_pos hdd] at hb1
            rw [if_pos hdd, if_pos hdd]
            exact andThen_mono _ _ hb1 (hrec _ _) (fun s2 _ => rfl)
          · rw [if_neg hdd] at hb1
            rw [if_neg hdd, if_neg hdd]
            exact andThen_mono _ _ hb1 (hrec _ _) (fun s2 _ => rfl)
  | checkSources i rem anyLoading =>
    cases rem with
    | nil => rfl
    | cons r rest =>
      simp only [engineF] at hne ⊢
      refine andThenB_mono _ _ hne (hrec _ _) (fun b s1 hb1 => ?_)
      by_cases hdd : (getCell s1 i).state = STATE_DIRTY
      · rw [if_pos hdd, if_pos hdd]
      · rw [if_neg hdd] at hb1
        rw [if_neg hdd, if_neg hdd]
        exact hrec _ _ hb1
  | update i =>
    simp only [engineF] at hne ⊢
    refine resCase_mono _ _ _ hne (fun htb => ?_) (fun e s hA =>
      andThen_mono _ _ hA (hrec _ _) (fun s2 _ => rfl))
    refine andThen_mono _ _ htb (hrec _ _) (fun stc hK => ?_)
    refine resBind_mono _ _ hK (hrec _ _) (fun o st1 hC => ?_)
    exact andThen_mono _ _ hC (hrec _ _) (fun st2 hsl => hrec _ _ hsl)
  | computeRun i =>
    simp only [engineF] at hne ⊢
    refine resCase_mono _ _ _ hne (fun hb => ?_) (fun e s _ => rfl)
    refine optBranch_mono _ hb (fun sf hsf => ?_)
    exact resBind_mono _ _ hsf (hrec _ _) (fun o st1 _ => rfl)
  | evalReads rem acc =>
    cases rem with
    | nil => rfl
    | cons s rest =>
      simp only [engineF] at hne ⊢
      exact andThenV_mono _ _ hne (hrec _ _) (fun v s1 hv1 => hrec _ _ hv1)
  | settleOk i p v =>
    simp only [engineF] at hne ⊢
    by_cases hp : (getCell st i).promise = some p
    · rw [if_pos hp] at hne
      rw [if_pos hp, if_pos hp]
      exact hrec _ _ hne
    · rw [if_neg hp, if_neg hp]
  | settleErr i p e =>
    simp only [engineF] at hne ⊢
    by_cases hp : (getCell st i).promise = some p
    · rw [if_pos hp] at hne
      rw [if_pos hp, if_pos hp]
      exact andThen_mono _ _ hne (hrec _ _) (fun s1 _ => rfl)
    · rw [if_neg hp, if_neg hp]
  | dispose i self =>
    simp only [engineF] at hne ⊢
    by_cases hd : (getCell st i).state = STATE_DISPOSED
    · rw [if_pos hd, if_pos hd]
    · rw [if_neg hd] at hne
      rw [if_neg hd, if_neg hd]
      exact resBind_mono _ _ hne (hrec _ _) (fun o s1 _ => rfl)
  | disposeChildren i cur =>
    cases cur with
    | none => rfl
    | some cu =>
      simp only [engineF] at hne ⊢
      by_cases hp : (getCell st cu).parent = some i
      · rw [if_pos hp] at hne
        rw [if_pos hp, if_pos hp]
        exact andThen_mono _ _ hne (hrec _ _) (fun s1 hn1 => hrec _ _ hn1)
      · rw [if_neg hp, if_neg hp]
  | cleanup i =>
    simp only [engineF] at hne ⊢
    refine andThen_mono _ _ hne (fun h2 => ?_) (fun s1 _ => rfl)
    refine optBranch_mono _ h2 (fun nx h3 => ?_)
    exact ite_mono _ _ _ h3 (fun h4 => hrec _ _ h4)

/-- Fuel monotonicity: a run that completes at some fuel is unchanged by more fuel. -/
theorem engine_mono : ∀ (f : Nat) (q : Req) (st : St),
    engine f q st ≠ .fuelOut → engine (f + 1) q st = engine f q st := by
  intro f
  induction f with
  | zero =>
    intro q st h
    exact absurd rfl h
  | succ f IH =>
    intro q st h
    rw [engine_succ f q st] at h
    rw [engine_succ (f + 1) q st, engine_succ f q st]
    exact engineF_congr (engine (f + 1)) (engine f) q st h (fun q2 s2 hne => IH q2 s2 hne)

theorem engine_mono_le (f g : Nat) (q : Req) (st : St) (hle : f ≤ g)
    (h : engine f q st ≠ .fuelOut) : engine g q st = engine f q st := by
  induction g, hle using Nat.le_induction with
  | base => rfl
  | succ g hg IH =>
    rw [engine_mono g q st (by rw [IH]; exact h), IH]

/-- Two completed runs of the same request at different fuels agree. -/
theorem engine_det (f g : Nat) (q : Req) (st : St) (o o2 : Out) (s s2 : St)
    (hf : engine f q st = .done o s) (hg : engine g q st = .done o2 s2) :
    o2 = o ∧ s2 = s := by
  rcases Nat.le_total f g with h | h
  · rw [engine_mono_le f g q st h (by rw [hf]; intro hx; cases hx), hf] at hg
    injection hg with h1 h2
    exact ⟨h1.symm, h2.symm⟩
  · rw [engine_mono_le g f q st h (by rw [hg]; intro hx; cases hx), hg] at hf
    injection hf with h1 h2
    exact ⟨h1, h2⟩

/-! ### Forward equations for the depth-one development -/

/-- A leaf read returns the stored value and only records the dependency. -/
theorem read_leaf_eq (k : Nat) (st : St) (i : Nat)
    (hcp : (getCell st i).compute = none)
    (hfe : (getCell st i).flagError = false)
    (hfw : (getCell st i).flagWaiting = false)
    (hfa : (getCell st i).flagAsync = false) :
    engine (k + 1) (.read i) st = .done (.v (getCell st i).value) (track st (.comp i)) := by
  simp only [engine, hcp, Res.andThen]
  have h1 : (getCell (track st (.comp i)) i).flagError = false := by
    rw [track_getCell]; exact hfe
  have hL : isLoadingOf (getCell (track st (.comp i)) i) = false := by
    rw [track_getCell]; simp [isLoadingOf, hfa, hfw]
  have h2 : (getCell (track st (.comp i)) i).value = (getCell st i).value := by
    rw [track_getCell]
  rw [hL, h1, h2]
  simp

/-- The modelled compute body reads a list of quiet leaves in order: it
returns their current values and folds the dependency recording. -/
theorem evalReads_leaves : ∀ (rem : List Nat) (k : Nat) (st : St) (acc : List V),
    (∀ s ∈ rem, (getCell st s).compute = none ∧ (getCell st s).flagError = false ∧
      (getCell st s).flagWaiting = false ∧ (getCell st s).flagAsync = false) →
    engine (k + rem.length + 1) (.evalReads rem acc) st
      = .done (.vl (acc ++ rem.map (fun s => (getCell st s).value)))
          (rem.foldl (fun s r => track s (.comp r)) st) := by
  intro rem
  induction rem with
  | nil =>
    intro k st acc hq
    simp [engine]
  | cons s rest IH =>
    intro k st acc hq
    have hqs := hq s (by simp)
    have hfuel : k + (s :: rest).length + 1 = (k + rest.length + 1) + 1 := by
      simp [List.length_cons]
      omega
    rw [hfuel, engine_succ]
    simp only [engineF]
    rw [read_leaf_eq (k + rest.length) st s hqs.1 hqs.2.1 hqs.2.2.1 hqs.2.2.2]
    simp only [Res.andThenV, Out.getV]
    have hq2 : ∀ x ∈ rest, (getCell (track st (.comp s)) x).compute = none ∧
        (getCell (track st (.comp s)) x).flagError = false ∧
        (getCell (track st (.comp s)) x).flagWaiting = false ∧
        (getCell (track st (.comp s)) x).flagAsync = false := by
      intro x hx
      rw [track_getCell]
      exact hq x (by simp [hx])
    rw [IH k (track st (.comp s)) (acc ++ [(getCell st s).value]) hq2]
    simp only [List.foldl_cons, List.map_cons, track_getCell]
    simp

theorem notifyList_quiet_eq : ∀ (os : List Nat) (k : Nat) (st : St) (s : Nat),
    (∀ x ∈ os, (getCell st x).observers = none ∧ (getCell st x).loadingNode = none ∧
      (getCell st x).errorNode = none) →
    engine (k + os.length + 2) (.notifyList os s) st = .done .unit (bumpAll st os s) := by
  intro os
  induction os with
  | nil =>
    intro k st s hq
    simp [engine, bumpAll]
  | cons x rest IH =>
    intro k st s hq
    have hqx := hq x (by simp)
    have hfuel : k + (x :: rest).length + 2 = (k + rest.length + 2) + 1 := by
      simp [List.length_cons]
      omega
    rw [hfuel, engine_succ]
    simp only [engineF]
    rw [notify_quiet (k + rest.length) st x s hqx.1 hqx.2.1 hqx.2.2]
    by_cases hc : s ≤ (getCell st x).state
    · rw [if_pos hc]
      simp only [Res.andThen]
      rw [IH k st s (fun y hy => hq y (by simp [hy]))]
      simp only [bumpAll, List.foldl_cons]
      rw [if_pos hc]
    · rw [if_neg hc]
      simp only [Res.andThen]
      have hq2 : ∀ y ∈ rest,
          (getCell (modCell st x (fun c => { c with state := s })) y).observers = none ∧
          (getCell (modCell st x (fun c => { c with state := s })) y).loadingNode = none ∧
          (getCell (modCell st x (fun c => { c with state := s })) y).errorNode = none := by
        intro y hy
        have hqy := hq y (by simp [hy])
        rcases eq_or_ne x y with rfl | hne
        · rcases Nat.lt_or_ge x st.cells.length with hlt | hge
          · rw [getCell_modCell_self _ _ _ hlt]
            exact hqy
          · rw [modCell_oob _ _ _ hge]
            exact hqy
        · rw [getCell_modCell_ne _ _ _ _ hne]
          exact hqy
      rw [IH k (modCell st x (fun c => { c with state := s })) s hq2]
      simp only [bumpAll, List.foldl_cons]
      rw [if_neg hc]

theorem bumpAll_value : ∀ (os : List Nat) (st : St) (s j : Nat),
    (getCell (bumpAll st os s) j).value = (getCell st j).value := by
  intro os
  induction os with
  | nil => intro st s j; rfl
  | cons x rest IH =>
    intro st s j
    simp only [bumpAll, List.foldl_cons]
    by_cases hc : s ≤ (getCell st x).state
    · rw [if_pos hc]
      exact IH st s j
    · rw [if_neg hc]
      rw [show (rest.foldl (fun acc x => if s ≤ (getCell acc x).state then acc
          else modCell acc x (fun c => { c with state := s }))
          (modCell st x (fun c => { c with state := s })))
        = bumpAll (modCell st x (fun c => { c with state := s })) rest s from rfl]
      rw [IH]
      rcases eq_or_ne x j with rfl | hne
      · rcases Nat.lt_or_ge x st.cells.length with hlt | hge
        · rw [getCell_modCell_self _ _ _ hlt]
        · rw [modCell_oob _ _ _ hge]
      · rw [getCell_modCell_ne _ _ _ _ hne]

theorem bumpAll_not_mem : ∀ (os : List Nat) (st : St) (s j : Nat), j ∉ os →
    getCell (bumpAll st os s) j = getCell st j := by
  intro os
  induction os with
  | nil => intro st s j h; rfl
  | cons x rest IH =>
    intro st s j h
    have hne : x ≠ j := fun hx => h (by simp [hx])
    have hrest : j ∉ rest := fun hx => h (by simp [hx])
    simp only [bumpAll, List.foldl_cons]
    by_cases hc : s ≤ (getCell st x).state
    · rw [if_pos hc]
      exact IH st s j hrest
    · rw [if_neg hc]
      rw [show (rest.foldl (fun acc x => if s ≤ (getCell acc x).state then acc
          else modCell acc x (fun c => { c with state := s }))
          (modCell st x (fun c => { c with state := s })))
        = bumpAll (modCell st x (fun c => { c with state := s })) rest s from rfl]
      rw [IH _ _ _ hrest]
      rw [getCell_modCell_ne _ _ _ _ hne]

theorem bumpAll_mem : ∀ (os : List Nat) (st : St) (s j : Nat), os.Nodup → j ∈ os →
    j < st.cells.length →
    getCell (bumpAll st os s) j =
      (if s ≤ (getCell st j).state then getCell st j
       else { getCell st j with state := s }) := by
  intro os
  induction os with
  | nil => intro st s j _ h; cases h
  | cons x rest IH =>
    intro st s j hnd hj hlen
    simp only [bumpAll, List.foldl_cons]
    rcases List.mem_cons.mp hj with rfl | hjr
    · have hnr : j ∉ rest := (List.nodup_cons.mp hnd).1
      by_cases hc : s ≤ (getCell st j).state
      · rw [if_pos hc, if_pos hc]
        exact bumpAll_not_mem rest st s j hnr
      · rw [if_neg hc, if_neg hc]
        rw [show (rest.foldl (fun acc x => if s ≤ (getCell acc x).state then acc
            else modCell acc x (fun c => { c with state := s }))
            (modCell st j (fun c => { c with state := s })))
          = bumpAll (modCell st j (fun c => { c with state := s })) rest s from rfl]
        rw [bumpAll_not_mem rest _ s j hnr]
        rw [getCell_modCell_self _ _ _ hlen]
    · have hne : x ≠ j := by
        intro hx
        exact (List.nodup_cons.mp hnd).1 (hx ▸ hjr)
      by_cases hc : s ≤ (getCell st x).state
      · rw [if_pos hc]
        exact IH st s j (List.nodup_cons.mp hnd).2 hjr hlen
      · rw [if_neg hc]
        rw [show (rest.foldl (fun acc x => if s ≤ (getCell acc x).state then acc
            else modCell acc x (fun c => { c with state := s }))
            (modCell st x (fun c => { c with state := s })))
          = bumpAll (modCell st x (fun c => { c with state := s })) rest s from rfl]
        have hlen2 : j < (modCell st x (fun c => { c with state := s })).cells.length := by
          simp only [modCell, List.length_set]
          exact hlen
        rw [IH _ s j (List.nodup_cons.mp hnd).2 hjr hlen2]
        rw [getCell_modCell_ne _ _ _ _ hne]

theorem bumpAll_globals : ∀ (os : List Nat) (st : St) (s : Nat),
    (bumpAll st os s).currentObserver = st.currentObserver ∧
    (bumpAll st os s).currentOwner = st.currentOwner ∧
    (bumpAll st os s).newSources = st.newSources ∧
    (bumpAll st os s).newSourcesIndex = st.newSourcesIndex ∧
    (bumpAll st os s).newLoadingState = st.newLoadingState ∧
    (bumpAll st os s).cells.length = st.cells.length := by
  intro os
  induction os with
  | nil => intro st s; exact ⟨rfl, rfl, rfl, rfl, rfl, rfl⟩
  | cons x rest IH =>
    intro st s
    simp only [bumpAll, List.foldl_cons]
    by_cases hc : s ≤ (getCell st x).state
    · rw [if_pos hc]
      exact IH st s
    · rw [if_neg hc]
      rw [show (rest.foldl (fun acc x => if s ≤ (getCell acc x).state then acc
          else modCell acc x (fun c => { c with state := s }))
          (modCell st x (fun c => { c with state := s })))
        = bumpAll (modCell st x (fun c => { c with state := s })) rest s from rfl]
      obtain ⟨a, b, c2, d, e, f⟩ := IH (modCell st x (fun c => { c with state := s })) s
      refine ⟨a.trans rfl, b.trans rfl, c2.trans rfl, d.trans rfl, e.trans rfl, ?_⟩
      rw [f]
      simp [modCell, List.length_set]

/-- A plain write to a quiet cell that is not its own observer: the value is
stored unless the default equality skips it, and the observers are marked
DIRTY. -/
theorem write_leaf_eq (k : Nat) (st : St) (i : Nat) (v : V)
    (hi : i < st.cells.length)
    (heq : (getCell st i).equals = .eqFun isEqual)
    (hpr : (getCell st i).promise = none)
    (hfe : (getCell st i).flagError = false) (hfw : (getCell st i).flagWaiting = false)
    (hfa : (getCell st i).flagAsync = false)
    (hln : (getCell st i).loadingNode = none) (hen : (getCell st i).errorNode = none)
    (hni : i ∉ (getCell st i).observers.getD [])
    (hq : ∀ x ∈ (getCell st i).observers.getD [],
      (getCell st x).observers = none ∧ (getCell st x).loadingNode = none ∧
      (getCell st x).errorNode = none) :
    engine (k + ((getCell st i).observers.getD []).length + 3) (.write i (.plain v)) st
      = .done (.v v)
          (if (getCell st i).value == v then st
           else bumpAll (modCell st i (fun c => { c with value := v }))
             ((getCell st i).observers.getD []) STATE_DIRTY) := by
  have h0 : modCell st i (fun x => { x with promise := none }) = st :=
    modCell_id st i (fun x => { x with promise := none }) (cell_promise_id _ hpr)
  have hfuel : k + ((getCell st i).observers.getD []).length + 3
      = (k + ((getCell st i).observers.getD []).length + 2) + 1 := rfl
  rw [hfuel, engine_succ]
  simp only [engineF, h0, heq, isEqual]
  by_cases hov : ((getCell st i).value == v) = true
  · rw [hov]
    have hveq : (getCell st i).value = v := eq_of_beq hov
    simp [hveq]
  · have hov2 : ((getCell st i).value == v) = false := by
      rw [Bool.not_eq_true] at hov; exact hov
    rw [hov2]
    rw [if_pos (show ((!false) = true) from rfl)]
    have hfw1 : (getCell (modCell st i (fun x => { x with value := v })) i).flagWaiting
        = false := by rw [getCell_modCell_self _ _ _ hi]; exact hfw
    have hln1 : (getCell (modCell st i (fun x => { x with value := v })) i).loadingNode
        = none := by rw [getCell_modCell_self _ _ _ hi]; exact hln
    have hfe1 : (getCell (modCell st i (fun x => { x with value := v })) i).flagError
        = false := by rw [getCell_modCell_self _ _ _ hi]; exact hfe
    have hfa1 : (getCell (modCell st i (fun x => { x with value := v })) i).flagAsync
        = false := by rw [getCell_modCell_self _ _ _ hi]; exact hfa
    have hobs1 : (getCell (modCell st i (fun x => { x with value := v })) i).observers
        = (getCell st i).observers := by
      rw [getCell_modCell_self _ _ _ hi]
    rw [if_pos hfw1]
    simp only [hln1, optBranch, Res.andThen]
    have h3 : modCell (modCell st i (fun x => { x with value := v })) i
        (fun x => { x with flagAsync := false })
        = modCell st i (fun x => { x with value := v }) :=
      modCell_id _ i (fun x => { x with flagAsync := false }) (cell_fa_id _ hfa1)
    rw [h3]
    rw [if_neg (show ¬((getCell (modCell st i (fun x => { x with value := v })) i).flagError
      = true) from by rw [hfe1]; simp)]
    simp only [Res.andThen]
    have h5 : modCell (modCell st i (fun x => { x with value := v })) i
        (fun x => { x with flagError := false })
        = modCell st i (fun x => { x with value := v }) :=
      modCell_id _ i (fun x => { x with flagError := false }) (cell_fe_id _ hfe1)
    rw [h5, hobs1]
    have hq2 : ∀ x ∈ (getCell st i).observers.getD [],
        (getCell (modCell st i (fun c => { c with value := v })) x).observers = none ∧
        (getCell (modCell st i (fun c => { c with value := v })) x).loadingNode = none ∧
        (getCell (modCell st i (fun c => { c with value := v })) x).errorNode = none := by
      intro x hx
      have hne : i ≠ x := fun hix => hni (hix ▸ hx)
      rw [getCell_modCell_ne _ _ _ _ hne]
      exact hq x hx
    rw [notifyList_quiet_eq ((getCell st i).observers.getD []) k
      (modCell st i (fun c => { c with value := v })) STATE_DIRTY hq2]
    simp only [Res.andThen]
    rw [if_neg (by simp [hov2])]
    have hval : (getCell (bumpAll (modCell st i (fun c => { c with value := v }))
        ((getCell st i).observers.getD []) STATE_DIRTY) i).value = v := by
      rw [bumpAll_value]
      rw [getCell_modCell_self _ _ _ hi]
    rw [hval]

theorem modCell_congr (st : St) (i : Nat) (f g : Cell → Cell)
    (h : f (getCell st i) = g (getCell st i)) : modCell st i f = modCell st i g := by
  simp only [modCell, h]

theorem obsAppend_step (st : St) (s node : Nat) :
    (match refObs st (.comp s) with
      | none => setRefObs st (.comp s) [node]
      | some l => setRefObs st (.comp s) (l ++ [node]))
    = modCell st s (fun c => { c with observers := some (c.observers.getD [] ++ [node]) }) := by
  rcases h : (getCell st s).observers with _ | l
  · simp only [refObs, h, setRefObs]
    refine modCell_congr st s _ _ ?_
    rw [h]
    rfl
  · simp only [refObs, h, setRefObs]
    refine modCell_congr st s _ _ ?_
    rw [h]
    rfl

theorem obsAppendAll_comp_cons (st : St) (s : Nat) (rest : List Nat) (node : Nat) :
    obsAppendAll st ((s :: rest).map SrcRef.comp) node
      = obsAppendAll
          (modCell st s (fun c => { c with observers := some (c.observers.getD [] ++ [node]) }))
          (rest.map SrcRef.comp) node := by
  simp only [obsAppendAll, List.map_cons, List.foldl_cons, obsAppend_step]

theorem obsAppendAll_not_mem : ∀ (srcs : List Nat) (st : St) (node j : Nat), j ∉ srcs →
    getCell (obsAppendAll st (srcs.map SrcRef.comp) node) j = getCell st j := by
  intro srcs
  induction srcs with
  | nil => intro st node j h; rfl
  | cons s rest IH =>
    intro st node j h
    have hne : s ≠ j := fun hx => h (by simp [hx])
    have hrest : j ∉ rest := fun hx => h (by simp [hx])
    rw [obsAppendAll_comp_cons, IH _ _ _ hrest, getCell_modCell_ne _ _ _ _ hne]

theorem obsAppendAll_mem : ∀ (srcs : List Nat) (st : St) (node j : Nat), srcs.Nodup →
    j ∈ srcs → j < st.cells.length →
    getCell (obsAppendAll st (srcs.map SrcRef.comp) node) j
      = { getCell st j with
          observers := some ((getCell st j).observers.getD [] ++ [node]) } := by
  intro srcs
  induction srcs with
  | nil => intro st node j _ h; cases h
  | cons s rest IH =>
    intro st node j hnd hj hlen
    rw [obsAppendAll_comp_cons]
    rcases List.mem_cons.mp hj with rfl | hjr
    · have hnr : j ∉ rest := (List.nodup_cons.mp hnd).1
      rw [obsAppendAll_not_mem rest _ _ _ hnr, getCell_modCell_self _ _ _ hlen]
    · have hne : s ≠ j := by
        intro hx
        exact (List.nodup_cons.mp hnd).1 (hx ▸ hjr)
      have hlen2 : j < (modCell st s
          (fun c => { c with observers := some (c.observers.getD [] ++ [node]) })).cells.length := by
        simp only [modCell, List.length_set]
        exact hlen
      rw [IH _ _ _ (List.nodup_cons.mp hnd).2 hjr hlen2, getCell_modCell_ne _ _ _ _ hne]

theorem obsAppendAll_comp_globals : ∀ (srcs : List Nat) (st : St) (node : Nat),
    (obsAppendAll st (srcs.map SrcRef.comp) node).currentObserver = st.currentObserver ∧
    (obsAppendAll st (srcs.map SrcRef.comp) node).currentOwner = st.currentOwner ∧
    (obsAppendAll st (srcs.map SrcRef.comp) node).newSources = st.newSources ∧
    (obsAppendAll st (srcs.map SrcRef.comp) node).newSourcesIndex = st.newSourcesIndex ∧
    (obsAppendAll st (srcs.map SrcRef.comp) node).newLoadingState = st.newLoadingState ∧
    (obsAppendAll st (srcs.map SrcRef.comp) node).cells.length = st.cells.length := by
  intro srcs
  induction srcs with
  | nil => intro st node; exact ⟨rfl, rfl, rfl, rfl, rfl, rfl⟩
  | cons s rest IH =>
    intro st node
    rw [obsAppendAll_comp_cons]
    obtain ⟨a, b, c2, d, e, f⟩ := IH
      (modCell st s (fun c => { c with observers := some (c.observers.getD [] ++ [node]) })) node
    refine ⟨a.trans rfl, b.trans rfl, c2.trans rfl, d.trans rfl, e.trans rfl, f.trans ?_⟩
    simp [modCell, List.length_set]

/-- `compute(node)` over a static list of quiet leaf reads: returns the
compute of the current leaf values, records the dependencies, and restores
the global observer and owner. -/
theorem computeRun_leaves (k : Nat) (st : St) (i : Nat) (srcs : List Nat)
    (f : List V → CompRes) (vstar : V)
    (hcp : (getCell st i).compute = some (srcs, f))
    (hf : f (srcs.map (fun s => (getCell st s).value)) = .ret (.plain vstar))
    (hql : ∀ s ∈ srcs, (getCell st s).compute = none ∧ (getCell st s).flagError = false ∧
      (getCell st s).flagWaiting = false ∧ (getCell st s).flagAsync = false) :
    engine (k + srcs.length + 2) (.computeRun i) st
      = .done (.wv (.plain vstar))
          { srcs.foldl (fun s r => track s (.comp r))
              { st with currentOwner := some i, currentObserver := some i } with
            currentOwner := st.currentOwner, currentObserver := st.currentObserver } := by
  have hfuel : k + srcs.length + 2 = (k + srcs.length + 1) + 1 := rfl
  rw [hfuel, engine_succ]
  simp only [engineF]
  have hcp2 : (getCell { st with currentOwner := some i, currentObserver := some i } i).compute
      = some (srcs, f) := hcp
  simp only [hcp2, optBranch]
  have hql2 : ∀ s ∈ srcs,
      (getCell { st with currentOwner := some i, currentObserver := some i } s).compute = none ∧
      (getCell { st with currentOwner := some i, currentObserver := some i } s).flagError = false ∧
      (getCell { st with currentOwner := some i, currentObserver := some i } s).flagWaiting = false ∧
      (getCell { st with currentOwner := some i, currentObserver := some i } s).flagAsync
        = false := hql
  rw [evalReads_leaves srcs k { st with currentOwner := some i, currentObserver := some i } []
    hql2]
  simp only [resBind, Out.getVL, List.nil_append]
  have hf2 : f (srcs.map
      (fun s => (getCell { st with currentOwner := some i, currentObserver := some i } s).value))
      = .ret (.plain vstar) := hf
  rw [hf2]
  simp only [resCase]

/-- `update(node)` for a memo whose recorded sources are re-read unchanged:
the tracking index walks the existing prefix, no source surgery happens, the
scratch globals are restored, and the memo ends CLEAN with the fresh value. -/
theorem update_memo_stable (k : Nat) (st : St) (i : Nat) (srcs : List Nat)
    (f : List V → CompRes) (vstar : V)
    (hi : i < st.cells.length)
    (hcp : (getCell st i).compute = some (srcs, f))
    (hsrc : (getCell st i).sources = some (srcs.map SrcRef.comp))
    (hf : f (srcs.map (fun s => (getCell st s).value)) = .ret (.plain vstar))
    (heq : (getCell st i).equals = .eqFun isEqual)
    (hpr : (getCell st i).promise = none)
    (hfe : (getCell st i).flagError = false) (hfw : (getCell st i).flagWaiting = false)
    (hfa : (getCell st i).flagAsync = false)
    (hln : (getCell st i).loadingNode = none) (hen : (getCell st i).errorNode = none)
    (hnx : (getCell st i).nextSib = none) (hdisp : (getCell st i).disposal = [])
    (hobs : (getCell st i).observers = none)
    (hql : ∀ s ∈ srcs, (getCell st s).compute = none ∧ (getCell st s).flagError = false ∧
      (getCell st s).flagWaiting = false ∧ (getCell st s).flagAsync = false) :
    ∃ stF, engine (k + srcs.length + 3) (.update i) st = .done .unit stF ∧
      stF.currentObserver = st.currentObserver ∧ stF.currentOwner = st.currentOwner ∧
      stF.newSources = st.newSources ∧ stF.newSourcesIndex = st.newSourcesIndex ∧
      stF.newLoadingState = st.newLoadingState ∧ stF.cells.length = st.cells.length ∧
      getCell stF i = { getCell st i with value := vstar, state := STATE_CLEAN } ∧
      (∀ j, j ≠ i → getCell stF j = getCell st j) := by
  have hfuel : k + srcs.length + 3 = (k + srcs.length + 2) + 1 := rfl
  rw [hfuel, engine_succ]
  simp only [engineF]
  rw [cleanup_noop (k + srcs.length + 1)
    { st with newSources := none, newSourcesIndex := 0, newLoadingState := false } i hnx hdisp]
  simp only [Res.andThen]
  have hcp0 : (getCell { st with newSources := none, newSourcesIndex := 0, newLoadingState := false } i).compute = some (srcs, f) := hcp
  have hf0 : f (srcs.map (fun s => (getCell { st with newSources := none, newSourcesIndex := 0, newLoadingState := false } s).value)) = .ret (.plain vstar) := hf
  have hql0 : ∀ s ∈ srcs, (getCell { st with newSources := none, newSourcesIndex := 0, newLoadingState := false } s).compute = none ∧ (getCell { st with newSources := none, newSourcesIndex := 0, newLoadingState := false } s).flagError = false ∧ (getCell { st with newSources := none, newSourcesIndex := 0, newLoadingState := false } s).flagWaiting = false ∧ (getCell { st with newSources := none, newSourcesIndex := 0, newLoadingState := false } s).flagAsync = false := hql
  rw [computeRun_leaves k _ i srcs f vstar hcp0 hf0 hql0]
  simp only [resBind, Out.getWV]
  have hfold : srcs.foldl (fun s r => track s (.comp r))
      { { st with newSources := none, newSourcesIndex := 0, newLoadingState := false } with currentOwner := some i, currentObserver := some i }
      = { { { st with newSources := none, newSourcesIndex := 0, newLoadingState := false } with currentOwner := some i, currentObserver := some i } with newSourcesIndex := ({ { st with newSources := none, newSourcesIndex := 0, newLoadingState := false } with currentOwner := some i, currentObserver := some i } : St).newSourcesIndex + (srcs.map SrcRef.comp).length } := by
    rw [← List.foldl_map]
    exact track_prefix_fold (srcs.map SrcRef.comp) _ i (srcs.map SrcRef.comp) rfl rfl hsrc
      (by simp)
  rw [hfold]
  have hiW : i < ({ { { { st with newSources := none, newSourcesIndex := 0, newLoadingState := false } with currentOwner := some i, currentObserver := some i } with newSourcesIndex := 0 + (srcs.map SrcRef.comp).length } with currentOwner := st.currentOwner, currentObserver := st.currentObserver } : St).cells.length := hi
  have heqW : (getCell ({ { { { st with newSources := none, newSourcesIndex := 0, newLoadingState := false } with currentOwner := some i, currentObserver := some i } with newSourcesIndex := 0 + (srcs.map SrcRef.comp).length } with currentOwner := st.currentOwner, currentObserver := st.currentObserver } : St) i).equals = .eqFun isEqual := heq
  have hprW : (getCell ({ { { { st with newSources := none, newSourcesIndex := 0, newLoadingState := false } with currentOwner := some i, currentObserver := some i } with newSourcesIndex := 0 + (srcs.map SrcRef.comp).length } with currentOwner := st.currentOwner, currentObserver := st.currentObserver } : St) i).promise = none := hpr
  have hfeW : (getCell ({ { { { st with newSources := none, newSourcesIndex := 0, newLoadingState := false } with currentOwner := some i, currentObserver := some i } with newSourcesIndex := 0 + (srcs.map SrcRef.comp).length } with currentOwner := st.currentOwner, currentObserver := st.currentObserver } : St) i).flagError = false := hfe
  have hfwW : (getCell ({ { { { st with newSources := none, newSourcesIndex := 0, newLoadingState := false } with currentOwner := some i, currentObserver := some i } with newSourcesIndex := 0 + (srcs.map SrcRef.comp).length } with currentOwner := st.currentOwner, currentObserver := st.currentObserver } : St) i).flagWaiting = false := hfw
  have hfaW : (getCell ({ { { { st with newSources := none, newSourcesIndex := 0, newLoadingState := false } with currentOwner := some i, currentObserver := some i } with newSourcesIndex := 0 + (srcs.map SrcRef.comp).length } with currentOwner := st.currentOwner, currentObserver := st.currentObserver } : St) i).flagAsync = false := hfa
  have hlnW : (getCell ({ { { { st with newSources := none, newSourcesIndex := 0, newLoadingState := false } with currentOwner := some i, currentObserver := some i } with newSourcesIndex := 0 + (srcs.map SrcRef.comp).length } with currentOwner := st.currentOwner, currentObserver := st.currentObserver } : St) i).loadingNode = none := hln
  have henW : (getCell ({ { { { st with newSources := none, newSourcesIndex := 0, newLoadingState := false } with currentOwner := some i, currentObserver := some i } with newSourcesIndex := 0 + (srcs.map SrcRef.comp).length } with currentOwner := st.currentOwner, currentObserver := st.currentObserver } : St) i).errorNode = none := hen
  have hobsW : (getCell ({ { { { st with newSources := none, newSourcesIndex := 0, newLoadingState := false } with currentOwner := some i, currentObserver := some i } with newSourcesIndex := 0 + (srcs.map SrcRef.comp).length } with currentOwner := st.currentOwner, currentObserver := st.currentObserver } : St) i).observers = none := hobs
  rw [write_plain_quiet (k + srcs.length) _ i vstar hiW heqW hprW hfeW hfwW hfaW hlnW henW hobsW]
  simp only [Res.andThen]
  by_cases hov : (((getCell st i).value == vstar) = true)
  · have hovW : (((getCell ({ { { { st with newSources := none, newSourcesIndex := 0, newLoadingState := false } with currentOwner := some i, currentObserver := some i } with newSourcesIndex := 0 + (srcs.map SrcRef.comp).length } with currentOwner := st.currentOwner, currentObserver := st.currentObserver } : St) i).value == vstar) = true) := hov
    rw [if_pos hovW]
    have hmerge : mergeSources
        { { { { st with newSources := none, newSourcesIndex := 0, newLoadingState := false } with currentOwner := some i, currentObserver := some i } with newSourcesIndex := 0 + (srcs.map SrcRef.comp).length } with currentOwner := st.currentOwner, currentObserver := st.currentObserver } i
        = { { { { st with newSources := none, newSourcesIndex := 0, newLoadingState := false } with currentOwner := some i, currentObserver := some i } with newSourcesIndex := 0 + (srcs.map SrcRef.comp).length } with currentOwner := st.currentOwner, currentObserver := st.currentObserver } := by
      refine mergeSources_stable2 _ i (srcs.map SrcRef.comp) rfl hsrc ?_
      show ¬ 0 + (srcs.map SrcRef.comp).length < (srcs.map SrcRef.comp).length
      omega
    rw [hmerge]
    rw [setLoading_noop (k + srcs.length + 1) _ i hfaW hfwW]
    simp only [resCase]
    refine ⟨modCell st i (fun c => { c with state := STATE_CLEAN }), rfl, rfl, rfl, rfl, rfl,
      rfl, ?_, ?_, ?_⟩
    · simp [modCell, List.length_set]
    · rw [getCell_modCell_self _ _ _ hi]
      conv_rhs => rw [← eq_of_beq hov]
    · intro j hj
      rw [getCell_modCell_ne _ _ _ _ (Ne.symm hj)]
  · have hov2 : ((getCell st i).value == vstar) = false := by
      rw [Bool.not_eq_true] at hov; exact hov
    have hovW2 : ((getCell ({ { { { st with newSources := none, newSourcesIndex := 0, newLoadingState := false } with currentOwner := some i, currentObserver := some i } with newSourcesIndex := 0 + (srcs.map SrcRef.comp).length } with currentOwner := st.currentOwner, currentObserver := st.currentObserver } : St) i).value == vstar) = false := hov2
    rw [if_neg (by rw [hovW2]; simp)]
    have hsrc2 : (getCell (modCell
        { { { { st with newSources := none, newSourcesIndex := 0, newLoadingState := false } with currentOwner := some i, currentObserver := some i } with newSourcesIndex := 0 + (srcs.map SrcRef.comp).length } with currentOwner := st.currentOwner, currentObserver := st.currentObserver } i
        (fun c => { c with value := vstar })) i).sources = some (srcs.map SrcRef.comp) := by
      rw [getCell_modCell_self _ _ _ hiW]
      exact hsrc
    have hmerge : mergeSources (modCell
        { { { { st with newSources := none, newSourcesIndex := 0, newLoadingState := false } with currentOwner := some i, currentObserver := some i } with newSourcesIndex := 0 + (srcs.map SrcRef.comp).length } with currentOwner := st.currentOwner, currentObserver := st.currentObserver } i
        (fun c => { c with value := vstar })) i
        = modCell
        { { { { st with newSources := none, newSourcesIndex := 0, newLoadingState := false } with currentOwner := some i, currentObserver := some i } with newSourcesIndex := 0 + (srcs.map SrcRef.comp).length } with currentOwner := st.currentOwner, currentObserver := st.currentObserver } i
        (fun c => { c with value := vstar }) := by
      refine mergeSources_stable2 _ i (srcs.map SrcRef.comp) rfl hsrc2 ?_
      show ¬ 0 + (srcs.map SrcRef.comp).length < (srcs.map SrcRef.comp).length
      omega
    rw [hmerge]
    have hfa2 : (getCell (modCell
        { { { { st with newSources := none, newSourcesIndex := 0, newLoadingState := false } with currentOwner := some i, currentObserver := some i } with newSourcesIndex := 0 + (srcs.map SrcRef.comp).length } with currentOwner := st.currentOwner, currentObserver := st.currentObserver } i
        (fun c => { c with value := vstar })) i).flagAsync = false := by
      rw [getCell_modCell_self _ _ _ hiW]
      exact hfa
    have hfw2 : (getCell (modCell
        { { { { st with newSources := none, newSourcesIndex := 0, newLoadingState := false } with currentOwner := some i, currentObserver := some i } with newSourcesIndex := 0 + (srcs.map SrcRef.comp).length } with currentOwner := st.currentOwner, currentObserver := st.currentObserver } i
        (fun c => { c with value := vstar })) i).flagWaiting = false := by
      rw [getCell_modCell_self _ _ _ hiW]
      exact hfw
    have hnls : (modCell ({ { { { st with newSources := none, newSourcesIndex := 0, newLoadingState := false } with currentOwner := some i, currentObserver := some i } with newSourcesIndex := 0 + (srcs.map SrcRef.comp).length } with currentOwner := st.currentOwner, currentObserver := st.currentObserver } : St) i (fun c => { c with value := vstar })).newLoadingState = false := rfl
    rw [hnls]
    rw [setLoading_noop (k + srcs.length + 1) _ i hfa2 hfw2]
    simp only [resCase]
    refine ⟨modCell (modCell st i (fun c => { c with value := vstar })) i
      (fun c => { c with state := STATE_CLEAN }), rfl, rfl, rfl, rfl, rfl, rfl, ?_, ?_, ?_⟩
    · simp [modCell, List.length_set]
    · have hi2 : i < (modCell st i (fun c => { c with value := vstar })).cells.length := by
        simp only [modCell, List.length_set]
        exact hi
      rw [getCell_modCell_self _ _ _ hi2, getCell_modCell_self _ _ _ hi]
    · intro j hj
      rw [getCell_modCell_ne _ _ _ _ (Ne.symm hj), getCell_modCell_ne _ _ _ _ (Ne.symm hj)]

/-- `update(node)` for a memo with no recorded sources: the reads accumulate
into `newSources`, `mergeSources` installs the source array and registers the
memo as observer of every source, the scratch globals are restored, and the
memo ends CLEAN with the fresh value. -/
theorem update_memo_fresh (k : Nat) (st : St) (i : Nat) (srcs : List Nat)
    (f : List V → CompRes) (vstar : V)
    (hi : i < st.cells.length)
    (hcp : (getCell st i).compute = some (srcs, f))
    (hsrcU : (getCell st i).sources = none)
    (hne0 : srcs ≠ [])
    (hnodup : srcs.Nodup)
    (hbound : ∀ s ∈ srcs, s < st.cells.length)
    (hii : i ∉ srcs)
    (hf : f (srcs.map (fun s => (getCell st s).value)) = .ret (.plain vstar))
    (heq : (getCell st i).equals = .eqFun isEqual)
    (hpr : (getCell st i).promise = none)
    (hfe : (getCell st i).flagError = false) (hfw : (getCell st i).flagWaiting = false)
    (hfa : (getCell st i).flagAsync = false)
    (hln : (getCell st i).loadingNode = none) (hen : (getCell st i).errorNode = none)
    (hnx : (getCell st i).nextSib = none) (hdisp : (getCell st i).disposal = [])
    (hobs : (getCell st i).observers = none)
    (hql : ∀ s ∈ srcs, (getCell st s).compute = none ∧ (getCell st s).flagError = false ∧
      (getCell st s).flagWaiting = false ∧ (getCell st s).flagAsync = false) :
    ∃ stF, engine (k + srcs.length + 3) (.update i) st = .done .unit stF ∧
      stF.currentObserver = st.currentObserver ∧ stF.currentOwner = st.currentOwner ∧
      stF.newSources = st.newSources ∧ stF.newSourcesIndex = st.newSourcesIndex ∧
      stF.newLoadingState = st.newLoadingState ∧ stF.cells.length = st.cells.length ∧
      getCell stF i = { getCell st i with value := vstar, sources := some (srcs.map SrcRef.comp), state := STATE_CLEAN } ∧
      (∀ j ∈ srcs, getCell stF j = { getCell st j with observers := some ((getCell st j).observers.getD [] ++ [i]) }) ∧
      (∀ j, j ≠ i → j ∉ srcs → getCell stF j = getCell st j) := by
  have hfuel : k + srcs.length + 3 = (k + srcs.length + 2) + 1 := rfl
  rw [hfuel, engine_succ]
  simp only [engineF]
  rw [cleanup_noop (k + srcs.length + 1)
    { st with newSources := none, newSourcesIndex := 0, newLoadingState := false } i hnx hdisp]
  simp only [Res.andThen]
  have hcp0 : (getCell { st with newSources := none, newSourcesIndex := 0, newLoadingState := false } i).compute = some (srcs, f) := hcp
  have hf0 : f (srcs.map (fun s => (getCell { st with newSources := none, newSourcesIndex := 0, newLoadingState := false } s).value)) = .ret (.plain vstar) := hf
  have hql0 : ∀ s ∈ srcs, (getCell { st with newSources := none, newSourcesIndex := 0, newLoadingState := false } s).compute = none ∧ (getCell { st with newSources := none, newSourcesIndex := 0, newLoadingState := false } s).flagError = false ∧ (getCell { st with newSources := none, newSourcesIndex := 0, newLoadingState := false } s).flagWaiting = false ∧ (getCell { st with newSources := none, newSourcesIndex := 0, newLoadingState := false } s).flagAsync = false := hql
  rw [computeRun_leaves k _ i srcs f vstar hcp0 hf0 hql0]
  simp only [resBind, Out.getWV]
  have hfold : srcs.foldl (fun s r => track s (.comp r)) ({ { st with newSources := none, newSourcesIndex := 0, newLoadingState := false } with currentOwner := some i, currentObserver := some i } : St)
      = { { { st with newSources := none, newSourcesIndex := 0, newLoadingState := false } with currentOwner := some i, currentObserver := some i } with newSources := some (srcs.map SrcRef.comp) } := by
    rcases srcs with _ | ⟨s0, rem⟩
    · exact absurd rfl hne0
    · exact track_fold_fresh rem s0 _ i rfl rfl hsrcU
  rw [hfold]
  have hiW : i < ({ st with newSources := some (srcs.map SrcRef.comp), newSourcesIndex := 0, newLoadingState := false } : St).cells.length := hi
  have heqW : (getCell ({ st with newSources := some (srcs.map SrcRef.comp), newSourcesIndex := 0, newLoadingState := false } : St) i).equals = .eqFun isEqual := heq
  have hprW : (getCell ({ st with newSources := some (srcs.map SrcRef.comp), newSourcesIndex := 0, newLoadingState := false } : St) i).promise = none := hpr
  have hfeW : (getCell ({ st with newSources := some (srcs.map SrcRef.comp), newSourcesIndex := 0, newLoadingState := false } : St) i).flagError = false := hfe
  have hfwW : (getCell ({ st with newSources := some (srcs.map SrcRef.comp), newSourcesIndex := 0, newLoadingState := false } : St) i).flagWaiting = false := hfw
  have hfaW : (getCell ({ st with newSources := some (srcs.map SrcRef.comp), newSourcesIndex := 0, newLoadingState := false } : St) i).flagAsync = false := hfa
  have hlnW : (getCell ({ st with newSources := some (srcs.map SrcRef.comp), newSourcesIndex := 0, newLoadingState := false } : St) i).loadingNode = none := hln
  have henW : (getCell ({ st with newSources := some (srcs.map SrcRef.comp), newSourcesIndex := 0, newLoadingState := false } : St) i).errorNode = none := hen
  have hobsW : (getCell ({ st with newSources := some (srcs.map SrcRef.comp), newSourcesIndex := 0, newLoadingState := false } : St) i).observers = none := hobs
  rw [write_plain_quiet (k + srcs.length) ({ st with newSources := some (srcs.map SrcRef.comp), newSourcesIndex := 0, newLoadingState := false } : St) i vstar hiW heqW hprW hfeW hfwW hfaW hlnW henW hobsW]
  simp only [Res.andThen]
  by_cases hov : (((getCell st i).value == vstar) = true)
  · have hovW : (((getCell ({ st with newSources := some (srcs.map SrcRef.comp), newSourcesIndex := 0, newLoadingState := false } : St) i).value == vstar) = true) := hov
    rw [if_pos hovW]
    have hnsWS : (({ st with newSources := some (srcs.map SrcRef.comp), newSourcesIndex := 0, newLoadingState := false } : St) : St).newSources = some (srcs.map SrcRef.comp) := rfl
    have hsrcWS : (getCell ({ st with newSources := some (srcs.map SrcRef.comp), newSourcesIndex := 0, newLoadingState := false } : St) i).sources = none := by
      exact hsrcU
    have hidxWS : (({ st with newSources := some (srcs.map SrcRef.comp), newSourcesIndex := 0, newLoadingState := false } : St) : St).newSourcesIndex = 0 := rfl
    rw [mergeSources_fresh ({ st with newSources := some (srcs.map SrcRef.comp), newSourcesIndex := 0, newLoadingState := false } : St) i (srcs.map SrcRef.comp) hnsWS hsrcWS hidxWS]
    have hnlsS : (obsAppendAll (modCell ({ st with newSources := some (srcs.map SrcRef.comp), newSourcesIndex := 0, newLoadingState := false } : St) i (fun c => { c with sources := some (srcs.map SrcRef.comp) })) (srcs.map SrcRef.comp) i).newLoadingState = false :=
      ((obsAppendAll_comp_globals srcs (modCell ({ st with newSources := some (srcs.map SrcRef.comp), newSourcesIndex := 0, newLoadingState := false } : St) i (fun c => { c with sources := some (srcs.map SrcRef.comp) })) i).2.2.2.2.1).trans rfl
    rw [hnlsS]
    have hiBS : i < ((modCell ({ st with newSources := some (srcs.map SrcRef.comp), newSourcesIndex := 0, newLoadingState := false } : St) i (fun c => { c with sources := some (srcs.map SrcRef.comp) })) : St).cells.length := by
      simp only [modCell, List.length_set]
      exact hi
    have hgFS : getCell (obsAppendAll (modCell ({ st with newSources := some (srcs.map SrcRef.comp), newSourcesIndex := 0, newLoadingState := false } : St) i (fun c => { c with sources := some (srcs.map SrcRef.comp) })) (srcs.map SrcRef.comp) i) i = getCell (modCell ({ st with newSources := some (srcs.map SrcRef.comp), newSourcesIndex := 0, newLoadingState := false } : St) i (fun c => { c with sources := some (srcs.map SrcRef.comp) })) i :=
      obsAppendAll_not_mem srcs (modCell ({ st with newSources := some (srcs.map SrcRef.comp), newSourcesIndex := 0, newLoadingState := false } : St) i (fun c => { c with sources := some (srcs.map SrcRef.comp) })) i i hii
    have hgBS : getCell (modCell ({ st with newSources := some (srcs.map SrcRef.comp), newSourcesIndex := 0, newLoadingState := false } : St) i (fun c => { c with sources := some (srcs.map SrcRef.comp) })) i = { getCell ({ st with newSources := some (srcs.map SrcRef.comp), newSourcesIndex := 0, newLoadingState := false } : St) i with sources := some (srcs.map SrcRef.comp) } := by
      rw [getCell_modCell_self _ _ _ (show i < (({ st with newSources := some (srcs.map SrcRef.comp), newSourcesIndex := 0, newLoadingState := false } : St) : St).cells.length from hi)]
    have hfaFS : (getCell (obsAppendAll (modCell ({ st with newSources := some (srcs.map SrcRef.comp), newSourcesIndex := 0, newLoadingState := false } : St) i (fun c => { c with sources := some (srcs.map SrcRef.comp) })) (srcs.map SrcRef.comp) i) i).flagAsync = false := by
      rw [hgFS, hgBS]
      exact hfa
    have hfwFS : (getCell (obsAppendAll (modCell ({ st with newSources := some (srcs.map SrcRef.comp), newSourcesIndex := 0, newLoadingState := false } : St) i (fun c => { c with sources := some (srcs.map SrcRef.comp) })) (srcs.map SrcRef.comp) i) i).flagWaiting = false := by
      rw [hgFS, hgBS]
      exact hfw
    rw [setLoading_noop (k + srcs.length + 1) _ i hfaFS hfwFS]
    simp only [resCase]
    refine ⟨modCell ({ (obsAppendAll (modCell ({ st with newSources := some (srcs.map SrcRef.comp), newSourcesIndex := 0, newLoadingState := false } : St) i (fun c => { c with sources := some (srcs.map SrcRef.comp) })) (srcs.map SrcRef.comp) i) with newSources := st.newSources, newSourcesIndex := st.newSourcesIndex, newLoadingState := st.newLoadingState } : St) i (fun c => { c with state := STATE_CLEAN }), rfl, ?_, ?_, rfl, rfl, rfl, ?_, ?_, ?_, ?_⟩
    · exact ((obsAppendAll_comp_globals srcs (modCell ({ st with newSources := some (srcs.map SrcRef.comp), newSourcesIndex := 0, newLoadingState := false } : St) i (fun c => { c with sources := some (srcs.map SrcRef.comp) })) i).1).trans rfl
    · exact ((obsAppendAll_comp_globals srcs (modCell ({ st with newSources := some (srcs.map SrcRef.comp), newSourcesIndex := 0, newLoadingState := false } : St) i (fun c => { c with sources := some (srcs.map SrcRef.comp) })) i).2.1).trans rfl
    · simp only [modCell, List.length_set]
      exact ((obsAppendAll_comp_globals srcs (modCell ({ st with newSources := some (srcs.map SrcRef.comp), newSourcesIndex := 0, newLoadingState := false } : St) i (fun c => { c with sources := some (srcs.map SrcRef.comp) })) i).2.2.2.2.2).trans (by simp only [modCell, List.length_set])
    · have hi5 : i < ({ (obsAppendAll (modCell ({ st with newSources := some (srcs.map SrcRef.comp), newSourcesIndex := 0, newLoadingState := false } : St) i (fun c => { c with sources := some (srcs.map SrcRef.comp) })) (srcs.map SrcRef.comp) i) with newSources := st.newSources, newSourcesIndex := st.newSourcesIndex, newLoadingState := st.newLoadingState } : St).cells.length := by
        show i < (obsAppendAll (modCell ({ st with newSources := some (srcs.map SrcRef.comp), newSourcesIndex := 0, newLoadingState := false } : St) i (fun c => { c with sources := some (srcs.map SrcRef.comp) })) (srcs.map SrcRef.comp) i).cells.length
        rw [(obsAppendAll_comp_globals srcs (modCell ({ st with newSources := some (srcs.map SrcRef.comp), newSourcesIndex := 0, newLoadingState := false } : St) i (fun c => { c with sources := some (srcs.map SrcRef.comp) })) i).2.2.2.2.2]
        exact hiBS
      rw [getCell_modCell_self _ _ _ hi5]
      have hg5 : getCell ({ (obsAppendAll (modCell ({ st with newSources := some (srcs.map SrcRef.comp), newSourcesIndex := 0, newLoadingState := false } : St) i (fun c => { c with sources := some (srcs.map SrcRef.comp) })) (srcs.map SrcRef.comp) i) with newSources := st.newSources, newSourcesIndex := st.newSourcesIndex, newLoadingState := st.newLoadingState } : St) i = getCell (obsAppendAll (modCell ({ st with newSources := some (srcs.map SrcRef.comp), newSourcesIndex := 0, newLoadingState := false } : St) i (fun c => { c with sources := some (srcs.map SrcRef.comp) })) (srcs.map SrcRef.comp) i) i := rfl
      rw [hg5, hgFS, hgBS]
      have hgW : getCell ({ st with newSources := some (srcs.map SrcRef.comp), newSourcesIndex := 0, newLoadingState := false } : St) i = getCell st i := rfl
      rw [hgW]
      conv_rhs => rw [← eq_of_beq hov]
    · intro j hj
      have hjne : i ≠ j := fun hx => hii (hx ▸ hj)
      rw [getCell_modCell_ne _ _ _ _ hjne]
      have hg5j : getCell ({ (obsAppendAll (modCell ({ st with newSources := some (srcs.map SrcRef.comp), newSourcesIndex := 0, newLoadingState := false } : St) i (fun c => { c with sources := some (srcs.map SrcRef.comp) })) (srcs.map SrcRef.comp) i) with newSources := st.newSources, newSourcesIndex := st.newSourcesIndex, newLoadingState := st.newLoadingState } : St) j = getCell (obsAppendAll (modCell ({ st with newSources := some (srcs.map SrcRef.comp), newSourcesIndex := 0, newLoadingState := false } : St) i (fun c => { c with sources := some (srcs.map SrcRef.comp) })) (srcs.map SrcRef.comp) i) j := rfl
      rw [hg5j]
      have hjB : j < ((modCell ({ st with newSources := some (srcs.map SrcRef.comp), newSourcesIndex := 0, newLoadingState := false } : St) i (fun c => { c with sources := some (srcs.map SrcRef.comp) })) : St).cells.length := by
        simp only [modCell, List.length_set]
        exact hbound j hj
      rw [obsAppendAll_mem srcs (modCell ({ st with newSources := some (srcs.map SrcRef.comp), newSourcesIndex := 0, newLoadingState := false } : St) i (fun c => { c with sources := some (srcs.map SrcRef.comp) })) i j hnodup hj hjB]
      have hgBj : getCell (modCell ({ st with newSources := some (srcs.map SrcRef.comp), newSourcesIndex := 0, newLoadingState := false } : St) i (fun c => { c with sources := some (srcs.map SrcRef.comp) })) j = getCell st j := by
        rw [getCell_modCell_ne _ _ _ _ hjne]
        rfl
      rw [hgBj]
    · intro j hji hjs
      rw [getCell_modCell_ne _ _ _ _ (Ne.symm hji)]
      have hg5j : getCell ({ (obsAppendAll (modCell ({ st with newSources := some (srcs.map SrcRef.comp), newSourcesIndex := 0, newLoadingState := false } : St) i (fun c => { c with sources := some (srcs.map SrcRef.comp) })) (srcs.map SrcRef.comp) i) with newSources := st.newSources, newSourcesIndex := st.newSourcesIndex, newLoadingState := st.newLoadingState } : St) j = getCell (obsAppendAll (modCell ({ st with newSources := some (srcs.map SrcRef.comp), newSourcesIndex := 0, newLoadingState := false } : St) i (fun c => { c with sources := some (srcs.map SrcRef.comp) })) (srcs.map SrcRef.comp) i) j := rfl
      rw [hg5j, obsAppendAll_not_mem srcs (modCell ({ st with newSources := some (srcs.map SrcRef.comp), newSourcesIndex := 0, newLoadingState := false } : St) i (fun c => { c with sources := some (srcs.map SrcRef.comp) })) i j hjs]
      rw [getCell_modCell_ne _ _ _ _ (Ne.symm hji)]
      rfl
  · have hov2 : ((getCell st i).value == vstar) = false := by
      rw [Bool.not_eq_true] at hov; exact hov
    have hovW2 : ((getCell ({ st with newSources := some (srcs.map SrcRef.comp), newSourcesIndex := 0, newLoadingState := false } : St) i).value == vstar) = false := hov2
    rw [if_neg (by rw [hovW2]; simp)]
    have hnsWC : ((modCell ({ st with newSources := some (srcs.map SrcRef.comp), newSourcesIndex := 0, newLoadingState := false } : St) i (fun c => { c with value := vstar })) : St).newSources = some (srcs.map SrcRef.comp) := rfl
    have hsrcWC : (getCell (modCell ({ st with newSources := some (srcs.map SrcRef.comp), newSourcesIndex := 0, newLoadingState := false } : St) i (fun c => { c with value := vstar })) i).sources = none := by
      rw [getCell_modCell_self _ _ _ (show i < ({ st with newSources := some (srcs.map SrcRef.comp), newSourcesIndex := 0, newLoadingState := false } : St).cells.length from hi)]
      exact hsrcU
    have hidxWC : ((modCell ({ st with newSources := some (srcs.map SrcRef.comp), newSourcesIndex := 0, newLoadingState := false } : St) i (fun c => { c with value := vstar })) : St).newSourcesIndex = 0 := rfl
    rw [mergeSources_fresh (modCell ({ st with newSources := some (srcs.map SrcRef.comp), newSourcesIndex := 0, newLoadingState := false } : St) i (fun c => { c with value := vstar })) i (srcs.map SrcRef.comp) hnsWC hsrcWC hidxWC]
    have hnlsC : (obsAppendAll (modCell (modCell ({ st with newSources := some (srcs.map SrcRef.comp), newSourcesIndex := 0, newLoadingState := false } : St) i (fun c => { c with value := vstar })) i (fun c => { c with sources := some (srcs.map SrcRef.comp) })) (srcs.map SrcRef.comp) i).newLoadingState = false :=
      ((obsAppendAll_comp_globals srcs (modCell (modCell ({ st with newSources := some (srcs.map SrcRef.comp), newSourcesIndex := 0, newLoadingState := false } : St) i (fun c => { c with value := vstar })) i (fun c => { c with sources := some (srcs.map SrcRef.comp) })) i).2.2.2.2.1).trans rfl
    rw [hnlsC]
    have hiBC : i < ((modCell (modCell ({ st with newSources := some (srcs.map SrcRef.comp), newSourcesIndex := 0, newLoadingState := false } : St) i (fun c => { c with value := vstar })) i (fun c => { c with sources := some (srcs.map SrcRef.comp) })) : St).cells.length := by
      simp only [modCell, List.length_set]
      exact hi
    have hgFC : getCell (obsAppendAll (modCell (modCell ({ st with newSources := some (srcs.map SrcRef.comp), newSourcesIndex := 0, newLoadingState := false } : St) i (fun c => { c with value := vstar })) i (fun c => { c with sources := some (srcs.map SrcRef.comp) })) (srcs.map SrcRef.comp) i) i = getCell (modCell (modCell ({ st with newSources := some (srcs.map SrcRef.comp), newSourcesIndex := 0, newLoadingState := false } : St) i (fun c => { c with value := vstar })) i (fun c => { c with sources := some (srcs.map SrcRef.comp) })) i :=
      obsAppendAll_not_mem srcs (modCell (modCell ({ st with newSources := some (srcs.map SrcRef.comp), newSourcesIndex := 0, newLoadingState := false } : St) i (fun c => { c with value := vstar })) i (fun c => { c with sources := some (srcs.map SrcRef.comp) })) i i hii
    have hgBC : getCell (modCell (modCell ({ st with newSources := some (srcs.map SrcRef.comp), newSourcesIndex := 0, newLoadingState := false } : St) i (fun c => { c with value := vstar })) i (fun c => { c with sources := some (srcs.map SrcRef.comp) })) i = { getCell (modCell ({ st with newSources := some (srcs.map SrcRef.comp), newSourcesIndex := 0, newLoadingState := false } : St) i (fun c => { c with value := vstar })) i with sources := some (srcs.map SrcRef.comp) } := by
      rw [getCell_modCell_self _ _ _ (show i < ((modCell ({ st with newSources := some (srcs.map SrcRef.comp), newSourcesIndex := 0, newLoadingState := false } : St) i (fun c => { c with value := vstar })) : St).cells.length from by simp only [modCell, List.length_set]; exact hi)]
    have hfaFC : (getCell (obsAppendAll (modCell (modCell ({ st with newSources := some (srcs.map SrcRef.comp), newSourcesIndex := 0, newLoadingState := false } : St) i (fun c => { c with value := vstar })) i (fun c => { c with sources := some (srcs.map SrcRef.comp) })) (srcs.map SrcRef.comp) i) i).flagAsync = false := by
      rw [hgFC, hgBC]
      show (getCell (modCell ({ st with newSources := some (srcs.map SrcRef.comp), newSourcesIndex := 0, newLoadingState := false } : St) i (fun c => { c with value := vstar })) i).flagAsync = false
      rw [getCell_modCell_self _ _ _ (show i < ({ st with newSources := some (srcs.map SrcRef.comp), newSourcesIndex := 0, newLoadingState := false } : St).cells.length from hi)]
      exact hfa
    have hfwFC : (getCell (obsAppendAll (modCell (modCell ({ st with newSources := some (srcs.map SrcRef.comp), newSourcesIndex := 0, newLoadingState := false } : St) i (fun c => { c with value := vstar })) i (fun c => { c with sources := some (srcs.map SrcRef.comp) })) (srcs.map SrcRef.comp) i) i).flagWaiting = false := by
      rw [hgFC, hgBC]
      show (getCell (modCell ({ st with newSources := some (srcs.map SrcRef.comp), newSourcesIndex := 0, newLoadingState := false } : St) i (fun c => { c with value := vstar })) i).flagWaiting = false
      rw [getCell_modCell_self _ _ _ (show i < ({ st with newSources := some (srcs.map SrcRef.comp), newSourcesIndex := 0, newLoadingState := false } : St).cells.length from hi)]
      exact hfw
    rw [setLoading_noop (k + srcs.length + 1) _ i hfaFC hfwFC]
    simp only [resCase]
    refine ⟨modCell ({ (obsAppendAll (modCell (modCell ({ st with newSources := some (srcs.map SrcRef.comp), newSourcesIndex := 0, newLoadingState := false } : St) i (fun c => { c with value := vstar })) i (fun c => { c with sources := some (srcs.map SrcRef.comp) })) (srcs.map SrcRef.comp) i) with newSources := st.newSources, newSourcesIndex := st.newSourcesIndex, newLoadingState := st.newLoadingState } : St) i (fun c => { c with state := STATE_CLEAN }), rfl, ?_, ?_, rfl, rfl, rfl, ?_, ?_, ?_, ?_⟩
    · exact ((obsAppendAll_comp_globals srcs (modCell (modCell ({ st with newSources := some (srcs.map SrcRef.comp), newSourcesIndex := 0, newLoadingState := false } : St) i (fun c => { c with value := vstar })) i (fun c => { c with sources := some (srcs.map SrcRef.comp) })) i).1).trans rfl
    · exact ((obsAppendAll_comp_globals srcs (modCell (modCell ({ st with newSources := some (srcs.map SrcRef.comp), newSourcesIndex := 0, newLoadingState := false } : St) i (fun c => { c with value := vstar })) i (fun c => { c with sources := some (srcs.map SrcRef.comp) })) i).2.1).trans rfl
    · simp only [modCell, List.length_set]
      exact ((obsAppendAll_comp_globals srcs (modCell (modCell ({ st with newSources := some (srcs.map SrcRef.comp), newSourcesIndex := 0, newLoadingState := false } : St) i (fun c => { c with value := vstar })) i (fun c => { c with sources := some (srcs.map SrcRef.comp) })) i).2.2.2.2.2).trans (by simp only [modCell, List.length_set])
    · have hi5 : i < ({ (obsAppendAll (modCell (modCell ({ st with newSources := some (srcs.map SrcRef.comp), newSourcesIndex := 0, newLoadingState := false } : St) i (fun c => { c with value := vstar })) i (fun c => { c with sources := some (srcs.map SrcRef.comp) })) (srcs.map SrcRef.comp) i) with newSources := st.newSources, newSourcesIndex := st.newSourcesIndex, newLoadingState := st.newLoadingState } : St).cells.length := by
        show i < (obsAppendAll (modCell (modCell ({ st with newSources := some (srcs.map SrcRef.comp), newSourcesIndex := 0, newLoadingState := false } : St) i (fun c => { c with value := vstar })) i (fun c => { c with sources := some (srcs.map SrcRef.comp) })) (srcs.map SrcRef.comp) i).cells.length
        rw [(obsAppendAll_comp_globals srcs (modCell (modCell ({ st with newSources := some (srcs.map SrcRef.comp), newSourcesIndex := 0, newLoadingState := false } : St) i (fun c => { c with value := vstar })) i (fun c => { c with sources := some (srcs.map SrcRef.comp) })) i).2.2.2.2.2]
        exact hiBC
      rw [getCell_modCell_self _ _ _ hi5]
      have hg5 : getCell ({ (obsAppendAll (modCell (modCell ({ st with newSources := some (srcs.map SrcRef.comp), newSourcesIndex := 0, newLoadingState := false } : St) i (fun c => { c with value := vstar })) i (fun c => { c with sources := some (srcs.map SrcRef.comp) })) (srcs.map SrcRef.comp) i) with newSources := st.newSources, newSourcesIndex := st.newSourcesIndex, newLoadingState := st.newLoadingState } : St) i = getCell (obsAppendAll (modCell (modCell ({ st with newSources := some (srcs.map SrcRef.comp), newSourcesIndex := 0, newLoadingState := false } : St) i (fun c => { c with value := vstar })) i (fun c => { c with sources := some (srcs.map SrcRef.comp) })) (srcs.map SrcRef.comp) i) i := rfl
      rw [hg5, hgFC, hgBC]
      have hgW : getCell (modCell ({ st with newSources := some (srcs.map SrcRef.comp), newSourcesIndex := 0, newLoadingState := false } : St) i (fun c => { c with value := vstar })) i = { getCell st i with value := vstar } := by
        rw [getCell_modCell_self _ _ _ (show i < ({ st with newSources := some (srcs.map SrcRef.comp), newSourcesIndex := 0, newLoadingState := false } : St).cells.length from hi)]
        rfl
      rw [hgW]
    · intro j hj
      have hjne : i ≠ j := fun hx => hii (hx ▸ hj)
      rw [getCell_modCell_ne _ _ _ _ hjne]
      have hg5j : getCell ({ (obsAppendAll (modCell (modCell ({ st with newSources := some (srcs.map SrcRef.comp), newSourcesIndex := 0, newLoadingState := false } : St) i (fun c => { c with value := vstar })) i (fun c => { c with sources := some (srcs.map SrcRef.comp) })) (srcs.map SrcRef.comp) i) with newSources := st.newSources, newSourcesIndex := st.newSourcesIndex, newLoadingState := st.newLoadingState } : St) j = getCell (obsAppendAll (modCell (modCell ({ st with newSources := some (srcs.map SrcRef.comp), newSourcesIndex := 0, newLoadingState := false } : St) i (fun c => { c with value := vstar })) i (fun c => { c with sources := some (srcs.map SrcRef.comp) })) (srcs.map SrcRef.comp) i) j := rfl
      rw [hg5j]
      have hjB : j < ((modCell (modCell ({ st with newSources := some (srcs.map SrcRef.comp), newSourcesIndex := 0, newLoadingState := false } : St) i (fun c => { c with value := vstar })) i (fun c => { c with sources := some (srcs.map SrcRef.comp) })) : St).cells.length := by
        simp only [modCell, List.length_set]
        exact hbound j hj
      rw [obsAppendAll_mem srcs (modCell (modCell ({ st with newSources := some (srcs.map SrcRef.comp), newSourcesIndex := 0, newLoadingState := false } : St) i (fun c => { c with value := vstar })) i (fun c => { c with sources := some (srcs.map SrcRef.comp) })) i j hnodup hj hjB]
      have hgBj : getCell (modCell (modCell ({ st with newSources := some (srcs.map SrcRef.comp), newSourcesIndex := 0, newLoadingState := false } : St) i (fun c => { c with value := vstar })) i (fun c => { c with sources := some (srcs.map SrcRef.comp) })) j = getCell st j := by
        rw [getCell_modCell_ne _ _ _ _ hjne]
        rw [getCell_modCell_ne _ _ _ _ hjne]
        rfl
      rw [hgBj]
    · intro j hji hjs
      rw [getCell_modCell_ne _ _ _ _ (Ne.symm hji)]
      have hg5j : getCell ({ (obsAppendAll (modCell (modCell ({ st with newSources := some (srcs.map SrcRef.comp), newSourcesIndex := 0, newLoadingState := false } : St) i (fun c => { c with value := vstar })) i (fun c => { c with sources := some (srcs.map SrcRef.comp) })) (srcs.map SrcRef.comp) i) with newSources := st.newSources, newSourcesIndex := st.newSourcesIndex, newLoadingState := st.newLoadingState } : St) j = getCell (obsAppendAll (modCell (modCell ({ st with newSources := some (srcs.map SrcRef.comp), newSourcesIndex := 0, newLoadingState := false } : St) i (fun c => { c with value := vstar })) i (fun c => { c with sources := some (srcs.map SrcRef.comp) })) (srcs.map SrcRef.comp) i) j := rfl
      rw [hg5j, obsAppendAll_not_mem srcs (modCell (modCell ({ st with newSources := some (srcs.map SrcRef.comp), newSourcesIndex := 0, newLoadingState := false } : St) i (fun c => { c with value := vstar })) i (fun c => { c with sources := some (srcs.map SrcRef.comp) })) i j hjs]
      rw [getCell_modCell_ne _ _ _ _ (Ne.symm hji)]
      rw [getCell_modCell_ne _ _ _ _ (Ne.symm hji)]
      rfl


/-- `updateIfNecessary` on a CLEAN cell is a no-op that reports the loading
bit. -/
theorem uiN_clean (k : Nat) (st : St) (i : Nat)
    (hst : (getCell st i).state = STATE_CLEAN) :
    engine (k + 1) (.updateIfNecessary i) st
      = .done (.b (isLoadingOf (getCell st i))) st := by
  simp only [engine, hst, STATE_DISPOSED, STATE_CLEAN]
  norm_num

/-- A read of a computed cell whose `updateIfNecessary` completed cleanly, at
top level (no current observer): the cached value is returned and nothing
else changes. -/
theorem read_memo_done (k : Nat) (st st' : St) (i : Nat) (b : Bool)
    (hcp : (getCell st i).compute ≠ none)
    (huiN : engine k (.updateIfNecessary i) st = .done (.b b) st')
    (hobs2 : st'.currentObserver = none)
    (hfe2 : (getCell st' i).flagError = false)
    (hfw2 : (getCell st' i).flagWaiting = false)
    (hfa2 : (getCell st' i).flagAsync = false) :
    engine (k + 1) (.read i) st = .done (.v (getCell st' i).value) st' := by
  simp only [engine]
  rcases hcpe : (getCell st i).compute with _ | cp
  · exact absurd hcpe hcp
  · rw [huiN]
    simp only [Res.andThen]
    have htr : track st' (.comp i) = st' := by simp [track, hobs2]
    rw [htr]
    have hL : isLoadingOf (getCell st' i) = false := by simp [isLoadingOf, hfa2, hfw2]
    rw [hL, hfe2]
    simp


/-! ### The steady-state depth-one glitch-freedom development -/

theorem fromScratch_succ (st : St) (k i : Nat) :
    fromScratch st (k + 1) i = fromScratchF (fromScratch st k) st i := rfl

theorem track_noObs (st : St) (r : SrcRef) (h : st.currentObserver = none) :
    track st r = st := by
  simp [track, h]

theorem fromScratch_leaf (st : St) (k i : Nat) (hcp : (getCell st i).compute = none) :
    fromScratch st (k + 1) i = (getCell st i).value := by
  rw [fromScratch_succ]
  simp [fromScratchF, hcp]

theorem fromScratch_memo (st : St) (i : Nat) (srcs : List Nat) (f : List V → CompRes) (v : V)
    (hcp : (getCell st i).compute = some (srcs, f))
    (hleaf : ∀ s ∈ srcs, (getCell st s).compute = none)
    (hf : f (srcs.map (fun s => (getCell st s).value)) = .ret (.plain v)) :
    fromScratch st 2 i = v := by
  rw [show (2 : Nat) = 1 + 1 from rfl, fromScratch_succ]
  simp only [fromScratchF, hcp]
  rw [show srcs.map (fromScratch st 1) = srcs.map (fun s => (getCell st s).value) from
    List.map_congr_left (fun s hs => fromScratch_leaf st 0 s (hleaf s hs))]
  rw [hf]

theorem OpsOk_of_FrA (st st' : St) (ops : List Op) (hfr : FrA st st') (hops : OpsOk st ops) :
    OpsOk st' ops := by
  intro op hop
  have h := hops op hop
  cases op with
  | writeOp i v =>
    exact ⟨by rw [hfr.1]; exact h.1, by rw [(hfr.2.2.2 i).1]; exact h.2⟩
  | readOp i =>
    exact (by rw [hfr.1]; exact h : i < st'.cells.length)

/-- Under the invariant, each observer array is duplicate-free. -/
theorem nodup_observers (st : St) (i : Nat) (hinv : INV st) (hi : i < st.cells.length) :
    ((getCell st i).observers.getD []).Nodup := by
  obtain ⟨h1, h2, h3, h4, h5, hcells, hcount, hmem⟩ := hinv
  rw [List.nodup_iff_count_le_one]
  intro a
  by_cases ha : a ∈ (getCell st i).observers.getD []
  · have hax := hmem i hi a ha
    have hc := hcount a i hax.1 hi
    have hform : obsCount st a (.comp i) = ((getCell st i).observers.getD []).count a := rfl
    rw [hform] at hc
    rw [hc]
    split
    · split
      · exact le_refl 1
      · exact Nat.zero_le 1
    · exact Nat.zero_le 1
  · rw [List.count_eq_zero_of_not_mem ha]
    exact Nat.zero_le 1

/-- Invariant preservation for a stable-source memo update: only the memo's
value and state changed. -/
theorem INV_update_T (st stF : St) (i : Nat) (srcs : List Nat) (f : List V → CompRes)
    (vstar : V)
    (hinv : INV st) (hi : i < st.cells.length)
    (hcp : (getCell st i).compute = some (srcs, f))
    (hsrc : (getCell st i).sources = some (srcs.map SrcRef.comp))
    (hf : f (srcs.map (fun s => (getCell st s).value)) = .ret (.plain vstar))
    (hcO : stF.currentObserver = st.currentObserver) (hcW : stF.currentOwner = st.currentOwner)
    (hnsF : stF.newSources = st.newSources) (hnsi : stF.newSourcesIndex = st.newSourcesIndex)
    (hnls : stF.newLoadingState = st.newLoadingState)
    (hlen : stF.cells.length = st.cells.length)
    (hcelli : getCell stF i = { getCell st i with value := vstar, state := STATE_CLEAN })
    (hcellj : ∀ j, j ≠ i → getCell stF j = getCell st j) :
    INV stF := by
  obtain ⟨h1, h2, h3, h4, h5, hcells, hcount, hmem⟩ := hinv
  have hobsEq : ∀ m, (getCell stF m).observers = (getCell st m).observers := by
    intro m
    by_cases hm : m = i
    · subst hm
      rw [hcelli]
    · rw [hcellj m hm]
  have hcpEq : ∀ m, (getCell stF m).compute = (getCell st m).compute := by
    intro m
    by_cases hm : m = i
    · subst hm
      rw [hcelli]
    · rw [hcellj m hm]
  have hsrcEq : ∀ m, (getCell stF m).sources = (getCell st m).sources := by
    intro m
    by_cases hm : m = i
    · subst hm
      rw [hcelli]
    · rw [hcellj m hm]
  have hvalEq : ∀ s ∈ srcs, (getCell stF s).value = (getCell st s).value := by
    intro s hs
    have hM := hcells i hi
    rw [hcp] at hM
    have hsi : s ≠ i := by
      intro hsi
      have := (hM.2.2.2.1 s hs).2
      rw [hsi, hcp] at this
      cases this
    rw [hcellj s hsi]
  refine ⟨hcO.trans h1, hcW.trans h2, hnsF.trans h3, hnsi.trans h4, hnls.trans h5, ?_, ?_, ?_⟩
  · intro x hx
    rw [hlen] at hx
    obtain ⟨hB, hM⟩ := hcells x hx
    by_cases hxi : x = i
    · subst hxi
      rw [hcp] at hM
      obtain ⟨hne, hnd, hlv, htot, hobsx, _⟩ := hM
      refine ⟨by rw [hcelli]; exact hB, ?_⟩
      have hcpF : (getCell stF x).compute = some (srcs, f) := by
        rw [hcelli]; exact hcp
      rw [hcpF]
      show MemoOk stF x srcs f
      refine ⟨hne, hnd, ?_, htot, by rw [hcelli]; exact hobsx, ?_⟩
      · intro s hs
        have hsi : s ≠ x := by
          intro hsi
          have := (hlv s hs).2
          rw [hsi, hcp] at this
          cases this
        rw [hcellj s hsi, hlen]
        exact hlv s hs
      · right
        refine ⟨by rw [hcelli]; exact hsrc, Or.inr ⟨by rw [hcelli], ?_⟩⟩
        have hvF : (getCell stF x).value = vstar := by rw [hcelli]
        rw [hvF]
        have hmap : srcs.map (fun s => (getCell stF s).value)
            = srcs.map (fun s => (getCell st s).value) := by
          refine List.map_congr_left ?_
          intro s hs
          have hsi : s ≠ x := by
            intro hsi
            have := (hlv s hs).2
            rw [hsi, hcp] at this
            cases this
          rw [hcellj s hsi]
        rw [hmap, hf]
    · have hx2 : getCell stF x = getCell st x := hcellj x hxi
      rw [hx2]
      refine ⟨hB, ?_⟩
      rcases hcpx : (getCell st x).compute with _ | ⟨srcs2, f2⟩
      · rw [hcpx] at hM
        exact hM
      · rw [hcpx] at hM
        obtain ⟨hne, hnd, hlv, htot, hobsx, hcache⟩ := hM
        refine ⟨hne, hnd, ?_, htot, by rw [hx2]; exact hobsx, ?_⟩
        · intro s hs
          have hsi : s ≠ i := by
            intro hsi
            have := (hlv s hs).2
            rw [hsi, hcp] at this
            cases this
          rw [hcellj s hsi, hlen]
          exact hlv s hs
        · rcases hcache with hu | ⟨hmat, hst⟩
          · exact Or.inl ⟨by rw [hx2]; exact hu.1, by rw [hx2]; exact hu.2⟩
          · refine Or.inr ⟨by rw [hx2]; exact hmat, ?_⟩
            rcases hst with hd | ⟨hcl, hval⟩
            · exact Or.inl (by rw [hx2]; exact hd)
            · refine Or.inr ⟨by rw [hx2]; exact hcl, ?_⟩
              have hmap : srcs2.map (fun s => (getCell stF s).value)
                  = srcs2.map (fun s => (getCell st s).value) := by
                refine List.map_congr_left ?_
                intro s hs
                have hsi : s ≠ i := by
                  intro hsi
                  have := (hlv s hs).2
                  rw [hsi, hcp] at this
                  cases this
                rw [hcellj s hsi]
              rw [hx2, hmap]
              exact hval
  · intro x j hx hj
    rw [hlen] at hx hj
    have hLHS : obsCount stF x (.comp j) = obsCount st x (.comp j) := by
      simp only [obsCount, refObs, hobsEq]
    have hcsEq : cSrcs (getCell stF x) = cSrcs (getCell st x) := by
      simp only [cSrcs, hcpEq]
    rw [hLHS, hcpEq, hsrcEq, hcsEq]
    exact hcount x j hx hj
  · intro j hj x hxmem
    rw [hlen] at hj
    rw [hobsEq j] at hxmem
    have h := hmem j hj x hxmem
    refine ⟨by rw [hlen]; exact h.1, ?_⟩
    rw [hcpEq x]
    exact h.2

/-- Invariant preservation for a fresh-source memo update: the memo gains its
source array and CLEAN cached value, and each source gains the memo at the
end of its observer array. -/
theorem INV_update_U (st stF : St) (i : Nat) (srcs : List Nat) (f : List V → CompRes)
    (vstar : V)
    (hinv : INV st) (hi : i < st.cells.length)
    (hcp : (getCell st i).compute = some (srcs, f))
    (hsrcU : (getCell st i).sources = none)
    (hf : f (srcs.map (fun s => (getCell st s).value)) = .ret (.plain vstar))
    (hcO : stF.currentObserver = st.currentObserver) (hcW : stF.currentOwner = st.currentOwner)
    (hnsF : stF.newSources = st.newSources) (hnsi : stF.newSourcesIndex = st.newSourcesIndex)
    (hnls : stF.newLoadingState = st.newLoadingState)
    (hlen : stF.cells.length = st.cells.length)
    (hcelli : getCell stF i = { getCell st i with value := vstar, sources := some (srcs.map SrcRef.comp), state := STATE_CLEAN })
    (hcellm : ∀ j ∈ srcs, getCell stF j = { getCell st j with observers := some ((getCell st j).observers.getD [] ++ [i]) })
    (hcello : ∀ j, j ≠ i → j ∉ srcs → getCell stF j = getCell st j) :
    INV stF := by
  obtain ⟨h1, h2, h3, h4, h5, hcells, hcount, hmem⟩ := hinv
  have hM0 := (hcells i hi).2
  rw [hcp] at hM0
  obtain ⟨hne, hnd, hlv, htot, hobsi, _⟩ := hM0
  have hii : i ∉ srcs := by
    intro h
    have := (hlv i h).2
    rw [hcp] at this
    cases this
  have hcpEq : ∀ m, (getCell stF m).compute = (getCell st m).compute := by
    intro m
    by_cases hm : m = i
    · subst hm
      rw [hcelli]
    · by_cases hms : m ∈ srcs
      · rw [hcellm m hms]
      · rw [hcello m hm hms]
  have hvalEq : ∀ m, m ≠ i → (getCell stF m).value = (getCell st m).value := by
    intro m hm
    by_cases hms : m ∈ srcs
    · rw [hcellm m hms]
    · rw [hcello m hm hms]
  have hsrcEq : ∀ m, m ≠ i → (getCell stF m).sources = (getCell st m).sources := by
    intro m hm
    by_cases hms : m ∈ srcs
    · rw [hcellm m hms]
    · rw [hcello m hm hms]
  have hstEq : ∀ m, m ≠ i → (getCell stF m).state = (getCell st m).state := by
    intro m hm
    by_cases hms : m ∈ srcs
    · rw [hcellm m hms]
    · rw [hcello m hm hms]
  have hobsEqN : ∀ m, m ∉ srcs → (getCell stF m).observers = (getCell st m).observers := by
    intro m hms
    by_cases hm : m = i
    · subst hm
      rw [hcelli]
    · rw [hcello m hm hms]
  refine ⟨hcO.trans h1, hcW.trans h2, hnsF.trans h3, hnsi.trans h4, hnls.trans h5, ?_, ?_, ?_⟩
  · intro x hx
    rw [hlen] at hx
    obtain ⟨hB, hM⟩ := hcells x hx
    by_cases hxi : x = i
    · subst hxi
      refine ⟨by rw [hcelli]; exact hB, ?_⟩
      have hcpF : (getCell stF x).compute = some (srcs, f) := by
        rw [hcelli]; exact hcp
      rw [hcpF]
      show MemoOk stF x srcs f
      refine ⟨hne, hnd, ?_, htot, by rw [hcelli]; exact hobsi, ?_⟩
      · intro s hs
        rw [hcpEq s, hlen]
        exact hlv s hs
      · right
        refine ⟨by rw [hcelli], Or.inr ⟨by rw [hcelli], ?_⟩⟩
        have hvF : (getCell stF x).value = vstar := by rw [hcelli]
        rw [hvF]
        have hmap : srcs.map (fun s => (getCell stF s).value)
            = srcs.map (fun s => (getCell st s).value) := by
          refine List.map_congr_left ?_
          intro s hs
          exact hvalEq s (fun hsx => hii (hsx ▸ hs))
        rw [hmap, hf]
    · by_cases hxs : x ∈ srcs
      · refine ⟨by rw [hcellm x hxs]; exact hB, ?_⟩
        have hcpF : (getCell stF x).compute = none := by
          rw [hcpEq x]
          exact (hlv x hxs).2
        rw [hcpF]
        have hMx := hM
        rw [(hlv x hxs).2] at hMx
        refine ⟨by rw [hcellm x hxs]; exact hMx.1, by rw [hcellm x hxs]; exact hMx.2⟩
      · have hx2 : getCell stF x = getCell st x := hcello x hxi hxs
        rw [hx2]
        refine ⟨hB, ?_⟩
        rcases hcpx : (getCell st x).compute with _ | ⟨srcs2, f2⟩
        · rw [hcpx] at hM
          exact hM
        · rw [hcpx] at hM
          obtain ⟨hne2, hnd2, hlv2, htot2, hobsx2, hcache2⟩ := hM
          refine ⟨hne2, hnd2, ?_, htot2, by rw [hx2]; exact hobsx2, ?_⟩
          · intro s hs
            rw [hcpEq s, hlen]
            exact hlv2 s hs
          · rcases hcache2 with hu | ⟨hmat, hst⟩
            · exact Or.inl ⟨by rw [hx2]; exact hu.1, by rw [hx2]; exact hu.2⟩
            · refine Or.inr ⟨by rw [hx2]; exact hmat, ?_⟩
              rcases hst with hd | ⟨hcl, hval⟩
              · exact Or.inl (by rw [hx2]; exact hd)
              · refine Or.inr ⟨by rw [hx2]; exact hcl, ?_⟩
                have hmap : srcs2.map (fun s => (getCell stF s).value)
                    = srcs2.map (fun s => (getCell st s).value) := by
                  refine List.map_congr_left ?_
                  intro s hs
                  have hsi : s ≠ i := by
                    intro hsi
                    have := (hlv2 s hs).2
                    rw [hsi, hcp] at this
                    cases this
                  exact hvalEq s hsi
                rw [hx2, hmap]
                exact hval
  · intro x j hx hj
    rw [hlen] at hx hj
    have hcpFi : (getCell stF i).compute = some (srcs, f) := (hcpEq i).trans hcp
    have hcsFi : cSrcs (getCell stF i) = srcs := by
      simp [cSrcs, hcpFi]
    have hsrcFi : (getCell stF i).sources = some (srcs.map SrcRef.comp) := by
      rw [hcelli]
    have hOld := hcount x j hx hj
    by_cases hjs : j ∈ srcs
    · have hLHS : obsCount stF x (.comp j)
          = obsCount st x (.comp j) + (if x = i then 1 else 0) := by
        show ((refObs stF (.comp j)).getD []).count x = _
        simp only [refObs, hcellm j hjs, Option.getD_some, List.count_append]
        congr 1
        by_cases hxe : x = i
        · subst hxe
          simp
        · simp [List.count_cons, hxe]
      rw [hLHS]
      by_cases hxi : x = i
      · subst hxi
        simp only [hcp] at hOld
        rw [if_neg (by rw [hsrcU]; simp)] at hOld
        rw [hOld, if_pos rfl]
        simp only [hcpFi]
        rw [if_pos ⟨by rw [hsrcFi]; simp, by rw [hcsFi]; exact hjs⟩]
      · rw [if_neg hxi, Nat.add_zero]
        rcases hcpx : (getCell st x).compute with _ | p
        · simp only [hcpx] at hOld
          rw [hOld]
          have hcpFx : (getCell stF x).compute = none := (hcpEq x).trans hcpx
          simp only [hcpFx]
        · simp only [hcpx] at hOld
          rw [hOld]
          have hcpFx : (getCell stF x).compute = some p := (hcpEq x).trans hcpx
          simp only [hcpFx]
          have hcsFx : cSrcs (getCell stF x) = cSrcs (getCell st x) := by
            simp [cSrcs, hcpFx, hcpx]
          rw [hsrcEq x hxi, hcsFx]
    · have hLHS : obsCount stF x (.comp j) = obsCount st x (.comp j) := by
        show ((refObs stF (.comp j)).getD []).count x = _
        simp only [refObs, hobsEqN j hjs]
        rfl
      rw [hLHS]
      by_cases hxi : x = i
      · subst hxi
        simp only [hcp] at hOld
        rw [if_neg (by rw [hsrcU]; simp)] at hOld
        rw [hOld]
        simp only [hcpFi]
        rw [if_neg (fun hc => hjs (by rw [hcsFi] at hc; exact hc.2))]
      · rcases hcpx : (getCell st x).compute with _ | p
        · simp only [hcpx] at hOld
          rw [hOld]
          have hcpFx : (getCell stF x).compute = none := (hcpEq x).trans hcpx
          simp only [hcpFx]
        · simp only [hcpx] at hOld
          rw [hOld]
          have hcpFx : (getCell stF x).compute = some p := (hcpEq x).trans hcpx
          simp only [hcpFx]
          have hcsFx : cSrcs (getCell stF x) = cSrcs (getCell st x) := by
            simp [cSrcs, hcpFx, hcpx]
          rw [hsrcEq x hxi, hcsFx]
  · intro j hj x hxm
    rw [hlen] at hj
    by_cases hjs : j ∈ srcs
    · rw [hcellm j hjs] at hxm
      simp only [Option.getD_some] at hxm
      rcases List.mem_append.mp hxm with hxo | hxi2
      · have h := hmem j hj x hxo
        exact ⟨by rw [hlen]; exact h.1, by rw [hcpEq x]; exact h.2⟩
      · have hxi3 : x = i := by simpa using hxi2
        subst hxi3
        refine ⟨by rw [hlen]; exact hi, ?_⟩
        rw [hcpEq x, hcp]
        simp
    · rw [hobsEqN j hjs] at hxm
      have h := hmem j hj x hxm
      exact ⟨by rw [hlen]; exact h.1, by rw [hcpEq x]; exact h.2⟩

/-- One steady-state read: some fuel completes it, its value is the
from-scratch denotation at the starting state, and the invariant holds
again afterwards. -/
theorem read_step (st : St) (i : Nat) (hinv : INV st) (hi : i < st.cells.length) :
    ∃ NF st', engine NF (.read i) st = .done (.v (fromScratch st 2 i)) st' ∧ INV st' := by
  have hinv' := hinv
  obtain ⟨h1, h2, h3, h4, h5, hcells, hcount, hmem⟩ := hinv'
  obtain ⟨hB, hM⟩ := hcells i hi
  obtain ⟨heq, hpr, hfe, hfw, hfa, hln, hen, hpar, hprev, hnx, hdisp⟩ := hB
  rcases hcp : (getCell st i).compute with _ | ⟨srcs, f⟩
  · refine ⟨1, st, ?_, hinv⟩
    have h := read_leaf_eq 0 st i hcp hfe hfw hfa
    rw [track_noObs st (.comp i) h1] at h
    have hfs : fromScratch st 2 i = (getCell st i).value := fromScratch_leaf st 1 i hcp
    rw [hfs]
    exact h
  · rw [hcp] at hM
    obtain ⟨hne, hnd, hlv, htot, hobsi, hcache⟩ := hM
    have hcp2 : (getCell st i).compute ≠ none := by rw [hcp]; simp
    have hql : ∀ s ∈ srcs, (getCell st s).compute = none ∧ (getCell st s).flagError = false ∧ (getCell st s).flagWaiting = false ∧ (getCell st s).flagAsync = false := by
      intro s hs
      obtain ⟨hsl, hsc⟩ := hlv s hs
      obtain ⟨_, _, hfe2, hfw2, hfa2, _⟩ := (hcells s hsl).1
      exact ⟨hsc, hfe2, hfw2, hfa2⟩
    rcases hcache with ⟨hstD, hsrcU⟩ | ⟨hsrc, hrest⟩
    · obtain ⟨vstar, hf⟩ := htot (srcs.map (fun s => (getCell st s).value))
      have hii : i ∉ srcs := fun h => by
        have h9 := (hlv i h).2
        rw [hcp] at h9
        cases h9
      obtain ⟨stF, hup, hcO, hcW, hnsF, hnsi, hnls, hlen, hcelli, hcellm, hcello⟩ :=
        update_memo_fresh 0 st i srcs f vstar hi hcp hsrcU hne hnd (fun s hs => (hlv s hs).1) hii hf heq hpr hfe hfw hfa hln hen hnx hdisp hobsi hql
      have huiN := uiN_dirty (0 + srcs.length + 3) st stF i hstD hup
      have hval : (getCell stF i).value = vstar := by rw [hcelli]
      have hfe2 : (getCell stF i).flagError = false := by rw [hcelli]; exact hfe
      have hfw2 : (getCell stF i).flagWaiting = false := by rw [hcelli]; exact hfw
      have hfa2 : (getCell stF i).flagAsync = false := by rw [hcelli]; exact hfa
      have hobs2 : stF.currentObserver = none := by rw [hcO]; exact h1
      have hrd := read_memo_done (0 + srcs.length + 3 + 1) st stF i _ hcp2 huiN hobs2 hfe2 hfw2 hfa2
      refine ⟨0 + srcs.length + 3 + 1 + 1, stF, ?_, ?_⟩
      · have hfs : fromScratch st 2 i = vstar := fromScratch_memo st i srcs f vstar hcp (fun s hs => (hlv s hs).2) hf
        rw [hfs, ← hval]
        exact hrd
      · exact INV_update_U st stF i srcs f vstar hinv hi hcp hsrcU hf hcO hcW hnsF hnsi hnls hlen hcelli hcellm hcello
    · rcases hrest with hstD | ⟨hstC, hcached⟩
      · obtain ⟨vstar, hf⟩ := htot (srcs.map (fun s => (getCell st s).value))
        obtain ⟨stF, hup, hcO, hcW, hnsF, hnsi, hnls, hlen, hcelli, hcellj⟩ :=
          update_memo_stable 0 st i srcs f vstar hi hcp hsrc hf heq hpr hfe hfw hfa hln hen hnx hdisp hobsi hql
        have huiN := uiN_dirty (0 + srcs.length + 3) st stF i hstD hup
        have hval : (getCell stF i).value = vstar := by rw [hcelli]
        have hfe2 : (getCell stF i).flagError = false := by rw [hcelli]; exact hfe
        have hfw2 : (getCell stF i).flagWaiting = false := by rw [hcelli]; exact hfw
        have hfa2 : (getCell stF i).flagAsync = false := by rw [hcelli]; exact hfa
        have hobs2 : stF.currentObserver = none := by rw [hcO]; exact h1
        have hrd := read_memo_done (0 + srcs.length + 3 + 1) st stF i _ hcp2 huiN hobs2 hfe2 hfw2 hfa2
        refine ⟨0 + srcs.length + 3 + 1 + 1, stF, ?_, ?_⟩
        · have hfs : fromScratch st 2 i = vstar := fromScratch_memo st i srcs f vstar hcp (fun s hs => (hlv s hs).2) hf
          rw [hfs, ← hval]
          exact hrd
        · exact INV_update_T st stF i srcs f vstar hinv hi hcp hsrc hf hcO hcW hnsF hnsi hnls hlen hcelli hcellj
      · have huiN := uiN_clean 0 st i hstC
        have hrd := read_memo_done 1 st st i _ hcp2 huiN h1 hfe hfw hfa
        refine ⟨2, st, ?_, hinv⟩
        have hfs : fromScratch st 2 i = (getCell st i).value := fromScratch_memo st i srcs f (getCell st i).value hcp (fun s hs => (hlv s hs).2) hcached
        rw [hfs]
        exact hrd

/-- One steady-state leaf write: some fuel completes it, the written value is
echoed, and the invariant holds again afterwards. -/
theorem write_step (st : St) (i : Nat) (v : V) (hinv : INV st) (hi : i < st.cells.length)
    (hcp : (getCell st i).compute = none) :
    ∃ NF st', engine NF (.write i (.plain v)) st = .done (.v v) st' ∧ INV st' := by
  have hinv2 := hinv
  obtain ⟨h1, h2, h3, h4, h5, hcells, hcount, hmem⟩ := hinv2
  obtain ⟨hBi, hLi⟩ := hcells i hi
  rw [hcp] at hLi
  obtain ⟨heq, hpr, hfe, hfw, hfa, hln, hen, hpar, hprev, hnx, hdisp⟩ := hBi
  have hni : i ∉ ((getCell st i).observers.getD []) := fun h => (hmem i hi i h).2 hcp
  have hq : ∀ x ∈ ((getCell st i).observers.getD []), (getCell st x).observers = none ∧ (getCell st x).loadingNode = none ∧ (getCell st x).errorNode = none := by
    intro x hx
    obtain ⟨hxl, hxc⟩ := hmem i hi x hx
    obtain ⟨hBx, hMx⟩ := hcells x hxl
    rcases hcpx : (getCell st x).compute with _ | ⟨s2, f2⟩
    · exact absurd hcpx hxc
    · rw [hcpx] at hMx
      have hMx2 : MemoOk st x s2 f2 := hMx
      exact ⟨hMx2.2.2.2.2.1, hBx.2.2.2.2.2.1, hBx.2.2.2.2.2.2.1⟩
  have hw := write_leaf_eq 0 st i v hi heq hpr hfe hfw hfa hln hen hni hq
  by_cases hov : ((getCell st i).value == v) = true
  · rw [if_pos hov] at hw
    exact ⟨0 + ((getCell st i).observers.getD []).length + 3, st, hw, hinv⟩
  · rw [if_neg hov] at hw
    refine ⟨0 + ((getCell st i).observers.getD []).length + 3, (bumpAll (modCell st i (fun c => { c with value := v })) ((getCell st i).observers.getD []) STATE_DIRTY), hw, ?_⟩
    have hOsNd : ((getCell st i).observers.getD []).Nodup := nodup_observers st i hinv hi
    have hBlen : (modCell st i (fun c => { c with value := v })).cells.length = st.cells.length := by simp
    have hlenW : (bumpAll (modCell st i (fun c => { c with value := v })) ((getCell st i).observers.getD []) STATE_DIRTY).cells.length = st.cells.length := by
      rw [(bumpAll_globals ((getCell st i).observers.getD []) (modCell st i (fun c => { c with value := v })) STATE_DIRTY).2.2.2.2.2]
      exact hBlen
    have hcellI : getCell (bumpAll (modCell st i (fun c => { c with value := v })) ((getCell st i).observers.getD []) STATE_DIRTY) i = { getCell st i with value := v } := by
      rw [bumpAll_not_mem ((getCell st i).observers.getD []) (modCell st i (fun c => { c with value := v })) STATE_DIRTY i hni]
      exact getCell_modCell_self st i _ hi
    have hcellNo : ∀ m, m ∉ ((getCell st i).observers.getD []) → m ≠ i → getCell (bumpAll (modCell st i (fun c => { c with value := v })) ((getCell st i).observers.getD []) STATE_DIRTY) m = getCell st m := by
      intro m hmo hmi
      rw [bumpAll_not_mem ((getCell st i).observers.getD []) (modCell st i (fun c => { c with value := v })) STATE_DIRTY m hmo]
      exact getCell_modCell_ne st i m _ (fun h => hmi h.symm)
    have hcellO : ∀ m ∈ ((getCell st i).observers.getD []), getCell (bumpAll (modCell st i (fun c => { c with value := v })) ((getCell st i).observers.getD []) STATE_DIRTY) m = (if STATE_DIRTY ≤ (getCell st m).state then getCell st m else { getCell st m with state := STATE_DIRTY }) := by
      intro m hmo
      have hmi : m ≠ i := fun h => hni (h ▸ hmo)
      have hml : m < (modCell st i (fun c => { c with value := v })).cells.length := by rw [hBlen]; exact (hmem i hi m hmo).1
      rw [bumpAll_mem ((getCell st i).observers.getD []) (modCell st i (fun c => { c with value := v })) STATE_DIRTY m hOsNd hmo hml, getCell_modCell_ne st i m _ (fun h => hmi h.symm)]
    have hcpEq : ∀ m, (getCell (bumpAll (modCell st i (fun c => { c with value := v })) ((getCell st i).observers.getD []) STATE_DIRTY) m).compute = (getCell st m).compute := by
      intro m
      by_cases hmo : m ∈ ((getCell st i).observers.getD [])
      · rw [hcellO m hmo]
        split <;> rfl
      · by_cases hmi : m = i
        · subst hmi
          rw [hcellI]
        · rw [hcellNo m hmo hmi]
    have hsrcEq : ∀ m, (getCell (bumpAll (modCell st i (fun c => { c with value := v })) ((getCell st i).observers.getD []) STATE_DIRTY) m).sources = (getCell st m).sources := by
      intro m
      by_cases hmo : m ∈ ((getCell st i).observers.getD [])
      · rw [hcellO m hmo]
        split <;> rfl
      · by_cases hmi : m = i
        · subst hmi
          rw [hcellI]
        · rw [hcellNo m hmo hmi]
    have hobsEq : ∀ m, (getCell (bumpAll (modCell st i (fun c => { c with value := v })) ((getCell st i).observers.getD []) STATE_DIRTY) m).observers = (getCell st m).observers := by
      intro m
      by_cases hmo : m ∈ ((getCell st i).observers.getD [])
      · rw [hcellO m hmo]
        split <;> rfl
      · by_cases hmi : m = i
        · subst hmi
          rw [hcellI]
        · rw [hcellNo m hmo hmi]
    have hvalEq : ∀ s, s ≠ i → (getCell (bumpAll (modCell st i (fun c => { c with value := v })) ((getCell st i).observers.getD []) STATE_DIRTY) s).value = (getCell st s).value := by
      intro s hsi
      by_cases hso : s ∈ ((getCell st i).observers.getD [])
      · rw [hcellO s hso]
        split <;> rfl
      · rw [hcellNo s hso hsi]
    have hBEq : ∀ m, BaseOk (getCell st m) → BaseOk (getCell (bumpAll (modCell st i (fun c => { c with value := v })) ((getCell st i).observers.getD []) STATE_DIRTY) m) := by
      intro m hB
      by_cases hmo : m ∈ ((getCell st i).observers.getD [])
      · rw [hcellO m hmo]
        split
        · exact hB
        · exact hB
      · by_cases hmi : m = i
        · subst hmi
          rw [hcellI]
          exact hB
        · rw [hcellNo m hmo hmi]
          exact hB
    refine ⟨?_, ?_, ?_, ?_, ?_, ?_, ?_, ?_⟩
    · rw [(bumpAll_globals ((getCell st i).observers.getD []) (modCell st i (fun c => { c with value := v })) STATE_DIRTY).1]
      exact h1
    · rw [(bumpAll_globals ((getCell st i).observers.getD []) (modCell st i (fun c => { c with value := v })) STATE_DIRTY).2.1]
      exact h2
    · rw [(bumpAll_globals ((getCell st i).observers.getD []) (modCell st i (fun c => { c with value := v })) STATE_DIRTY).2.2.1]
      exact h3
    · rw [(bumpAll_globals ((getCell st i).observers.getD []) (modCell st i (fun c => { c with value := v })) STATE_DIRTY).2.2.2.1]
      exact h4
    · rw [(bumpAll_globals ((getCell st i).observers.getD []) (modCell st i (fun c => { c with value := v })) STATE_DIRTY).2.2.2.2.1]
      exact h5
    · intro m hm
      rw [hlenW] at hm
      obtain ⟨hBm, hMm⟩ := hcells m hm
      refine ⟨hBEq m hBm, ?_⟩
      rw [hcpEq m]
      rcases hcpm : (getCell st m).compute with _ | ⟨srcs2, f2⟩
      · rw [hcpm] at hMm
        have hMm2 : (getCell st m).sources = none ∧ (getCell st m).state = STATE_CLEAN := hMm
        show (getCell (bumpAll (modCell st i (fun c => { c with value := v })) ((getCell st i).observers.getD []) STATE_DIRTY) m).sources = none ∧ (getCell (bumpAll (modCell st i (fun c => { c with value := v })) ((getCell st i).observers.getD []) STATE_DIRTY) m).state = STATE_CLEAN
        have hmo : m ∉ ((getCell st i).observers.getD []) := fun h => (hmem i hi m h).2 hcpm
        by_cases hmi : m = i
        · subst hmi
          rw [hcellI]
          exact hMm2
        · rw [hcellNo m hmo hmi]
          exact hMm2
      · rw [hcpm] at hMm
        have hMm2 : MemoOk st m srcs2 f2 := hMm
        obtain ⟨hne2, hnd2, hlv2, htot2, hobs2, hcache2⟩ := hMm2
        have hmi : m ≠ i := fun h => by rw [h, hcp] at hcpm; cases hcpm
        show MemoOk (bumpAll (modCell st i (fun c => { c with value := v })) ((getCell st i).observers.getD []) STATE_DIRTY) m srcs2 f2
        refine ⟨hne2, hnd2, ?_, htot2, ?_, ?_⟩
        · intro s hs
          exact ⟨by rw [hlenW]; exact (hlv2 s hs).1, by rw [hcpEq s]; exact (hlv2 s hs).2⟩
        · rw [hobsEq m]
          exact hobs2
        · by_cases hmo : m ∈ ((getCell st i).observers.getD [])
          · rw [hcellO m hmo]
            rcases hcache2 with ⟨hstD, hsrcU⟩ | ⟨hsrcS, hstdisj⟩
            · rw [if_pos (by rw [hstD])]
              exact Or.inl ⟨hstD, hsrcU⟩
            · rcases hstdisj with hstD | ⟨hstC, hval2⟩
              · rw [if_pos (by rw [hstD])]
                exact Or.inr ⟨hsrcS, Or.inl hstD⟩
              · rw [if_neg (by rw [hstC]; decide)]
                exact Or.inr ⟨hsrcS, Or.inl rfl⟩
          · rw [hcellNo m hmo hmi]
            rcases hcache2 with hu | ⟨hsrcS, hstdisj⟩
            · exact Or.inl hu
            · rcases hstdisj with hstD | ⟨hstC, hval2⟩
              · exact Or.inr ⟨hsrcS, Or.inl hstD⟩
              · refine Or.inr ⟨hsrcS, Or.inr ⟨hstC, ?_⟩⟩
                have hnis : i ∉ srcs2 := by
                  intro hmem2
                  have hc := hcount m i hm hi
                  rw [hcpm] at hc
                  have hc2 : obsCount st m (.comp i) = 1 := by
                    rw [hc, if_pos ⟨by rw [hsrcS]; simp, by simpa [cSrcs, hcpm] using hmem2⟩]
                  have h0 : obsCount st m (.comp i) = 0 := by
                    show (((getCell st i).observers.getD []).count m) = 0
                    exact List.count_eq_zero_of_not_mem hmo
                  rw [h0] at hc2
                  cases hc2
                have hmap : srcs2.map (fun s => (getCell (bumpAll (modCell st i (fun c => { c with value := v })) ((getCell st i).observers.getD []) STATE_DIRTY) s).value) = srcs2.map (fun s => (getCell st s).value) :=
                  List.map_congr_left (fun s hs => hvalEq s (fun h => hnis (h ▸ hs)))
                rw [hmap]
                exact hval2
    · intro x j hx hj
      rw [hlenW] at hx hj
      have hLHS : obsCount (bumpAll (modCell st i (fun c => { c with value := v })) ((getCell st i).observers.getD []) STATE_DIRTY) x (.comp j) = obsCount st x (.comp j) := by
        simp only [obsCount, refObs, hobsEq]
      have hcsEq : cSrcs (getCell (bumpAll (modCell st i (fun c => { c with value := v })) ((getCell st i).observers.getD []) STATE_DIRTY) x) = cSrcs (getCell st x) := by
        simp only [cSrcs, hcpEq]
      rw [hLHS, hcpEq, hsrcEq, hcsEq]
      exact hcount x j hx hj
    · intro j hj x hxmem
      rw [hlenW] at hj
      rw [hobsEq j] at hxmem
      have h := hmem j hj x hxmem
      exact ⟨by rw [hlenW]; exact h.1, by rw [hcpEq x]; exact h.2⟩

theorem runOps_write (fuel : Nat) (i : Nat) (v : V) (rest : List Op) (st : St) :
    runOps fuel (.writeOp i v :: rest) st =
      (match engine fuel (.write i (.plain v)) st with
       | .done _ st1 => runOps fuel rest st1
       | _ => none) := rfl

theorem runOps_read (fuel : Nat) (i : Nat) (rest : List Op) (st : St) :
    runOps fuel (.readOp i :: rest) st =
      (match engine fuel (.read i) st with
       | .done o st1 =>
         (match runOps fuel rest st1 with
          | some (st2, tr) => some (st2, (i, o.getV, st) :: tr)
          | none => none)
       | _ => none) := rfl

/-- Depth-one specialisation of steady-state glitch-freedom: along any
completed run of in-bounds reads and leaf writes from an invariant state,
every read observes exactly the from-scratch denotation of the cell at the
state in which the read started. -/
theorem glitch_free_depth1 (fuel : Nat) (ops : List Op) (st stF : St)
    (tr : List (Nat × V × St))
    (hinv : INV st) (hops : OpsOk st ops)
    (hrun : runOps fuel ops st = some (stF, tr)) :
    ∀ e ∈ tr, e.2.1 = fromScratch e.2.2 2 e.1 := by
  revert st tr
  induction ops with
  | nil =>
    intro st tr hinv hops hrun
    have h9 : some (st, ([] : List (Nat × V × St))) = some (stF, tr) := hrun
    injection h9 with h10
    injection h10 with hA hB
    subst hB
    intro e he
    cases he
  | cons op rest IH =>
    intro st tr hinv hops hrun
    cases op with
    | writeOp i v =>
      obtain ⟨hi, hcpi⟩ := hops (.writeOp i v) (List.mem_cons_self _ _)
      rcases he : engine fuel (.write i (.plain v)) st with _ | ⟨ev, s⟩ | ⟨o, st1⟩
      · rw [runOps_write, he] at hrun
        simp at hrun
      · rw [runOps_write, he] at hrun
        simp at hrun
      · rw [runOps_write, he] at hrun
        have hrun2 : runOps fuel rest st1 = some (stF, tr) := hrun
        obtain ⟨NF, st2, hw, hinv2⟩ := write_step st i v hinv hi hcpi
        have hdet := engine_det NF fuel (.write i (.plain v)) st (.v v) o st2 st1 hw he
        have hinv1 : INV st1 := by rw [hdet.2]; exact hinv2
        have hfr : FrA st st1 := by
          have h9 := engine_FrA fuel (.write i (.plain v)) st
          rw [he] at h9
          exact h9 st1 rfl
        have hops1 : OpsOk st1 rest :=
          OpsOk_of_FrA st st1 rest hfr (fun op2 hop2 => hops op2 (List.mem_cons_of_mem _ hop2))
        exact IH st1 tr hinv1 hops1 hrun2
    | readOp i =>
      have hi := hops (.readOp i) (List.mem_cons_self _ _)
      rcases he : engine fuel (.read i) st with _ | ⟨ev, s⟩ | ⟨o, st1⟩
      · rw [runOps_read, he] at hrun
        simp at hrun
      · rw [runOps_read, he] at hrun
        simp at hrun
      · rw [runOps_read, he] at hrun
        have hrun2 : (match runOps fuel rest st1 with
            | some (st2, tr2) => some (st2, (i, o.getV, st) :: tr2)
            | none => none) = some (stF, tr) := hrun
        rcases hr2 : runOps fuel rest st1 with _ | ⟨st2, tr2⟩
        · rw [hr2] at hrun2
          simp at hrun2
        · rw [hr2] at hrun2
          have h3 : some (st2, (i, o.getV, st) :: tr2) = some (stF, tr) := hrun2
          injection h3 with h4
          injection h4 with hA hB
          subst hB
          subst hA
          obtain ⟨NF, st3, hrd, hinv3⟩ := read_step st i hinv hi
          have hdet := engine_det NF fuel (.read i) st (.v (fromScratch st 2 i)) o st3 st1 hrd he
          have hinv1 : INV st1 := by rw [hdet.2]; exact hinv3
          have hfr : FrA st st1 := by
            have h9 := engine_FrA fuel (.read i) st
            rw [he] at h9
            exact h9 st1 rfl
          have hops1 : OpsOk st1 rest :=
            OpsOk_of_FrA st st1 rest hfr (fun op2 hop2 => hops op2 (List.mem_cons_of_mem _ hop2))
          intro e hemem
          rcases List.mem_cons.mp hemem with he1 | he2
          · subst he1
            show o.getV = fromScratch st 2 i
            rw [hdet.1]
            rfl
          · exact IH st1 tr2 hinv1 hops1 hr2 e he2

theorem c1w_inv : INV c1w := by
  refine ⟨rfl, rfl, rfl, rfl, rfl, ?_, ?_, ?_⟩
  · intro i hi
    have hi2 : i < 2 := hi
    interval_cases i
    · exact ⟨⟨rfl, rfl, rfl, rfl, rfl, rfl, rfl, rfl, rfl, rfl, rfl⟩, rfl, rfl⟩
    · refine ⟨⟨rfl, rfl, rfl, rfl, rfl, rfl, rfl, rfl, rfl, rfl, rfl⟩, ?_⟩
      show MemoOk c1w 1 [0] c1wF
      refine ⟨by decide, by decide, ?_, ?_, rfl, Or.inl ⟨rfl, rfl⟩⟩
      · intro s hs
        have hs2 : s = 0 := by simpa using hs
        subst hs2
        exact ⟨by decide, rfl⟩
      · intro vs
        exact ⟨vs.headD .undef, rfl⟩
  · intro x j hx hj
    have hx2 : x < 2 := hx
    have hj2 : j < 2 := hj
    interval_cases x <;> interval_cases j <;> decide
  · intro j hj x hx
    have hj2 : j < 2 := hj
    interval_cases j
    · exact absurd hx (List.not_mem_nil x)
    · exact absurd hx (List.not_mem_nil x)

theorem c1w_opsok : OpsOk c1w c1wOps := by
  intro op hop
  fin_cases hop
  · exact (by decide : (1 : Nat) < c1w.cells.length)
  · exact ⟨by decide, rfl⟩
  · exact (by decide : (1 : Nat) < c1w.cells.length)

theorem glitch_free_depth1_witness :
    INV c1w ∧ c1wE.2.1 = fromScratch c1wE.2.2 2 c1wE.1 :=
  ⟨c1w_inv, glitch_free_depth1 20 c1wOps c1w c1wStF c1wTr c1w_inv c1w_opsok rfl c1wE (List.mem_cons_self _ _)⟩

theorem StOnly_refl (st : St) : StOnly st st :=
  ⟨rfl, rfl, rfl, rfl, rfl, rfl, rfl, rfl, fun _ => rfl⟩

theorem StOnly_trans {a b c : St} (h1 : StOnly a b) (h2 : StOnly b c) : StOnly a c := by
  obtain ⟨l1, o1, w1, s1, i1, n1, f1, d1, c1⟩ := h1
  obtain ⟨l2, o2, w2, s2, i2, n2, f2, d2, c2⟩ := h2
  refine ⟨l2.trans l1, o2.trans o1, w2.trans w1, s2.trans s1, i2.trans i1, n2.trans n1,
    f2.trans f1, d2.trans d1, ?_⟩
  intro j
  rw [c2 j, c1 j]

theorem FrV_refl (st : St) : FrV st st := ⟨rfl, fun _ => ⟨rfl, rfl, fun _ => rfl⟩⟩

theorem FrV_trans {a b c : St} (h1 : FrV a b) (h2 : FrV b c) : FrV a c := by
  refine ⟨h2.1.trans h1.1, fun j => ⟨(h2.2 j).1.trans (h1.2 j).1,
    (h2.2 j).2.1.trans (h1.2 j).2.1, fun hc => ?_⟩⟩
  have hcb : (getCell b j).compute = none := (h1.2 j).1.trans hc ▸ rfl
  rw [(h2.2 j).2.2 ((h1.2 j).1.trans hc), (h1.2 j).2.2 hc]

theorem FrV_of_StOnly {a b : St} (h : StOnly a b) : FrV a b := by
  refine ⟨h.1, fun j => ?_⟩
  rw [h.2.2.2.2.2.2.2.2 j]
  exact ⟨rfl, rfl, fun _ => rfl⟩

theorem FrV_fromScratch {a b : St} (h : FrV a b) : ∀ k j, fromScratch b k j = fromScratch a k j := by
  intro k
  induction k with
  | zero => intro j; rfl
  | succ k IH =>
    intro j
    rw [fromScratch_succ, fromScratch_succ]
    rcases hcp : (getCell a j).compute with _ | ⟨srcs, f⟩
    · have hcb : (getCell b j).compute = none := (h.2 j).1.trans hcp
      simp only [fromScratchF, hcp, hcb]
      exact (h.2 j).2.2 hcp
    · have hcb : (getCell b j).compute = some (srcs, f) := (h.2 j).1.trans hcp
      simp only [fromScratchF, hcp, hcb]
      rw [List.map_congr_left (fun s _ => IH s)]

theorem getCell_oob (st : St) (j : Nat) (h : st.cells.length ≤ j) : getCell st j = {} := by
  rw [getCell, List.get?_eq_none.mpr h]
  rfl

/-- Under `CellsOk`, an x in the observer array of j is a materialized memo
with j among its sources; in particular j < x. -/
theorem obs_edge (st : St) (hc : CellsOk st) (j x : Nat) (hj : j < st.cells.length)
    (hx : x ∈ (getCell st j).observers.getD []) :
    x < st.cells.length ∧ ∃ srcs f, (getCell st x).compute = some (srcs, f) ∧
      (getCell st x).sources = some (srcs.map SrcRef.comp) ∧ j ∈ srcs ∧ j < x := by
  obtain ⟨hcells, hcount, hmem⟩ := hc
  obtain ⟨hxl, hxc⟩ := hmem j hj x hx
  refine ⟨hxl, ?_⟩
  have hcnt := hcount x j hxl hj
  have hpos : 0 < obsCount st x (.comp j) := by
    show 0 < ((getCell st j).observers.getD []).count x
    exact List.count_pos_iff_mem.mpr hx
  rcases hcp : (getCell st x).compute with _ | ⟨srcs, f⟩
  · simp only [hcp] at hcnt
    rw [hcnt] at hpos
    exact absurd hpos (by decide)
  · simp only [hcp] at hcnt
    by_cases hcond : (getCell st x).sources ≠ none ∧ j ∈ cSrcs (getCell st x)
    · have hM := (hcells x hxl).2.2
      rw [hcp] at hM
      have hM2 : GMemoOk st x srcs f := hM
      have hjs : j ∈ srcs := by
        have := hcond.2
        rw [show cSrcs (getCell st x) = srcs from by simp [cSrcs, hcp]] at this
        exact this
      rcases hM2.2.2.2.2 with ⟨hsn, _⟩ | ⟨hss, _⟩
      · exact absurd hsn hcond.1
      · exact ⟨srcs, f, rfl, hss, hjs, hM2.2.2.1 j hjs⟩
    · rw [if_neg hcond] at hcnt
      rw [hcnt] at hpos
      exact absurd hpos (by decide)

theorem SrcsDec_of_CellsOk (st : St) (hc : CellsOk st) : SrcsDec st := by
  intro j p hcp s hs
  rcases Nat.lt_or_ge j st.cells.length with hj | hj
  · have hM := (hc.1 j hj).2.2
    rw [hcp] at hM
    exact hM.2.2.1 s hs
  · rw [getCell_oob st j hj] at hcp
    cases hcp

theorem fromScratch_stable (st : St) (hdec : SrcsDec st) :
    ∀ j k1 k2, j < k1 → j < k2 → fromScratch st k1 j = fromScratch st k2 j := by
  intro j
  induction j using Nat.strong_induction_on with
  | _ j IH =>
    intro k1 k2 h1 h2
    rcases k1 with _ | a
    · omega
    rcases k2 with _ | b
    · omega
    rw [fromScratch_succ, fromScratch_succ]
    rcases hcp : (getCell st j).compute with _ | ⟨srcs, f⟩
    · simp only [fromScratchF, hcp]
    · simp only [fromScratchF, hcp]
      have hmap : List.map (fromScratch st a) srcs = List.map (fromScratch st b) srcs := by
        refine List.map_congr_left ?_
        intro s hs
        have hsj : s < j := hdec j (srcs, f) hcp s hs
        exact (IH s hsj a (s+1) (by omega) (by omega)).trans
          (IH s hsj (s+1) b (by omega) (by omega))
      rw [hmap]

/-- Under the invariant, a CLEAN cell stores exactly its from-scratch value. -/
theorem clean_value_den (st : St) (hc : CellsOk st) :
    ∀ j, j < st.cells.length → (getCell st j).state = STATE_CLEAN →
      (getCell st j).value = fromScratch st (j + 1) j := by
  intro j
  induction j using Nat.strong_induction_on with
  | _ j IH =>
    intro hj hcl
    rcases hcp : (getCell st j).compute with _ | ⟨srcs, f⟩
    · rw [fromScratch_succ]
      simp only [fromScratchF, hcp]
    · have hM := (hc.1 j hj).2.2
      rw [hcp] at hM
      have hM2 : GMemoOk st j srcs f := hM
      rcases hM2.2.2.2.2 with ⟨_, hsd⟩ | ⟨_, hval, hclsrc⟩
      · rw [hcl] at hsd
        cases hsd
      · have hv := hval (by rw [hcl]; decide)
        rw [fromScratch_succ]
        simp only [fromScratchF, hcp]
        have hmap : List.map (fromScratch st j) srcs
            = List.map (fun s => (getCell st s).value) srcs := by
          refine List.map_congr_left ?_
          intro s hs
          have hsj : s < j := hM2.2.2.1 s hs
          have hsl : s < st.cells.length := Nat.lt_trans hsj hj
          rw [fromScratch_stable st (SrcsDec_of_CellsOk st hc) s j (s+1) hsj (by omega)]
          exact (IH s hsj hsl (hclsrc hcl s hs)).symm
        rw [hmap, hv]

/-! ### The notify marking discipline -/

theorem notify_skip_eq (k x s : Nat) (st : St) (h : s ≤ (getCell st x).state) :
    engine (k + 1) (.notify x s) st = .done .unit st := by
  rw [engine_succ]
  simp only [engineF]
  rw [if_pos h]

theorem notifyList_nil_eq (k s : Nat) (st : St) :
    engine (k + 1) (.notifyList [] s) st = .done .unit st := by
  rw [engine_succ]
  simp only [engineF]

theorem notifyList_cons_eq (k s o : Nat) (rest : List Nat) (st : St) :
    engine (k + 1) (.notifyList (o :: rest) s) st =
      Res.andThen (engine k (.notify o s) st) (fun st1 => engine k (.notifyList rest s) st1) := by
  rw [engine_succ]
  simp only [engineF]

theorem NPost_id (st : St) (X : List Nat) (s : Nat)
    (h3 : ∀ o ∈ X, s ≤ (getCell st o).state) : NPost st st X s := by
  refine ⟨StOnly_refl st, fun j => le_refl _, h3, ?_, ?_, fun j => le_max_left _ _, ?_, ?_⟩
  · intro j _ h
    exact absurd rfl h
  · intro j h
    exact absurd rfl h
  · intro j h
    exact absurd rfl h
  · intro j h
    exact absurd rfl h

theorem NPost_nil (st : St) (s : Nat) : NPost st st [] s :=
  NPost_id st [] s (fun o ho => absurd ho (List.not_mem_nil o))

theorem StOnly_obsEq {a b : St} (h : StOnly a b) (j : Nat) :
    (getCell b j).observers = (getCell a j).observers := by
  rw [h.2.2.2.2.2.2.2.2 j]

theorem NPost_cons {st st1 st2 : St} {o : Nat} {rest : List Nat} {s : Nat}
    (hA : NPost st st1 [o] s) (hB : NPost st1 st2 rest s) :
    NPost st st2 (o :: rest) s := by
  obtain ⟨a1, a2, a3, a4, a5, a6, a7, a8⟩ := hA
  obtain ⟨b1, b2, b3, b4, b5, b6, b7, b8⟩ := hB
  refine ⟨StOnly_trans a1 b1, fun j => le_trans (a2 j) (b2 j), ?_, ?_, ?_, ?_, ?_, ?_⟩
  · intro x hx
    rcases List.mem_cons.mp hx with hx | hx
    · subst hx
      exact le_trans (a3 x (List.mem_singleton_self x)) (b2 x)
    · exact b3 x hx
  · intro j hj hne
    have hjo : j ≠ o := fun h => hj (h ▸ List.mem_cons_self o rest)
    have hjr : j ∉ rest := fun h => hj (List.mem_cons_of_mem o h)
    by_cases h1 : (getCell st1 j).state = (getCell st j).state
    · have := b4 j hjr (by rw [h1]; exact hne)
      exact ⟨by rw [← h1]; exact this.1, this.2⟩
    · have hA4 := a4 j (by simp [hjo]) h1
      by_cases h2 : (getCell st2 j).state = (getCell st1 j).state
      · exact ⟨hA4.1, by rw [h2]; exact hA4.2⟩
      · have hB4 := b4 j hjr h2
        rw [hA4.2] at hB4
        exact absurd hB4.1 (by decide)
  · intro j hne x hx
    by_cases h1 : (getCell st1 j).state = (getCell st j).state
    · have hne2 : (getCell st2 j).state ≠ (getCell st1 j).state := by rw [h1]; exact hne
      have hx1 : x ∈ (getCell st1 j).observers.getD [] := by rw [StOnly_obsEq a1 j]; exact hx
      exact b5 j hne2 x hx1
    · exact le_trans (a5 j h1 x hx) (b2 x)
  · intro j
    have h1 := a6 j
    have h2 := b6 j
    omega
  · intro j hne
    by_cases h1 : (getCell st1 j).state = (getCell st j).state
    · obtain ⟨x, hx, hle⟩ := b7 j (by rw [h1]; exact hne)
      exact ⟨x, List.mem_cons_of_mem o hx, hle⟩
    · obtain ⟨x, hx, hle⟩ := a7 j h1
      rw [List.mem_singleton] at hx
      subst hx
      exact ⟨x, List.mem_cons_self x rest, hle⟩
  · intro j hne
    by_cases h1 : (getCell st1 j).state = (getCell st j).state
    · rcases b8 j (by rw [h1]; exact hne) with hm | ⟨j0, hj0l, hj0m, hj0r⟩
      · exact Or.inl (List.mem_cons_of_mem o hm)
      · refine Or.inr ⟨j0, by rw [← a1.1]; exact hj0l, by rw [← StOnly_obsEq a1 j0]; exact hj0m, ?_⟩
        by_cases h3 : (getCell st1 j0).state = (getCell st j0).state
        · rw [← h3]; exact hj0r
        · have := a2 j0
          have := b2 j0
          have hlt1 : (getCell st j0).state < (getCell st1 j0).state :=
            lt_of_le_of_ne (a2 j0) (Ne.symm h3)
          have hle2 : (getCell st1 j0).state ≤ (getCell st2 j0).state := b2 j0
          omega
    · rcases a8 j h1 with hm | ⟨j0, hj0l, hj0m, hj0r⟩
      · rw [List.mem_singleton] at hm
        exact Or.inl (hm ▸ List.mem_cons_self j rest)
      · refine Or.inr ⟨j0, hj0l, hj0m, ?_⟩
        have hlt1 : (getCell st j0).state < (getCell st1 j0).state :=
          lt_of_le_of_ne (a2 j0) (Ne.symm hj0r)
        have hle2 : (getCell st1 j0).state ≤ (getCell st2 j0).state := b2 j0
        omega

theorem NotifyWF_StOnly {a b : St} (hw : NotifyWF a) (h : StOnly a b) : NotifyWF b := by
  intro j hj
  rw [h.1] at hj
  obtain ⟨h1, h2, h3⟩ := hw j hj
  rw [h.2.2.2.2.2.2.2.2 j]
  refine ⟨h1, h2, ?_⟩
  intro o ho
  obtain ⟨ha, hb⟩ := h3 o ho
  exact ⟨ha, by rw [h.1]; exact hb⟩

theorem NotifyWF_of_CellsOk (st : St) (hc : CellsOk st) : NotifyWF st := by
  intro j hj
  obtain ⟨hB, _, _⟩ := hc.1 j hj
  refine ⟨hB.2.2.2.2.2.1, hB.2.2.2.2.2.2.1, ?_⟩
  intro o ho
  have h := obs_edge st hc j o hj ho
  exact ⟨h.2.choose_spec.choose_spec.2.2.2, h.1⟩

theorem StOnly_modCell_state (st : St) (x n : Nat) (hx : x < st.cells.length) :
    StOnly st (modCell st x (fun c => { c with state := n })) := by
  refine ⟨by simp, rfl, rfl, rfl, rfl, rfl, rfl, rfl, ?_⟩
  intro j
  by_cases hj : j = x
  · subst hj
    rw [getCell_modCell_self st j _ hx]
  · rw [getCell_modCell_ne st x j _ (fun h => hj h.symm)]

/-- Assembly of the core notify case: raise `x` to `s`, then CHECK-mark its
observer cone. -/
theorem NPost_head {st st2 : St} {x s : Nat}
    (hx : x < st.cells.length) (hlt : (getCell st x).state < s)
    (hchk : STATE_CHECK ≤ s)
    (hup : ∀ o ∈ (getCell st x).observers.getD [], x < o)
    (hB : NPost (modCell st x (fun c => { c with state := s })) st2
      ((getCell st x).observers.getD []) STATE_CHECK) :
    NPost st st2 [x] s := by
  obtain ⟨b1, b2, b3, b4, b5, b6, b7, b8⟩ := hB
  have hA1 : StOnly st (modCell st x (fun c => { c with state := s })) :=
    StOnly_modCell_state st x s hx
  have hsx1 : (getCell (modCell st x (fun c => { c with state := s })) x).state = s := by
    rw [getCell_modCell_self st x _ hx]
  have heq1 : ∀ j, j ≠ x →
      getCell (modCell st x (fun c => { c with state := s })) j = getCell st j := by
    intro j hj
    exact getCell_modCell_ne st x j _ (fun h => hj h.symm)
  have hxobs : x ∉ (getCell st x).observers.getD [] := by
    intro h
    exact absurd rfl (Nat.ne_of_lt (hup x h))
  have hchk1 : (1 : Nat) ≤ s := hchk
  have hsx2 : (getCell st2 x).state = s := by
    by_cases h2 : (getCell st2 x).state
        = (getCell (modCell st x (fun c => { c with state := s })) x).state
    · rw [h2, hsx1]
    · have h3 := (b4 x hxobs h2).1
      rw [hsx1] at h3
      have h4 : s = 0 := h3
      omega
  refine ⟨StOnly_trans hA1 b1, ?_, ?_, ?_, ?_, ?_, ?_, ?_⟩
  · intro j
    by_cases hj : j = x
    · subst hj
      rw [hsx2]
      omega
    · have := b2 j
      rw [heq1 j hj] at this
      exact this
  · intro o ho
    rw [List.mem_singleton] at ho
    subst ho
    rw [hsx2]
  · intro j hj hne
    have hjx : j ≠ x := fun h => hj (h ▸ List.mem_singleton_self x)
    have hne1 : (getCell st2 j).state
        ≠ (getCell (modCell st x (fun c => { c with state := s })) j).state := by
      rw [heq1 j hjx]
      exact hne
    by_cases hjo : j ∈ (getCell st x).observers.getD []
    · have hcap := b6 j
      have hbmp := b2 j
      rw [heq1 j hjx] at hcap hbmp
      rw [heq1 j hjx] at hne1
      have hcap2 : (getCell st2 j).state ≤ max (getCell st j).state 1 := hcap
      constructor
      · show (getCell st j).state = 0
        omega
      · show (getCell st2 j).state = 1
        omega
    · have := b4 j hjo hne1
      rw [heq1 j hjx] at this
      exact this
  · intro j hne o ho
    by_cases hj : j = x
    · subst hj
      have h3 : (1 : Nat) ≤ (getCell st2 o).state := b3 o ho
      exact h3
    · have hne1 : (getCell st2 j).state
          ≠ (getCell (modCell st x (fun c => { c with state := s })) j).state := by
        rw [heq1 j hj]
        exact hne
      have hob1 : o ∈ (getCell (modCell st x (fun c => { c with state := s })) j).observers.getD [] := by
        rw [heq1 j hj]
        exact ho
      have := b5 j hne1 o hob1
      exact this
  · intro j
    by_cases hj : j = x
    · subst hj
      rw [hsx2]
      exact le_max_right _ _
    · have := b6 j
      rw [heq1 j hj] at this
      omega
  · intro j hne
    by_cases hj : j = x
    · subst hj
      exact ⟨j, List.mem_singleton_self j, le_refl j⟩
    · have hne1 : (getCell st2 j).state
          ≠ (getCell (modCell st x (fun c => { c with state := s })) j).state := by
        rw [heq1 j hj]
        exact hne
      obtain ⟨o, ho, hle⟩ := b7 j hne1
      exact ⟨x, List.mem_singleton_self x, le_trans (Nat.le_of_lt (hup o ho)) hle⟩
  · intro j hne
    by_cases hj : j = x
    · subst hj
      exact Or.inl (List.mem_singleton_self j)
    · have hne1 : (getCell st2 j).state
          ≠ (getCell (modCell st x (fun c => { c with state := s })) j).state := by
        rw [heq1 j hj]
        exact hne
      rcases b8 j hne1 with hm | ⟨j0, hj0l, hj0m, hj0r⟩
      · refine Or.inr ⟨x, hx, hm, ?_⟩
        rw [hsx2]
        omega
      · refine Or.inr ⟨j0, by rw [← hA1.1]; exact hj0l, ?_, ?_⟩
        · by_cases hj0x : j0 = x
          · subst hj0x
            rw [getCell_modCell_self st j0 (fun c => { c with state := s }) hx] at hj0m
            exact hj0m
          · rw [heq1 j0 hj0x] at hj0m
            exact hj0m
        · by_cases hj0x : j0 = x
          · subst hj0x
            rw [hsx2]
            omega
          · rw [heq1 j0 hj0x] at hj0r
            exact hj0r

theorem engine_lift {f g : Nat} {q : Req} {st : St} {o : Out} {st' : St}
    (h : engine f q st = .done o st') (hle : f ≤ g) : engine g q st = .done o st' := by
  rw [engine_mono_le f g q st hle (by rw [h]; intro hx; cases hx)]
  exact h

/-- The notify recursion terminates and satisfies the marking contract.  The
bound `B` dominates the distance from `x` to the top of the heap; observers
strictly increase, so the recursion descends on it. -/
theorem notify_aux : ∀ B x s st, NotifyWF st → x < st.cells.length →
    st.cells.length ≤ x + B → STATE_CHECK ≤ s → s ≤ STATE_DIRTY →
    ∃ NF st', engine NF (.notify x s) st = .done .unit st' ∧ NPost st st' [x] s := by
  intro B
  induction B with
  | zero =>
    intro x s st _ hx hB _ _
    omega
  | succ B IH =>
    have LIST : ∀ os : List Nat, ∀ st m, NotifyWF st →
        (∀ o ∈ os, m < o ∧ o < st.cells.length) → st.cells.length ≤ m + (B + 1) →
        ∀ s2, STATE_CHECK ≤ s2 → s2 ≤ STATE_DIRTY →
        ∃ NF st2, engine NF (.notifyList os s2) st = .done .unit st2 ∧ NPost st st2 os s2 := by
      intro os
      induction os with
      | nil =>
        intro st m _ _ _ s2 _ _
        exact ⟨1, st, notifyList_nil_eq 0 s2 st, NPost_nil st s2⟩
      | cons o rest IHos =>
        intro st m hwf hb hlen s2 hs2a hs2b
        obtain ⟨N1, st1, heq1, hp1⟩ := IH o s2 st hwf (hb o (List.mem_cons_self o rest)).2
          (by have := (hb o (List.mem_cons_self o rest)).1; omega) hs2a hs2b
        obtain ⟨N2, st2, heq2, hp2⟩ := IHos st1 m (NotifyWF_StOnly hwf hp1.1)
          (by
            intro o2 ho2
            obtain ⟨ha, hb2⟩ := hb o2 (List.mem_cons_of_mem o ho2)
            exact ⟨ha, by rw [hp1.1.1]; exact hb2⟩)
          (by rw [hp1.1.1]; exact hlen) s2 hs2a hs2b
        refine ⟨max N1 N2 + 1, st2, ?_, NPost_cons hp1 hp2⟩
        rw [notifyList_cons_eq (max N1 N2) s2 o rest st]
        rw [engine_lift heq1 (le_max_left N1 N2)]
        simp only [Res.andThen]
        exact engine_lift heq2 (le_max_right N1 N2)
    intro x s st hwf hx hB hsa hsb
    by_cases hskip : s ≤ (getCell st x).state
    · exact ⟨1, st, notify_skip_eq 0 x s st hskip,
        NPost_id st [x] s (by intro o ho; rw [List.mem_singleton] at ho; subst ho; exact hskip)⟩
    · obtain ⟨hln, hen, hobs⟩ := hwf x hx
      obtain ⟨N1, st2, heqL, hpL⟩ := LIST ((getCell st x).observers.getD [])
        (modCell st x (fun c => { c with state := s })) x
        (NotifyWF_StOnly hwf (StOnly_modCell_state st x s hx))
        (by
          intro o ho
          obtain ⟨ha, hb2⟩ := hobs o ho
          refine ⟨ha, ?_⟩
          have hl : (modCell st x (fun c => { c with state := s })).cells.length
              = st.cells.length := by simp
          rw [hl]
          exact hb2)
        (by
          have hl : (modCell st x (fun c => { c with state := s })).cells.length
              = st.cells.length := by simp
          rw [hl]
          exact hB)
        STATE_CHECK (le_refl _) (by decide)
      refine ⟨N1 + 2, st2, ?_,
        NPost_head hx (Nat.lt_of_not_le hskip) hsa (fun o ho => (hobs o ho).1) hpL⟩
      rw [show N1 + 2 = (N1 + 1) + 1 from rfl, engine_succ]
      simp only [engineF]
      rw [if_neg hskip]
      have hobs1 : (getCell (modCell st x (fun c => { c with state := s })) x).observers.getD []
          = (getCell st x).observers.getD [] := by
        rw [getCell_modCell_self st x _ hx]
      rw [hobs1]
      rw [engine_lift heqL (by omega)]
      simp only [Res.andThen]
      have hln2 : (getCell st2 x).loadingNode = none := by
        rw [hpL.1.2.2.2.2.2.2.2.2 x, getCell_modCell_self st x _ hx]
        exact hln
      rw [hln2]
      simp only [Option.getD_none]
      rw [notifyList_nil_eq N1 STATE_CHECK st2]
      simp only [Res.andThen]
      have hen2 : (getCell st2 x).errorNode = none := by
        rw [hpL.1.2.2.2.2.2.2.2.2 x, getCell_modCell_self st x _ hx]
        exact hen
      rw [hen2]
      simp only [Option.getD_none]
      rw [notifyList_nil_eq N1 STATE_CHECK st2]

/-- Exported form: the bound is discharged with the heap length itself. -/
theorem notify_spec (x s : Nat) (st : St) (hwf : NotifyWF st) (hx : x < st.cells.length)
    (hsa : STATE_CHECK ≤ s) (hsb : s ≤ STATE_DIRTY) :
    ∃ NF st', engine NF (.notify x s) st = .done .unit st' ∧ NPost st st' [x] s :=
  notify_aux st.cells.length x s st hwf hx (by omega) hsa hsb

/-- Exported list form, used by the write commit path. -/
theorem notifyList_spec (os : List Nat) (s : Nat) (st : St) (hwf : NotifyWF st)
    (hb : ∀ o ∈ os, o < st.cells.length)
    (hsa : STATE_CHECK ≤ s) (hsb : s ≤ STATE_DIRTY) :
    ∃ NF st2, engine NF (.notifyList os s) st = .done .unit st2 ∧ NPost st st2 os s := by
  induction os generalizing st with
  | nil => exact ⟨1, st, notifyList_nil_eq 0 s st, NPost_nil st s⟩
  | cons o rest IHos =>
    obtain ⟨N1, st1, heq1, hp1⟩ := notify_spec o s st hwf (hb o (List.mem_cons_self o rest)) hsa hsb
    obtain ⟨N2, st2, heq2, hp2⟩ := IHos st1 (NotifyWF_StOnly hwf hp1.1)
      (by
        intro o2 ho2
        rw [hp1.1.1]
        exact hb o2 (List.mem_cons_of_mem o ho2))
    refine ⟨max N1 N2 + 1, st2, ?_, NPost_cons hp1 hp2⟩
    rw [notifyList_cons_eq (max N1 N2) s o rest st]
    rw [engine_lift heq1 (le_max_left N1 N2)]
    simp only [Res.andThen]
    exact engine_lift heq2 (le_max_right N1 N2)

/-! ### The plain write path -/

/-- A value-equal plain write is a complete no-op (modulo the `_promise = null`
store, which is the identity on promise-free cells) and echoes the old value. -/
theorem write_skip_eq (k : Nat) (st : St) (i : Nat) (v : V)
    (heq : (getCell st i).equals = .eqFun isEqual)
    (hpr : (getCell st i).promise = none)
    (hbeq : ((getCell st i).value == v) = true) :
    engine (k + 1) (.write i (.plain v)) st = .done (.v (getCell st i).value) st := by
  have h0 : modCell st i (fun x => { x with promise := none }) = st :=
    modCell_id st i _ (cell_promise_id _ hpr)
  rw [engine_succ]
  simp only [engineF, h0, heq, isEqual]
  rw [hbeq]
  simp

/-- A value-changing plain write on a quiet cell reduces to the value store
followed by the DIRTY notification of the observer array. -/
theorem write_commit_eq (k : Nat) (st : St) (i : Nat) (v : V)
    (heq : (getCell st i).equals = .eqFun isEqual)
    (hpr : (getCell st i).promise = none)
    (hfw : (getCell st i).flagWaiting = false)
    (hfa : (getCell st i).flagAsync = false)
    (hfe : (getCell st i).flagError = false)
    (hln : (getCell st i).loadingNode = none)
    (hbeq : ((getCell st i).value == v) = false) :
    engine (k + 1) (.write i (.plain v)) st =
      Res.andThen
        (engine k (.notifyList ((getCell st i).observers.getD []) STATE_DIRTY)
          (modCell st i (fun c => { c with value := v })))
        (fun st6 => .done (.v (getCell st6 i).value) st6) := by
  have h0 : modCell st i (fun x => { x with promise := none }) = st :=
    modCell_id st i _ (cell_promise_id _ hpr)
  rw [engine_succ]
  simp only [engineF, h0, heq, isEqual]
  rw [hbeq]
  rw [if_pos (show ((!false) = true) from rfl)]
  rcases getCell_modCell_cases st i i (fun x => { x with value := v }) with hV | ⟨_, hV⟩
  · -- out of range set is the identity; all the guards still fire on the old cell
    rw [if_pos (show (getCell (modCell st i (fun x => { x with value := v })) i).flagWaiting = false from by rw [hV]; exact hfw)]
    have hlnV : (getCell (modCell st i (fun x => { x with value := v })) i).loadingNode = none := by
      rw [hV]; exact hln
    rw [hlnV]
    simp only [optBranch, Res.andThen]
    have hfaV : modCell (modCell st i (fun x => { x with value := v })) i (fun x => { x with flagAsync := false }) = modCell st i (fun x => { x with value := v }) := by
      refine modCell_id _ i _ (cell_fa_id _ ?_)
      rw [hV]; exact hfa
    rw [hfaV]
    rw [if_neg (show ¬ ((getCell (modCell st i (fun x => { x with value := v })) i).flagError = true) from by rw [hV]; rw [hfe]; simp)]
    simp only [Res.andThen]
    have hfeV : modCell (modCell st i (fun x => { x with value := v })) i (fun x => { x with flagError := false }) = modCell st i (fun x => { x with value := v }) := by
      refine modCell_id _ i _ (cell_fe_id _ ?_)
      rw [hV]; exact hfe
    rw [hfeV]
    have hobsV : (getCell (modCell st i (fun x => { x with value := v })) i).observers = (getCell st i).observers := by
      rw [hV]
    rw [hobsV]
  · rw [if_pos (show (getCell (modCell st i (fun x => { x with value := v })) i).flagWaiting = false from by rw [hV]; exact hfw)]
    have hlnV : (getCell (modCell st i (fun x => { x with value := v })) i).loadingNode = none := by
      rw [hV]; exact hln
    rw [hlnV]
    simp only [optBranch, Res.andThen]
    have hfaV : modCell (modCell st i (fun x => { x with value := v })) i (fun x => { x with flagAsync := false }) = modCell st i (fun x => { x with value := v }) := by
      refine modCell_id _ i _ (cell_fa_id _ ?_)
      rw [hV]; exact hfa
    rw [hfaV]
    rw [if_neg (show ¬ ((getCell (modCell st i (fun x => { x with value := v })) i).flagError = true) from by rw [hV]; rw [hfe]; simp)]
    simp only [Res.andThen]
    have hfeV : modCell (modCell st i (fun x => { x with value := v })) i (fun x => { x with flagError := false }) = modCell st i (fun x => { x with value := v }) := by
      refine modCell_id _ i _ (cell_fe_id _ ?_)
      rw [hV]; exact hfe
    rw [hfeV]
    have hobsV : (getCell (modCell st i (fun x => { x with value := v })) i).observers = (getCell st i).observers := by
      rw [hV]
    rw [hobsV]

theorem NotifyWF_modCell_value (st : St) (i : Nat) (v : V) (hwf : NotifyWF st) :
    NotifyWF (modCell st i (fun c => { c with value := v })) := by
  intro j hj
  have hj2 : j < st.cells.length := by
    have hl : (modCell st i (fun c => { c with value := v })).cells.length = st.cells.length := by simp
    rw [hl] at hj
    exact hj
  obtain ⟨h1, h2, h3⟩ := hwf j hj2
  rcases getCell_modCell_cases st i j (fun c => { c with value := v }) with hV | ⟨_, hV⟩ <;>
    rw [hV]
  · refine ⟨h1, h2, ?_⟩
    intro o ho
    obtain ⟨ha, hb⟩ := h3 o ho
    refine ⟨ha, ?_⟩
    have hl : (modCell st i (fun c => { c with value := v })).cells.length = st.cells.length := by simp
    rw [hl]
    exact hb
  · refine ⟨h1, h2, ?_⟩
    intro o ho
    obtain ⟨ha, hb⟩ := h3 o ho
    refine ⟨ha, ?_⟩
    have hl : (modCell st i (fun c => { c with value := v })).cells.length = st.cells.length := by simp
    rw [hl]
    exact hb

/-- A plain write on a quiet cell completes: either it is a value-equal no-op
or it stores the value and DIRTY-marks the observer cone. -/
theorem write_plain_spec (st : St) (i : Nat) (v : V)
    (hwf : NotifyWF st) (hi : i < st.cells.length)
    (heq : (getCell st i).equals = .eqFun isEqual)
    (hpr : (getCell st i).promise = none)
    (hfw : (getCell st i).flagWaiting = false)
    (hfa : (getCell st i).flagAsync = false)
    (hfe : (getCell st i).flagError = false)
    (hln : (getCell st i).loadingNode = none) :
    ∃ NF stN, engine NF (.write i (.plain v)) st = .done (.v v) stN ∧
      (((getCell st i).value = v ∧ stN = st) ∨
       ((getCell st i).value ≠ v ∧
        NPost (modCell st i (fun c => { c with value := v })) stN
          ((getCell st i).observers.getD []) STATE_DIRTY)) := by
  by_cases hbeq : ((getCell st i).value == v) = true
  · have hveq : (getCell st i).value = v := eq_of_beq hbeq
    refine ⟨1, st, ?_, Or.inl ⟨hveq, rfl⟩⟩
    rw [write_skip_eq 0 st i v heq hpr hbeq, hveq]
  · have hbeq2 : ((getCell st i).value == v) = false := by
      rw [Bool.not_eq_true] at hbeq
      exact hbeq
    have hvne : (getCell st i).value ≠ v := by
      intro h
      rw [h] at hbeq2
      simp at hbeq2
    obtain ⟨N1, stN, heqN, hpN⟩ := notifyList_spec ((getCell st i).observers.getD [])
      STATE_DIRTY (modCell st i (fun c => { c with value := v }))
      (NotifyWF_modCell_value st i v hwf)
      (by
        intro o ho
        have hl : (modCell st i (fun c => { c with value := v })).cells.length = st.cells.length := by simp
        rw [hl]
        exact ((hwf i hi).2.2 o ho).2)
      (by decide) (by decide)
    refine ⟨N1 + 1, stN, ?_, Or.inr ⟨hvne, hpN⟩⟩
    rw [write_commit_eq N1 st i v heq hpr hfw hfa hfe hln hbeq2, heqN]
    simp only [Res.andThen]
    have hvalN : (getCell stN i).value = v := by
      rw [hpN.1.2.2.2.2.2.2.2.2 i, getCell_modCell_self st i _ hi]
    rw [hvalN]

/-- A materialized source edge appears in the source's observer array. -/
theorem edge_mem (st : St) (hc : CellsOk st) (j y : Nat) (srcs : List Nat)
    (f : List V → CompRes) (hj : j < st.cells.length) (hy : y < st.cells.length)
    (hcp : (getCell st j).compute = some (srcs, f))
    (hsrc : (getCell st j).sources = some (srcs.map SrcRef.comp))
    (hys : y ∈ srcs) :
    j ∈ (getCell st y).observers.getD [] := by
  have hcnt := hc.2.1 j y hj hy
  simp only [hcp] at hcnt
  rw [if_pos ⟨by rw [hsrc]; simp, by simpa [cSrcs, hcp] using hys⟩] at hcnt
  have hpos : 0 < ((getCell st y).observers.getD []).count j := by
    rw [show ((getCell st y).observers.getD []).count j = obsCount st j (.comp y) from rfl, hcnt]
    decide
  exact List.count_pos_iff_mem.mp hpos

/-- The written cell itself is never re-marked by its own commit notification:
all its observers are strictly above it. -/
theorem commit_i_unraised (st stN : St) (i : Nat) (v : V)
    (hc : CellsOk st) (hi : i < st.cells.length)
    (hP : NPost (modCell st i (fun c => { c with value := v })) stN
      ((getCell st i).observers.getD []) STATE_DIRTY) :
    (getCell stN i).state = (getCell st i).state := by
  by_cases h : (getCell stN i).state = (getCell st i).state
  · exact h
  · have hstVi : (getCell (modCell st i (fun c => { c with value := v })) i).state
        = (getCell st i).state := by
      rw [getCell_modCell_self st i _ hi]
    obtain ⟨o, ho, hle⟩ := hP.2.2.2.2.2.2.1 i (by rw [hstVi]; exact h)
    obtain ⟨_, srcs2, f2, _, _, _, hio⟩ := obs_edge st hc i o hi ho
    omega

/-- During an update-driven commit (written cell DIRTY), no CLEAN cell is ever
re-marked: the marking wave only travels through already-marked cells. -/
theorem commit_clean_fixed (st stN : St) (i : Nat) (v : V)
    (hc : CellsOk st) (hi : i < st.cells.length)
    (hdirty : (getCell st i).state = STATE_DIRTY)
    (hP : NPost (modCell st i (fun c => { c with value := v })) stN
      ((getCell st i).observers.getD []) STATE_DIRTY) :
    ∀ j, (getCell st j).state = STATE_CLEAN → (getCell stN j).state = STATE_CLEAN := by
  have hstV : ∀ j, (getCell (modCell st i (fun c => { c with value := v })) j).state
      = (getCell st j).state := by
    intro j
    by_cases hj : j = i
    · subst hj
      rw [getCell_modCell_self st j _ hi]
    · rw [getCell_modCell_ne st i j _ (fun h => hj h.symm)]
  have hobsV : ∀ j, (getCell (modCell st i (fun c => { c with value := v })) j).observers
      = (getCell st j).observers := by
    intro j
    by_cases hj : j = i
    · subst hj
      rw [getCell_modCell_self st j _ hi]
    · rw [getCell_modCell_ne st i j _ (fun h => hj h.symm)]
  have hlenV : (modCell st i (fun c => { c with value := v })).cells.length
      = st.cells.length := by simp
  intro j
  induction j using Nat.strong_induction_on with
  | _ j IH =>
    intro hcl
    by_cases h : (getCell stN j).state = (getCell st j).state
    · rw [h]
      exact hcl
    · exfalso
      rcases hP.2.2.2.2.2.2.2 j (by rw [hstV j]; exact h) with hm | ⟨j0, hj0l, hj0m, hj0r⟩
      · obtain ⟨hjl, srcs2, f2, hcp2, hsrc2, hij2, hij3⟩ := obs_edge st hc i j hi hm
        have hM := (hc.1 j hjl).2.2
        rw [hcp2] at hM
        have hM2 : GMemoOk st j srcs2 f2 := hM
        rcases hM2.2.2.2.2 with ⟨hsn, _⟩ | ⟨_, _, hcs⟩
        · rw [hsn] at hsrc2
          cases hsrc2
        · have := hcs hcl i hij2
          rw [hdirty] at this
          exact absurd this (by decide)
      · rw [hlenV] at hj0l
        rw [hobsV j0] at hj0m
        obtain ⟨hjl, srcs2, f2, hcp2, hsrc2, hij2, hij3⟩ := obs_edge st hc j0 j hj0l hj0m
        have hM := (hc.1 j hjl).2.2
        rw [hcp2] at hM
        have hM2 : GMemoOk st j srcs2 f2 := hM
        rcases hM2.2.2.2.2 with ⟨hsn, _⟩ | ⟨_, _, hcs⟩
        · rw [hsn] at hsrc2
          cases hsrc2
        · have hclj0 : (getCell st j0).state = STATE_CLEAN := hcs hcl j0 hij2
          have := IH j0 hij3 hclj0
          rw [hstV j0] at hj0r
          exact hj0r (this.trans hclj0.symm)

/-- Invariant restoration after a plain commit: storing a changed value and
DIRTY-marking the observer cone preserves `CellsOk`, both for a top-level
leaf write and for the internal write of an update. -/
theorem CellsOk_commit (st stN : St) (i : Nat) (v : V)
    (hc : CellsOk st) (hi : i < st.cells.length)
    (hcase : (getCell st i).compute = none ∨ (getCell st i).state = STATE_DIRTY)
    (hP : NPost (modCell st i (fun c => { c with value := v })) stN
      ((getCell st i).observers.getD []) STATE_DIRTY) :
    CellsOk stN := by
  obtain ⟨hcells, hcount, hmem⟩ := hc
  obtain ⟨p1, p2, p3, p4, p5, p6, p7, p8⟩ := hP
  have hlenV : (modCell st i (fun c => { c with value := v })).cells.length
      = st.cells.length := by simp
  have hlenN : stN.cells.length = st.cells.length := p1.1.trans hlenV
  have hcellVi : getCell (modCell st i (fun c => { c with value := v })) i
      = { getCell st i with value := v } := getCell_modCell_self st i _ hi
  have hcellV : ∀ j, j ≠ i → getCell (modCell st i (fun c => { c with value := v })) j
      = getCell st j := fun j hj => getCell_modCell_ne st i j _ (fun h => hj h.symm)
  have hstV : ∀ j, (getCell (modCell st i (fun c => { c with value := v })) j).state
      = (getCell st j).state := by
    intro j
    by_cases hj : j = i
    · subst hj
      rw [hcellVi]
    · rw [hcellV j hj]
  have hcellN : ∀ j, j ≠ i →
      getCell stN j = { getCell st j with state := (getCell stN j).state } := by
    intro j hj
    rw [p1.2.2.2.2.2.2.2.2 j, hcellV j hj]
  have hcellNi : getCell stN i
      = { getCell st i with value := v, state := (getCell stN i).state } := by
    rw [p1.2.2.2.2.2.2.2.2 i, hcellVi]
  have hbump : ∀ j, (getCell st j).state ≤ (getCell stN j).state := by
    intro j
    have := p2 j
    rw [hstV j] at this
    exact this
  have hcap : ∀ j, (getCell stN j).state ≤ max (getCell st j).state STATE_DIRTY := by
    intro j
    have := p6 j
    rw [hstV j] at this
    exact this
  have hobsN : ∀ j, (getCell stN j).observers = (getCell st j).observers := by
    intro j
    by_cases hj : j = i
    · subst hj
      rw [hcellNi]
    · rw [hcellN j hj]
  have hcpN : ∀ j, (getCell stN j).compute = (getCell st j).compute := by
    intro j
    by_cases hj : j = i
    · subst hj
      rw [hcellNi]
    · rw [hcellN j hj]
  have hsrcN : ∀ j, (getCell stN j).sources = (getCell st j).sources := by
    intro j
    by_cases hj : j = i
    · subst hj
      rw [hcellNi]
    · rw [hcellN j hj]
  have hvalN : ∀ j, j ≠ i → (getCell stN j).value = (getCell st j).value := by
    intro j hj
    rw [hcellN j hj]
  have hraised5 : ∀ j, (getCell stN j).state ≠ (getCell st j).state →
      ∀ o ∈ (getCell st j).observers.getD [], STATE_CHECK ≤ (getCell stN o).state := by
    intro j hne o ho
    refine p5 j (by rw [hstV j]; exact hne) o ?_
    by_cases hj : j = i
    · subst hj
      rw [hcellVi]
      exact ho
    · rw [hcellV j hj]
      exact ho
  have hraised8 : ∀ j, (getCell stN j).state ≠ (getCell st j).state →
      j ∈ (getCell st i).observers.getD [] ∨
      ∃ j0, j0 < st.cells.length ∧ j ∈ (getCell st j0).observers.getD [] ∧
        (getCell stN j0).state ≠ (getCell st j0).state := by
    intro j hne
    rcases p8 j (by rw [hstV j]; exact hne) with hm | ⟨j0, hj0l, hj0m, hj0r⟩
    · exact Or.inl hm
    · refine Or.inr ⟨j0, by rw [← hlenV]; exact hj0l, ?_, by rw [← hstV j0]; exact hj0r⟩
      by_cases hj : j0 = i
      · subst hj
        rw [hcellVi] at hj0m
        exact hj0m
      · rw [hcellV j0 hj] at hj0m
        exact hj0m
  have hiU : (getCell stN i).state = (getCell st i).state :=
    commit_i_unraised st stN i v ⟨hcells, hcount, hmem⟩ hi ⟨p1, p2, p3, p4, p5, p6, p7, p8⟩
  have hleafU : ∀ j, j < st.cells.length → (getCell st j).compute = none →
      (getCell stN j).state = (getCell st j).state := by
    intro j hj hcp
    by_cases h : (getCell stN j).state = (getCell st j).state
    · exact h
    · rcases hraised8 j h with hm | ⟨j0, hj0, hm, _⟩
      · exact absurd hcp ((hmem i hi j hm).2)
      · exact absurd hcp ((hmem j0 hj0 j hm).2)
  refine ⟨?_, ?_, ?_⟩
  · intro j hj
    rw [hlenN] at hj
    obtain ⟨hB, hs2, hM⟩ := hcells j hj
    refine ⟨?_, ?_, ?_⟩
    · by_cases hji : j = i
      · subst hji
        rw [hcellNi]
        exact hB
      · rw [hcellN j hji]
        exact hB
    · have h2 : (getCell st j).state ≤ 2 := hs2
      have h3 : (getCell stN j).state ≤ max (getCell st j).state 2 := hcap j
      show (getCell stN j).state ≤ 2
      omega
    · rw [hcpN j]
      rcases hcp : (getCell st j).compute with _ | ⟨srcs, f⟩
      · rw [hcp] at hM
        have hM2 : (getCell st j).sources = none ∧ (getCell st j).state = STATE_CLEAN := hM
        constructor
        · rw [hsrcN j]
          exact hM2.1
        · rw [hleafU j hj hcp]
          exact hM2.2
      · rw [hcp] at hM
        have hM2 : GMemoOk st j srcs f := hM
        show GMemoOk stN j srcs f
        obtain ⟨hne, hnd, hlt, htot, hcache⟩ := hM2
        refine ⟨hne, hnd, hlt, htot, ?_⟩
        by_cases hji : j = i
        · subst hji
          rcases hcase with hcpi | hdirty
          · rw [hcp] at hcpi
            cases hcpi
          · have hstNi : (getCell stN j).state = STATE_DIRTY := by
              rw [hiU]
              exact hdirty
            rcases hcache with ⟨hsn, _⟩ | ⟨hsm, _, _⟩
            · exact Or.inl ⟨by rw [hsrcN j]; exact hsn, hstNi⟩
            · refine Or.inr ⟨by rw [hsrcN j]; exact hsm, ?_, ?_⟩
              · intro hle
                rw [hstNi] at hle
                exact absurd hle (by decide)
              · intro hcl
                rw [hstNi] at hcl
                exact absurd hcl (by decide)
        · rcases hcache with ⟨hsn, hsd⟩ | ⟨hsm, hbv, hcs⟩
          · refine Or.inl ⟨by rw [hsrcN j]; exact hsn, ?_⟩
            have h1 := hbump j
            have h2 := hcap j
            rw [hsd] at h1 h2
            have h1b : (2:Nat) ≤ (getCell stN j).state := h1
            have h2b : (getCell stN j).state ≤ max 2 2 := h2
            show (getCell stN j).state = 2
            omega
          · refine Or.inr ⟨by rw [hsrcN j]; exact hsm, ?_, ?_⟩
            · intro hle
              have hii : i ∉ srcs := by
                intro hmem2
                have hq : STATE_DIRTY ≤ (getCell stN j).state :=
                  p3 j (edge_mem st ⟨hcells, hcount, hmem⟩ j i srcs f hj hi hcp hsm hmem2)
                have hq2 : (2:Nat) ≤ (getCell stN j).state := hq
                have hle2 : (getCell stN j).state ≤ 1 := hle
                omega
              have hmap : srcs.map (fun s => (getCell stN s).value)
                  = srcs.map (fun s => (getCell st s).value) :=
                List.map_congr_left (fun s hs => hvalN s (fun h => hii (h ▸ hs)))
              rw [hmap, hvalN j hji]
              exact hbv (le_trans (hbump j) hle)
            · intro hcl
              have hclSt : (getCell st j).state = STATE_CLEAN := by
                have h1 := hbump j
                rw [hcl] at h1
                have h1b : (getCell st j).state ≤ 0 := h1
                show (getCell st j).state = 0
                omega
              intro s hs
              have hsl : s < st.cells.length := Nat.lt_trans (hlt s hs) hj
              by_cases hr : (getCell stN s).state = (getCell st s).state
              · rw [hr]
                exact hcs hclSt s hs
              · have hchk := hraised5 s hr j
                  (edge_mem st ⟨hcells, hcount, hmem⟩ j s srcs f hj hsl hcp hsm hs)
                rw [hcl] at hchk
                exact absurd hchk (by decide)
  · intro x j hx hj
    rw [hlenN] at hx hj
    have hLHS : obsCount stN x (.comp j) = obsCount st x (.comp j) := by
      simp only [obsCount, refObs, hobsN]
    have hcsEq : cSrcs (getCell stN x) = cSrcs (getCell st x) := by
      simp only [cSrcs, hcpN]
    rw [hLHS, hcpN, hsrcN, hcsEq]
    exact hcount x j hx hj
  · intro j hj x hxm
    rw [hlenN] at hj
    rw [hobsN j] at hxm
    have h := hmem j hj x hxm
    exact ⟨by rw [hlenN]; exact h.1, by rw [hcpN x]; exact h.2⟩

/-! ### The validation induction: specifications -/

theorem CPost_refl (st : St) (i : Nat) (hc : CellsOk st) : CPost st st i := by
  refine ⟨rfl, hc, FrV_refl st, fun j hj => ⟨rfl, hj⟩,
    fun j _ => ⟨(getCell st j).state, le_refl _, rfl⟩,
    fun j x hx => hx, fun j hne x hx hix => absurd rfl hne⟩

theorem CPost_trans {a b c : St} {i : Nat} (h1 : CPost a b i) (h2 : CPost b c i) :
    CPost a c i := by
  obtain ⟨l1, k1, v1, f1, u1, g1, w1⟩ := h1
  obtain ⟨l2, k2, v2, f2, u2, g2, w2⟩ := h2
  refine ⟨l2.trans l1, k2, FrV_trans v1 v2, ?_, ?_, ?_, ?_⟩
  · intro j hj
    obtain ⟨hv1, hs1⟩ := f1 j hj
    obtain ⟨hv2, hs2⟩ := f2 j hs1
    exact ⟨hv2.trans hv1, hs2⟩
  · intro j hij
    obtain ⟨n1, hn1, he1⟩ := u1 j hij
    obtain ⟨n2, hn2, he2⟩ := u2 j hij
    refine ⟨n2, ?_, ?_⟩
    · have hsb : (getCell b j).state = n1 := by rw [he1]
      rw [hsb] at hn2
      omega
    · rw [he2, he1]
  · exact fun j x hx => g2 j x (g1 j x hx)
  · intro j hne x hx hix
    by_cases hb : (getCell b j).value = (getCell a j).value
    · have hne2 : (getCell c j).value ≠ (getCell b j).value := by
        rw [hb]
        exact hne
      exact w2 j hne2 x (g1 j x hx) hix
    · have hd := w1 j hb x hx hix
      obtain ⟨n, hn, he⟩ := u2 x hix
      rw [he]
      show STATE_DIRTY ≤ n
      exact le_trans hd hn

theorem CPost_mono {a b : St} {s i : Nat} (hle : s ≤ i) (h : CPost a b s) : CPost a b i := by
  obtain ⟨l1, k1, v1, f1, u1, g1, w1⟩ := h
  exact ⟨l1, k1, v1, f1, fun j hij => u1 j (by omega), g1,
    fun j hne x hx hix => w1 j hne x hx (by omega)⟩

theorem CellsOk_congr {a b : St} (hcells : b.cells = a.cells) (hc : CellsOk a) : CellsOk b := by
  have hg : ∀ j, getCell b j = getCell a j := by
    intro j
    rw [getCell, getCell, hcells]
  have hl : b.cells.length = a.cells.length := by rw [hcells]
  have hobsc : ∀ x r, obsCount b x r = obsCount a x r := by
    intro x r
    rcases r with y | y | y <;> simp only [obsCount, refObs, hg]
  obtain ⟨h1, h2, h3⟩ := hc
  refine ⟨?_, ?_, ?_⟩
  · intro j hj
    rw [hl] at hj
    obtain ⟨hB, hs, hM⟩ := h1 j hj
    refine ⟨by rw [hg j]; exact hB, by rw [hg j]; exact hs, ?_⟩
    rw [hg j]
    rcases hcp : (getCell a j).compute with _ | ⟨srcs, f⟩
    · rw [hcp] at hM
      exact hM
    · rw [hcp] at hM
      have hM2 : GMemoOk a j srcs f := hM
      show GMemoOk b j srcs f
      obtain ⟨q1, q2, q3, q4, q5⟩ := hM2
      refine ⟨q1, q2, q3, q4, ?_⟩
      rcases q5 with ⟨ha, hb⟩ | ⟨ha, hb, hcc⟩
      · exact Or.inl ⟨by rw [hg j]; exact ha, by rw [hg j]; exact hb⟩
      · refine Or.inr ⟨by rw [hg j]; exact ha, ?_, ?_⟩
        · intro hle
          rw [hg j] at hle
          have := hb hle
          rw [hg j]
          rw [show (fun s => (getCell b s).value) = (fun s => (getCell a s).value) from funext (fun s => by rw [hg s])]
          exact this
        · intro hcl
          rw [hg j] at hcl
          intro s hs
          rw [hg s]
          exact hcc hcl s hs
  · intro x j hx hj
    rw [hl] at hx hj
    rw [hobsc, hg x]
    exact h2 x j hx hj
  · intro j hj x hxm
    rw [hl] at hj
    rw [hg j] at hxm
    obtain ⟨ha, hb⟩ := h3 j hj x hxm
    exact ⟨by rw [hl]; exact ha, by rw [hg x]; exact hb⟩

theorem FrV_of_cellsEq {a b : St} (hcells : b.cells = a.cells) : FrV a b := by
  have hg : ∀ j, getCell b j = getCell a j := by
    intro j
    rw [getCell, getCell, hcells]
  exact ⟨by rw [hcells], fun j => by rw [hg j]; exact ⟨rfl, rfl, fun _ => rfl⟩⟩

theorem fromScratch_congr {a b : St} (hcells : b.cells = a.cells) :
    ∀ k j, fromScratch b k j = fromScratch a k j :=
  FrV_fromScratch (FrV_of_cellsEq hcells)

/-- The generic memo-read equation: after a completed `updateIfNecessary`,
the read returns the cached value and records the dependency. -/
theorem read_memo_eq (k : Nat) (st st' : St) (i : Nat) (b : Bool)
    (hcp : (getCell st i).compute ≠ none)
    (huiN : engine k (.updateIfNecessary i) st = .done (.b b) st')
    (hfe2 : (getCell st' i).flagError = false)
    (hfw2 : (getCell st' i).flagWaiting = false)
    (hfa2 : (getCell st' i).flagAsync = false) :
    engine (k + 1) (.read i) st = .done (.v (getCell st' i).value) (track st' (.comp i)) := by
  rw [engine_succ]
  simp only [engineF]
  rcases hcpe : (getCell st i).compute with _ | cp
  · exact absurd hcpe hcp
  · simp only [optBranch]
    rw [huiN]
    simp only [Res.andThen]
    have hfeT : (getCell (track st' (.comp i)) i).flagError = false := by
      rw [track_getCell]
      exact hfe2
    have hLT : isLoadingOf (getCell (track st' (.comp i)) i) = false := by
      rw [track_getCell]
      simp [isLoadingOf, hfa2, hfw2]
    have hvT : (getCell (track st' (.comp i)) i).value = (getCell st' i).value := by
      rw [track_getCell]
    rw [hLT, hfeT, hvT]
    simp

/-- `READspec` follows from `UINspec` at the same cell. -/
theorem read_spec_of (s : Nat) (hU : UINspec s) : READspec s := by
  intro st hc hs
  rcases hcp : (getCell st s).compute with _ | ⟨srcs, f⟩
  · obtain ⟨hB, _, hL⟩ := hc.1 s hs
    have hfs : fromScratch st (s + 1) s = (getCell st s).value := by
      rw [fromScratch_succ]
      simp only [fromScratchF, hcp]
    have hLs : (getCell st s).state = STATE_CLEAN := by
      rw [hcp] at hL
      exact hL.2
    refine ⟨1, st, ?_, CPost_refl st s hc, rfl, rfl, rfl, rfl, rfl, hLs⟩
    rw [hfs]
    exact read_leaf_eq 0 st s hcp hB.2.2.1 hB.2.2.2.1 hB.2.2.2.2.1
  · obtain ⟨N, st', huiN, hcpost, hg1, hg2, hg3, hg4, hg5, hclean, hval, _⟩ :=
      hU st hc hs (by rw [hcp]; simp)
    have hs' : s < st'.cells.length := by rw [hcpost.1]; exact hs
    obtain ⟨hB', _, _⟩ := hcpost.2.1.1 s hs'
    refine ⟨N + 1, st', ?_, hcpost, hg1, hg2, hg3, hg4, hg5, hclean⟩
    rw [← hval]
    exact read_memo_eq N st st' s false (by rw [hcp]; simp) huiN
      hB'.2.2.1 hB'.2.2.2.1 hB'.2.2.2.2.1

theorem track_next (st : St) (r : SrcRef) (ob : Nat) (arr : List SrcRef)
    (hob : st.currentObserver = some ob) (hns : st.newSources = none)
    (hsrc : (getCell st ob).sources = some arr)
    (hget : arr.get? st.newSourcesIndex = some r) :
    track st r = { st with newSourcesIndex := st.newSourcesIndex + 1 } := by
  have hget2 : arr[st.newSourcesIndex]? = some r := by
    rw [← List.get?_eq_getElem?]
    exact hget
  simp [track, hob, hns, hsrc, hget2]

theorem evalReads_nil_eq (k : Nat) (acc : List V) (st : St) :
    engine (k + 1) (.evalReads [] acc) st = .done (.vl acc) st := by
  rw [engine_succ]
  simp only [engineF]

theorem evalReads_cons_eq (k s : Nat) (rest : List Nat) (acc : List V) (st : St) :
    engine (k + 1) (.evalReads (s :: rest) acc) st =
      Res.andThenV (engine k (.read s) st)
        (fun v st1 => engine k (.evalReads rest (acc ++ [v])) st1) := by
  rw [engine_succ]
  simp only [engineF]

theorem CPost_of_cellsEq {a b : St} (i : Nat) (hcells : b.cells = a.cells)
    (hc : CellsOk a) : CPost a b i := by
  have hg : ∀ j, getCell b j = getCell a j := by
    intro j
    rw [getCell, getCell, hcells]
  refine ⟨by rw [hcells], CellsOk_congr hcells hc, FrV_of_cellsEq hcells, ?_, ?_, ?_, ?_⟩
  · intro j hj
    rw [hg j]
    exact ⟨rfl, hj⟩
  · intro j _
    rw [hg j]
    exact ⟨(getCell a j).state, le_refl _, rfl⟩
  · intro j x hx
    rw [hg j]
    exact hx
  · intro j hne
    rw [hg j] at hne
    exact absurd rfl hne

/-- The stable phase of a recompute: the reads retrace the recorded source
array, so only the reuse index advances. -/
theorem evalReads_stable (p : Nat) (hR : ∀ s, s < p → READspec s) :
    ∀ (rem pre : List Nat) (acc : List V) (st : St), CellsOk st → p < st.cells.length →
    (getCell st p).sources = some ((pre ++ rem).map SrcRef.comp) →
    st.currentObserver = some p → st.newSources = none →
    st.newSourcesIndex = pre.length →
    (∀ s ∈ rem, s < p) →
    ∃ NF st', engine NF (.evalReads rem acc) st
        = .done (.vl (acc ++ rem.map (fun s => fromScratch st (s + 1) s))) st' ∧
      CPost st st' p ∧
      (∃ n, (getCell st p).state ≤ n ∧ getCell st' p = { getCell st p with state := n }) ∧
      st'.currentObserver = some p ∧ st'.currentOwner = st.currentOwner ∧
      st'.newSources = none ∧ st'.newSourcesIndex = pre.length + rem.length ∧
      st'.newLoadingState = st.newLoadingState ∧
      (∀ s2 ∈ rem, (getCell st' s2).state = STATE_CLEAN) := by
  intro rem
  induction rem with
  | nil =>
    intro pre acc st hc hp hsrc hob hns hidx hb
    refine ⟨1, st, ?_, CPost_refl st p hc,
      ⟨(getCell st p).state, le_refl _, rfl⟩, hob, rfl, hns, by rw [hidx]; rfl, rfl,
      fun s2 hs2 => absurd hs2 (List.not_mem_nil s2)⟩
    rw [evalReads_nil_eq 0 acc st]
    simp
  | cons s rest IH =>
    intro pre acc st hc hp hsrc hob hns hidx hb
    have hsp : s < p := hb s (List.mem_cons_self s rest)
    obtain ⟨N1, stU, hrd, hcpU, hgU1, hgU2, hgU3, hgU4, hgU5, hgU6⟩ :=
      hR s hsp st hc (Nat.lt_trans hsp hp)
    obtain ⟨n1, hn1, hfr1⟩ := hcpU.2.2.2.2.1 p hsp
    have hsrcU : (getCell stU p).sources = some ((pre ++ s :: rest).map SrcRef.comp) := by
      rw [hfr1]
      exact hsrc
    have hget : ((pre ++ s :: rest).map SrcRef.comp).get? stU.newSourcesIndex
        = some (.comp s) := by
      rw [hgU4, hidx, List.map_append]
      rw [List.get?_append_right (by simp)]
      simp
    have htr : track stU (.comp s) = { stU with newSourcesIndex := stU.newSourcesIndex + 1 } :=
      track_next stU (.comp s) p _ (by rw [hgU1]; exact hob) (by rw [hgU3]; exact hns)
        hsrcU hget
    have hcells2 : ({ stU with newSourcesIndex := stU.newSourcesIndex + 1 } : St).cells
        = stU.cells := rfl
    obtain ⟨N2, st2, heq2, hcp2, hfr2, hh1, hh2, hh3, hh4, hh5, hh6⟩ :=
      IH (pre ++ [s]) (acc ++ [fromScratch st (s + 1) s])
        ({ stU with newSourcesIndex := stU.newSourcesIndex + 1 })
        (CellsOk_congr hcells2 hcpU.2.1)
        (by show p < stU.cells.length; rw [hcpU.1]; exact hp)
        (by
          show (getCell stU p).sources = _
          rw [hsrcU]
          simp)
        (by show stU.currentObserver = some p; rw [hgU1]; exact hob)
        (by show stU.newSources = none; rw [hgU3]; exact hns)
        (by show stU.newSourcesIndex + 1 = (pre ++ [s]).length; rw [hgU4, hidx]; simp)
        (fun s2 hs2 => hb s2 (List.mem_cons_of_mem s hs2))
    refine ⟨max N1 N2 + 1, st2, ?_, ?_, ?_, ?_, ?_, ?_, ?_, ?_, ?_⟩
    · rw [evalReads_cons_eq (max N1 N2) s rest acc st]
      rw [engine_lift hrd (le_max_left N1 N2), htr]
      simp only [Res.andThenV, Out.getV]
      rw [engine_lift heq2 (le_max_right N1 N2)]
      have hmap : rest.map (fun s2 =>
          fromScratch ({ stU with newSourcesIndex := stU.newSourcesIndex + 1 } : St) (s2 + 1) s2)
          = rest.map (fun s2 => fromScratch st (s2 + 1) s2) := by
        refine List.map_congr_left ?_
        intro s2 _
        rw [fromScratch_congr (show ({ stU with newSourcesIndex := stU.newSourcesIndex + 1 } : St).cells = stU.cells from rfl)]
        exact FrV_fromScratch hcpU.2.2.1 (s2 + 1) s2
      rw [hmap]
      simp
    · exact CPost_trans (CPost_mono (Nat.le_of_lt hsp) hcpU)
        (CPost_trans (CPost_of_cellsEq p hcells2 hcpU.2.1) hcp2)
    · obtain ⟨n2, hn2, hfr2b⟩ := hfr2
      refine ⟨n2, ?_, ?_⟩
      · have hst1 : (getCell ({ stU with newSourcesIndex := stU.newSourcesIndex + 1 } : St) p).state = n1 := by
          show (getCell stU p).state = n1
          rw [hfr1]
        rw [hst1] at hn2
        omega
      · rw [hfr2b, show (getCell ({ stU with newSourcesIndex := stU.newSourcesIndex + 1 } : St) p) = getCell stU p from rfl, hfr1]
    · exact hh1
    · rw [hh2]
      show stU.currentOwner = st.currentOwner
      exact hgU2
    · exact hh3
    · rw [hh4]
      simp only [List.length_append, List.length_cons, List.length_nil]
      omega
    · rw [hh5]
      show stU.newLoadingState = st.newLoadingState
      exact hgU5
    · intro s2 hs2
      rcases List.mem_cons.mp hs2 with hs2 | hs2
      · rw [hs2]
        have hcl2 : (getCell ({ stU with newSourcesIndex := stU.newSourcesIndex + 1 } : St) s).state = STATE_CLEAN := hgU6
        exact (hcp2.2.2.2.1 s hcl2).2
      · exact hh6 s2 hs2

/-- The growing phase of a fresh recompute: each read appends to the scratch
buffer. -/
theorem evalReads_fresh (p : Nat) (hR : ∀ s, s < p → READspec s) :
    ∀ (rem : List Nat) (acc : List V) (st : St) (l : List SrcRef),
    CellsOk st → p < st.cells.length →
    st.currentObserver = some p → st.newSources = some l →
    (∀ s ∈ rem, s < p) →
    ∃ NF st', engine NF (.evalReads rem acc) st
        = .done (.vl (acc ++ rem.map (fun s => fromScratch st (s + 1) s))) st' ∧
      CPost st st' p ∧
      (∃ n, (getCell st p).state ≤ n ∧ getCell st' p = { getCell st p with state := n }) ∧
      st'.currentObserver = some p ∧ st'.currentOwner = st.currentOwner ∧
      st'.newSources = some (l ++ rem.map SrcRef.comp) ∧
      st'.newSourcesIndex = st.newSourcesIndex ∧ st'.newLoadingState = st.newLoadingState ∧
      (∀ s2 ∈ rem, (getCell st' s2).state = STATE_CLEAN) := by
  intro rem
  induction rem with
  | nil =>
    intro acc st l hc hp hob hns hb
    refine ⟨1, st, ?_, CPost_refl st p hc,
      ⟨(getCell st p).state, le_refl _, rfl⟩, hob, rfl, by rw [hns]; simp, rfl, rfl,
      fun s2 hs2 => absurd hs2 (List.not_mem_nil s2)⟩
    rw [evalReads_nil_eq 0 acc st]
    simp
  | cons s rest IH =>
    intro acc st l hc hp hob hns hb
    have hsp : s < p := hb s (List.mem_cons_self s rest)
    obtain ⟨N1, stU, hrd, hcpU, hgU1, hgU2, hgU3, hgU4, hgU5, hgU6⟩ :=
      hR s hsp st hc (Nat.lt_trans hsp hp)
    obtain ⟨n1, hn1, hfr1⟩ := hcpU.2.2.2.2.1 p hsp
    have htr : track stU (.comp s) = { stU with newSources := some (l ++ [.comp s]) } :=
      track_scratch_append stU (.comp s) l p (by rw [hgU1]; exact hob) (by rw [hgU3]; exact hns)
    have hcells2 : ({ stU with newSources := some (l ++ [SrcRef.comp s]) } : St).cells
        = stU.cells := rfl
    obtain ⟨N2, st2, heq2, hcp2, hfr2, hh1, hh2, hh3, hh4, hh5, hh6⟩ :=
      IH (acc ++ [fromScratch st (s + 1) s])
        ({ stU with newSources := some (l ++ [SrcRef.comp s]) }) (l ++ [SrcRef.comp s])
        (CellsOk_congr hcells2 hcpU.2.1)
        (by show p < stU.cells.length; rw [hcpU.1]; exact hp)
        (by show stU.currentObserver = some p; rw [hgU1]; exact hob)
        rfl
        (fun s2 hs2 => hb s2 (List.mem_cons_of_mem s hs2))
    refine ⟨max N1 N2 + 1, st2, ?_, ?_, ?_, ?_, ?_, ?_, ?_, ?_, ?_⟩
    · rw [evalReads_cons_eq (max N1 N2) s rest acc st]
      rw [engine_lift hrd (le_max_left N1 N2), htr]
      simp only [Res.andThenV, Out.getV]
      rw [engine_lift heq2 (le_max_right N1 N2)]
      have hmap : rest.map (fun s2 =>
          fromScratch ({ stU with newSources := some (l ++ [SrcRef.comp s]) } : St) (s2 + 1) s2)
          = rest.map (fun s2 => fromScratch st (s2 + 1) s2) := by
        refine List.map_congr_left ?_
        intro s2 _
        rw [fromScratch_congr (show ({ stU with newSources := some (l ++ [SrcRef.comp s]) } : St).cells = stU.cells from rfl)]
        exact FrV_fromScratch hcpU.2.2.1 (s2 + 1) s2
      rw [hmap]
      simp
    · exact CPost_trans (CPost_mono (Nat.le_of_lt hsp) hcpU)
        (CPost_trans (CPost_of_cellsEq p hcells2 hcpU.2.1) hcp2)
    · obtain ⟨n2, hn2, hfr2b⟩ := hfr2
      refine ⟨n2, ?_, ?_⟩
      · have hst1 : (getCell ({ stU with newSources := some (l ++ [SrcRef.comp s]) } : St) p).state = n1 := by
          show (getCell stU p).state = n1
          rw [hfr1]
        rw [hst1] at hn2
        omega
      · rw [hfr2b, show (getCell ({ stU with newSources := some (l ++ [SrcRef.comp s]) } : St) p) = getCell stU p from rfl, hfr1]
    · exact hh1
    · rw [hh2]
      show stU.currentOwner = st.currentOwner
      exact hgU2
    · rw [hh3]
      simp
    · rw [hh4]
      show stU.newSourcesIndex = st.newSourcesIndex
      exact hgU4
    · rw [hh5]
      show stU.newLoadingState = st.newLoadingState
      exact hgU5
    · intro s2 hs2
      rcases List.mem_cons.mp hs2 with hs2 | hs2
      · rw [hs2]
        have hcl2 : (getCell ({ stU with newSources := some (l ++ [SrcRef.comp s]) } : St) s).state = STATE_CLEAN := hgU6
        exact (hcp2.2.2.2.1 s hcl2).2
      · exact hh6 s2 hs2

/-- A fresh recompute from an unmaterialized source array: the reads allocate
and fill the scratch buffer in order. -/
theorem evalReads_fresh0 (p : Nat) (hR : ∀ s, s < p → READspec s)
    (s : Nat) (rest : List Nat) (acc : List V) (st : St)
    (hc : CellsOk st) (hp : p < st.cells.length)
    (hsrcp : (getCell st p).sources = none)
    (hob : st.currentObserver = some p) (hns : st.newSources = none)
    (hb : ∀ x ∈ s :: rest, x < p) :
    ∃ NF st', engine NF (.evalReads (s :: rest) acc) st
        = .done (.vl (acc ++ (s :: rest).map (fun x => fromScratch st (x + 1) x))) st' ∧
      CPost st st' p ∧
      (∃ n, (getCell st p).state ≤ n ∧ getCell st' p = { getCell st p with state := n }) ∧
      st'.currentObserver = some p ∧ st'.currentOwner = st.currentOwner ∧
      st'.newSources = some ((s :: rest).map SrcRef.comp) ∧
      st'.newSourcesIndex = st.newSourcesIndex ∧ st'.newLoadingState = st.newLoadingState ∧
      (∀ s2 ∈ s :: rest, (getCell st' s2).state = STATE_CLEAN) := by
  have hsp : s < p := hb s (List.mem_cons_self s rest)
  obtain ⟨N1, stU, hrd, hcpU, hgU1, hgU2, hgU3, hgU4, hgU5, hgU6⟩ :=
    hR s hsp st hc (Nat.lt_trans hsp hp)
  obtain ⟨n1, hn1, hfr1⟩ := hcpU.2.2.2.2.1 p hsp
  have hsrcU : (getCell stU p).sources = none := by
    rw [hfr1]
    exact hsrcp
  have htr : track stU (.comp s) = { stU with newSources := some [.comp s] } :=
    track_fresh1 stU (.comp s) p (by rw [hgU1]; exact hob) (by rw [hgU3]; exact hns) hsrcU
  have hcells2 : ({ stU with newSources := some [SrcRef.comp s] } : St).cells = stU.cells := rfl
  obtain ⟨N2, st2, heq2, hcp2, hfr2, hh1, hh2, hh3, hh4, hh5, hh6⟩ :=
    evalReads_fresh p hR rest (acc ++ [fromScratch st (s + 1) s])
      ({ stU with newSources := some [SrcRef.comp s] }) [SrcRef.comp s]
      (CellsOk_congr hcells2 hcpU.2.1)
      (by show p < stU.cells.length; rw [hcpU.1]; exact hp)
      (by show stU.currentObserver = some p; rw [hgU1]; exact hob)
      rfl
      (fun s2 hs2 => hb s2 (List.mem_cons_of_mem s hs2))
  refine ⟨max N1 N2 + 1, st2, ?_, ?_, ?_, ?_, ?_, ?_, ?_, ?_, ?_⟩
  · rw [evalReads_cons_eq (max N1 N2) s rest acc st]
    rw [engine_lift hrd (le_max_left N1 N2), htr]
    simp only [Res.andThenV, Out.getV]
    rw [engine_lift heq2 (le_max_right N1 N2)]
    have hmap : rest.map (fun s2 =>
        fromScratch ({ stU with newSources := some [SrcRef.comp s] } : St) (s2 + 1) s2)
        = rest.map (fun s2 => fromScratch st (s2 + 1) s2) := by
      refine List.map_congr_left ?_
      intro s2 _
      rw [fromScratch_congr (show ({ stU with newSources := some [SrcRef.comp s] } : St).cells = stU.cells from rfl)]
      exact FrV_fromScratch hcpU.2.2.1 (s2 + 1) s2
    rw [hmap]
    simp
  · exact CPost_trans (CPost_mono (Nat.le_of_lt hsp) hcpU)
      (CPost_trans (CPost_of_cellsEq p hcells2 hcpU.2.1) hcp2)
  · obtain ⟨n2, hn2, hfr2b⟩ := hfr2
    refine ⟨n2, ?_, ?_⟩
    · have hst1 : (getCell ({ stU with newSources := some [SrcRef.comp s] } : St) p).state = n1 := by
        show (getCell stU p).state = n1
        rw [hfr1]
      rw [hst1] at hn2
      omega
    · rw [hfr2b, show (getCell ({ stU with newSources := some [SrcRef.comp s] } : St) p) = getCell stU p from rfl, hfr1]
  · exact hh1
  · rw [hh2]
    show stU.currentOwner = st.currentOwner
    exact hgU2
  · rw [hh3]
    simp
  · rw [hh4]
    show stU.newSourcesIndex = st.newSourcesIndex
    exact hgU4
  · rw [hh5]
    show stU.newLoadingState = st.newLoadingState
    exact hgU5
  · intro s2 hs2
    rcases List.mem_cons.mp hs2 with hs2 | hs2
    · rw [hs2]
      have hcl2 : (getCell ({ stU with newSources := some [SrcRef.comp s] } : St) s).state = STATE_CLEAN := hgU6
      exact (hcp2.2.2.2.1 s hcl2).2
    · exact hh6 s2 hs2

theorem computeRun_eq (N : Nat) (st stE : St) (i : Nat) (srcs : List Nat)
    (f : List V → CompRes) (vals : List V) (w : WVal)
    (hcp : (getCell st i).compute = some (srcs, f))
    (hloop : engine N (.evalReads srcs [])
      { st with currentOwner := some i, currentObserver := some i } = .done (.vl vals) stE)
    (hfv : f vals = .ret w) :
    engine (N + 1) (.computeRun i) st
      = .done (.wv w)
          { stE with currentOwner := st.currentOwner, currentObserver := st.currentObserver } := by
  rw [engine_succ]
  simp only [engineF]
  have hcp0 : (getCell { st with currentOwner := some i, currentObserver := some i } i).compute
      = some (srcs, f) := hcp
  rw [hcp0]
  simp only [optBranch]
  rw [hloop]
  simp only [resBind, Out.getVL, hfv]
  simp only [resCase]

/-- Invariant restoration for a fresh source-array merge: the updated cell is
still DIRTY, gains its source array, and appears at the end of every source's
observer array. -/
theorem CellsOk_merge_fresh (st stF : St) (i : Nat) (srcs : List Nat)
    (f : List V → CompRes)
    (hc : CellsOk st) (hi : i < st.cells.length)
    (hcp : (getCell st i).compute = some (srcs, f))
    (hsrcU : (getCell st i).sources = none)
    (hdirty : (getCell st i).state = STATE_DIRTY)
    (hlen : stF.cells.length = st.cells.length)
    (hcelli : getCell stF i = { getCell st i with sources := some (srcs.map SrcRef.comp) })
    (hcellm : ∀ j ∈ srcs, getCell stF j
      = { getCell st j with observers := some ((getCell st j).observers.getD [] ++ [i]) })
    (hcello : ∀ j, j ≠ i → j ∉ srcs → getCell stF j = getCell st j) :
    CellsOk stF := by
  obtain ⟨hcells, hcount, hmem⟩ := hc
  have hM0 := (hcells i hi).2.2
  rw [hcp] at hM0
  have hMi : GMemoOk st i srcs f := hM0
  have hii : i ∉ srcs := fun h => absurd rfl (Nat.ne_of_lt (hMi.2.2.1 i h))
  have hcpEq : ∀ m, (getCell stF m).compute = (getCell st m).compute := by
    intro m
    by_cases hm : m = i
    · subst hm
      rw [hcelli]
    · by_cases hms : m ∈ srcs
      · rw [hcellm m hms]
      · rw [hcello m hm hms]
  have hvalEq : ∀ m, (getCell stF m).value = (getCell st m).value := by
    intro m
    by_cases hm : m = i
    · subst hm
      rw [hcelli]
    · by_cases hms : m ∈ srcs
      · rw [hcellm m hms]
      · rw [hcello m hm hms]
  have hstEq : ∀ m, (getCell stF m).state = (getCell st m).state := by
    intro m
    by_cases hm : m = i
    · subst hm
      rw [hcelli]
    · by_cases hms : m ∈ srcs
      · rw [hcellm m hms]
      · rw [hcello m hm hms]
  have heqEq : ∀ m, (getCell stF m).equals = (getCell st m).equals := by
    intro m
    by_cases hm : m = i
    · subst hm
      rw [hcelli]
    · by_cases hms : m ∈ srcs
      · rw [hcellm m hms]
      · rw [hcello m hm hms]
  have hsrcEq : ∀ m, m ≠ i → (getCell stF m).sources = (getCell st m).sources := by
    intro m hm
    by_cases hms : m ∈ srcs
    · rw [hcellm m hms]
    · rw [hcello m hm hms]
  have hobsEqN : ∀ m, m ∉ srcs → (getCell stF m).observers = (getCell st m).observers := by
    intro m hms
    by_cases hm : m = i
    · subst hm
      rw [hcelli]
    · rw [hcello m hm hms]
  have hBEq : ∀ m, BaseOk (getCell st m) → BaseOk (getCell stF m) := by
    intro m hB
    by_cases hm : m = i
    · subst hm
      rw [hcelli]
      exact hB
    · by_cases hms : m ∈ srcs
      · rw [hcellm m hms]
        exact hB
      · rw [hcello m hm hms]
        exact hB
  refine ⟨?_, ?_, ?_⟩
  · intro m hm
    rw [hlen] at hm
    obtain ⟨hB, hs2, hM⟩ := hcells m hm
    refine ⟨hBEq m hB, by rw [hstEq m]; exact hs2, ?_⟩
    rw [hcpEq m]
    rcases hcpm : (getCell st m).compute with _ | ⟨srcs2, f2⟩
    · rw [hcpm] at hM
      have hM2 : (getCell st m).sources = none ∧ (getCell st m).state = STATE_CLEAN := hM
      have hmi : m ≠ i := fun h => by rw [h, hcp] at hcpm; cases hcpm
      exact ⟨by rw [hsrcEq m hmi]; exact hM2.1, by rw [hstEq m]; exact hM2.2⟩
    · rw [hcpm] at hM
      have hM2 : GMemoOk st m srcs2 f2 := hM
      show GMemoOk stF m srcs2 f2
      obtain ⟨hne2, hnd2, hlt2, htot2, hcache2⟩ := hM2
      refine ⟨hne2, hnd2, hlt2, htot2, ?_⟩
      by_cases hmi : m = i
      · subst hmi
        have hcpi2 : some (srcs2, f2) = some (srcs, f) := by rw [← hcpm, hcp]
        injection hcpi2 with hcpi3
        injection hcpi3 with hs1 hs2b
        subst hs1
        refine Or.inr ⟨by rw [hcelli], ?_, ?_⟩
        · intro hle
          rw [hstEq m, hdirty] at hle
          exact absurd hle (by decide)
        · intro hcl
          rw [hstEq m, hdirty] at hcl
          exact absurd hcl (by decide)
      · rcases hcache2 with ⟨hsn, hsd⟩ | ⟨hsm, hbv, hcs⟩
        · exact Or.inl ⟨by rw [hsrcEq m hmi]; exact hsn, by rw [hstEq m]; exact hsd⟩
        · refine Or.inr ⟨by rw [hsrcEq m hmi]; exact hsm, ?_, ?_⟩
          · intro hle
            rw [hstEq m] at hle
            have hmap : srcs2.map (fun s => (getCell stF s).value)
                = srcs2.map (fun s => (getCell st s).value) :=
              List.map_congr_left (fun s _ => hvalEq s)
            rw [hmap, hvalEq m]
            exact hbv hle
          · intro hcl
            rw [hstEq m] at hcl
            intro s hs
            rw [hstEq s]
            exact hcs hcl s hs
  · intro x j hx hj
    rw [hlen] at hx hj
    have hcsF : cSrcs (getCell stF i) = srcs := by
      simp [cSrcs, hcpEq i, hcp]
    have hOld := hcount x j hx hj
    by_cases hjs : j ∈ srcs
    · have hLHS : obsCount stF x (.comp j)
          = obsCount st x (.comp j) + (if x = i then 1 else 0) := by
        show ((refObs stF (.comp j)).getD []).count x = _
        simp only [refObs, hcellm j hjs, Option.getD_some, List.count_append]
        congr 1
        by_cases hxe : x = i
        · subst hxe
          simp
        · simp [List.count_cons, hxe]
      rw [hLHS]
      by_cases hxi : x = i
      · subst hxi
        simp only [hcp] at hOld
        rw [if_neg (by rw [hsrcU]; simp)] at hOld
        rw [hOld, if_pos rfl]
        have hcpF : (getCell stF x).compute = some (srcs, f) := by rw [hcpEq x]; exact hcp
        simp only [hcpF]
        rw [if_pos ⟨by rw [hcelli]; simp, by rw [hcsF]; exact hjs⟩]
      · rw [if_neg hxi, Nat.add_zero]
        rcases hcpx : (getCell st x).compute with _ | p
        · simp only [hcpx] at hOld
          rw [hOld]
          have hcpFx : (getCell stF x).compute = none := (hcpEq x).trans hcpx
          simp only [hcpFx]
        · simp only [hcpx] at hOld
          rw [hOld]
          have hcpFx : (getCell stF x).compute = some p := (hcpEq x).trans hcpx
          simp only [hcpFx]
          have hcsFx : cSrcs (getCell stF x) = cSrcs (getCell st x) := by
            simp [cSrcs, hcpFx, hcpx]
          rw [hsrcEq x hxi, hcsFx]
    · have hLHS : obsCount stF x (.comp j) = obsCount st x (.comp j) := by
        show ((refObs stF (.comp j)).getD []).count x = _
        simp only [refObs, hobsEqN j hjs]
        rfl
      rw [hLHS]
      by_cases hxi : x = i
      · subst hxi
        simp only [hcp] at hOld
        rw [if_neg (by rw [hsrcU]; simp)] at hOld
        rw [hOld]
        have hcpF : (getCell stF x).compute = some (srcs, f) := by rw [hcpEq x]; exact hcp
        simp only [hcpF]
        rw [if_neg (fun hcond => hjs (by rw [hcsF] at hcond; exact hcond.2))]
      · rcases hcpx : (getCell st x).compute with _ | p
        · simp only [hcpx] at hOld
          rw [hOld]
          have hcpFx : (getCell stF x).compute = none := (hcpEq x).trans hcpx
          simp only [hcpFx]
        · simp only [hcpx] at hOld
          rw [hOld]
          have hcpFx : (getCell stF x).compute = some p := (hcpEq x).trans hcpx
          simp only [hcpFx]
          have hcsFx : cSrcs (getCell stF x) = cSrcs (getCell st x) := by
            simp [cSrcs, hcpFx, hcpx]
          rw [hsrcEq x hxi, hcsFx]
  · intro j hj x hxm
    rw [hlen] at hj
    by_cases hjs : j ∈ srcs
    · rw [hcellm j hjs] at hxm
      simp only [Option.getD_some] at hxm
      rcases List.mem_append.mp hxm with hxo | hxi2
      · have h := hmem j hj x hxo
        exact ⟨by rw [hlen]; exact h.1, by rw [hcpEq x]; exact h.2⟩
      · have hxi3 : x = i := by simpa using hxi2
        subst hxi3
        refine ⟨by rw [hlen]; exact hi, ?_⟩
        rw [hcpEq x, hcp]
        simp
    · rw [hobsEqN j hjs] at hxm
      have h := hmem j hj x hxm
      exact ⟨by rw [hlen]; exact h.1, by rw [hcpEq x]; exact h.2⟩

/-- Everything the update path needs about the state after its internal plain
write, uniformly over the value-equal skip and the commit. -/
theorem write_post (stC stW : St) (i : Nat) (vstar : V)
    (hc : CellsOk stC) (hi : i < stC.cells.length)
    (hcpne : (getCell stC i).compute ≠ none)
    (hdirty : (getCell stC i).state = STATE_DIRTY)
    (hcases : ((getCell stC i).value = vstar ∧ stW = stC) ∨
      ((getCell stC i).value ≠ vstar ∧
       NPost (modCell stC i (fun c => { c with value := vstar })) stW
         ((getCell stC i).observers.getD []) STATE_DIRTY)) :
    stW.cells.length = stC.cells.length ∧ CellsOk stW ∧ FrV stC stW ∧
    stW.currentObserver = stC.currentObserver ∧ stW.currentOwner = stC.currentOwner ∧
    stW.newSources = stC.newSources ∧ stW.newSourcesIndex = stC.newSourcesIndex ∧
    stW.newLoadingState = stC.newLoadingState ∧
    (getCell stW i).value = vstar ∧
    (getCell stW i).state = STATE_DIRTY ∧
    (getCell stW i).compute = (getCell stC i).compute ∧
    (getCell stW i).sources = (getCell stC i).sources ∧
    (∀ j, j ≠ i → (getCell stW j).value = (getCell stC j).value) ∧
    (∀ j, (getCell stC j).state = STATE_CLEAN → (getCell stW j).state = STATE_CLEAN) ∧
    (∀ j, i < j → ∃ n, (getCell stC j).state ≤ n ∧
      getCell stW j = { getCell stC j with state := n }) ∧
    ((getCell stC i).value = vstar ∨
      ∀ x ∈ (getCell stC i).observers.getD [], STATE_DIRTY ≤ (getCell stW x).state) ∧
    (∀ j, (getCell stW j).observers = (getCell stC j).observers) := by
  rcases hcases with ⟨hveq, hW⟩ | ⟨hvne, hP⟩
  · rw [hW]
    refine ⟨rfl, hc, FrV_refl stC, rfl, rfl, rfl, rfl, rfl, hveq, hdirty, rfl, rfl,
      fun j _ => rfl, fun j hj => hj, fun j _ => ⟨(getCell stC j).state, le_refl _, rfl⟩,
      Or.inl hveq, fun j => rfl⟩
  · have hcellVi : getCell (modCell stC i (fun c => { c with value := vstar })) i
        = { getCell stC i with value := vstar } := getCell_modCell_self stC i _ hi
    have hcellV : ∀ j, j ≠ i →
        getCell (modCell stC i (fun c => { c with value := vstar })) j = getCell stC j :=
      fun j hj => getCell_modCell_ne stC i j _ (fun h => hj h.symm)
    have hstV : ∀ j, (getCell (modCell stC i (fun c => { c with value := vstar })) j).state
        = (getCell stC j).state := by
      intro j
      by_cases hj : j = i
      · subst hj
        rw [hcellVi]
      · rw [hcellV j hj]
    obtain ⟨p1, p2, p3, p4, p5, p6, p7, p8⟩ := hP
    have hcellN : ∀ j, j ≠ i →
        getCell stW j = { getCell stC j with state := (getCell stW j).state } := by
      intro j hj
      rw [p1.2.2.2.2.2.2.2.2 j, hcellV j hj]
    have hcellNi : getCell stW i
        = { getCell stC i with value := vstar, state := (getCell stW i).state } := by
      rw [p1.2.2.2.2.2.2.2.2 i, hcellVi]
    have hlenV : (modCell stC i (fun c => { c with value := vstar })).cells.length
        = stC.cells.length := by simp
    have hiU : (getCell stW i).state = (getCell stC i).state :=
      commit_i_unraised stC stW i vstar hc hi ⟨p1, p2, p3, p4, p5, p6, p7, p8⟩
    refine ⟨p1.1.trans hlenV,
      CellsOk_commit stC stW i vstar hc hi (Or.inr hdirty) ⟨p1, p2, p3, p4, p5, p6, p7, p8⟩,
      ?_, p1.2.1, p1.2.2.1, p1.2.2.2.1, p1.2.2.2.2.1, p1.2.2.2.2.2.1,
      by rw [hcellNi], by rw [hiU]; exact hdirty,
      by rw [hcellNi], by rw [hcellNi],
      fun j hj => by rw [hcellN j hj],
      commit_clean_fixed stC stW i vstar hc hi hdirty ⟨p1, p2, p3, p4, p5, p6, p7, p8⟩,
      ?_, Or.inr p3, ?_⟩
    · refine ⟨p1.1.trans hlenV, fun j => ?_⟩
      by_cases hj : j = i
      · subst hj
        rw [hcellNi]
        exact ⟨rfl, rfl, fun hcn => absurd hcn hcpne⟩
      · rw [hcellN j hj]
        exact ⟨rfl, rfl, fun _ => rfl⟩
    · intro j hij
      have hj : j ≠ i := fun h => by omega
      refine ⟨(getCell stW j).state, ?_, by rw [hcellN j hj]⟩
      have := p2 j
      rw [hstV j] at this
      exact this
    · intro j
      by_cases hj : j = i
      · rw [hj, hcellNi]
      · rw [hcellN j hj]

/-- Invariant restoration for the final CLEAN stamp of an update. -/
theorem CellsOk_finalize (st : St) (i : Nat) (srcs : List Nat) (f : List V → CompRes)
    (hc : CellsOk st) (hi : i < st.cells.length)
    (hcp : (getCell st i).compute = some (srcs, f))
    (hsm : (getCell st i).sources = some (srcs.map SrcRef.comp))
    (hval : f (srcs.map (fun s => (getCell st s).value)) = .ret (.plain (getCell st i).value))
    (hcls : ∀ s ∈ srcs, (getCell st s).state = STATE_CLEAN) :
    CellsOk (modCell st i (fun c => { c with state := STATE_CLEAN })) := by
  obtain ⟨hcells, hcount, hmem⟩ := hc
  have hM0 := (hcells i hi).2.2
  rw [hcp] at hM0
  have hMi : GMemoOk st i srcs f := hM0
  have hii : i ∉ srcs := fun h => absurd rfl (Nat.ne_of_lt (hMi.2.2.1 i h))
  have hcellI : getCell (modCell st i (fun c => { c with state := STATE_CLEAN })) i
      = { getCell st i with state := STATE_CLEAN } := getCell_modCell_self st i _ hi
  have hcellO : ∀ j, j ≠ i →
      getCell (modCell st i (fun c => { c with state := STATE_CLEAN })) j = getCell st j :=
    fun j hj => getCell_modCell_ne st i j _ (fun h => hj h.symm)
  have hvalEq : ∀ m, (getCell (modCell st i (fun c => { c with state := STATE_CLEAN })) m).value
      = (getCell st m).value := by
    intro m
    by_cases hm : m = i
    · subst hm
      rw [hcellI]
    · rw [hcellO m hm]
  have hcpEq : ∀ m, (getCell (modCell st i (fun c => { c with state := STATE_CLEAN })) m).compute
      = (getCell st m).compute := by
    intro m
    by_cases hm : m = i
    · subst hm
      rw [hcellI]
    · rw [hcellO m hm]
  have hsrcEq : ∀ m, (getCell (modCell st i (fun c => { c with state := STATE_CLEAN })) m).sources
      = (getCell st m).sources := by
    intro m
    by_cases hm : m = i
    · subst hm
      rw [hcellI]
    · rw [hcellO m hm]
  have hobsEq : ∀ m, (getCell (modCell st i (fun c => { c with state := STATE_CLEAN })) m).observers
      = (getCell st m).observers := by
    intro m
    by_cases hm : m = i
    · subst hm
      rw [hcellI]
    · rw [hcellO m hm]
  have hstEq : ∀ m, m ≠ i →
      (getCell (modCell st i (fun c => { c with state := STATE_CLEAN })) m).state
      = (getCell st m).state := by
    intro m hm
    rw [hcellO m hm]
  have hstN : ∀ m, (getCell (modCell st i (fun c => { c with state := STATE_CLEAN })) m).state
      = STATE_CLEAN ∨
      (getCell (modCell st i (fun c => { c with state := STATE_CLEAN })) m).state
      = (getCell st m).state := by
    intro m
    by_cases hm : m = i
    · subst hm
      rw [hcellI]
      exact Or.inl rfl
    · exact Or.inr (hstEq m hm)
  have hlen : (modCell st i (fun c => { c with state := STATE_CLEAN })).cells.length
      = st.cells.length := by simp
  refine ⟨?_, ?_, ?_⟩
  · intro m hm
    rw [hlen] at hm
    obtain ⟨hB, hs2, hM⟩ := hcells m hm
    refine ⟨?_, ?_, ?_⟩
    · by_cases hmi : m = i
      · rw [hmi, hcellI]
        rw [hmi] at hB
        exact hB
      · rw [hcellO m hmi]
        exact hB
    · rcases hstN m with h | h
      · rw [h]
        decide
      · rw [h]
        exact hs2
    · rw [hcpEq m]
      rcases hcpm : (getCell st m).compute with _ | ⟨srcs2, f2⟩
      · rw [hcpm] at hM
        have hM2 : (getCell st m).sources = none ∧ (getCell st m).state = STATE_CLEAN := hM
        have hmi : m ≠ i := fun h => by rw [h, hcp] at hcpm; cases hcpm
        exact ⟨by rw [hsrcEq m]; exact hM2.1, by rw [hstEq m hmi]; exact hM2.2⟩
      · rw [hcpm] at hM
        have hM2 : GMemoOk st m srcs2 f2 := hM
        show GMemoOk (modCell st i (fun c => { c with state := STATE_CLEAN })) m srcs2 f2
        obtain ⟨hne2, hnd2, hlt2, htot2, hcache2⟩ := hM2
        refine ⟨hne2, hnd2, hlt2, htot2, ?_⟩
        by_cases hmi : m = i
        · have hcpm2 : (getCell st i).compute = some (srcs2, f2) := by
            rw [← hmi]
            exact hcpm
          rw [hcp] at hcpm2
          injection hcpm2 with h1
          injection h1 with hs1 hs2b
          subst hs1
          subst hs2b
          rw [hmi]
          refine Or.inr ⟨by rw [hsrcEq i]; exact hsm, ?_, ?_⟩
          · intro _
            have hmap : srcs.map (fun s =>
                (getCell (modCell st i (fun c => { c with state := STATE_CLEAN })) s).value)
                = srcs.map (fun s => (getCell st s).value) :=
              List.map_congr_left (fun s _ => hvalEq s)
            rw [hmap, hvalEq i]
            exact hval
          · intro _ s hs
            by_cases hsi : s = i
            · rw [hsi, hcellI]
            · rw [hstEq s hsi]
              exact hcls s hs
        · rcases hcache2 with ⟨hsn, hsd⟩ | ⟨hsm2, hbv, hcs⟩
          · exact Or.inl ⟨by rw [hsrcEq m]; exact hsn, by rw [hstEq m hmi]; exact hsd⟩
          · refine Or.inr ⟨by rw [hsrcEq m]; exact hsm2, ?_, ?_⟩
            · intro hle
              rw [hstEq m hmi] at hle
              have hmap : srcs2.map (fun s =>
                  (getCell (modCell st i (fun c => { c with state := STATE_CLEAN })) s).value)
                  = srcs2.map (fun s => (getCell st s).value) :=
                List.map_congr_left (fun s _ => hvalEq s)
              rw [hmap, hvalEq m]
              exact hbv hle
            · intro hcl s hs
              rw [hstEq m hmi] at hcl
              by_cases hsi : s = i
              · subst hsi
                rw [hcellI]
              · rw [hstEq s hsi]
                exact hcs hcl s hs
  · intro x j hx hj
    rw [hlen] at hx hj
    have hLHS : obsCount (modCell st i (fun c => { c with state := STATE_CLEAN })) x (.comp j)
        = obsCount st x (.comp j) := by
      simp only [obsCount, refObs, hobsEq]
    have hcsEq : cSrcs (getCell (modCell st i (fun c => { c with state := STATE_CLEAN })) x)
        = cSrcs (getCell st x) := by
      simp only [cSrcs, hcpEq]
    rw [hLHS, hcpEq, hsrcEq, hcsEq]
    exact hcount x j hx hj
  · intro j hj x hxm
    rw [hlen] at hj
    rw [hobsEq j] at hxm
    have h := hmem j hj x hxm
    exact ⟨by rw [hlen]; exact h.1, by rw [hcpEq x]; exact h.2⟩

theorem checkSources_nil_eq (k i : Nat) (any : Bool) (st : St) :
    engine (k + 1) (.checkSources i [] any) st = .done (.b any) st := by
  rw [engine_succ]
  simp only [engineF]

theorem checkSources_cons_eq (k i : Nat) (r : SrcRef) (rest : List SrcRef) (any : Bool)
    (st : St) :
    engine (k + 1) (.checkSources i (r :: rest) any) st =
      Res.andThenB (engine k (.updateIfNecessary (srcOrigin r)) st)
        (fun isL st1 =>
          if (getCell st1 i).state = STATE_DIRTY then .done (.b (any || isL)) st1
          else engine k (.checkSources i rest (any || isL)) st1) := by
  rw [engine_succ]
  simp only [engineF]

/-- The CHECK-resolution loop: each recorded source is brought up to date;
either some source recompute changed a value and the cell has been marked
DIRTY, or every source is CLEAN with its value unchanged and the cell is
still CHECK. -/
theorem checkSources_spec (i : Nat) (srcs : List Nat) (f : List V → CompRes)
    (hU : ∀ s, s < i → UINspec s) :
    ∀ rem any st, CellsOk st → i < st.cells.length →
      (getCell st i).compute = some (srcs, f) →
      (getCell st i).sources = some (srcs.map SrcRef.comp) →
      (getCell st i).state = STATE_CHECK →
      (∀ r ∈ rem, ∃ s, r = SrcRef.comp s ∧ s ∈ srcs) →
      ∃ NF st',
        engine NF (.checkSources i rem any) st = .done (.b any) st' ∧
        CPost st st' i ∧
        st'.currentObserver = st.currentObserver ∧ st'.currentOwner = st.currentOwner ∧
        st'.newSources = st.newSources ∧ st'.newSourcesIndex = st.newSourcesIndex ∧
        st'.newLoadingState = st.newLoadingState ∧
        (∃ n, getCell st' i = { getCell st i with state := n }) ∧
        ((getCell st' i).state = STATE_DIRTY ∨
          ((getCell st' i).state = STATE_CHECK ∧
           ∀ r ∈ rem, (getCell st' (srcOrigin r)).state = STATE_CLEAN ∧
             (getCell st' (srcOrigin r)).value = (getCell st (srcOrigin r)).value)) := by
  intro rem
  induction rem with
  | nil =>
    intro any st hc hi hcp hsrc hchk hmem
    exact ⟨1, st, checkSources_nil_eq 0 i any st, CPost_refl st i hc, rfl, rfl, rfl, rfl, rfl,
      ⟨(getCell st i).state, rfl⟩,
      Or.inr ⟨hchk, fun r hr => absurd hr (List.not_mem_nil r)⟩⟩
  | cons r rest IH =>
    intro any st hc hi hcp hsrc hchk hmem
    obtain ⟨s, hr, hss⟩ := hmem r (List.mem_cons_self r rest)
    have hMi : GMemoOk st i srcs f := by
      have h := (hc.1 i hi).2.2
      rw [hcp] at h
      exact h
    have hsi : s < i := hMi.2.2.1 s hss
    have hsl : s < st.cells.length := Nat.lt_trans hsi hi
    have hor : srcOrigin r = s := by
      rw [hr]
      rfl
    have hiobs : i ∈ (getCell st s).observers.getD [] :=
      edge_mem st hc i s srcs f hi hsl hcp hsrc hss
    rcases hcps : (getCell st s).compute with _ | cp
    · -- leaf source: already CLEAN, updateIfNecessary is a no-op
      have hLs := (hc.1 s hsl).2.2
      rw [hcps] at hLs
      have hsCL : (getCell st s).state = STATE_CLEAN := hLs.2
      have hB := (hc.1 s hsl).1
      have hload : isLoadingOf (getCell st s) = false := by
        simp [isLoadingOf, hB.2.2.2.1, hB.2.2.2.2.1]
      obtain ⟨N2, st2, hrun2, hcp2, hh1, hh2, hh3, hh4, hh5, hfr2, hdisj2⟩ :=
        IH any st hc hi hcp hsrc hchk (fun r2 hr2 => hmem r2 (List.mem_cons_of_mem r hr2))
      refine ⟨N2 + 1 + 1, st2, ?_, hcp2, hh1, hh2, hh3, hh4, hh5, hfr2, ?_⟩
      · rw [checkSources_cons_eq (N2 + 1) i r rest any st, hor,
          uiN_clean N2 st s hsCL, hload]
        simp only [Res.andThenB, Out.getB, Bool.or_false]
        have hndi : ¬ (getCell st i).state = STATE_DIRTY := by
          rw [hchk]
          decide
        rw [if_neg hndi]
        exact engine_lift hrun2 (by omega)
      · rcases hdisj2 with hd | ⟨hchk2, hrest⟩
        · exact Or.inl hd
        · refine Or.inr ⟨hchk2, ?_⟩
          intro r2 hr2
          rcases List.mem_cons.mp hr2 with he | ht
          · rw [he, hor]
            obtain ⟨hv2, hs2⟩ := hcp2.2.2.2.1 s hsCL
            exact ⟨hs2, hv2⟩
          · exact hrest r2 ht
    · -- computed source: run its updateIfNecessary
      have hcpn : (getCell st s).compute ≠ none := by
        rw [hcps]
        simp
      obtain ⟨N1, st1, huiN, hcp1, hg1, hg2, hg3, hg4, hg5, hclean1, hval1, hE⟩ :=
        hU s hsi st hc hsl hcpn
      obtain ⟨n, hn, hcell1⟩ := hcp1.2.2.2.2.1 i hsi
      have hle2 : (getCell st1 i).state ≤ STATE_DIRTY := by
        have hi1 : i < st1.cells.length := by
          rw [hcp1.1]
          exact hi
        exact (hcp1.2.1.1 i hi1).2.1
      by_cases hdi : (getCell st1 i).state = STATE_DIRTY
      · -- the cell went DIRTY: the loop breaks here
        refine ⟨max (N1 + 1) 1 + 1, st1, ?_,
          CPost_mono (Nat.le_of_lt hsi) hcp1, hg1, hg2, hg3, hg4, hg5,
          ⟨n, hcell1⟩, Or.inl hdi⟩
        rw [checkSources_cons_eq (max (N1 + 1) 1) i r rest any st, hor,
          engine_lift huiN (show N1 ≤ max (N1 + 1) 1 by omega)]
        simp only [Res.andThenB, Out.getB, Bool.or_false]
        rw [if_pos hdi]
      · -- still CHECK: the source recompute kept its value
        have hchk1 : (getCell st1 i).state = STATE_CHECK := by
          have ha : (getCell st1 i).state = n := by
            rw [hcell1]
          have hb : (1 : Nat) ≤ n := by
            have := hn
            rw [hchk] at this
            exact this
          have hcr : (getCell st1 i).state ≤ 2 := hle2
          have hdr : (getCell st1 i).state ≠ 2 := hdi
          show (getCell st1 i).state = 1
          omega
        have hveq : (getCell st1 s).value = (getCell st s).value := by
          rcases hE with h | h
          · exact h
          · exact absurd (h i hiobs) hdi
        have hi1 : i < st1.cells.length := by
          rw [hcp1.1]
          exact hi
        have hcpi1 : (getCell st1 i).compute = some (srcs, f) := by
          rw [hcell1]
          exact hcp
        have hsrci1 : (getCell st1 i).sources = some (srcs.map SrcRef.comp) := by
          rw [hcell1]
          exact hsrc
        obtain ⟨N2, st2, hrun2, hcp2, hh1, hh2, hh3, hh4, hh5, hfr2, hdisj2⟩ :=
          IH any st1 hcp1.2.1 hi1 hcpi1 hsrci1 hchk1
            (fun r2 hr2 => hmem r2 (List.mem_cons_of_mem r hr2))
        obtain ⟨n2, hcell2⟩ := hfr2
        refine ⟨max N1 N2 + 1, st2, ?_,
          CPost_trans (CPost_mono (Nat.le_of_lt hsi) hcp1) hcp2,
          hh1.trans hg1, hh2.trans hg2, hh3.trans hg3, hh4.trans hg4, hh5.trans hg5,
          ⟨n2, by rw [hcell2, hcell1]⟩, ?_⟩
        · rw [checkSources_cons_eq (max N1 N2) i r rest any st, hor,
            engine_lift huiN (le_max_left _ _)]
          simp only [Res.andThenB, Out.getB, Bool.or_false]
          rw [if_neg hdi]
          exact engine_lift hrun2 (le_max_right _ _)
        · rcases hdisj2 with hd | ⟨hchk2, hrest⟩
          · exact Or.inl hd
          · refine Or.inr ⟨hchk2, ?_⟩
            intro r2 hr2
            rcases List.mem_cons.mp hr2 with he | ht
            · rw [he, hor]
              obtain ⟨hv2, hs2⟩ := hcp2.2.2.2.1 s hclean1
              exact ⟨hs2, hv2.trans hveq⟩
            · obtain ⟨hcl2, hvv2⟩ := hrest r2 ht
              obtain ⟨s2, hr2e, hs2s⟩ := hmem r2 (List.mem_cons_of_mem r ht)
              have hor2 : srcOrigin r2 = s2 := by
                rw [hr2e]
                rfl
              have hs2i : s2 < i := hMi.2.2.1 s2 hs2s
              have hv1eq : (getCell st1 s2).value = (getCell st s2).value := by
                by_cases hv : (getCell st1 s2).value = (getCell st s2).value
                · exact hv
                · have hiobs2 : i ∈ (getCell st s2).observers.getD [] :=
                    edge_mem st hc i s2 srcs f hi (Nat.lt_trans hs2i hi) hcp hsrc hs2s
                  have hd := hcp1.2.2.2.2.2.2 s2 hv i hiobs2 hsi
                  have hd2 : (2 : Nat) ≤ (getCell st1 i).state := hd
                  have hc2 : (getCell st1 i).state ≤ 2 := hle2
                  have : (getCell st1 i).state = 2 := by omega
                  exact absurd this hdi
              rw [hor2] at hcl2 hvv2
              rw [hor2]
              exact ⟨hcl2, hvv2.trans hv1eq⟩

/-- The shared tail of `update`: from a completed recompute (the `computeRun`
equation plus the loop postcondition) through the plain write, the source
merge, the loading no-op and the final CLEAN stamp. -/
theorem update_tail (i : Nat) (srcs : List Nat) (f : List V → CompRes)
    (st stE : St) (NL : Nat) (vstar : V)
    (hc : CellsOk st) (hi : i < st.cells.length)
    (hcp : (getCell st i).compute = some (srcs, f))
    (hdirty : (getCell st i).state = STATE_DIRTY)
    (hMb : ∀ s ∈ srcs, s < i) (hnd : srcs.Nodup)
    (hcr : engine NL (.computeRun i) ({ st with newSources := none, newSourcesIndex := 0, newLoadingState := false } : St)
      = .done (.wv (.plain vstar)) ({ stE with currentOwner := st.currentOwner, currentObserver := st.currentObserver } : St))
    (hcpEt : CPost st stE i)
    (hfrE : ∃ n, STATE_DIRTY ≤ n ∧ getCell stE i = { getCell st i with state := n })
    (hclE : ∀ s ∈ srcs, (getCell stE s).state = STATE_CLEAN)
    (hfv : f (srcs.map (fun s => fromScratch st (s + 1) s)) = .ret (.plain vstar))
    (hnlsE : stE.newLoadingState = false)
    (hphase : ((getCell st i).sources = some (srcs.map SrcRef.comp) ∧
        stE.newSources = none ∧ stE.newSourcesIndex = srcs.length) ∨
      ((getCell st i).sources = none ∧
        stE.newSources = some (srcs.map SrcRef.comp) ∧ stE.newSourcesIndex = 0)) :
    ∃ NF st', engine NF (.update i) st = .done .unit st' ∧
      CPost st st' i ∧
      st'.currentObserver = st.currentObserver ∧ st'.currentOwner = st.currentOwner ∧
      st'.newSources = st.newSources ∧ st'.newSourcesIndex = st.newSourcesIndex ∧
      st'.newLoadingState = st.newLoadingState ∧
      (getCell st' i).state = STATE_CLEAN ∧
      (getCell st' i).value = fromScratch st (i + 1) i ∧
      ((getCell st' i).value = (getCell st i).value ∨
        ∀ x ∈ (getCell st i).observers.getD [], (getCell st' x).state = STATE_DIRTY) := by
  obtain ⟨nE, hnE, hcellE⟩ := hfrE
  have hlenE : stE.cells.length = st.cells.length := hcpEt.1
  have hiE : i < stE.cells.length := by
    rw [hlenE]
    exact hi
  have hcE : CellsOk stE := hcpEt.2.1
  have hstEi : (getCell stE i).state = STATE_DIRTY := by
    have h1 : (getCell stE i).state = nE := by rw [hcellE]
    have h2 : (getCell stE i).state ≤ 2 := (hcE.1 i hiE).2.1
    have h3 : (2 : Nat) ≤ nE := hnE
    show (getCell stE i).state = 2
    omega
  have hcC : CellsOk ({ stE with currentOwner := st.currentOwner, currentObserver := st.currentObserver } : St) := CellsOk_congr rfl hcE
  have hBC := (hcC.1 i hiE).1
  obtain ⟨NW, stW, hwr, hwcases⟩ := write_plain_spec ({ stE with currentOwner := st.currentOwner, currentObserver := st.currentObserver } : St) i vstar
    (NotifyWF_of_CellsOk _ hcC) hiE hBC.1 hBC.2.1 hBC.2.2.2.1 hBC.2.2.2.2.1 hBC.2.2.1
    hBC.2.2.2.2.2.1
  have hcpCne : (getCell ({ stE with currentOwner := st.currentOwner, currentObserver := st.currentObserver } : St) i).compute ≠ none := by
    show (getCell stE i).compute ≠ none
    rw [hcellE]
    show (getCell st i).compute ≠ none
    rw [hcp]
    simp
  have hstCi : (getCell ({ stE with currentOwner := st.currentOwner, currentObserver := st.currentObserver } : St) i).state = STATE_DIRTY := hstEi
  obtain ⟨hWlen, hcW, hfvW, hWo, hWow, hWns, hWnsi, hWnls, hWvi, hWsi, hWcpi, hWsrci,
    hWvalsj, hWclean, hWframe, hWnotif, hWobs⟩ :=
    write_post ({ stE with currentOwner := st.currentOwner, currentObserver := st.currentObserver } : St) stW i vstar hcC hiE hcpCne hstCi hwcases
  have hiW : i < stW.cells.length := by
    rw [hWlen]
    exact hiE
  have hcpWi : (getCell stW i).compute = some (srcs, f) := by
    rw [hWcpi]
    show (getCell stE i).compute = some (srcs, f)
    rw [hcellE]
    exact hcp
  have hsrcWi_eq : (getCell stW i).sources = (getCell st i).sources := by
    rw [hWsrci]
    show (getCell stE i).sources = (getCell st i).sources
    rw [hcellE]
  have hMpack : ∃ stM, mergeSources stW i = stM ∧
      stM.cells.length = stW.cells.length ∧ CellsOk stM ∧
      stM.currentObserver = stW.currentObserver ∧ stM.currentOwner = stW.currentOwner ∧
      stM.newLoadingState = stW.newLoadingState ∧
      ((getCell stM i).state = (getCell stW i).state ∧
       (getCell stM i).value = (getCell stW i).value ∧
       (getCell stM i).compute = (getCell stW i).compute ∧
       (getCell stM i).observers = (getCell stW i).observers ∧
       (getCell stM i).equals = (getCell stW i).equals ∧
       (getCell stM i).sources = some (srcs.map SrcRef.comp)) ∧
      (∀ j, j ≠ i → (getCell stM j).state = (getCell stW j).state ∧
        (getCell stM j).value = (getCell stW j).value ∧
        (getCell stM j).compute = (getCell stW j).compute ∧
        (getCell stM j).equals = (getCell stW j).equals) ∧
      (∀ j x, x ∈ (getCell stW j).observers.getD [] → x ∈ (getCell stM j).observers.getD []) ∧
      (∀ j, i < j → getCell stM j = getCell stW j) := by
    rcases hphase with ⟨hsrcS, hnsE2, hnsiE2⟩ | ⟨hsrcN, hnsE2, hnsiE2⟩
    · have hsrcWi : (getCell stW i).sources = some (srcs.map SrcRef.comp) := by
        rw [hsrcWi_eq]
        exact hsrcS
      have hnsW : stW.newSources = none := by
        rw [hWns]
        show stE.newSources = none
        exact hnsE2
      have hnsiW : ¬ stW.newSourcesIndex < (srcs.map SrcRef.comp).length := by
        rw [hWnsi]
        show ¬ stE.newSourcesIndex < _
        rw [hnsiE2, List.length_map]
        omega
      refine ⟨stW, mergeSources_stable2 stW i (srcs.map SrcRef.comp) hnsW hsrcWi hnsiW,
        rfl, hcW, rfl, rfl, rfl, ⟨rfl, rfl, rfl, rfl, rfl, hsrcWi⟩,
        fun j _ => ⟨rfl, rfl, rfl, rfl⟩, fun j x hx => hx, fun j _ => rfl⟩
    · have hsrcWiN : (getCell stW i).sources = none := by
        rw [hsrcWi_eq]
        exact hsrcN
      have hnsW : stW.newSources = some (srcs.map SrcRef.comp) := by
        rw [hWns]
        show stE.newSources = _
        exact hnsE2
      have hnsiW : stW.newSourcesIndex = 0 := by
        rw [hWnsi]
        show stE.newSourcesIndex = 0
        exact hnsiE2
      have hmg := mergeSources_fresh stW i (srcs.map SrcRef.comp) hnsW hsrcWiN hnsiW
      have hii2 : i ∉ srcs := fun h => Nat.lt_irrefl i (hMb i h)
      have hstW2len : ((modCell stW i (fun c => { c with sources := some (srcs.map SrcRef.comp) }))).cells.length = stW.cells.length := by
        simp
      have hcellM_i : getCell (obsAppendAll (modCell stW i (fun c => { c with sources := some (srcs.map SrcRef.comp) })) (srcs.map SrcRef.comp) i) i
          = { getCell stW i with sources := some (srcs.map SrcRef.comp) } := by
        rw [obsAppendAll_not_mem srcs (modCell stW i (fun c => { c with sources := some (srcs.map SrcRef.comp) })) i i hii2, getCell_modCell_self stW i _ hiW]
      have hcellM_m : ∀ j ∈ srcs, getCell (obsAppendAll (modCell stW i (fun c => { c with sources := some (srcs.map SrcRef.comp) })) (srcs.map SrcRef.comp) i) j
          = { getCell stW j with
              observers := some ((getCell stW j).observers.getD [] ++ [i]) } := by
        intro j hj
        have hjne : j ≠ i := Nat.ne_of_lt (hMb j hj)
        have hjlen : j < ((modCell stW i (fun c => { c with sources := some (srcs.map SrcRef.comp) }))).cells.length := by
          rw [hstW2len, hWlen]
          show j < stE.cells.length
          rw [hlenE]
          exact Nat.lt_trans (hMb j hj) hi
        rw [obsAppendAll_mem srcs (modCell stW i (fun c => { c with sources := some (srcs.map SrcRef.comp) })) i j hnd hj hjlen,
          getCell_modCell_ne stW i j _ (fun h => hjne h.symm)]
      have hcellM_o : ∀ j, j ≠ i → j ∉ srcs → getCell (obsAppendAll (modCell stW i (fun c => { c with sources := some (srcs.map SrcRef.comp) })) (srcs.map SrcRef.comp) i) j = getCell stW j := by
        intro j hj hjs
        rw [obsAppendAll_not_mem srcs (modCell stW i (fun c => { c with sources := some (srcs.map SrcRef.comp) })) i j hjs,
          getCell_modCell_ne stW i j _ (fun h => hj h.symm)]
      have hglob := obsAppendAll_comp_globals srcs (modCell stW i (fun c => { c with sources := some (srcs.map SrcRef.comp) })) i
      have hlenM : (obsAppendAll (modCell stW i (fun c => { c with sources := some (srcs.map SrcRef.comp) })) (srcs.map SrcRef.comp) i).cells.length = stW.cells.length :=
        hglob.2.2.2.2.2.trans hstW2len
      have hMok := CellsOk_merge_fresh stW (obsAppendAll (modCell stW i (fun c => { c with sources := some (srcs.map SrcRef.comp) })) (srcs.map SrcRef.comp) i) i srcs f hcW hiW hcpWi hsrcWiN hWsi
        hlenM hcellM_i hcellM_m hcellM_o
      refine ⟨obsAppendAll (modCell stW i (fun c => { c with sources := some (srcs.map SrcRef.comp) })) (srcs.map SrcRef.comp) i, hmg, hlenM, hMok, hglob.1, hglob.2.1, hglob.2.2.2.2.1,
        ⟨by rw [hcellM_i], by rw [hcellM_i], by rw [hcellM_i], by rw [hcellM_i],
         by rw [hcellM_i], by rw [hcellM_i]⟩, ?_, ?_, ?_⟩
      · intro j hj
        by_cases hjs : j ∈ srcs
        · rw [hcellM_m j hjs]
          exact ⟨rfl, rfl, rfl, rfl⟩
        · rw [hcellM_o j hj hjs]
          exact ⟨rfl, rfl, rfl, rfl⟩
      · intro j x hx
        by_cases hj : j = i
        · rw [hj] at hx
          rw [hj, hcellM_i]
          exact hx
        · by_cases hjs : j ∈ srcs
          · rw [hcellM_m j hjs]
            show x ∈ (getCell stW j).observers.getD [] ++ [i]
            exact List.mem_append_left _ hx
          · rw [hcellM_o j hj hjs]
            exact hx
      · intro j hij
        have hj : j ≠ i := by omega
        have hjs : j ∉ srcs := fun h => by
          have := hMb j h
          omega
        exact hcellM_o j hj hjs
  obtain ⟨stM, hmerge, hMlen, hMok, hMg1, hMg2, hMg3, hMi5, hMne, hMog, hMhi⟩ := hMpack
  have hnlsM : stM.newLoadingState = false := by
    rw [hMg3, hWnls]
    show stE.newLoadingState = false
    exact hnlsE
  have hiM : i < stM.cells.length := by
    rw [hMlen]
    exact hiW
  have hBM := (hMok.1 i hiM).1
  have hi5 : i < ({ stM with newSources := st.newSources, newSourcesIndex := st.newSourcesIndex, newLoadingState := st.newLoadingState } : St).cells.length := hiM
  have hlen5 : ({ stM with newSources := st.newSources, newSourcesIndex := st.newSourcesIndex, newLoadingState := st.newLoadingState } : St).cells.length = st.cells.length := by
    show stM.cells.length = _
    rw [hMlen, hWlen]
    show stE.cells.length = _
    exact hlenE
  have hc5 : CellsOk ({ stM with newSources := st.newSources, newSourcesIndex := st.newSourcesIndex, newLoadingState := st.newLoadingState } : St) := CellsOk_congr rfl hMok
  have hcp5 : (getCell ({ stM with newSources := st.newSources, newSourcesIndex := st.newSourcesIndex, newLoadingState := st.newLoadingState } : St) i).compute = some (srcs, f) := by
    show (getCell stM i).compute = _
    rw [hMi5.2.2.1]
    exact hcpWi
  have hsm5 : (getCell ({ stM with newSources := st.newSources, newSourcesIndex := st.newSourcesIndex, newLoadingState := st.newLoadingState } : St) i).sources = some (srcs.map SrcRef.comp) :=
    hMi5.2.2.2.2.2
  have hv5i : (getCell ({ stM with newSources := st.newSources, newSourcesIndex := st.newSourcesIndex, newLoadingState := st.newLoadingState } : St) i).value = vstar := by
    show (getCell stM i).value = _
    rw [hMi5.2.1, hWvi]
  have hvS : ∀ s ∈ srcs, (getCell ({ stM with newSources := st.newSources, newSourcesIndex := st.newSourcesIndex, newLoadingState := st.newLoadingState } : St) s).value = fromScratch st (s + 1) s := by
    intro s hs
    have hsne : s ≠ i := Nat.ne_of_lt (hMb s hs)
    have hsE : s < stE.cells.length := by
      rw [hlenE]
      exact Nat.lt_trans (hMb s hs) hi
    have h2 : (getCell stM s).value = (getCell stW s).value := (hMne s hsne).2.1
    have h3 : (getCell stW s).value = (getCell stE s).value := hWvalsj s hsne
    have h4 : (getCell stE s).value = fromScratch stE (s + 1) s :=
      clean_value_den stE hcE s hsE (hclE s hs)
    have h5 : fromScratch stE (s + 1) s = fromScratch st (s + 1) s :=
      FrV_fromScratch hcpEt.2.2.1 (s + 1) s
    show (getCell stM s).value = _
    rw [h2, h3, h4, h5]
  have hval5 : f (srcs.map (fun s => (getCell ({ stM with newSources := st.newSources, newSourcesIndex := st.newSourcesIndex, newLoadingState := st.newLoadingState } : St) s).value))
      = .ret (.plain (getCell ({ stM with newSources := st.newSources, newSourcesIndex := st.newSourcesIndex, newLoadingState := st.newLoadingState } : St) i).value) := by
    have hmap : srcs.map (fun s => (getCell ({ stM with newSources := st.newSources, newSourcesIndex := st.newSourcesIndex, newLoadingState := st.newLoadingState } : St) s).value)
        = srcs.map (fun s => fromScratch st (s + 1) s) :=
      List.map_congr_left (fun s hs => hvS s hs)
    rw [hmap, hv5i]
    exact hfv
  have hcls5 : ∀ s ∈ srcs, (getCell ({ stM with newSources := st.newSources, newSourcesIndex := st.newSourcesIndex, newLoadingState := st.newLoadingState } : St) s).state = STATE_CLEAN := by
    intro s hs
    have hsne : s ≠ i := Nat.ne_of_lt (hMb s hs)
    have h3 : (getCell stW s).state = STATE_CLEAN :=
      hWclean s (show (getCell ({ stE with currentOwner := st.currentOwner, currentObserver := st.currentObserver } : St) s).state = STATE_CLEAN from hclE s hs)
    show (getCell stM s).state = _
    rw [(hMne s hsne).1, h3]
  have hcF : CellsOk (modCell ({ stM with newSources := st.newSources, newSourcesIndex := st.newSourcesIndex, newLoadingState := st.newLoadingState } : St) i (fun x => { x with state := STATE_CLEAN })) :=
    CellsOk_finalize ({ stM with newSources := st.newSources, newSourcesIndex := st.newSourcesIndex, newLoadingState := st.newLoadingState } : St) i srcs f hc5 hi5 hcp5 hsm5 hval5 hcls5
  have hcellF_i : getCell (modCell ({ stM with newSources := st.newSources, newSourcesIndex := st.newSourcesIndex, newLoadingState := st.newLoadingState } : St) i (fun x => { x with state := STATE_CLEAN })) i
      = { getCell ({ stM with newSources := st.newSources, newSourcesIndex := st.newSourcesIndex, newLoadingState := st.newLoadingState } : St) i with state := STATE_CLEAN } :=
    getCell_modCell_self ({ stM with newSources := st.newSources, newSourcesIndex := st.newSourcesIndex, newLoadingState := st.newLoadingState } : St) i _ hi5
  have hcellF_o : ∀ j, j ≠ i → getCell (modCell ({ stM with newSources := st.newSources, newSourcesIndex := st.newSourcesIndex, newLoadingState := st.newLoadingState } : St) i (fun x => { x with state := STATE_CLEAN })) j = getCell ({ stM with newSources := st.newSources, newSourcesIndex := st.newSourcesIndex, newLoadingState := st.newLoadingState } : St) j :=
    fun j hj => getCell_modCell_ne ({ stM with newSources := st.newSources, newSourcesIndex := st.newSourcesIndex, newLoadingState := st.newLoadingState } : St) i j _ (fun h => hj h.symm)
  have hvFi : (getCell (modCell ({ stM with newSources := st.newSources, newSourcesIndex := st.newSourcesIndex, newLoadingState := st.newLoadingState } : St) i (fun x => { x with state := STATE_CLEAN })) i).value = vstar := by
    rw [hcellF_i]
    exact hv5i
  have hcpCW : CPost ({ stE with currentOwner := st.currentOwner, currentObserver := st.currentObserver } : St) stW i := by
    refine ⟨hWlen, hcW, hfvW, ?_, hWframe, ?_, ?_⟩
    · intro j hj
      have hjne : j ≠ i := by
        intro h
        rw [h] at hj
        have h1 : (getCell ({ stE with currentOwner := st.currentOwner, currentObserver := st.currentObserver } : St) i).state = 0 := hj
        have h2 : (getCell ({ stE with currentOwner := st.currentOwner, currentObserver := st.currentObserver } : St) i).state = 2 := hstCi
        omega
      exact ⟨hWvalsj j hjne, hWclean j hj⟩
    · intro j x hx
      rw [hWobs j]
      exact hx
    · intro j hvne x hx hix
      by_cases hj : j = i
      · rw [hj] at hvne hx
        rcases hWnotif with hl | hr
        · rw [hWvi, hl] at hvne
          exact absurd rfl hvne
        · exact hr x hx
      · rw [hWvalsj j hj] at hvne
        exact absurd rfl hvne
  have hcpWM : CPost stW stM i := by
    refine ⟨hMlen, hMok, ⟨hMlen, ?_⟩, ?_, ?_, hMog, ?_⟩
    · intro j
      by_cases hj : j = i
      · rw [hj]
        exact ⟨hMi5.2.2.1, hMi5.2.2.2.2.1, fun _ => hMi5.2.1⟩
      · exact ⟨(hMne j hj).2.2.1, (hMne j hj).2.2.2, fun _ => (hMne j hj).2.1⟩
    · intro j hj
      by_cases hje : j = i
      · rw [hje]
        rw [hje] at hj
        exact ⟨hMi5.2.1, by rw [hMi5.1]; exact hj⟩
      · exact ⟨(hMne j hje).2.1, by rw [(hMne j hje).1]; exact hj⟩
    · intro j hij
      refine ⟨(getCell stW j).state, le_refl _, ?_⟩
      rw [hMhi j hij]
    · intro j hvne x hx hix
      by_cases hj : j = i
      · rw [hj, hMi5.2.1] at hvne
        exact absurd rfl hvne
      · rw [(hMne j hj).2.1] at hvne
        exact absurd rfl hvne
  have hcp5F : CPost ({ stM with newSources := st.newSources, newSourcesIndex := st.newSourcesIndex, newLoadingState := st.newLoadingState } : St) (modCell ({ stM with newSources := st.newSources, newSourcesIndex := st.newSourcesIndex, newLoadingState := st.newLoadingState } : St) i (fun x => { x with state := STATE_CLEAN })) i := by
    refine ⟨by simp, hcF,
      FrV_of_StOnly (StOnly_modCell_state ({ stM with newSources := st.newSources, newSourcesIndex := st.newSourcesIndex, newLoadingState := st.newLoadingState } : St) i STATE_CLEAN hi5), ?_, ?_, ?_, ?_⟩
    · intro j hj
      by_cases hje : j = i
      · rw [hje, hcellF_i]
        exact ⟨rfl, rfl⟩
      · rw [hcellF_o j hje]
        exact ⟨rfl, hj⟩
    · intro j hij
      have hje : j ≠ i := by omega
      rw [hcellF_o j hje]
      exact ⟨(getCell ({ stM with newSources := st.newSources, newSourcesIndex := st.newSourcesIndex, newLoadingState := st.newLoadingState } : St) j).state, le_refl _, rfl⟩
    · intro j x hx
      by_cases hje : j = i
      · rw [hje, hcellF_i]
        rw [hje] at hx
        exact hx
      · rw [hcellF_o j hje]
        exact hx
    · intro j hvne
      by_cases hje : j = i
      · rw [hje, hcellF_i] at hvne
        exact absurd rfl hvne
      · rw [hcellF_o j hje] at hvne
        exact absurd rfl hvne
  have hcpF : CPost st (modCell ({ stM with newSources := st.newSources, newSourcesIndex := st.newSourcesIndex, newLoadingState := st.newLoadingState } : St) i (fun x => { x with state := STATE_CLEAN })) i :=
    CPost_trans hcpEt (CPost_trans (CPost_of_cellsEq i rfl hcE)
      (CPost_trans hcpCW (CPost_trans hcpWM
        (CPost_trans (CPost_of_cellsEq i rfl hMok) hcp5F))))
  refine ⟨max NL NW + 1 + 1, modCell ({ stM with newSources := st.newSources, newSourcesIndex := st.newSourcesIndex, newLoadingState := st.newLoadingState } : St) i (fun x => { x with state := STATE_CLEAN }), ?_, hcpF, ?_, ?_, rfl, rfl, rfl, ?_, ?_, ?_⟩
  · rw [engine_succ]
    simp only [engineF]
    rw [cleanup_noop (max NL NW) ({ st with newSources := none, newSourcesIndex := 0, newLoadingState := false } : St) i
      (hc.1 i hi).1.2.2.2.2.2.2.2.2.2.1 (hc.1 i hi).1.2.2.2.2.2.2.2.2.2.2]
    simp only [Res.andThen]
    rw [engine_lift hcr (show NL ≤ max NL NW + 1 by omega)]
    simp only [resBind, Out.getWV]
    rw [engine_lift hwr (show NW ≤ max NL NW + 1 by omega)]
    simp only [Res.andThen]
    rw [hmerge, hnlsM]
    rw [setLoading_noop (max NL NW) stM i hBM.2.2.2.2.1 hBM.2.2.2.1]
    simp only [resCase]
  · show stM.currentObserver = st.currentObserver
    rw [hMg1, hWo]
  · show stM.currentOwner = st.currentOwner
    rw [hMg2, hWow]
  · rw [hcellF_i]
  · rw [hvFi, fromScratch_succ]
    simp only [fromScratchF, hcp]
    have hmap2 : srcs.map (fromScratch st i) = srcs.map (fun s => fromScratch st (s + 1) s) :=
      List.map_congr_left (fun s hs =>
        fromScratch_stable st (SrcsDec_of_CellsOk st hc) s i (s + 1) (hMb s hs)
          (Nat.lt_succ_self s))
    rw [hmap2, hfv]
  · by_cases hveq : vstar = (getCell st i).value
    · refine Or.inl ?_
      rw [hvFi]
      exact hveq
    · refine Or.inr ?_
      intro x hx
      rcases hWnotif with hl | hr
      · exfalso
        apply hveq
        rw [← hl]
        show (getCell stE i).value = (getCell st i).value
        rw [hcellE]
      · have hobs_x : x ∈ (getCell ({ stE with currentOwner := st.currentOwner, currentObserver := st.currentObserver } : St) i).observers.getD [] := by
          show x ∈ (getCell stE i).observers.getD []
          rw [hcellE]
          exact hx
        have hDx := hr x hobs_x
        obtain ⟨hxlen, s2, f2, _, _, _, hixlt⟩ := obs_edge st hc i x hi hx
        have hnex : x ≠ i := by omega
        have hstFx : (getCell (modCell ({ stM with newSources := st.newSources, newSourcesIndex := st.newSourcesIndex, newLoadingState := st.newLoadingState } : St) i (fun x => { x with state := STATE_CLEAN })) x).state = (getCell stW x).state := by
          rw [hcellF_o x hnex]
          show (getCell stM x).state = _
          rw [hMhi x hixlt]
        have hxF : x < (modCell ({ stM with newSources := st.newSources, newSourcesIndex := st.newSourcesIndex, newLoadingState := st.newLoadingState } : St) i (fun x => { x with state := STATE_CLEAN })).cells.length := by
          have hlF : (modCell ({ stM with newSources := st.newSources, newSourcesIndex := st.newSourcesIndex, newLoadingState := st.newLoadingState } : St) i (fun x => { x with state := STATE_CLEAN })).cells.length = st.cells.length := by
            simp only [length_modCell]
            exact hlen5
          rw [hlF]
          exact hxlen
        have hcapx : (getCell (modCell ({ stM with newSources := st.newSources, newSourcesIndex := st.newSourcesIndex, newLoadingState := st.newLoadingState } : St) i (fun x => { x with state := STATE_CLEAN })) x).state ≤ 2 := (hcF.1 x hxF).2.1
        have h1 : (2 : Nat) ≤ (getCell (modCell ({ stM with newSources := st.newSources, newSourcesIndex := st.newSourcesIndex, newLoadingState := st.newLoadingState } : St) i (fun x => { x with state := STATE_CLEAN })) x).state := by
          rw [hstFx]
          exact hDx
        show (getCell (modCell ({ stM with newSources := st.newSources, newSourcesIndex := st.newSourcesIndex, newLoadingState := st.newLoadingState } : St) i (fun x => { x with state := STATE_CLEAN })) x).state = 2
        omega

/-- CLEAN-stamping a cell whose invariant already holds afterwards is a valid
update postcondition step. -/
theorem CPost_stamp_clean (st : St) (i : Nat) (hi : i < st.cells.length)
    (hcF : CellsOk (modCell st i (fun x => { x with state := STATE_CLEAN }))) :
    CPost st (modCell st i (fun x => { x with state := STATE_CLEAN })) i := by
  have hcellF_i : getCell (modCell st i (fun x => { x with state := STATE_CLEAN })) i
      = { getCell st i with state := STATE_CLEAN } := getCell_modCell_self st i _ hi
  have hcellF_o : ∀ j, j ≠ i →
      getCell (modCell st i (fun x => { x with state := STATE_CLEAN })) j = getCell st j :=
    fun j hj => getCell_modCell_ne st i j _ (fun h => hj h.symm)
  refine ⟨by simp, hcF, FrV_of_StOnly (StOnly_modCell_state st i STATE_CLEAN hi), ?_, ?_, ?_, ?_⟩
  · intro j hj
    by_cases hje : j = i
    · rw [hje, hcellF_i]
      exact ⟨rfl, rfl⟩
    · rw [hcellF_o j hje]
      exact ⟨rfl, hj⟩
  · intro j hij
    have hje : j ≠ i := by omega
    rw [hcellF_o j hje]
    exact ⟨(getCell st j).state, le_refl _, rfl⟩
  · intro j x hx
    by_cases hje : j = i
    · rw [hje, hcellF_i]
      rw [hje] at hx
      exact hx
    · rw [hcellF_o j hje]
      exact hx
  · intro j hvne
    by_cases hje : j = i
    · rw [hje, hcellF_i] at hvne
      exact absurd rfl hvne
    · rw [hcellF_o j hje] at hvne
      exact absurd rfl hvne

/-- `update` on a DIRTY computed cell, given that all lower cells satisfy the
`updateIfNecessary` contract. -/
theorem update_spec_of (i : Nat) (hU : ∀ s, s < i → UINspec s) (st : St)
    (hc : CellsOk st) (hi : i < st.cells.length)
    (srcs : List Nat) (f : List V → CompRes)
    (hcp : (getCell st i).compute = some (srcs, f))
    (hdirty : (getCell st i).state = STATE_DIRTY) :
    ∃ NF st', engine NF (.update i) st = .done .unit st' ∧
      CPost st st' i ∧
      st'.currentObserver = st.currentObserver ∧ st'.currentOwner = st.currentOwner ∧
      st'.newSources = st.newSources ∧ st'.newSourcesIndex = st.newSourcesIndex ∧
      st'.newLoadingState = st.newLoadingState ∧
      (getCell st' i).state = STATE_CLEAN ∧
      (getCell st' i).value = fromScratch st (i + 1) i ∧
      ((getCell st' i).value = (getCell st i).value ∨
        ∀ x ∈ (getCell st i).observers.getD [], (getCell st' x).state = STATE_DIRTY) := by
  have hR : ∀ s, s < i → READspec s := fun s hs => read_spec_of s (hU s hs)
  have hMi : GMemoOk st i srcs f := by
    have h := (hc.1 i hi).2.2
    rw [hcp] at h
    exact h
  have hMb := hMi.2.2.1
  have hnd := hMi.2.1
  have hcIN : CellsOk ({ ({ st with newSources := none, newSourcesIndex := 0, newLoadingState := false } : St) with currentOwner := some i, currentObserver := some i } : St) := CellsOk_congr rfl hc
  have hiIN : i < ({ ({ st with newSources := none, newSourcesIndex := 0, newLoadingState := false } : St) with currentOwner := some i, currentObserver := some i } : St).cells.length := hi
  rcases hMi.2.2.2.2 with ⟨hsrcN, _⟩ | ⟨hsrcS, _, _⟩
  · -- fresh phase: no recorded sources yet
    rcases hsrcs : srcs with _ | ⟨s0, rest⟩
    · rw [hsrcs] at hMi
      exact absurd rfl hMi.1
    have hMb2 : ∀ x ∈ s0 :: rest, x < i := by
      rw [← hsrcs]
      exact hMb
    obtain ⟨NL0, stE, hloop, hcpE, hfrE, hoE, howE, hnsE, hnsiE, hnlsE, hclE⟩ :=
      evalReads_fresh0 i hR s0 rest [] ({ ({ st with newSources := none, newSourcesIndex := 0, newLoadingState := false } : St) with currentOwner := some i, currentObserver := some i } : St) hcIN hiIN hsrcN rfl rfl hMb2
    have hvals : ([] : List V) ++ (s0 :: rest).map (fun x => fromScratch ({ ({ st with newSources := none, newSourcesIndex := 0, newLoadingState := false } : St) with currentOwner := some i, currentObserver := some i } : St) (x + 1) x)
        = (s0 :: rest).map (fun x => fromScratch st (x + 1) x) := by
      rw [List.nil_append]
      exact List.map_congr_left (fun x _ => @fromScratch_congr st ({ ({ st with newSources := none, newSourcesIndex := 0, newLoadingState := false } : St) with currentOwner := some i, currentObserver := some i } : St) rfl (x + 1) x)
    rw [hvals] at hloop
    obtain ⟨vstar, hfv⟩ := hMi.2.2.2.1 ((s0 :: rest).map (fun x => fromScratch st (x + 1) x))
    rw [hsrcs] at hcp
    have hcr := computeRun_eq NL0 ({ st with newSources := none, newSourcesIndex := 0, newLoadingState := false } : St) stE i (s0 :: rest) f
      ((s0 :: rest).map (fun x => fromScratch st (x + 1) x)) (.plain vstar) hcp hloop hfv
    have hcr2 : engine (NL0 + 1) (.computeRun i) ({ st with newSources := none, newSourcesIndex := 0, newLoadingState := false } : St)
        = .done (.wv (.plain vstar))
          ({ stE with currentOwner := st.currentOwner, currentObserver := st.currentObserver } : St) := hcr
    have hcpEt : CPost st stE i :=
      CPost_trans (CPost_of_cellsEq i rfl hc) hcpE
    have hfrE2 : ∃ n, STATE_DIRTY ≤ n ∧ getCell stE i = { getCell st i with state := n } := by
      obtain ⟨n, hn, hcellE⟩ := hfrE
      refine ⟨n, ?_, hcellE⟩
      have h1 : (getCell st i).state ≤ n := hn
      rw [hdirty] at h1
      exact h1
    have hfv2 : f ((s0 :: rest).map (fun x => fromScratch st (x + 1) x)) = .ret (.plain vstar) :=
      hfv
    have hres := update_tail i (s0 :: rest) f st stE (NL0 + 1) vstar hc hi hcp
      hdirty hMb2 (hsrcs ▸ hnd) hcr2 hcpEt hfrE2 hclE hfv2 hnlsE
      (Or.inr ⟨hsrcN, hnsE, hnsiE⟩)
    exact hres
  · -- stable phase: retrace the recorded array
    obtain ⟨NL0, stE, hloop, hcpE, hfrE, hoE, howE, hnsE, hnsiE, hnlsE, hclE⟩ :=
      evalReads_stable i hR srcs [] [] ({ ({ st with newSources := none, newSourcesIndex := 0, newLoadingState := false } : St) with currentOwner := some i, currentObserver := some i } : St) hcIN hiIN hsrcS rfl rfl rfl hMb
    have hvals : ([] : List V) ++ srcs.map (fun x => fromScratch ({ ({ st with newSources := none, newSourcesIndex := 0, newLoadingState := false } : St) with currentOwner := some i, currentObserver := some i } : St) (x + 1) x)
        = srcs.map (fun x => fromScratch st (x + 1) x) := by
      rw [List.nil_append]
      exact List.map_congr_left (fun x _ => @fromScratch_congr st ({ ({ st with newSources := none, newSourcesIndex := 0, newLoadingState := false } : St) with currentOwner := some i, currentObserver := some i } : St) rfl (x + 1) x)
    rw [hvals] at hloop
    obtain ⟨vstar, hfv⟩ := hMi.2.2.2.1 (srcs.map (fun x => fromScratch st (x + 1) x))
    have hcr := computeRun_eq NL0 ({ st with newSources := none, newSourcesIndex := 0, newLoadingState := false } : St) stE i srcs f
      (srcs.map (fun x => fromScratch st (x + 1) x)) (.plain vstar) hcp hloop hfv
    have hcr2 : engine (NL0 + 1) (.computeRun i) ({ st with newSources := none, newSourcesIndex := 0, newLoadingState := false } : St)
        = .done (.wv (.plain vstar))
          ({ stE with currentOwner := st.currentOwner, currentObserver := st.currentObserver } : St) := hcr
    have hcpEt : CPost st stE i :=
      CPost_trans (CPost_of_cellsEq i rfl hc) hcpE
    have hfrE2 : ∃ n, STATE_DIRTY ≤ n ∧ getCell stE i = { getCell st i with state := n } := by
      obtain ⟨n, hn, hcellE⟩ := hfrE
      refine ⟨n, ?_, hcellE⟩
      have h1 : (getCell st i).state ≤ n := hn
      rw [hdirty] at h1
      exact h1
    have hnsi2 : stE.newSourcesIndex = srcs.length := by
      rw [hnsiE]
      simp
    exact update_tail i srcs f st stE (NL0 + 1) vstar hc hi hcp hdirty hMb hnd hcr2
      hcpEt hfrE2 hclE hfv hnlsE (Or.inl ⟨hsrcS, hnsE, hnsi2⟩)

/-- `updateIfNecessary` satisfies its contract at `i` once all lower cells do. -/
theorem uiN_spec_of (i : Nat) (hU : ∀ s, s < i → UINspec s) : UINspec i := by
  intro st hc hi hcpne
  rcases hcp : (getCell st i).compute with _ | ⟨srcs, f⟩
  · exact absurd hcp hcpne
  have hMi : GMemoOk st i srcs f := by
    have h := (hc.1 i hi).2.2
    rw [hcp] at h
    exact h
  have hB := (hc.1 i hi).1
  have hle2 : (getCell st i).state ≤ 2 := (hc.1 i hi).2.1
  by_cases hcl : (getCell st i).state = STATE_CLEAN
  · have hload : isLoadingOf (getCell st i) = false := by
      simp [isLoadingOf, hB.2.2.2.1, hB.2.2.2.2.1]
    refine ⟨1, st, ?_, CPost_refl st i hc, rfl, rfl, rfl, rfl, rfl, hcl,
      clean_value_den st hc i hi hcl, Or.inl rfl⟩
    rw [uiN_clean 0 st i hcl, hload]
  by_cases hdi : (getCell st i).state = STATE_DIRTY
  · obtain ⟨NU, stU, hrun, hcpU, hg1, hg2, hg3, hg4, hg5, hstU, hvalU, hEU⟩ :=
      update_spec_of i hU st hc hi srcs f hcp hdi
    have hiU : i < stU.cells.length := by
      rw [hcpU.1]
      exact hi
    have hBU := (hcpU.2.1.1 i hiU).1
    have hloadU : isLoadingOf (getCell stU i) = false := by
      simp [isLoadingOf, hBU.2.2.2.1, hBU.2.2.2.2.1]
    refine ⟨NU + 1, stU, ?_, hcpU, hg1, hg2, hg3, hg4, hg5, hstU, hvalU, hEU⟩
    rw [engine_succ]
    simp only [engineF]
    rw [if_neg (show ¬ (getCell st i).state = STATE_DISPOSED from by rw [hdi]; decide),
      if_neg hcl,
      if_neg (show ¬ (getCell st i).state = STATE_CHECK from by rw [hdi]; decide)]
    simp only [Res.andThenB, Out.getB]
    rw [if_pos hdi, hrun]
    simp only [Res.andThen]
    rw [hloadU]
  · -- CHECK: resolve the sources first
    have hchk : (getCell st i).state = STATE_CHECK := by
      have ha : (getCell st i).state ≤ 2 := hle2
      have hb : ¬ (getCell st i).state = 0 := hcl
      have hcn : ¬ (getCell st i).state = 2 := hdi
      show (getCell st i).state = 1
      omega
    have hsrcS : (getCell st i).sources = some (srcs.map SrcRef.comp) := by
      rcases hMi.2.2.2.2 with ⟨hsn, hsd⟩ | ⟨hss, _, _⟩
      · have h1 : (getCell st i).state = 1 := hchk
        have h2 : (getCell st i).state = 2 := hsd
        omega
      · exact hss
    obtain ⟨NC, stK, hrunK, hcpK, hk1, hk2, hk3, hk4, hk5, hfrK, hdisjK⟩ :=
      checkSources_spec i srcs f hU (srcs.map SrcRef.comp) false st hc hi hcp hsrcS hchk
        (fun r hr => by
          obtain ⟨a, ha1, ha2⟩ := List.mem_map.mp hr
          exact ⟨a, ha2.symm, ha1⟩)
    obtain ⟨nK, hcellK⟩ := hfrK
    have hiK : i < stK.cells.length := by
      rw [hcpK.1]
      exact hi
    have hcK : CellsOk stK := hcpK.2.1
    have hcpKi : (getCell stK i).compute = some (srcs, f) := by
      rw [hcellK]
      exact hcp
    have hobsK : (getCell stK i).observers = (getCell st i).observers := by
      rw [hcellK]
    have hvK : (getCell stK i).value = (getCell st i).value := by
      rw [hcellK]
    rcases hdisjK with hdK | ⟨hchkK, hfineK⟩
    · -- a source recompute invalidated the cell: run update at the marked state
      obtain ⟨NU, stU, hrun, hcpU, hg1, hg2, hg3, hg4, hg5, hstU, hvalU, hEU⟩ :=
        update_spec_of i hU stK hcK hiK srcs f hcpKi hdK
      have hiU : i < stU.cells.length := by
        rw [hcpU.1]
        exact hiK
      have hBU := (hcpU.2.1.1 i hiU).1
      have hloadU : isLoadingOf (getCell stU i) = false := by
        simp [isLoadingOf, hBU.2.2.2.1, hBU.2.2.2.2.1]
      refine ⟨max NC NU + 1, stU, ?_, CPost_trans hcpK hcpU,
        hg1.trans hk1, hg2.trans hk2, hg3.trans hk3, hg4.trans hk4, hg5.trans hk5, hstU,
        ?_, ?_⟩
      · rw [engine_succ]
        simp only [engineF]
        rw [if_neg (show ¬ (getCell st i).state = STATE_DISPOSED from by rw [hchk]; decide),
          if_neg hcl, if_pos hchk, hsrcS]
        simp only [optBranch]
        rw [engine_lift hrunK (le_max_left _ _)]
        simp only [Res.andThenB, Out.getB]
        rw [if_pos hdK, engine_lift hrun (le_max_right _ _)]
        simp only [Res.andThen]
        rw [hloadU]
      · rw [hvalU]
        exact FrV_fromScratch hcpK.2.2.1 (i + 1) i
      · rcases hEU with hl | hr
        · exact Or.inl (by rw [hl, hvK])
        · refine Or.inr ?_
          intro x hx
          apply hr
          rw [hobsK]
          exact hx
    · -- all sources kept their values: just stamp the cell CLEAN
      have hbv := hMi.2.2.2.2
      rcases hbv with ⟨hsn, hsd⟩ | ⟨_, hbvf, _⟩
      · have h1 : (getCell st i).state = 1 := hchk
        have h2 : (getCell st i).state = 2 := hsd
        omega
      have hfine : ∀ s ∈ srcs, (getCell stK s).state = STATE_CLEAN ∧
          (getCell stK s).value = (getCell st s).value := by
        intro s hs
        have hr := hfineK (SrcRef.comp s) (List.mem_map_of_mem SrcRef.comp hs)
        exact hr
      have hvals_den : ∀ s ∈ srcs, (getCell st s).value = fromScratch st (s + 1) s := by
        intro s hs
        have hsK : s < stK.cells.length := by
          rw [hcpK.1]
          exact Nat.lt_trans (hMi.2.2.1 s hs) hi
        have h1 := (hfine s hs).2
        have h2 : (getCell stK s).value = fromScratch stK (s + 1) s :=
          clean_value_den stK hcK s hsK (hfine s hs).1
        have h3 : fromScratch stK (s + 1) s = fromScratch st (s + 1) s :=
          FrV_fromScratch hcpK.2.2.1 (s + 1) s
        rw [← h1, h2, h3]
      have hbv_st : f (srcs.map (fun s => (getCell st s).value))
          = .ret (.plain (getCell st i).value) := by
        apply hbvf
        rw [hchk]
      have hfs : fromScratch st (i + 1) i = (getCell st i).value := by
        rw [fromScratch_succ]
        simp only [fromScratchF, hcp]
        have hmap : srcs.map (fromScratch st i) = srcs.map (fun s => (getCell st s).value) :=
          List.map_congr_left (fun s hs =>
            (fromScratch_stable st (SrcsDec_of_CellsOk st hc) s i (s + 1) (hMi.2.2.1 s hs)
              (Nat.lt_succ_self s)).trans (hvals_den s hs).symm)
        rw [hmap, hbv_st]
      have hsrcK : (getCell stK i).sources = some (srcs.map SrcRef.comp) := by
        rw [hcellK]
        exact hsrcS
      have hvalK : f (srcs.map (fun s => (getCell stK s).value))
          = .ret (.plain (getCell stK i).value) := by
        have hmap : srcs.map (fun s => (getCell stK s).value)
            = srcs.map (fun s => (getCell st s).value) :=
          List.map_congr_left (fun s hs => (hfine s hs).2)
        rw [hmap, hvK, hbv_st]
      have hclsK : ∀ s ∈ srcs, (getCell stK s).state = STATE_CLEAN :=
        fun s hs => (hfine s hs).1
      have hcF : CellsOk (modCell stK i (fun x => { x with state := STATE_CLEAN })) :=
        CellsOk_finalize stK i srcs f hcK hiK hcpKi hsrcK hvalK hclsK
      have hcellF_i : getCell (modCell stK i (fun x => { x with state := STATE_CLEAN })) i
          = { getCell stK i with state := STATE_CLEAN } := getCell_modCell_self stK i _ hiK
      have hBK := (hcK.1 i hiK).1
      have hload3 : isLoadingOf
          (getCell (modCell stK i (fun x => { x with state := STATE_CLEAN })) i) = false := by
        rw [hcellF_i]
        simp [isLoadingOf]
        exact ⟨hBK.2.2.2.2.1, hBK.2.2.2.1⟩
      refine ⟨NC + 1 + 1, modCell stK i (fun x => { x with state := STATE_CLEAN }), ?_,
        CPost_trans hcpK (CPost_stamp_clean stK i hiK hcF), hk1, hk2, hk3, hk4, hk5,
        by rw [hcellF_i], ?_, ?_⟩
      · rw [engine_succ]
        simp only [engineF]
        rw [if_neg (show ¬ (getCell st i).state = STATE_DISPOSED from by rw [hchk]; decide),
          if_neg hcl, if_pos hchk, hsrcS]
        simp only [optBranch]
        rw [engine_lift hrunK (by omega)]
        simp only [Res.andThenB, Out.getB]
        rw [if_neg (show ¬ (getCell stK i).state = STATE_DIRTY from by rw [hchkK]; decide)]
        rw [setLoading_noop NC stK i hBK.2.2.2.2.1 hBK.2.2.2.1]
        simp only [Res.andThen]
        rw [hload3]
      · rw [hcellF_i]
        show (getCell stK i).value = _
        rw [hvK, hfs]
      · refine Or.inl ?_
        rw [hcellF_i]
        show (getCell stK i).value = _
        rw [hvK]

/-- The `updateIfNecessary` contract holds at every cell. -/
theorem uiN_strong : ∀ i, UINspec i := by
  intro i
  induction i using Nat.strong_induction_on with
  | _ i IH => exact uiN_spec_of i IH

/-- A top-level read at the steady-state invariant: it returns the
from-scratch denotation of the read cell and restores the invariant. -/
theorem gread_step (st : St) (i : Nat) (hinv : GInv st) (hi : i < st.cells.length) :
    ∃ NF st', engine NF (.read i) st = .done (.v (fromScratch st (i + 1) i)) st' ∧
      GInv st' := by
  obtain ⟨h1, h2, h3, h4, h5, hc⟩ := hinv
  obtain ⟨NF, stU, hrd, hcpost, hg1, hg2, hg3, hg4, hg5, hclean⟩ :=
    read_spec_of i (uiN_strong i) st hc hi
  have hco : stU.currentObserver = none := by
    rw [hg1]
    exact h1
  have htr : track stU (.comp i) = stU := track_noObs stU (.comp i) hco
  rw [htr] at hrd
  exact ⟨NF, stU, hrd, hco, hg2.trans h2, hg3.trans h3, hg4.trans h4, hg5.trans h5,
    hcpost.2.1⟩

/-- A top-level leaf write at the steady-state invariant: it completes and
restores the invariant. -/
theorem gwrite_step (st : St) (i : Nat) (v : V) (hinv : GInv st) (hi : i < st.cells.length)
    (hleaf : (getCell st i).compute = none) :
    ∃ NF st', engine NF (.write i (.plain v)) st = .done (.v v) st' ∧ GInv st' := by
  obtain ⟨h1, h2, h3, h4, h5, hc⟩ := hinv
  have hB := (hc.1 i hi).1
  obtain ⟨NF, stN, heqn, hcases⟩ := write_plain_spec st i v (NotifyWF_of_CellsOk st hc) hi
    hB.1 hB.2.1 hB.2.2.2.1 hB.2.2.2.2.1 hB.2.2.1 hB.2.2.2.2.2.1
  refine ⟨NF, stN, heqn, ?_⟩
  rcases hcases with ⟨_, hW⟩ | ⟨_, hP⟩
  · rw [hW]
    exact ⟨h1, h2, h3, h4, h5, hc⟩
  · refine ⟨hP.1.2.1.trans h1, hP.1.2.2.1.trans h2, hP.1.2.2.2.1.trans h3,
      hP.1.2.2.2.2.1.trans h4, hP.1.2.2.2.2.2.1.trans h5,
      CellsOk_commit st stN i v hc hi (Or.inl hleaf) hP⟩

/-- C1 (general form).  Glitch-freedom in the steady-state plain synchronous
regime, at any depth: along any completed run of in-bounds reads and leaf
writes from an invariant state, every read observes exactly the from-scratch
denotation of the cell at the state in which the read started. -/
theorem glitch_free (fuel : Nat) (ops : List Op) (st stF : St)
    (tr : List (Nat × V × St))
    (hinv : GInv st) (hops : OpsOk st ops)
    (hrun : runOps fuel ops st = some (stF, tr)) :
    ∀ e ∈ tr, e.2.1 = fromScratch e.2.2 (e.1 + 1) e.1 := by
  revert st tr
  induction ops with
  | nil =>
    intro st tr hinv hops hrun
    have h9 : some (st, ([] : List (Nat × V × St))) = some (stF, tr) := hrun
    injection h9 with h10
    injection h10 with hA hB
    subst hB
    intro e he
    cases he
  | cons op rest IH =>
    intro st tr hinv hops hrun
    cases op with
    | writeOp i v =>
      obtain ⟨hi, hcpi⟩ := hops (.writeOp i v) (List.mem_cons_self _ _)
      rcases he : engine fuel (.write i (.plain v)) st with _ | ⟨ev, s⟩ | ⟨o, st1⟩
      · rw [runOps_write, he] at hrun
        simp at hrun
      · rw [runOps_write, he] at hrun
        simp at hrun
      · rw [runOps_write, he] at hrun
        have hrun2 : runOps fuel rest st1 = some (stF, tr) := hrun
        obtain ⟨NF, st2, hw, hinv2⟩ := gwrite_step st i v hinv hi hcpi
        have hdet := engine_det NF fuel (.write i (.plain v)) st (.v v) o st2 st1 hw he
        have hinv1 : GInv st1 := by
          rw [hdet.2]
          exact hinv2
        have hfr : FrA st st1 := by
          have h9 := engine_FrA fuel (.write i (.plain v)) st
          rw [he] at h9
          exact h9 st1 rfl
        have hops1 : OpsOk st1 rest :=
          OpsOk_of_FrA st st1 rest hfr (fun op2 hop2 => hops op2 (List.mem_cons_of_mem _ hop2))
        exact IH st1 tr hinv1 hops1 hrun2
    | readOp i =>
      have hi := hops (.readOp i) (List.mem_cons_self _ _)
      rcases he : engine fuel (.read i) st with _ | ⟨ev, s⟩ | ⟨o, st1⟩
      · rw [runOps_read, he] at hrun
        simp at hrun
      · rw [runOps_read, he] at hrun
        simp at hrun
      · rw [runOps_read, he] at hrun
        have hrun2 : (match runOps fuel rest st1 with
            | some (st2, tr2) => some (st2, (i, o.getV, st) :: tr2)
            | none => none) = some (stF, tr) := hrun
        rcases hr2 : runOps fuel rest st1 with _ | ⟨st2, tr2⟩
        · rw [hr2] at hrun2
          simp at hrun2
        · rw [hr2] at hrun2
          have h3 : some (st2, (i, o.getV, st) :: tr2) = some (stF, tr) := hrun2
          injection h3 with h4
          injection h4 with hA hB
          subst hB
          subst hA
          obtain ⟨NF, st3, hrd, hinv3⟩ := gread_step st i hinv hi
          have hdet := engine_det NF fuel (.read i) st (.v (fromScratch st (i + 1) i)) o
            st3 st1 hrd he
          have hinv1 : GInv st1 := by
            rw [hdet.2]
            exact hinv3
          have hfr : FrA st st1 := by
            have h9 := engine_FrA fuel (.read i) st
            rw [he] at h9
            exact h9 st1 rfl
          have hops1 : OpsOk st1 rest :=
            OpsOk_of_FrA st st1 rest hfr (fun op2 hop2 => hops op2 (List.mem_cons_of_mem _ hop2))
          intro e hemem
          rcases List.mem_cons.mp hemem with he1 | he2
          · subst he1
            show o.getV = fromScratch st (i + 1) i
            rw [hdet.1]
            rfl
          · exact IH st1 tr2 hinv1 hops1 hr2 e he2

theorem c1g_ginv : GInv c1g := by
  refine ⟨rfl, rfl, rfl, rfl, rfl, ?_, ?_, ?_⟩
  · intro i hi
    have hi2 : i < 3 := hi
    interval_cases i
    · exact ⟨⟨rfl, rfl, rfl, rfl, rfl, rfl, rfl, rfl, rfl, rfl, rfl⟩, by decide, rfl, rfl⟩
    · refine ⟨⟨rfl, rfl, rfl, rfl, rfl, rfl, rfl, rfl, rfl, rfl, rfl⟩, by decide, ?_⟩
      show GMemoOk c1g 1 [0] c1wF
      exact ⟨by decide, by decide, by decide, fun vs => ⟨vs.headD .undef, rfl⟩,
        Or.inl ⟨rfl, rfl⟩⟩
    · refine ⟨⟨rfl, rfl, rfl, rfl, rfl, rfl, rfl, rfl, rfl, rfl, rfl⟩, by decide, ?_⟩
      show GMemoOk c1g 2 [1] c1wF
      exact ⟨by decide, by decide, by decide, fun vs => ⟨vs.headD .undef, rfl⟩,
        Or.inl ⟨rfl, rfl⟩⟩
  · intro x j hx hj
    have hx2 : x < 3 := hx
    have hj2 : j < 3 := hj
    interval_cases x <;> interval_cases j <;> rfl
  · intro j hj x hx
    have hj2 : j < 3 := hj
    interval_cases j
    · exact absurd hx (List.not_mem_nil x)
    · exact absurd hx (List.not_mem_nil x)
    · exact absurd hx (List.not_mem_nil x)

theorem c1g_opsok : OpsOk c1g c1gOps := by
  intro op hop
  fin_cases hop
  · exact (by decide : (2 : Nat) < c1g.cells.length)
  · exact ⟨by decide, rfl⟩
  · exact (by decide : (2 : Nat) < c1g.cells.length)

theorem glitch_free_witness :
    GInv c1g ∧ c1gE.2.1 = fromScratch c1gE.2.2 (c1gE.1 + 1) c1gE.1 :=
  ⟨c1g_ginv,
    glitch_free 30 c1gOps c1g c1gStF c1gTr c1g_ginv c1g_opsok rfl c1gE
      (List.mem_cons_self _ _)⟩

end BubbleReactivity
